import Mathlib

/-!
Biq Invaders: the spatial World and the game-state machine.

A shallow embedding of `source/Engine/World.cxx` and of the state registry of
`source/Engine/Engine.cxx`.

* Scalars.  The source stores coordinates as `float`.  The embedding is
  parametric in the scalar type `F`; `CheckCollision` only uses `+` and `<`
  on it, and the theorems state which laws of `<` they rely on.
* Pointers.  An `Object*` is an address (`Addr`), `NULL` is `none`, and the
  pointees live in a `Heap`.  Dereferencing an address that holds no object,
  or indexing `layers` out of range, is undefined behaviour in the source and
  is `none` in the embedding.
* `uint` values are natural numbers; `objectCounter++` wraps modulo `2 ^ 32`.
-/

namespace Biq

/-! ## Types.hxx -/

/-- The `struct Vector2D` of `Types.hxx`, over the scalar type `F`. -/
structure Vector2D (F : Type) where
  x : F
  y : F
deriving DecidableEq, Repr

/-- An `Image*` is kept as the address of the image. -/
abbrev ImageRef := Nat

/-- Address of a heap or member object (`Object*` without `NULL`). -/
abbrev Addr := Nat

/-- The modulus of the `uint` type. -/
def uintModulus : Nat := 2 ^ 32

/-! ## World.hxx -/

/-- The `enum Type` of `World::Object`. -/
inductive ObjectType where
  | World
  | Player
  | Enemy
deriving DecidableEq, Repr

/-- The class `World::Object`. -/
structure Object (F : Type) where
  id : Nat
  layerIndex : Nat
  type : ObjectType
  image : Option ImageRef
  position : Vector2D F
  size : Vector2D F
  speed : Vector2D F
  speedMultiplier : F
deriving DecidableEq, Repr

/-- The memory holding the objects that `Object*` values point to. -/
abbrev Heap (F : Type) := Addr → Option (Object F)

/-- A `std::map<uint, Object*>`: the entries in ascending key order. -/
abbrev ObjectMap := List (Nat × Addr)

namespace ObjectMap

/-- The assignment `objects[key] = value`: overwrites the entry of `key` when
there is one, inserts a new entry at its place in key order otherwise. -/
def set : ObjectMap → Nat → Addr → ObjectMap
  | [], key, value => [(key, value)]
  | (k, v) :: rest, key, value =>
    if key < k then (key, value) :: (k, v) :: rest
    else if key = k then (key, value) :: rest
    else (k, v) :: set rest key value

/-- The call `objects.erase(key)`. -/
def erase (m : ObjectMap) (key : Nat) : ObjectMap :=
  m.filter (fun entry => entry.1 != key)

/-- The keys of the map, in iteration order. -/
def keys (m : ObjectMap) : List Nat := m.map Prod.fst

/-- The lookup `objects.find(key)`: the pointer stored under `key`, if any. -/
def find (m : ObjectMap) (key : Nat) : Option Addr := List.lookup key m

end ObjectMap

/-- The class `World::Layer`; `Layer()` is `Layer.new`. -/
structure Layer where
  background : Option ImageRef
  objects : ObjectMap
deriving DecidableEq, Repr

/-- The constructor `Layer() : background(NULL) {}`. -/
def Layer.new : Layer := { background := none, objects := [] }

/-- The static members of `World` (the mutex apart). -/
structure World where
  layers : List Layer
  objectCounter : Nat
deriving DecidableEq, Repr

/-- A call the World makes on the renderer. -/
inductive RenderCall (F : Type) where
  | Splash (image : ImageRef)
  | Draw (image : Option ImageRef) (position : Vector2D F) (size : Vector2D F)
deriving DecidableEq, Repr

namespace World

/-- The static members before `Initialize`: no layer, counter zero. -/
def static : World := { layers := [], objectCounter := 0 }

/-- `World::Initialize`: pushes `numberOfLayers` new layers. -/
def Initialize (w : World) (numberOfLayers : Nat) : World × Bool :=
  ({ w with layers := w.layers ++ List.replicate numberOfLayers Layer.new }, true)

/-- `World::Finalize`. -/
def Finalize (_w : World) : World := { layers := [], objectCounter := 0 }

/-- `World::Clear`. -/
def Clear (w : World) : World :=
  { layers := w.layers.map (fun _ => { background := none, objects := [] }),
    objectCounter := 0 }

/-- The loop body of `World::Update` over the entries of one layer. -/
def updateObjects {F : Type} [Add F] [Mul F] (speedMultiplier : F) :
    Heap F → ObjectMap → Option (Heap F)
  | h, [] => some h
  | h, (_, p) :: rest =>
    match h p with
    | none => none
    | some o =>
      let x := o.position.x + o.speed.x * o.speedMultiplier * speedMultiplier
      let y := o.position.y + o.speed.y * o.speedMultiplier * speedMultiplier
      updateObjects speedMultiplier
        (Function.update h p (some { o with position := { x := x, y := y } })) rest

/-- The outer loop of `World::Update` over the layers. -/
def updateLayers {F : Type} [Add F] [Mul F] (speedMultiplier : F) :
    Heap F → List Layer → Option (Heap F)
  | h, [] => some h
  | h, layer :: rest =>
    match updateObjects speedMultiplier h layer.objects with
    | none => none
    | some h1 => updateLayers speedMultiplier h1 rest

/-- `World::Update`: moves every registered object by its speed. -/
def Update {F : Type} [Add F] [Mul F] (w : World) (h : Heap F) (speedMultiplier : F) :
    Option (Heap F) :=
  updateLayers speedMultiplier h w.layers

/-- The draw calls of one layer's objects; `none` when an entry dangles. -/
def renderObjects {F : Type} (h : Heap F) : ObjectMap → Option (List (RenderCall F))
  | [] => some []
  | (_, p) :: rest =>
    match h p with
    | none => none
    | some o =>
      match renderObjects h rest with
      | none => none
      | some calls => some (RenderCall.Draw o.image o.position o.size :: calls)

/-- The renderer calls of one layer: the background first, then the objects. -/
def renderLayer {F : Type} (h : Heap F) (layer : Layer) : Option (List (RenderCall F)) :=
  match renderObjects h layer.objects with
  | none => none
  | some calls =>
    match layer.background with
    | some image => some (RenderCall.Splash image :: calls)
    | none => some calls

/-- The renderer calls of the layers, in ascending layer order. -/
def renderLayers {F : Type} (h : Heap F) : List Layer → Option (List (RenderCall F))
  | [] => some []
  | layer :: rest =>
    match renderLayer h layer with
    | none => none
    | some calls =>
      match renderLayers h rest with
      | none => none
      | some more => some (calls ++ more)

/-- `World::Render`: the sequence of renderer calls it issues. -/
def Render {F : Type} (w : World) (h : Heap F) : Option (List (RenderCall F)) :=
  renderLayers h w.layers

/-- `World::SetLayerBackground`. -/
def SetLayerBackground (w : World) (layerIndex : Nat) (image : Option ImageRef) : World :=
  if layerIndex ≥ w.layers.length then w
  else { w with layers := w.layers.modify (fun l => { l with background := image }) layerIndex }

/-- `World::AddObject`.  Returns the world and the heap after the call. -/
def AddObject {F : Type} (w : World) (h : Heap F) (layerIndex : Nat) (object : Option Addr) :
    Option (World × Heap F) :=
  if layerIndex ≥ w.layers.length then some (w, h)
  else
    match object with
    | none => none
    | some p =>
      match h p with
      | none => none
      | some o =>
        let id := w.objectCounter
        let counter := (w.objectCounter + 1) % uintModulus
        let o1 := { o with id := id, layerIndex := layerIndex }
        let layers := w.layers.modify (fun l => { l with objects := l.objects.set id p }) layerIndex
        some ({ layers := layers, objectCounter := counter }, Function.update h p (some o1))

/-- `World::RemoveObject`. -/
def RemoveObject {F : Type} (w : World) (h : Heap F) (object : Option Addr) : Option World :=
  match object with
  | none => some w
  | some p =>
    match h p with
    | none => none
    | some o =>
      if o.layerIndex < w.layers.length then
        let layers := w.layers.modify (fun l => { l with objects := l.objects.erase o.id }) o.layerIndex
        some { w with layers := layers }
      else none

/-- `World::CheckCollision`. -/
def CheckCollision {F : Type} [Add F] [LT F] [DecidableRel (fun a b : F => a < b)]
    (object1 object2 : Object F) : Bool :=
  decide (object1.position.x + object1.size.x > object2.position.x) &&
  decide (object1.position.x < object2.position.x + object2.size.x) &&
  decide (object1.position.y + object1.size.y > object2.position.y) &&
  decide (object1.position.y < object2.position.y + object2.size.y)

end World

/-- An object with the given box and every other field at a default. -/
def boxObject {F : Type} [One F] [Zero F] (x y w h : F) : Object F :=
  { id := 0, layerIndex := 0, type := ObjectType.World, image := none,
    position := { x := x, y := y }, size := { x := w, y := h },
    speed := { x := 0, y := 0 }, speedMultiplier := 1 }

/-- Two boxes touch at an edge: the far side of one lies exactly on the near
side of the other, on the x axis or on the y axis. -/
def touchAtEdge {F : Type} [Add F] (a b : Object F) : Prop :=
  a.position.x + a.size.x = b.position.x ∨ b.position.x + b.size.x = a.position.x ∨
  a.position.y + a.size.y = b.position.y ∨ b.position.y + b.size.y = a.position.y

/-! ## Call sequences on the World -/

/-- `Steps allowClear s t`: the state `t` (world and object memory) is reached
from `s` by a sequence of `AddObject`, `RemoveObject` and, when `allowClear`
holds, `Clear` calls, none of which is undefined and during which
`objectCounter++` never wraps around `2 ^ 32`. -/
inductive Steps {F : Type} (allowClear : Bool) : World × Heap F → World × Heap F → Prop where
  | start (s : World × Heap F) : Steps allowClear s s
  | add {s : World × Heap F} {w w1 : World} {h h1 : Heap F} (layerIndex : Nat)
      (object : Option Addr) :
      Steps allowClear s (w, h) →
      (layerIndex < w.layers.length → w.objectCounter + 1 < uintModulus) →
      w.AddObject h layerIndex object = some (w1, h1) →
      Steps allowClear s (w1, h1)
  | remove {s : World × Heap F} {w w1 : World} {h : Heap F} (object : Option Addr) :
      Steps allowClear s (w, h) →
      w.RemoveObject h object = some w1 →
      Steps allowClear s (w1, h)
  | clear {s : World × Heap F} {w : World} {h : Heap F} :
      allowClear = true →
      Steps allowClear s (w, h) →
      Steps allowClear s (w.Clear, h)

/-- The invariant of the World: in every layer the keys are strictly
ascending, every key is below the counter, and every registered pointer
holds an object whose identifier is below the counter. -/
def WorldInv {F : Type} (w : World) (h : Heap F) : Prop :=
  ∀ layer ∈ w.layers,
    (layer.objects.keys).Pairwise (fun a b => a < b) ∧
    ∀ e ∈ layer.objects, e.1 < w.objectCounter ∧ ∃ o, h e.2 = some o ∧ o.id < w.objectCounter

/-- The pointer `p` occurs in no layer of the world. -/
def InNoLayer (w : World) (p : Addr) : Prop :=
  ∀ layer ∈ w.layers, ∀ e ∈ layer.objects, e.2 ≠ p

/-! ## Engine.hxx, Engine.cxx: the state registry -/

/-- The `struct GameInformation` of `Types.hxx`. -/
structure GameInformation where
  name : String
  targetWidth : Nat
  targetHeight : Nat
  targetFPS : Nat
  maxWorldLayers : Nat
deriving DecidableEq, Repr

/-- A `State*` is kept as the address of the state object. -/
abbrev StateRef := Nat

/-- A virtual call the engine makes on a state. -/
inductive StateCall where
  | Activate (state : StateRef) (game : GameInformation)
  | Deactivate (state : StateRef)
deriving DecidableEq, Repr

/-- The four log functions of the engine. -/
inductive LogLevel where
  | Info
  | Warning
  | Error
  | Debug
deriving DecidableEq, Repr

/-- One call of a log function: the format string and its `%s` argument. -/
structure LogEntry where
  level : LogLevel
  tag : String
  format : String
  argument : String
deriving DecidableEq, Repr

/-- The static members of `Engine`.  `calls` lists the virtual calls made on
states so far, oldest first, each with the value `currentState` had while the
call ran; `log` lists the log calls; `BIQ_DEBUG` is the compile-time flag
under which `Engine::Debug` prints. -/
structure Engine where
  game : GameInformation
  gameStates : List (String × StateRef)
  isRunning : Bool
  currentState : Option StateRef
  calls : List (StateCall × Option StateRef)
  log : List LogEntry
  BIQ_DEBUG : Bool
deriving DecidableEq, Repr

namespace Txt

/-- `Txt::StateAlreadyRegistered`. -/
def StateAlreadyRegistered : String := "There is already a state named \"%s\" registered"

/-- `Txt::StateNotFound`. -/
def StateNotFound : String := "State \"%s\" not found"

/-- `Txt::StateRegistered`. -/
def StateRegistered : String := "State \"%s\" registered"

/-- `Txt::StateChanged`. -/
def StateChanged : String := "Current state changed to \"%s\""

end Txt

namespace Engine

/-- `Engine::Tag`. -/
def Tag : String := "Biq"

/-- The static members at program start: empty registry, not running, no
current state. -/
def static (game : GameInformation) (debugBuild : Bool) : Engine :=
  { game := game, gameStates := [], isRunning := false, currentState := none,
    calls := [], log := [], BIQ_DEBUG := debugBuild }

/-- `Engine::Warning`. -/
def Warning (e : Engine) (logTag logMessage argument : String) : Engine :=
  { e with log := e.log ++ [⟨LogLevel.Warning, logTag, logMessage, argument⟩] }

/-- `Engine::Error`. -/
def Error (e : Engine) (logTag logMessage argument : String) : Engine :=
  { e with log := e.log ++ [⟨LogLevel.Error, logTag, logMessage, argument⟩] }

/-- `Engine::Debug`: logs only in a build with `BIQ_DEBUG`. -/
def Debug (e : Engine) (logTag logMessage argument : String) : Engine :=
  if e.BIQ_DEBUG then
    { e with log := e.log ++ [⟨LogLevel.Debug, logTag, logMessage, argument⟩] }
  else e

/-- A virtual call on a state: recorded with the current state it runs under.
The `Activate` and `Deactivate` bodies of this repository (`Splash`, `InGame`)
act on the World, the renderer and the sound only, never on the engine. -/
def call (e : Engine) (c : StateCall) : Engine :=
  { e with calls := e.calls ++ [(c, e.currentState)] }

/-- `Engine::Stop`. -/
def Stop (e : Engine) : Engine := { e with isRunning := false }

/-- `Engine::RegisterState`.  The registry is only ever searched by name, so
the new entry is put at the end. -/
def RegisterState (e : Engine) (stateName : String) (state : StateRef) : Engine :=
  match e.gameStates.lookup stateName with
  | some _ => e.Warning Tag Txt.StateAlreadyRegistered stateName
  | none =>
    Debug { e with gameStates := e.gameStates ++ [(stateName, state)] } Tag
      Txt.StateRegistered stateName

/-- `Engine::ChangeState`. -/
def ChangeState (e : Engine) (stateName : String) : Engine :=
  match e.gameStates.lookup stateName with
  | none => e.Error Tag Txt.StateNotFound stateName
  | some state =>
    let e1 :=
      if e.isRunning then
        let e2 :=
          match e.currentState with
          | some current => e.call (StateCall.Deactivate current)
          | none => e
        e2.call (StateCall.Activate state e2.game)
      else e
    Debug { e1 with currentState := some state } Tag Txt.StateChanged stateName

end Engine

/-! ## InGame.hxx, InGame.cxx: the gameplay state

The gameplay code computes on `float`; the embedding computes on the
rationals, so every product, quotient and comparison is exact.  The constants
of the game are small integers, halves and tenths.  `int` and `uint` values are
integers and naturals; the conversions between them, and from them to `float`,
are written out (`toInt`, `toUInt`).  Additions of `int` values (ticks and
intervals) are not wrapped: signed overflow is undefined in the source. -/

/-- Conversion of a value to `uint`: reduction modulo `2 ^ 32`. -/
def toUInt (z : Int) : Nat := (z % 4294967296).toNat

/-- Conversion of a value to `int`: two's complement wrap into
`[-2 ^ 31, 2 ^ 31)`. -/
def toInt (z : Int) : Int := (z + 2147483648) % 4294967296 - 2147483648

/-- Conversion of a `float` to `int`: truncation toward zero. -/
def truncate (q : ℚ) : Int := if 0 ≤ q then Rat.floor q else Rat.ceil q

/-- The `struct Image` of `Types.hxx` (the texture apart). -/
structure Image where
  width : Int
  height : Int
deriving DecidableEq, Repr

/-- The members `PlayerObject` adds to `World::Object`. -/
structure PlayerObject where
  color : Nat
  health : Int
  score : Int
deriving DecidableEq, Repr

/-- A tracked `ColoredObject*` (a projectile): the pointer and the member
`color`, which is only reached through this pointer. -/
structure ColoredObject where
  addr : Addr
  color : Nat
deriving DecidableEq, Repr

/-- A tracked `EnemyObject*`: the pointer and the members of the subclass. -/
structure EnemyObject where
  addr : Addr
  color : Nat
  shotInterval : Int
  nextShot : Int
  yStop : Int
deriving DecidableEq, Repr

/-- A tracked `CloudObject*`: the pointer and the member `distance`. -/
structure CloudObject where
  addr : Addr
  distance : ℚ
deriving DecidableEq, Repr

/-- A call that reaches the mixer. -/
inductive SoundCall where
  | PlaySample (sample : Nat)
  | PlayMusic (music : Nat)
  | StopMusic
  | UnloadSample (sample : Nat)
  | UnloadMusic (music : Nat)
deriving DecidableEq, Repr

/-- The collaborators the game cannot see into: `rand n` is the result of the
`n`-th call of `std::rand`; `loadImage n path` and `textImage n text` are the
images the `n`-th image request yields (`none` when it fails), and
`loadSound n path` is the handle the `n`-th sound request yields. -/
structure Env where
  rand : Nat → Nat
  loadImage : Nat → String → Option Image
  textImage : Nat → String → Option Image
  loadSound : Nat → String → Option Nat

/-- The state of the program: the static members of `Engine` and `World`, the
object and image memory, the collaborators, and the members of the `Splash`
and `InGame` state objects.  `nextEnemySpawn` is the static local of
`StepEnemies`, `none` until its first call. -/
structure Program where
  engine : Engine
  world : World
  heap : Heap ℚ
  nextAddr : Addr
  images : ImageRef → Option Image
  env : Env
  randCount : Nat
  imageCount : Nat
  soundCount : Nat
  soundCalls : List SoundCall
  splashImage : Option ImageRef
  isGameOver : Bool
  currentGame : GameInformation
  backgroundImage : Option ImageRef
  overlayImage : Option ImageRef
  cloudImages : Nat → Option ImageRef
  playerImages : Nat → Option ImageRef
  enemyImages : Nat → Option ImageRef
  projectileImages : Nat → Option ImageRef
  shotSound : Option Nat
  hitSound : Option Nat
  clickSound : Option Nat
  backgroundMusic : Option Nat
  currentSpeedMultiplier : ℚ
  currentTick : Int
  currentEnemySpawnInterval : Int
  enemySpawnCounter : Int
  player : PlayerObject
  enemies : List EnemyObject
  projectiles : List ColoredObject
  clouds : List CloudObject
  nextEnemySpawn : Option Int

/-- The address of the member `InGame::player`. -/
def playerAddr : Addr := 1

/-- The address of the member `InGame::lifebar`. -/
def lifebarAddr : Addr := 2

/-- The address of the member `InGame::score`. -/
def scoreAddr : Addr := 3

/-- The address of the `Splash` state object of `Main.cxx`. -/
def splashState : StateRef := 1

/-- The address of the `InGame` state object of `Main.cxx`. -/
def inGameState : StateRef := 2

namespace Input

/-- `Input::KeyEscape`. -/
def KeyEscape : Nat := 0
/-- `Input::KeyEnter`. -/
def KeyEnter : Nat := 1
/-- `Input::KeySpacebar`. -/
def KeySpacebar : Nat := 2
/-- `Input::KeyA`. -/
def KeyA : Nat := 3
/-- `Input::KeyS`. -/
def KeyS : Nat := 4
/-- `Input::KeyD`. -/
def KeyD : Nat := 5
/-- `Input::KeyF`. -/
def KeyF : Nat := 6
/-- `Input::KeyUp`. -/
def KeyUp : Nat := 7
/-- `Input::KeyDown`. -/
def KeyDown : Nat := 8
/-- `Input::KeyLeft`. -/
def KeyLeft : Nat := 9
/-- `Input::KeyRight`. -/
def KeyRight : Nat := 10

end Input

namespace Game

/-- `Game::BackgroundLayer`. -/
def BackgroundLayer : Nat := 0
/-- `Game::LowCloudsLayer`. -/
def LowCloudsLayer : Nat := 1
/-- `Game::ProjectileLayer`. -/
def ProjectileLayer : Nat := 2
/-- `Game::ShipLayer`. -/
def ShipLayer : Nat := 3
/-- `Game::HighCloudsLayer`. -/
def HighCloudsLayer : Nat := 4
/-- `Game::HUDLayer`. -/
def HUDLayer : Nat := 5
/-- `Game::OverlayLayer`. -/
def OverlayLayer : Nat := 6
/-- `Game::MaxLayers`. -/
def MaxLayers : Nat := 7

end Game

namespace ColoredObject

/-- `ColoredObject::Red`. -/
def Red : Nat := 0
/-- `ColoredObject::Green`. -/
def Green : Nat := 1
/-- `ColoredObject::Blue`. -/
def Blue : Nat := 2
/-- `ColoredObject::Black`. -/
def Black : Nat := 3
/-- `ColoredObject::MaxColors`. -/
def MaxColors : Nat := 4

end ColoredObject

/-- The constructor `Object(Type type)`: `image` is `NULL` and
`speedMultiplier` is 1.  The other members are left uninitialised by the
source; they are zero here, and each is assigned before it is read. -/
def Object.new (type : ObjectType) : Object ℚ :=
  { id := 0, layerIndex := 0, type := type, image := none,
    position := { x := 0, y := 0 }, size := { x := 0, y := 0 },
    speed := { x := 0, y := 0 }, speedMultiplier := 1 }

namespace Program

/-- Dereference of an `Object*`. -/
def deref (p : Program) (a : Addr) : Option (Object ℚ) := p.heap a

/-- An assignment to members of the object at `a`. -/
def modifyObject (p : Program) (a : Addr) (f : Object ℚ → Object ℚ) : Option Program :=
  match p.heap a with
  | none => none
  | some o => some { p with heap := Function.update p.heap a (some (f o)) }

/-- The expression `new T()` for a subclass `T` of `World::Object`: a fresh
address holding a newly constructed object. -/
def new (p : Program) (type : ObjectType) : Program × Addr :=
  ({ p with heap := Function.update p.heap p.nextAddr (some (Object.new type)),
            nextAddr := p.nextAddr + 1 }, p.nextAddr)

/-- The statement `delete object`. -/
def delete (p : Program) (a : Addr) : Option Program :=
  match p.heap a with
  | none => none
  | some _ => some { p with heap := Function.update p.heap a none }

/-- An array access `images[index]` into an array of 4 (`MaxColors`) entries. -/
def index (images : Nat → Option ImageRef) (i : Int) : Option (Option ImageRef) :=
  if 0 ≤ i ∧ i < 4 then some (images i.toNat) else none

/-- `Engine::RandomNumber`: `(std::rand() % (maxValue - minValue + 1)) + minValue`. -/
def RandomNumber (p : Program) (minValue maxValue : Int) : Option (Program × Int) :=
  if maxValue - minValue + 1 = 0 then none
  else
    some ({ p with randCount := p.randCount + 1 },
          Int.tmod (p.env.rand p.randCount) (maxValue - minValue + 1) + minValue)

/-- `Renderer::LoadImage`. -/
def LoadImage (p : Program) (filePath : String) : Program × Option ImageRef :=
  match p.env.loadImage p.imageCount filePath with
  | none => ({ p with imageCount := p.imageCount + 1 }, none)
  | some image =>
    ({ p with imageCount := p.imageCount + 1,
              images := Function.update p.images p.imageCount (some image) },
     some p.imageCount)

/-- `Renderer::TextImage`. -/
def TextImage (p : Program) (text : String) : Program × Option ImageRef :=
  match p.env.textImage p.imageCount text with
  | none => ({ p with imageCount := p.imageCount + 1 }, none)
  | some image =>
    ({ p with imageCount := p.imageCount + 1,
              images := Function.update p.images p.imageCount (some image) },
     some p.imageCount)

/-- `Renderer::UnloadImage`. -/
def UnloadImage (p : Program) (image : Option ImageRef) : Option Program :=
  match image with
  | none => some p
  | some ref =>
    match p.images ref with
    | none => none
    | some _ => some { p with images := Function.update p.images ref none }

/-- `Sound::LoadSample` and `Sound::LoadMusic`. -/
def LoadSound (p : Program) (filePath : String) : Program × Option Nat :=
  ({ p with soundCount := p.soundCount + 1 }, p.env.loadSound p.soundCount filePath)

/-- `Sound::PlaySample`. -/
def PlaySample (p : Program) (sample : Option Nat) : Program :=
  match sample with
  | none => p
  | some handle => { p with soundCalls := p.soundCalls ++ [SoundCall.PlaySample handle] }

/-- `Sound::PlayMusic`. -/
def PlayMusic (p : Program) (music : Option Nat) : Program :=
  match music with
  | none => p
  | some handle => { p with soundCalls := p.soundCalls ++ [SoundCall.PlayMusic handle] }

/-- `Sound::StopMusic`. -/
def StopMusic (p : Program) : Program :=
  { p with soundCalls := p.soundCalls ++ [SoundCall.StopMusic] }

/-- `Sound::UnloadSample`. -/
def UnloadSample (p : Program) (sample : Option Nat) : Program :=
  match sample with
  | none => p
  | some handle => { p with soundCalls := p.soundCalls ++ [SoundCall.UnloadSample handle] }

/-- `Sound::UnloadMusic`. -/
def UnloadMusic (p : Program) (music : Option Nat) : Program :=
  match music with
  | none => p
  | some handle => { p with soundCalls := p.soundCalls ++ [SoundCall.UnloadMusic handle] }

/-- `World::Clear` on the program's World. -/
def Clear (p : Program) : Program := { p with world := p.world.Clear }

/-- `World::SetLayerBackground` on the program's World. -/
def SetLayerBackground (p : Program) (layerIndex : Nat) (image : Option ImageRef) : Program :=
  { p with world := p.world.SetLayerBackground layerIndex image }

/-- `World::AddObject` on the program's World and memory. -/
def AddObject (p : Program) (layerIndex : Nat) (object : Addr) : Option Program :=
  match p.world.AddObject p.heap layerIndex (some object) with
  | none => none
  | some (w, h) => some { p with world := w, heap := h }

/-- `World::RemoveObject` on the program's World and memory. -/
def RemoveObject (p : Program) (object : Addr) : Option Program :=
  match p.world.RemoveObject p.heap (some object) with
  | none => none
  | some w => some { p with world := w }

/-- `World::Update` on the program's World and memory. -/
def Update (p : Program) (speedMultiplier : ℚ) : Option Program :=
  match p.world.Update p.heap speedMultiplier with
  | none => none
  | some h => some { p with heap := h }

end Program

namespace Splash

/-- `Splash::Name`. -/
def Name : String := "SPLASH"

/-- `Splash::Activate`. -/
def Activate (p : Program) (_game : GameInformation) : Option Program :=
  let (p1, image) := p.LoadImage "assets/images/splash.jpg"
  some { p1 with splashImage := image }.Clear

/-- `Splash::Deactivate`. -/
def Deactivate (p : Program) : Option Program :=
  p.Clear.UnloadImage p.splashImage

end Splash

namespace InGame

/-- `InGame::Name`. -/
def Name : String := "INGAME"

/-- `InGame::ShipWidth`. -/
def ShipWidth : Int := 72
/-- `InGame::ShipHeight`. -/
def ShipHeight : Int := 72
/-- `InGame::ProjectileWidth`. -/
def ProjectileWidth : Int := 8
/-- `InGame::ProjectileHeight`. -/
def ProjectileHeight : Int := 16
/-- `InGame::VerticalPadding`. -/
def VerticalPadding : Int := 56
/-- `InGame::HorizontalPadding`. -/
def HorizontalPadding : Int := 56
/-- `InGame::PlayerSpeed`. -/
def PlayerSpeed : ℚ := 20
/-- `InGame::ProjectileSpeed`. -/
def ProjectileSpeed : ℚ := 25
/-- `InGame::EnemySpeed`. -/
def EnemySpeed : ℚ := 10
/-- `InGame::EnemySpawnInterval`. -/
def EnemySpawnInterval : Int := 3280
/-- `InGame::EnemySpawnThreshold`. -/
def EnemySpawnThreshold : Int := 2
/-- `InGame::EnemyShootInterval`. -/
def EnemyShootInterval : Int := 1200
/-- `InGame::NumberOfClouds`. -/
def NumberOfClouds : Nat := 32
/-- `InGame::CloudWidth`. -/
def CloudWidth : Int := 256
/-- `InGame::CloudHeight`. -/
def CloudHeight : Int := 256
/-- `InGame::CloudSpeed`. -/
def CloudSpeed : Int := 20
/-- `InGame::LifebarHeight`. -/
def LifebarHeight : Int := 32
/-- `InGame::ScorePadding`. -/
def ScorePadding : Int := 8

/-- The text `UpdateScore` rasterizes. -/
def scoreText (p : Program) : String :=
  if p.isGameOver then
    "GAME OVER | YOU SCORED " ++ toString p.player.score ++ " | PRESS <ENTER> TO RESTART"
  else "SCORE: " ++ toString p.player.score

/-- `InGame::UpdateScore`.  The members of the new text image are read
without a test for `NULL`. -/
def UpdateScore (p : Program) : Option Program := do
  let score ← p.deref scoreAddr
  let p1 ← p.UnloadImage score.image
  let (p2, image) := p1.TextImage (scoreText p1)
  let p3 ← p2.modifyObject scoreAddr (fun o => { o with image := image })
  let ref ← image
  let textImage ← p3.images ref
  let y : ℚ :=
    if p3.isGameOver then ((toUInt (p3.currentGame.targetHeight - textImage.height) : Nat) : ℚ) / 2
    else (ScorePadding : ℚ)
  let x : ℚ := ((toUInt (p3.currentGame.targetWidth - textImage.width) : Nat) : ℚ) / 2
  p3.modifyObject scoreAddr (fun o =>
    { o with position := { x := x, y := y },
             size := { x := (textImage.width : ℚ), y := (textImage.height : ℚ) } })

/-- A sequence of `Renderer::LoadImage` calls: the program after them and the
images they returned, in order. -/
def loadAll : Program → List String → Program × List (Option ImageRef)
  | p, [] => (p, [])
  | p, path :: rest =>
    ((loadAll (p.LoadImage path).1 rest).1,
     (p.LoadImage path).2 :: (loadAll (p.LoadImage path).1 rest).2)

/-- An image array after the assignment of its four entries. -/
def imageArray (a b c d : Option ImageRef) (old : Nat → Option ImageRef) (i : Nat) :
    Option ImageRef :=
  if i = 0 then a else if i = 1 then b else if i = 2 then c else if i = 3 then d else old i

/-- The image files of `LoadImages` after the lifebar, in the order of the
source. -/
def imagePaths : List String :=
  ["assets/images/background.jpg", "assets/images/overlay.png",
   "assets/images/cloud1.png", "assets/images/cloud2.png",
   "assets/images/cloud3.png", "assets/images/cloud4.png",
   "assets/images/player_red.png", "assets/images/player_green.png",
   "assets/images/player_blue.png", "assets/images/player_black.png",
   "assets/images/enemy_red.png", "assets/images/enemy_green.png",
   "assets/images/enemy_blue.png", "assets/images/enemy_black.png",
   "assets/images/projectile_red.png", "assets/images/projectile_green.png",
   "assets/images/projectile_blue.png", "assets/images/projectile_black.png"]

/-- The assignments of `LoadImages` after the lifebar: `images` holds the
results of the calls, in the order of `imagePaths`. -/
def assignImages (p : Program) (images : List (Option ImageRef)) : Program :=
  { p with
      backgroundImage := images.getD 0 none,
      overlayImage := images.getD 1 none,
      cloudImages :=
        imageArray (images.getD 2 none) (images.getD 3 none) (images.getD 4 none)
          (images.getD 5 none) p.cloudImages,
      playerImages :=
        imageArray (images.getD 6 none) (images.getD 7 none) (images.getD 8 none)
          (images.getD 9 none) p.playerImages,
      enemyImages :=
        imageArray (images.getD 10 none) (images.getD 11 none) (images.getD 12 none)
          (images.getD 13 none) p.enemyImages,
      projectileImages :=
        imageArray (images.getD 14 none) (images.getD 15 none) (images.getD 16 none)
          (images.getD 17 none) p.projectileImages }

/-- `InGame::LoadImages`. -/
def LoadImages (p : Program) : Option Program :=
  match p.modifyObject scoreAddr (fun o => { o with image := none }) with
  | none => none
  | some p1 =>
    match (p1.LoadImage "assets/images/lifebar.png").1.modifyObject lifebarAddr
        (fun o => { o with image := (p1.LoadImage "assets/images/lifebar.png").2 }) with
    | none => none
    | some p2 => some (assignImages (loadAll p2 imagePaths).1 (loadAll p2 imagePaths).2)

/-- A sequence of `Renderer::UnloadImage` calls. -/
def unloadAll : Program → List (Option ImageRef) → Option Program
  | p, [] => some p
  | p, image :: rest =>
    match p.UnloadImage image with
    | none => none
    | some p1 => unloadAll p1 rest

/-- `InGame::UnloadImages`: the text image of the score when there is one,
then the eighteen images of `LoadImages` other than the lifebar, in the order
of the source. -/
def UnloadImages (p : Program) : Option Program :=
  match p.deref scoreAddr with
  | none => none
  | some score =>
    unloadAll p
      [score.image, p.backgroundImage, p.overlayImage,
       p.playerImages 0, p.playerImages 1, p.playerImages 2, p.playerImages 3,
       p.cloudImages 0, p.cloudImages 1, p.cloudImages 2, p.cloudImages 3,
       p.enemyImages 0, p.enemyImages 1, p.enemyImages 2, p.enemyImages 3,
       p.projectileImages 0, p.projectileImages 1, p.projectileImages 2,
       p.projectileImages 3]

/-- `InGame::LoadSounds`. -/
def LoadSounds (p : Program) : Program :=
  let (p, shot) := p.LoadSound "assets/sounds/shot.flac"
  let (p, hit) := p.LoadSound "assets/sounds/hit.flac"
  let (p, click) := p.LoadSound "assets/sounds/click.flac"
  let (p, music) := p.LoadSound "assets/sounds/background.flac"
  { p with shotSound := shot, hitSound := hit, clickSound := click,
           backgroundMusic := music }.PlayMusic music

/-- `InGame::UnloadSounds`. -/
def UnloadSounds (p : Program) : Program :=
  (((p.StopMusic.UnloadSample p.shotSound).UnloadSample p.hitSound).UnloadSample
    p.clickSound).UnloadMusic p.backgroundMusic

/-- One round of the cloud loop of `InitializeObjects`. -/
def spawnCloud (p : Program) : Option Program := do
  let (p, cloud) := p.new ObjectType.World
  let (p, r1) ← p.RandomNumber 5 20
  let distance : ℚ := (r1 : ℚ) / 10
  let (p, r2) ← p.RandomNumber 0 3
  let image ← Program.index p.cloudImages r2
  let (p, x) ← p.RandomNumber (-HorizontalPadding)
    (toInt (toUInt (p.currentGame.targetWidth - CloudWidth + HorizontalPadding)))
  let (p, y) ← p.RandomNumber CloudHeight (CloudHeight * 2)
  let p ← p.modifyObject cloud (fun o =>
    { o with image := image, position := { x := (x : ℚ), y := -(y : ℚ) },
             size := { x := (CloudHeight : ℚ) / distance, y := (CloudWidth : ℚ) / distance },
             speed := { x := 0, y := (CloudSpeed : ℚ) / distance } })
  let p := { p with clouds := p.clouds ++ [CloudObject.mk cloud distance] }
  p.AddObject (if distance > 1 then Game.LowCloudsLayer else Game.HighCloudsLayer) cloud

/-- The cloud loop of `InitializeObjects`. -/
def spawnClouds : Nat → Program → Option Program
  | 0, p => some p
  | n + 1, p =>
    match spawnCloud p with
    | none => none
    | some p1 => spawnClouds n p1

/-- The player block of `InitializeObjects`. -/
def initializePlayer (p : Program) : Option Program :=
  match Program.index p.playerImages ColoredObject.Red with
  | none => none
  | some image =>
    match
      { p with player := { color := ColoredObject.Red, health := 100, score := 0 } }.modifyObject
        playerAddr (fun o =>
          { o with image := image, speed := { x := 0, y := 0 },
                   size := { x := (ShipWidth : ℚ), y := (ShipHeight : ℚ) },
                   position :=
                     { x := ((toUInt (p.currentGame.targetWidth - ShipWidth) / 2 : Nat) : ℚ),
                       y := ((toUInt (p.currentGame.targetHeight -
                              (ShipHeight + VerticalPadding)) : Nat) : ℚ) } }) with
    | none => none
    | some p1 => p1.AddObject Game.ShipLayer playerAddr

/-- The lifebar block of `InitializeObjects`, skipped when the lifebar has no
image. -/
def initializeLifebar (p : Program) : Option Program :=
  match p.deref lifebarAddr with
  | none => none
  | some lifebar =>
    match lifebar.image with
    | none => some p
    | some ref =>
      match p.images ref with
      | none => none
      | some image =>
        match p.modifyObject lifebarAddr (fun o =>
          { o with position :=
                     { x := 0,
                       y := ((toUInt (p.currentGame.targetHeight - image.height) : Nat) : ℚ) },
                   size := { x := (p.currentGame.targetWidth : ℚ), y := (LifebarHeight : ℚ) },
                   speed := { x := 0, y := 0 } }) with
        | none => none
        | some p1 => p1.AddObject Game.HUDLayer lifebarAddr

/-- The score block of `InitializeObjects`. -/
def initializeScore (p : Program) : Option Program :=
  match p.modifyObject scoreAddr (fun o => { o with speed := { x := 0, y := 0 } }) with
  | none => none
  | some p1 => p1.AddObject Game.HUDLayer scoreAddr

/-- The last three assignments of `InitializeObjects`. -/
def resetCounters (p : Program) : Program :=
  { p with currentEnemySpawnInterval := EnemySpawnInterval, enemySpawnCounter := 0,
           isGameOver := false }

/-- `InGame::InitializeObjects`. -/
def InitializeObjects (p : Program) : Option Program :=
  match initializePlayer
      ((p.SetLayerBackground Game.BackgroundLayer p.backgroundImage).SetLayerBackground
        Game.OverlayLayer p.overlayImage) with
  | none => none
  | some p1 =>
    match initializeLifebar p1 with
    | none => none
    | some p2 =>
      match initializeScore p2 with
      | none => none
      | some p3 =>
        match spawnClouds NumberOfClouds p3 with
        | none => none
        | some p4 => some (resetCounters p4)

/-- A loop `for (auto object : list) delete object`. -/
def deleteAll : Program → List Addr → Option Program
  | p, [] => some p
  | p, a :: rest =>
    match p.delete a with
    | none => none
    | some p1 => deleteAll p1 rest

/-- `InGame::DeleteObjects`. -/
def DeleteObjects (p : Program) : Option Program := do
  let p ← deleteAll p (p.clouds.map CloudObject.addr)
  let p := { p with clouds := [] }
  let p ← deleteAll p (p.enemies.map EnemyObject.addr)
  let p := { p with enemies := [] }
  let p ← deleteAll p (p.projectiles.map ColoredObject.addr)
  some { p with projectiles := [] }

/-- `InGame::Activate`. -/
def Activate (p : Program) (game : GameInformation) : Option Program := do
  let p := { p.Clear with currentGame := game }
  let p ← LoadImages p
  let p := LoadSounds p
  let p ← InitializeObjects p
  UpdateScore p

/-- `InGame::Deactivate`. -/
def Deactivate (p : Program) : Option Program := do
  let p ← DeleteObjects p.Clear
  let p ← UnloadImages p
  some (UnloadSounds p)

/-- The body of the loop of `InGame::StepClouds`. -/
def stepCloud (p : Program) (cloud : CloudObject) : Option Program := do
  let o ← p.deref cloud.addr
  if o.position.y > (p.currentGame.targetHeight : ℚ) then
    let (p1, x) ← p.RandomNumber (-HorizontalPadding)
      (toInt (toUInt (p.currentGame.targetWidth - CloudWidth + HorizontalPadding)))
    let (p2, y) ← p1.RandomNumber CloudHeight (CloudHeight * 2)
    p2.modifyObject cloud.addr (fun o1 => { o1 with position := { x := (x : ℚ), y := -(y : ℚ) } })
  else some p

/-- The loop of `InGame::StepClouds`. -/
def stepCloudsLoop : Program → List CloudObject → Option Program
  | p, [] => some p
  | p, cloud :: rest =>
    match stepCloud p cloud with
    | none => none
    | some p1 => stepCloudsLoop p1 rest

/-- `InGame::StepClouds`. -/
def StepClouds (p : Program) : Option Program := stepCloudsLoop p p.clouds

/-- The damage and the score of a colour: `(color + 1) * 5`, computed in `uint`. -/
def colorValue (color : Nat) : Nat := ((color + 1) * 5) % uintModulus

/-- The statement `player.health -= (projectile->color + 1) * 5`, and likewise
`player.score += ...` with the sign changed: the operation is done in `uint`
and the result converted to `int`. -/
def hitHealth (health : Int) (color : Nat) : Int := toInt (health - colorValue color)

/-- The statement `player.score += (projectile->color + 1) * 5`. -/
def hitScore (score : Int) (color : Nat) : Int := toInt (score + colorValue color)

/-- The expression `(player.health * currentGame.targetWidth) / 100.0f`: the
product is computed in `uint`, then converted to `float`. -/
def lifebarWidth (health : Int) (targetWidth : Nat) : ℚ :=
  ((toUInt (health * targetWidth) : Nat) : ℚ) / 100

/-- The inner loop of `StepProjectiles`: the first enemy of the colour `color`
that collides with the projectile `o`, with the enemies before and after it in
the tracking list; `some none` when the loop ends without a hit. -/
def scanEnemies (p : Program) (color : Nat) (o : Object ℚ) :
    List EnemyObject → List EnemyObject →
    Option (Option (List EnemyObject × EnemyObject × List EnemyObject))
  | _, [] => some none
  | before, enemy :: after =>
    match p.deref enemy.addr with
    | none => none
    | some eo =>
      if enemy.color ≠ color then scanEnemies p color o (before ++ [enemy]) after
      else if World.CheckCollision eo o then some (some (before, enemy, after))
      else scanEnemies p color o (before ++ [enemy]) after

/-- The first half of the body of the loop of `StepProjectiles`, up to the
value of `projectileHit`.  The result is `(p, none)` when the function returns
(game over), and `(p, some projectileHit)` otherwise. -/
def projectileHitTest (p : Program) (projectile : ColoredObject) :
    Option (Program × Option Bool) := do
  let o ← p.deref projectile.addr
  if o.type = ObjectType.Enemy then
    let player ← p.deref playerAddr
    if World.CheckCollision player o then
      let health := hitHealth p.player.health projectile.color
      let p1 := { p with player := { p.player with health := health } }
      let p2 ← p1.modifyObject lifebarAddr (fun l =>
        { l with size := { x := lifebarWidth health p1.currentGame.targetWidth, y := l.size.y } })
      if health ≤ 0 then
        let p3 := { p2 with isGameOver := true }.PlaySample p2.hitSound
        let p4 ← UpdateScore p3
        let p5 ← p4.Update p4.currentSpeedMultiplier
        some (p5, none)
      else some (p2, some true)
    else some (p, some false)
  else
    match ← scanEnemies p projectile.color o [] p.enemies with
    | none => some (p, some false)
    | some (before, enemy, after) =>
      let p1 ← p.RemoveObject enemy.addr
      let p2 ← { p1 with enemies := before ++ after }.delete enemy.addr
      let p3 := { p2 with player := { p2.player with
                    score := hitScore p2.player.score projectile.color } }
      let p4 ← UpdateScore p3
      some (p4, some true)

/-- The loop of `StepProjectiles`.  `kept` holds the projectiles before the
iterator, the last argument those from the iterator on.  After an `erase` the
iterator of the source stays where it is and so designates the next element. -/
def stepProjectilesLoop : Program → List ColoredObject → List ColoredObject → Option Program
  | p, _, [] => some p
  | p, kept, projectile :: rest =>
    match projectileHitTest p projectile with
    | none => none
    | some (p1, none) => some p1
    | some (p1, some projectileHit) =>
      let p2 := if projectileHit then p1.PlaySample p1.hitSound else p1
      match p2.deref projectile.addr with
      | none => none
      | some o =>
        if projectileHit ∨ o.position.y ≤ -(ProjectileHeight : ℚ) ∨
            o.position.y ≥ (p2.currentGame.targetHeight : ℚ) then
          match p2.RemoveObject projectile.addr with
          | none => none
          | some p3 =>
            match { p3 with projectiles := kept ++ rest }.delete projectile.addr with
            | none => none
            | some p4 => stepProjectilesLoop p4 kept rest
        else stepProjectilesLoop p2 (kept ++ [projectile]) rest

/-- `InGame::StepProjectiles`. -/
def StepProjectiles (p : Program) : Option Program := stepProjectilesLoop p [] p.projectiles

/-- `InGame::Shoot`: `source` is the pointer to the shooter and `color` its
member `color`. -/
def Shoot (p : Program) (source : Addr) (color : Nat) (direction : Int) : Option Program :=
  if p.isGameOver then some p
  else do
    let src ← p.deref source
    let (p1, projectile) := p.new src.type
    let image ← Program.index p1.projectileImages color
    let p2 ← p1.modifyObject projectile (fun o =>
      { o with type := src.type,
               position := { x := src.position.x + ((ShipWidth - ProjectileWidth : Int) : ℚ) / 2,
                             y := src.position.y + ((ShipHeight - ProjectileHeight : Int) : ℚ) / 2 },
               size := { x := (ProjectileWidth : ℚ), y := (ProjectileHeight : ℚ) },
               speed := { x := 0, y := ProjectileSpeed * (direction : ℚ) },
               image := image })
    let p3 := { p2 with projectiles := p2.projectiles ++ [ColoredObject.mk projectile color] }
    let p4 ← p3.AddObject Game.ProjectileLayer projectile
    some (p4.PlaySample p4.shotSound)

/-- The statement `currentEnemySpawnInterval *= 0.9`: the product is computed
in `double` and truncated to `int`.  The `double` nearest to 0.9 exceeds 0.9 by
less than `3e-17`, so for an `int` interval the rounded product has the same
integer part as the exact product with nine tenths. -/
def shrinkInterval (interval : Int) : Int := truncate ((interval : ℚ) * (9 / 10))

/-- The counting statements of `SpawnEnemy`: `enemySpawnCounter++`, then, when
the counter exceeds `EnemySpawnThreshold`, the counter is reset and the
interval is multiplied by 0.9.  The result is the counter and the interval. -/
def spawnCounters (counter interval : Int) : Int × Int :=
  if counter + 1 > EnemySpawnThreshold then (0, shrinkInterval interval)
  else (counter + 1, interval)

/-- `InGame::SpawnEnemy`.  The bounds `EnemyShootInterval * 0.9f` and
`EnemyShootInterval * 1.5f` of the shot interval are 1080 and 1800. -/
def SpawnEnemy (p : Program) : Option Program := do
  let (p1, enemy) := p.new ObjectType.Enemy
  let (p2, color) ← p1.RandomNumber ColoredObject.Red ColoredObject.Black
  let (p3, x) ← p2.RandomNumber HorizontalPadding
    (toInt (toUInt (p2.currentGame.targetWidth - ShipWidth - HorizontalPadding)))
  let (p4, multiplier) ← p3.RandomNumber 0 100
  let (p5, shotInterval) ← p4.RandomNumber (truncate ((EnemyShootInterval : ℚ) * (9 / 10)))
    (truncate ((EnemyShootInterval : ℚ) * (3 / 2)))
  let (p6, stop) ← p5.RandomNumber 10 20
  let image ← Program.index p6.enemyImages (toUInt color)
  let p7 ← p6.modifyObject enemy (fun o =>
    { o with speed := { x := 0, y := EnemySpeed },
             size := { x := (ShipWidth : ℚ), y := (ShipHeight : ℚ) },
             position := { x := (x : ℚ), y := -(ShipHeight : ℚ) },
             speedMultiplier := 1 + (multiplier : ℚ) / 100,
             image := image })
  let counters := spawnCounters p7.enemySpawnCounter p7.currentEnemySpawnInterval
  Program.AddObject
    { p7 with enemySpawnCounter := counters.1, currentEnemySpawnInterval := counters.2,
              enemies := p7.enemies ++
                [EnemyObject.mk enemy (toUInt color) shotInterval (p7.currentTick + shotInterval)
                  (truncate ((VerticalPadding : ℚ) * ((stop : ℚ) / 10)))] }
    Game.ShipLayer enemy

/-- The first statement of the loop body of `StepEnemies`: an enemy that has
passed its stop altitude is put back on it, stops descending and starts to
patrol in a random direction. -/
def haltDescent (p : Program) (enemy : EnemyObject) (o : Object ℚ) :
    Option (Program × Object ℚ) :=
  if o.position.y > (enemy.yStop : ℚ) then
    match p.RandomNumber 0 1 with
    | none => none
    | some (q, r) =>
      some (q, { o with position := { x := o.position.x, y := (enemy.yStop : ℚ) },
                        speed := { x := if r = 1 then EnemySpeed else -EnemySpeed, y := 0 } })
  else some (p, o)

/-- The turn at the right side padding. -/
def turnAtRight (targetWidth : Nat) (o : Object ℚ) : Object ℚ :=
  if o.position.x ≥ ((toUInt (targetWidth - (ShipWidth + HorizontalPadding)) : Nat) : ℚ) then
    { o with speed := { x := -EnemySpeed, y := o.speed.y } }
  else o

/-- The turn at the left side padding. -/
def turnAtLeft (o : Object ℚ) : Object ℚ :=
  if o.position.x ≤ (HorizontalPadding : ℚ) then
    { o with speed := { x := EnemySpeed, y := o.speed.y } }
  else o

/-- The body of the loop of `StepEnemies`: the program and the enemy's
subclass members after the round. -/
def stepEnemy (p : Program) (enemy : EnemyObject) : Option (Program × EnemyObject) :=
  match p.deref enemy.addr with
  | none => none
  | some o =>
    match haltDescent p enemy o with
    | none => none
    | some (p1, o1) =>
      match p1.modifyObject enemy.addr
          (fun _ => turnAtLeft (turnAtRight p1.currentGame.targetWidth o1)) with
      | none => none
      | some p2 =>
        if p2.currentTick > enemy.nextShot then
          match Shoot p2 enemy.addr enemy.color 1 with
          | none => none
          | some p3 => some (p3, { enemy with nextShot := p2.currentTick + enemy.shotInterval })
        else some (p2, enemy)

/-- The loop of `StepEnemies`: the program and the tracked enemies after it. -/
def stepEnemiesLoop : Program → List EnemyObject → Option (Program × List EnemyObject)
  | p, [] => some (p, [])
  | p, enemy :: rest =>
    match stepEnemy p enemy with
    | none => none
    | some (p1, enemy1) =>
      match stepEnemiesLoop p1 rest with
      | none => none
      | some (p2, rest1) => some (p2, enemy1 :: rest1)

/-- The head of `StepEnemies`: the static local `nextEnemySpawn` is
initialised on the first call, and an enemy is spawned when the tick has
reached it. -/
def spawnDue (p : Program) : Option Program :=
  if p.currentTick ≥ (match p.nextEnemySpawn with
      | none => p.currentTick + p.currentEnemySpawnInterval
      | some next => next) then
    SpawnEnemy { p with nextEnemySpawn := some (p.currentTick + p.currentEnemySpawnInterval) }
  else
    some { p with nextEnemySpawn := some (match p.nextEnemySpawn with
      | none => p.currentTick + p.currentEnemySpawnInterval
      | some next => next) }

/-- `InGame::StepEnemies`. -/
def StepEnemies (p : Program) : Option Program :=
  match spawnDue p with
  | none => none
  | some p1 =>
    match stepEnemiesLoop p1 p1.enemies with
    | none => none
    | some (p2, enemies) => some { p2 with enemies := enemies }

/-- `InGame::StepPlayer`. -/
def StepPlayer (p : Program) : Option Program :=
  let right : ℚ := ((toUInt (p.currentGame.targetWidth - (ShipWidth + HorizontalPadding)) : Nat) : ℚ)
  let bottom : ℚ := ((toUInt (p.currentGame.targetHeight - (ShipHeight + VerticalPadding)) : Nat) : ℚ)
  p.modifyObject playerAddr (fun o =>
    let x1 := if o.position.x ≥ right then right else o.position.x
    let x2 := if x1 ≤ (HorizontalPadding : ℚ) then (HorizontalPadding : ℚ) else x1
    let y1 := if o.position.y ≥ bottom then bottom else o.position.y
    let y2 := if y1 ≤ (VerticalPadding : ℚ) then (VerticalPadding : ℚ) else y1
    { o with position := { x := x2, y := y2 } })

/-- `InGame::Step`; `ticks` is the value `Engine::GetTicks` returns.  When
`StepProjectiles` returns early on game over, the remaining stages still run. -/
def Step (p : Program) (speedMultiplier : ℚ) (ticks : Nat) : Option Program :=
  if p.isGameOver then some p
  else do
    let p1 := { p with currentSpeedMultiplier := speedMultiplier, currentTick := toInt ticks }
    let p2 ← StepClouds p1
    let p3 ← StepProjectiles p2
    let p4 ← StepEnemies p3
    let p5 ← StepPlayer p4
    p5.Update speedMultiplier

end InGame

namespace Program

/-- A virtual call on one of the two state objects of `Main.cxx`. -/
def stateCall (p : Program) (c : StateCall) : Option Program :=
  match c with
  | StateCall.Activate state game =>
    if state = inGameState then InGame.Activate p game
    else if state = splashState then Splash.Activate p game
    else none
  | StateCall.Deactivate state =>
    if state = inGameState then InGame.Deactivate p
    else if state = splashState then Splash.Deactivate p
    else none

/-- The virtual calls of a list, in order. -/
def stateCalls : Program → List (StateCall × Option StateRef) → Option Program
  | p, [] => some p
  | p, c :: rest =>
    match p.stateCall c.1 with
    | none => none
    | some p1 => stateCalls p1 rest

/-- `Engine::ChangeState` with its virtual calls carried out: the calls that
`Engine.ChangeState` records are run on the state objects. -/
def ChangeState (p : Program) (stateName : String) : Option Program :=
  let engine := p.engine.ChangeState stateName
  stateCalls { p with engine := engine } (engine.calls.drop p.engine.calls.length)

end Program

namespace InGame

/-- `InGame::OnPress`. -/
def OnPress (p : Program) (key : Nat) : Option Program :=
  if p.isGameOver then
    if key = Input.KeyEnter then do
      let p1 ← DeleteObjects p.Clear
      let p2 ← InitializeObjects p1
      UpdateScore p2
    else some p
  else if key = Input.KeyLeft then
    p.modifyObject playerAddr (fun o => { o with speed := { x := -PlayerSpeed, y := o.speed.y } })
  else if key = Input.KeyRight then
    p.modifyObject playerAddr (fun o => { o with speed := { x := PlayerSpeed, y := o.speed.y } })
  else if key = Input.KeyUp then
    p.modifyObject playerAddr (fun o => { o with speed := { x := o.speed.x, y := -PlayerSpeed } })
  else if key = Input.KeyDown then
    p.modifyObject playerAddr (fun o => { o with speed := { x := o.speed.x, y := PlayerSpeed } })
  else if key = Input.KeySpacebar then Shoot p playerAddr p.player.color (-1)
  else if key = Input.KeyA ∨ key = Input.KeyS ∨ key = Input.KeyD ∨ key = Input.KeyF then do
    let color := key - Input.KeyA
    let image ← Program.index p.playerImages color
    let p1 ← { p with player := { p.player with color := color } }.modifyObject playerAddr
      (fun o => { o with image := image })
    some (p1.PlaySample p1.clickSound)
  else some p

/-- `InGame::OnRelease`. -/
def OnRelease (p : Program) (key : Nat) : Option Program :=
  if key = Input.KeyEscape then p.ChangeState Splash.Name
  else if key = Input.KeyUp then
    p.modifyObject playerAddr (fun o =>
      if o.speed.y = -PlayerSpeed then { o with speed := { x := o.speed.x, y := 0 } } else o)
  else if key = Input.KeyDown then
    p.modifyObject playerAddr (fun o =>
      if o.speed.y = PlayerSpeed then { o with speed := { x := o.speed.x, y := 0 } } else o)
  else if key = Input.KeyLeft then
    p.modifyObject playerAddr (fun o =>
      if o.speed.x = -PlayerSpeed then { o with speed := { x := 0, y := o.speed.y } } else o)
  else if key = Input.KeyRight then
    p.modifyObject playerAddr (fun o =>
      if o.speed.x = PlayerSpeed then { o with speed := { x := 0, y := o.speed.y } } else o)
  else some p

end InGame

/-- The members of the state objects and of `Engine`: the part of the program
state outside the World, the object and image memory and the counters of the
collaborators. -/
structure Members where
  engine : Engine
  splashImage : Option ImageRef
  isGameOver : Bool
  currentGame : GameInformation
  backgroundImage : Option ImageRef
  overlayImage : Option ImageRef
  cloudImages : Nat → Option ImageRef
  playerImages : Nat → Option ImageRef
  enemyImages : Nat → Option ImageRef
  projectileImages : Nat → Option ImageRef
  shotSound : Option Nat
  hitSound : Option Nat
  clickSound : Option Nat
  backgroundMusic : Option Nat
  currentSpeedMultiplier : ℚ
  currentTick : Int
  currentEnemySpawnInterval : Int
  enemySpawnCounter : Int
  player : PlayerObject
  enemies : List EnemyObject
  projectiles : List ColoredObject
  clouds : List CloudObject
  nextEnemySpawn : Option Int

/-- The members of a program state. -/
def Program.members (p : Program) : Members :=
  { engine := p.engine, splashImage := p.splashImage, isGameOver := p.isGameOver,
    currentGame := p.currentGame, backgroundImage := p.backgroundImage,
    overlayImage := p.overlayImage, cloudImages := p.cloudImages,
    playerImages := p.playerImages, enemyImages := p.enemyImages,
    projectileImages := p.projectileImages, shotSound := p.shotSound,
    hitSound := p.hitSound, clickSound := p.clickSound,
    backgroundMusic := p.backgroundMusic,
    currentSpeedMultiplier := p.currentSpeedMultiplier, currentTick := p.currentTick,
    currentEnemySpawnInterval := p.currentEnemySpawnInterval,
    enemySpawnCounter := p.enemySpawnCounter, player := p.player, enemies := p.enemies,
    projectiles := p.projectiles, clouds := p.clouds, nextEnemySpawn := p.nextEnemySpawn }

/-- `n` successive calls of `InGame::SpawnEnemy`. -/
def InGame.spawnEnemies : Nat → Program → Option Program
  | 0, p => some p
  | n + 1, p =>
    match InGame.spawnEnemies n p with
    | none => none
    | some q => InGame.SpawnEnemy q

/-! ## Example data -/

/-- A memory with one object at address 1 and one at address 2. -/
def exampleHeap : Heap ℚ := fun a =>
  if a = 1 then some (boxObject 0 0 10 10)
  else if a = 2 then some (boxObject 10 0 10 10)
  else none

/-- A world of two layers, as `Initialize(2)` leaves it. -/
def exampleWorld : World := (World.static.Initialize 2).1

/-- The memory after `AddObject(0, 1)` on the example world. -/
def exampleHeap1 : Heap ℚ :=
  Function.update exampleHeap 1 (some { boxObject 0 0 10 10 with id := 0, layerIndex := 0 })

/-- The world after `AddObject(0, 1)` on the example world. -/
def exampleWorld1 : World :=
  { layers := [{ background := none, objects := [(0, 1)] }, Layer.new], objectCounter := 1 }

/-- The memory after `AddObject(0, 1)`, `Clear`, `AddObject(0, 2)`. -/
def exampleHeap2 : Heap ℚ :=
  Function.update exampleHeap1 2 (some { boxObject 10 0 10 10 with id := 0, layerIndex := 0 })

/-- The world after `AddObject(0, 1)`, `Clear`, `AddObject(0, 2)`. -/
def exampleWorld2 : World :=
  { layers := [{ background := none, objects := [(0, 2)] }, Layer.new], objectCounter := 1 }

/-- The memory after `AddObject(0, 1)`, `AddObject(1, 2)`. -/
def exampleHeap3 : Heap ℚ :=
  Function.update exampleHeap1 2 (some { boxObject 10 0 10 10 with id := 1, layerIndex := 1 })

/-- The world after `AddObject(0, 1)`, `AddObject(1, 2)`. -/
def exampleWorld3 : World :=
  { layers := [{ background := none, objects := [(0, 1)] },
               { background := none, objects := [(1, 2)] }],
    objectCounter := 2 }

/-- The memory after `AddObject(0, 1)`, `AddObject(1, 1)`: the object 1 records
its second registration. -/
def exampleHeap4 : Heap ℚ :=
  Function.update exampleHeap1 1 (some { boxObject 0 0 10 10 with id := 1, layerIndex := 1 })

/-- The world after `AddObject(0, 1)`, `AddObject(1, 1)`: both layers hold the
object 1. -/
def exampleWorld4 : World :=
  { layers := [{ background := none, objects := [(0, 1)] },
               { background := none, objects := [(1, 1)] }],
    objectCounter := 2 }

/-- The game of `Main.cxx`. -/
def exampleGame : GameInformation :=
  { name := "Biq Invaders", targetWidth := 1280, targetHeight := 720, targetFPS := 30,
    maxWorldLayers := 7 }

/-- The engine of `Main.cxx` after its two `RegisterState` calls: the splash
state at address 1, the in-game state at address 2. -/
def exampleEngine : Engine :=
  ((Engine.static exampleGame false).RegisterState "SPLASH" 1).RegisterState "INGAME" 2

/-- The example engine as `Run("SPLASH")` leaves it on entering its loop:
`isRunning` set, then `ChangeState("SPLASH")`. -/
def exampleRunning : Engine :=
  Engine.ChangeState { exampleEngine with isRunning := true } "SPLASH"

/-- The enemy `e` is a target of a projectile of colour `color` at `o`: it has
that colour and its box overlaps the projectile's. -/
def InGame.isTarget (p : Program) (color : Nat) (o : Object ℚ) (e : EnemyObject) : Prop :=
  e.color = color ∧ ∃ eo, p.heap e.addr = some eo ∧ World.CheckCollision eo o = true

/-- A call the run loop makes on the gameplay state. -/
inductive InGame.Call where
  | Step (speedMultiplier : ℚ) (ticks : Nat)
  | OnPress (key : Nat)
  | OnRelease (key : Nat)

/-- One call of the run loop on the gameplay state. -/
def InGame.call (p : Program) : InGame.Call → Option Program
  | InGame.Call.Step speedMultiplier ticks => InGame.Step p speedMultiplier ticks
  | InGame.Call.OnPress key => InGame.OnPress p key
  | InGame.Call.OnRelease key => InGame.OnRelease p key

/-- A sequence of calls of the run loop on the gameplay state. -/
def InGame.run : Program → List InGame.Call → Option Program
  | p, [] => some p
  | p, c :: rest =>
    match InGame.call p c with
    | none => none
    | some q => InGame.run q rest

/-- `InGame::Activate` followed by a sequence of calls of the run loop. -/
def InGame.activateAndRun (p : Program) (game : GameInformation) (calls : List InGame.Call) :
    Option Program :=
  match InGame.Activate p game with
  | none => none
  | some q => InGame.run q calls

/-- The program of `Main.cxx` at the moment the run loop hands control to
a state for the first time: a World of `maxWorldLayers` layers, both states
registered, the engine running, the member objects of `InGame` constructed
and its lists empty.  Members the constructors leave uninitialised are zero,
`false` or `NULL`. -/
def Program.start (env : Env) (game : GameInformation) : Program :=
  { engine :=
      { ((Engine.static game false).RegisterState Splash.Name splashState).RegisterState
          InGame.Name inGameState with isRunning := true },
    world := (World.static.Initialize game.maxWorldLayers).1,
    heap := fun a =>
      if a = playerAddr then some (Object.new ObjectType.Player)
      else if a = lifebarAddr then some (Object.new ObjectType.World)
      else if a = scoreAddr then some (Object.new ObjectType.World)
      else none,
    nextAddr := 4,
    images := fun _ => none,
    env := env,
    randCount := 0,
    imageCount := 0,
    soundCount := 0,
    soundCalls := [],
    splashImage := none,
    isGameOver := false,
    currentGame := game,
    backgroundImage := none,
    overlayImage := none,
    cloudImages := fun _ => none,
    playerImages := fun _ => none,
    enemyImages := fun _ => none,
    projectileImages := fun _ => none,
    shotSound := none,
    hitSound := none,
    clickSound := none,
    backgroundMusic := none,
    currentSpeedMultiplier := 0,
    currentTick := 0,
    currentEnemySpawnInterval := 0,
    enemySpawnCounter := 0,
    player := { color := 0, health := 0, score := 0 },
    enemies := [],
    projectiles := [],
    clouds := [],
    nextEnemySpawn := none }

/-- Collaborators for the examples: `std::rand` always returns 2742 (so every
enemy is Blue and spawns above the player), every image file loads as a 72 by
72 image, every text is rasterized to a 400 by 36 image, and the `n`-th sound
file loads with the handle `n`. -/
def exampleEnv : Env :=
  { rand := fun _ => 2742,
    loadImage := fun _ _ => some { width := 72, height := 72 },
    textImage := fun _ _ => some { width := 400, height := 36 },
    loadSound := fun n _ => some n }

/-- The example program after `InGame::Activate`. -/
def exampleActive : Option Program :=
  InGame.Activate (Program.start exampleEnv exampleGame) exampleGame

/-- The state `InGame::Activate` leaves on the example program (the call is
defined there). -/
def exampleScene : Program := exampleActive.getD (Program.start exampleEnv exampleGame)

/-- The invariant of the player's health: it is above -20 and at most 100, the
game is over exactly when it is used up, and every tracked projectile has one
of the four colours. -/
def InGame.HealthInv (m : Members) : Prop :=
  -20 < m.player.health ∧ m.player.health ≤ 100 ∧
  (m.isGameOver = false → 0 < m.player.health) ∧
  (m.isGameOver = true → m.player.health ≤ 0) ∧
  ∀ x ∈ m.projectiles, x.color < 4

/-- The enemy `e` after its round of the loop of `StepEnemies` at the tick
`tick`. -/
def InGame.rescheduled (tick : Int) (e : EnemyObject) : EnemyObject :=
  if tick > e.nextShot then { e with nextShot := tick + e.shotInterval } else e

/-- Ten calls of `Step` with the speed multiplier 20, made at the ticks 4000,
8000, ..., 40000. -/
def exampleTenSteps : List InGame.Call :=
  (List.range 10).map (fun k => InGame.Call.Step 20 (4000 * (k + 1)))

/-- The example program in its tenth frame, at the call of `StepProjectiles`:
`Activate`, nine of the ten example calls of `Step`, then the head of the
tenth call up to and including `StepClouds`. -/
def exampleLastStand : Option Program :=
  (InGame.activateAndRun (Program.start exampleEnv exampleGame) exampleGame
    (exampleTenSteps.take 9)).bind
    (fun p => InGame.StepClouds { p with currentSpeedMultiplier := 20, currentTick := toInt 40000 })

/-- The example program with a Blue projectile of the player over a Blue
enemy: `Activate`, two frames (the second spawns the enemy), the key D (Blue),
the spacebar (a shot) and a third frame that moves the projectile into the
enemy.  The calls are defined; the projectile is at the address 37. -/
def exampleDuel : Program :=
  (InGame.activateAndRun (Program.start exampleEnv exampleGame) exampleGame
    [InGame.Call.Step 20 4000, InGame.Call.Step 4 8000, InGame.Call.OnPress Input.KeyD,
     InGame.Call.OnPress Input.KeySpacebar, InGame.Call.Step 16 9000]).getD
    (Program.start exampleEnv exampleGame)

/-- A stage from `p` to `q` that only moves objects: the members, the World,
and the allocation frontier are the same, and every object that was live is
live and differs at most in its position. -/
def Program.OnlyMoved (p q : Program) : Prop :=
  q.members = p.members ∧ q.world = p.world ∧ q.nextAddr = p.nextAddr ∧
  ∀ a o, p.heap a = some o → ∃ o1, q.heap a = some o1 ∧ o1 = { o with position := o1.position }

/-- The object at the address `a` is live and of the type `t`. -/
def Program.typeAt (p : Program) (a : Addr) (t : ObjectType) : Prop :=
  ∃ o, p.heap a = some o ∧ o.type = t

/-- The example program with one live enemy and no projectile: `Activate` and
two frames, the second of which spawns the enemy (at the address 36, with its
first shot due after the tick 9659). -/
def exampleLoneEnemy : Program :=
  (InGame.activateAndRun (Program.start exampleEnv exampleGame) exampleGame
    [InGame.Call.Step 20 4000, InGame.Call.Step 4 8000]).getD
    (Program.start exampleEnv exampleGame)

/-- The addresses of the tracked objects: clouds, enemies and projectiles. -/
def InGame.tracked (p : Program) : List Addr :=
  p.clouds.map CloudObject.addr ++ p.enemies.map EnemyObject.addr ++
    p.projectiles.map ColoredObject.addr

/-- The object at `a` is live and its image, when it has one, is loaded. -/
def Program.imageLoaded (p : Program) (a : Addr) : Prop :=
  ∃ o, p.heap a = some o ∧ ∀ ref, o.image = some ref → (p.images ref).isSome = true

/-- A state in which a restart runs without undefined behaviour: the tracked
objects are live, pairwise distinct and none of the three member objects; the
member objects are live and below the allocation frontier; the images of the
lifebar and of the score are loaded; the text of a zero score rasterizes; and
the range of the horizontal position of a cloud is not empty. -/
def InGame.Restartable (p : Program) : Prop :=
  (InGame.tracked p).Nodup ∧
  (∀ a ∈ InGame.tracked p,
    (p.heap a).isSome = true ∧ a ≠ playerAddr ∧ a ≠ lifebarAddr ∧ a ≠ scoreAddr) ∧
  (p.heap playerAddr).isSome = true ∧
  p.imageLoaded lifebarAddr ∧ p.imageLoaded scoreAddr ∧
  scoreAddr < p.nextAddr ∧
  (p.env.textImage p.imageCount ("SCORE: " ++ toString (0 : Int))).isSome = true ∧
  toInt (toUInt (p.currentGame.targetWidth - InGame.CloudWidth + InGame.HorizontalPadding)) -
    -InGame.HorizontalPadding + 1 ≠ 0

/-- The image memory and the collaborators are the same in `p` and `q`. -/
def Program.SameAssets (p q : Program) : Prop :=
  q.images = p.images ∧ q.env = p.env ∧ q.imageCount = p.imageCount

instance Program.imageLoaded.decidable (p : Program) (a : Addr) : Decidable (p.imageLoaded a) :=
  match h : p.heap a with
  | none => isFalse (fun ⟨_, ho, _⟩ => Option.noConfusion (h.symm.trans ho))
  | some o =>
    match hi : o.image with
    | none =>
      isTrue ⟨o, h, fun _ hr => Option.noConfusion (hi.symm.trans hr)⟩
    | some ref =>
      if hl : (p.images ref).isSome = true then
        isTrue ⟨o, h, fun _ hr => Option.some.inj (hi.symm.trans hr) ▸ hl⟩
      else
        isFalse (fun ⟨_, ho1, himage⟩ =>
          hl (himage ref (Option.some.inj (h.symm.trans ho1) ▸ hi)))

instance InGame.Restartable.decidable (p : Program) : Decidable (InGame.Restartable p) := by
  unfold InGame.Restartable
  infer_instance

/-- The example program after `Activate` and the ten example calls of `Step`:
the game is over. -/
def exampleGameOver : Program :=
  (InGame.activateAndRun (Program.start exampleEnv exampleGame) exampleGame
    exampleTenSteps).getD (Program.start exampleEnv exampleGame)

/-- Collaborators as in `exampleEnv`, except that no text is rasterized:
`Renderer::TextImage` returns `NULL` on every call. -/
def exampleNoTextEnv : Env :=
  { rand := fun _ => 2742,
    loadImage := fun _ _ => some { width := 72, height := 72 },
    textImage := fun _ _ => none,
    loadSound := fun n _ => some n }

/-- The example program without text at the first call of `UpdateScore`:
`Activate` up to and including `InitializeObjects`. -/
def exampleNoText : Option Program :=
  (InGame.LoadImages
    { (Program.start exampleNoTextEnv exampleGame).Clear with currentGame := exampleGame }).bind
    (fun p => InGame.InitializeObjects (InGame.LoadSounds p))

/-- Collaborators as in `exampleEnv`, except that `std::rand` always returns
0: every enemy is Red, spawns at the left side padding (`x = 56`) and stops at
`y = 56`. -/
def exampleZeroEnv : Env :=
  { rand := fun _ => 0,
    loadImage := fun _ _ => some { width := 72, height := 72 },
    textImage := fun _ _ => some { width := 400, height := 36 },
    loadSound := fun n _ => some n }

/-- The example program with `std::rand` returning 0, after `Activate` and two
frames with the speed multiplier 1, at the ticks 1000 and 5000; the second
frame spawns an enemy, at the address 36. -/
def exampleEdgeSpawn : Program :=
  (InGame.activateAndRun (Program.start exampleZeroEnv exampleGame) exampleGame
    [InGame.Call.Step 1 1000, InGame.Call.Step 1 5000]).getD
    (Program.start exampleZeroEnv exampleGame)

namespace Txt

/-- `Txt::Running`. -/
def Running : String := "Running"

/-- `Txt::Stopping`. -/
def Stopping : String := "Stopping"

/-- `Txt::Stopped`. -/
def Stopped : String := "Stopped"

end Txt

/-- The state a lifecycle call is made on. -/
def StateCall.state : StateCall → StateRef
  | StateCall.Activate state _ => state
  | StateCall.Deactivate state => state

namespace Engine

/-- `Engine::Info`. -/
def Info (e : Engine) (logTag logMessage argument : String) : Engine :=
  { e with log := e.log ++ [⟨LogLevel.Info, logTag, logMessage, argument⟩] }

/-- A call a state makes on the engine from inside `Step`, `OnPress` or
`OnRelease`. -/
inductive Request where
  | ChangeState (stateName : String)
  | Stop
deriving DecidableEq, Repr

/-- The engine after a call a state makes on it. -/
def request (e : Engine) : Request → Engine
  | Request.ChangeState stateName => e.ChangeState stateName
  | Request.Stop => e.Stop

/-- The loop of `Engine::Run`.  Each element of `callbacks` is one callback
the loop makes on the current state (`Step`, `OnPress` or `OnRelease`), given
as the engine calls that callback makes; the event `SDL_QUIT`, on which the
loop itself calls `Stop`, is the element `[Stop]`.  The outer and the inner
`while` both test `isRunning` before a callback, and a callback dereferences
`currentState`. -/
def runLoop : Engine → List (List Request) → Option Engine
  | e, [] => some e
  | e, callback :: rest =>
    if e.isRunning then
      match e.currentState with
      | none => none
      | some _ => runLoop (callback.foldl request e) rest
    else some e

/-- `Engine::Run`, for the callbacks the loop makes until it ends or, when
`isRunning` is still set after them, up to that point of the loop.  After the
loop `Run` calls `Deactivate` on the current state. -/
def Run (e : Engine) (initialState : String) (callbacks : List (List Request)) :
    Option Engine :=
  if e.isRunning then some e
  else
    match runLoop
        (ChangeState { e.Info Tag Txt.Running "" with isRunning := true } initialState)
        callbacks with
    | none => none
    | some e1 =>
      if e1.isRunning then some e1
      else
        match e1.currentState with
        | none => none
        | some current =>
          some (((e1.Info Tag Txt.Stopping "").call (StateCall.Deactivate current)).Info Tag
            Txt.Stopped "")

/-- The lifecycle calls made so far, oldest first. -/
def lifecycle (e : Engine) : List StateCall := e.calls.map Prod.fst

/-- The most recent of the calls on the state `s` is an `Activate`. -/
def active (calls : List StateCall) (s : StateRef) : Bool :=
  match (calls.filter (fun c => c.state = s)).getLast? with
  | some (StateCall.Activate _ _) => true
  | _ => false

/-- A sequence of lifecycle calls is well bracketed: before every `Deactivate`
on a state, the most recent call on that state is an `Activate`. -/
def WellBracketed (calls : List StateCall) : Prop :=
  ∀ pre s post, calls = pre ++ StateCall.Deactivate s :: post → active pre s = true

/-- No `ChangeState` follows a `Stop` among the engine calls of a callback. -/
def stopsLast : List Request → Bool
  | [] => true
  | Request.ChangeState _ :: rest => stopsLast rest
  | Request.Stop :: rest => rest.all (fun r => r = Request.Stop)

/-- The invariant of the run loop: the calls so far are well bracketed, and
there is a current state whose most recent call is an `Activate`. -/
def Bracketed (e : Engine) : Prop :=
  WellBracketed e.lifecycle ∧ ∃ c, e.currentState = some c ∧ active e.lifecycle c = true

end Engine

/-- The layer `layerIndex` of the World registers exactly the objects at
`addrs`, in this order (the order of their identifiers): the keys of the layer
are strictly ascending and below the counter, and every registered pointer
holds an object that carries the key as its identifier and `layerIndex` as its
layer index. -/
def LayerHolds (w : World) (h : Heap ℚ) (layerIndex : Nat) (addrs : List Addr) : Prop :=
  ∃ layer, w.layers[layerIndex]? = some layer ∧
    layer.objects.map Prod.snd = addrs ∧
    layer.objects.keys.Pairwise (fun a b => a < b) ∧
    ∀ e ∈ layer.objects, e.1 < w.objectCounter ∧
      ∃ o, h e.2 = some o ∧ o.id = e.1 ∧ o.layerIndex = layerIndex

/-- The tracked clouds `InitializeObjects` registers in the low cloud layer:
those with a distance above 1. -/
def InGame.lowClouds (p : Program) : List Addr :=
  (p.clouds.filter (fun c => decide (c.distance > 1))).map CloudObject.addr

/-- The tracked clouds `InitializeObjects` registers in the high cloud layer:
those with a distance of at most 1. -/
def InGame.highClouds (p : Program) : List Addr :=
  (p.clouds.filter (fun c => !decide (c.distance > 1))).map CloudObject.addr

/-- The objects the tracking lists place in the layer `layerIndex`, for the
layers 1 to 4: the clouds of the layer, the projectiles, and in the ship layer
the member objects `ship` followed by the enemies. -/
def InGame.expected (ship : List Addr) (p : Program) (layerIndex : Nat) : List Addr :=
  if layerIndex = Game.LowCloudsLayer then InGame.lowClouds p
  else if layerIndex = Game.ProjectileLayer then p.projectiles.map ColoredObject.addr
  else if layerIndex = Game.ShipLayer then ship ++ p.enemies.map EnemyObject.addr
  else InGame.highClouds p

/-- The dual bookkeeping of the gameplay state, with the member objects `ship`
registered in the ship layer: each of the layers 1 to 4 registers exactly the
objects the tracking lists place in it, in the order of the lists; the tracked
objects are pairwise distinct, lie above the member objects and below the
allocation frontier. -/
def InGame.BookWith (ship : List Addr) (p : Program) : Prop :=
  (∀ layerIndex, 1 ≤ layerIndex → layerIndex ≤ 4 →
    LayerHolds p.world p.heap layerIndex (InGame.expected ship p layerIndex)) ∧
  (InGame.tracked p).Nodup ∧
  (∀ a ∈ InGame.tracked p, scoreAddr < a ∧ a < p.nextAddr) ∧
  (∀ a ∈ ship, a ≤ scoreAddr) ∧ scoreAddr < p.nextAddr

/-- The dual bookkeeping of the gameplay state while it is active: the low
cloud layer registers the tracked clouds with a distance above 1, the
projectile layer the tracked projectiles, the ship layer the player followed
by the tracked enemies, and the high cloud layer the other tracked clouds. -/
def InGame.Book (p : Program) : Prop := InGame.BookWith [playerAddr] p

/-- A stage from `p` to `q` that is neutral for the bookkeeping: the World and
the tracked objects are the same, the allocation frontier has not moved back,
and every object below the former frontier is live with the same identifier
and layer index. -/
def Program.Neutral (p q : Program) : Prop :=
  q.world = p.world ∧ p.nextAddr ≤ q.nextAddr ∧
  (∀ a o, a < p.nextAddr → p.heap a = some o →
    ∃ o1, q.heap a = some o1 ∧ o1.id = o.id ∧ o1.layerIndex = o.layerIndex) ∧
  q.clouds = p.clouds ∧
  q.enemies.map EnemyObject.addr = p.enemies.map EnemyObject.addr ∧
  q.projectiles.map ColoredObject.addr = p.projectiles.map ColoredObject.addr

/-- The identifier counter has room for the objects one call of the run loop
can register from the state `p`: a `Step` spawns at most one enemy and fires
at most one projectile per enemy, so no `objectCounter++` of the call wraps
around `2 ^ 32`. -/
def InGame.NoWrap (p : Program) : Prop :=
  p.world.objectCounter + p.enemies.length + 2 < uintModulus

/-- The call leaves the gameplay state active: it is not a release of Escape,
on which the state asks the engine for the splash state, unless no state of
that name is registered (the engine then only logs an error). -/
def InGame.staysActive (p : Program) : InGame.Call → Prop
  | InGame.Call.OnRelease key =>
    key = Input.KeyEscape → p.engine.gameStates.lookup Splash.Name = none
  | _ => True

/-- The states of the program that are reachable while the gameplay state is
active: from the state `start`, `Activate` and then any sequence of `Step`,
`OnPress` and `OnRelease` calls that return, each made in a state whose
identifier counter has room for it and none of which leaves the gameplay
state. -/
inductive InGame.Reachable (start : Program) (game : GameInformation) : Program → Prop where
  | activate {q : Program} :
      InGame.Activate start game = some q → InGame.Reachable start game q
  | call {s q : Program} (c : InGame.Call) :
      InGame.Reachable start game s → InGame.NoWrap s → InGame.staysActive s c →
      InGame.call s c = some q → InGame.Reachable start game q

instance InGame.NoWrap.decidable (p : Program) : Decidable (InGame.NoWrap p) := by
  unfold InGame.NoWrap
  infer_instance

/-- A projectile with the object `o` is on the screen:
`-16 < y < targetHeight`. -/
def InGame.inFlight (p : Program) (o : Object ℚ) : Bool :=
  decide (-(InGame.ProjectileHeight : ℚ) < o.position.y ∧
    o.position.y < (p.currentGame.targetHeight : ℚ))

/-- The player's projectile `x`, with the object `o`, hits the enemy `e`: the
enemy has the colour of the projectile and its box overlaps the projectile's. -/
def InGame.hits (p : Program) (x : ColoredObject) (o : Object ℚ) (e : EnemyObject) : Bool :=
  decide (e.color = x.color) &&
    (match p.heap e.addr with
     | some eo => World.CheckCollision eo o
     | none => false)

/-- An enemy's projectile with the object `o` hits the player: their boxes
overlap. -/
def InGame.hitsPlayer (p : Program) (o : Object ℚ) : Bool :=
  match p.heap playerAddr with
  | some player => World.CheckCollision player o
  | none => false

/-- The projectile pass as the specification describes it, on the objects as
they are in the state `p`: the projectiles of the list are examined once each,
in order; `alive` are the enemies not hit so far.  An enemy's projectile
causes a hit when it overlaps the player; a player's projectile causes a hit
on the first enemy alive that it hits, which is then no longer alive.  The
result lists the projectiles that caused no hit and are on the screen. -/
def InGame.survivors (p : Program) : List EnemyObject → List ColoredObject → List ColoredObject
  | _, [] => []
  | alive, x :: rest =>
    match p.heap x.addr with
    | none => InGame.survivors p alive rest
    | some o =>
      if o.type = ObjectType.Enemy then
        if InGame.hitsPlayer p o = true then InGame.survivors p alive rest
        else if InGame.inFlight p o = true then x :: InGame.survivors p alive rest
        else InGame.survivors p alive rest
      else
        match alive.find? (InGame.hits p x o) with
        | some e => InGame.survivors p (alive.erase e) rest
        | none =>
          if InGame.inFlight p o = true then x :: InGame.survivors p alive rest
          else InGame.survivors p alive rest

/-- The example program after `Activate` and a press of the spacebar: the
player's projectile is tracked. -/
def exampleArmed : Program :=
  (InGame.call exampleScene (InGame.Call.OnPress Input.KeySpacebar)).getD exampleScene

/-- The example program after `Activate`, a press of the spacebar and a frame
with the speed multiplier 30, which moves the player's projectile above the
top of the screen. -/
def exampleShot : Program :=
  (InGame.call exampleArmed (InGame.Call.Step 30 100)).getD exampleArmed

/-! ## Lemmas on `std::map` -/

namespace ObjectMap

theorem mem_set_imp {m : ObjectMap} {key : Nat} {value : Addr} {e : Nat × Addr}
    (h : e ∈ m.set key value) : e = (key, value) ∨ e ∈ m := by
  induction m with
  | nil => simpa [set] using h
  | cons a rest ih =>
    obtain ⟨k, v⟩ := a
    simp only [set] at h
    split_ifs at h with h1 h2
    · simpa using h
    · rcases List.mem_cons.mp h with h | h
      · exact Or.inl h
      · exact Or.inr (List.mem_cons_of_mem _ h)
    · rcases List.mem_cons.mp h with h | h
      · exact Or.inr (h ▸ List.mem_cons_self _ _)
      · rcases ih h with h | h
        · exact Or.inl h
        · exact Or.inr (List.mem_cons_of_mem _ h)

theorem mem_set_self (m : ObjectMap) (key : Nat) (value : Addr) :
    (key, value) ∈ m.set key value := by
  induction m with
  | nil => simp [set]
  | cons a rest ih =>
    obtain ⟨k, v⟩ := a
    simp only [set]
    split_ifs with h1 h2
    · exact List.mem_cons_self _ _
    · exact List.mem_cons_self _ _
    · exact List.mem_cons_of_mem _ ih

theorem mem_set_of_ne {m : ObjectMap} {key : Nat} {value : Addr} {e : Nat × Addr}
    (hne : e.1 ≠ key) : e ∈ m.set key value ↔ e ∈ m := by
  induction m with
  | nil =>
    simp only [set, List.mem_singleton, List.not_mem_nil, iff_false]
    intro h
    exact hne (by rw [h])
  | cons a rest ih =>
    obtain ⟨k, v⟩ := a
    have hkey : e ≠ (key, value) := fun h => hne (by rw [h])
    simp only [set]
    split_ifs with h1 h2
    · simp [hkey]
    · subst h2
      have hk : e ≠ (key, v) := fun h => hne (by rw [h])
      simp [hkey, hk]
    · simp only [List.mem_cons, ih]

theorem find_set_self (m : ObjectMap) (key : Nat) (value : Addr) :
    (m.set key value).find key = some value := by
  induction m with
  | nil => simp [set, find, List.lookup]
  | cons a rest ih =>
    obtain ⟨k, v⟩ := a
    simp only [set]
    split_ifs with h1 h2
    · simp [find, List.lookup]
    · simp [find, List.lookup]
    · have hk : (key == k) = false := by simpa using h2
      simpa [find, List.lookup, hk] using ih

theorem find_set_of_ne {m : ObjectMap} {key key1 : Nat} (value : Addr) (hne : key1 ≠ key) :
    (m.set key value).find key1 = m.find key1 := by
  have hk : (key1 == key) = false := by simpa using hne
  induction m with
  | nil => simp [set, find, List.lookup, hk]
  | cons a rest ih =>
    obtain ⟨k, v⟩ := a
    simp only [set]
    split_ifs with h1 h2
    · simp [find, List.lookup, hk]
    · subst h2
      simp [find, List.lookup, hk]
    · simp only [find, List.lookup] at ih ⊢
      rw [ih]

theorem pairwise_set {m : ObjectMap} (key : Nat) (value : Addr)
    (hm : (keys m).Pairwise (fun a b => a < b)) :
    (keys (m.set key value)).Pairwise (fun a b => a < b) := by
  induction m with
  | nil => simp [set, keys]
  | cons a rest ih =>
    obtain ⟨k, v⟩ := a
    simp only [keys, List.map_cons, List.pairwise_cons] at hm
    obtain ⟨hk, hrest⟩ := hm
    simp only [set]
    split_ifs with h1 h2
    · simp only [keys, List.map_cons, List.pairwise_cons]
      refine ⟨?_, hk, hrest⟩
      intro b hb
      rcases List.mem_cons.mp hb with hb | hb
      · exact hb ▸ h1
      · exact Nat.lt_trans h1 (hk b hb)
    · subst h2
      simp only [keys, List.map_cons, List.pairwise_cons]
      exact ⟨hk, hrest⟩
    · simp only [keys, List.map_cons, List.pairwise_cons]
      refine ⟨?_, ih hrest⟩
      intro b hb
      obtain ⟨e, he, rfl⟩ := List.mem_map.mp hb
      rcases mem_set_imp he with he | he
      · rw [he]
        exact Nat.lt_of_le_of_ne (Nat.le_of_not_lt h1) (fun h => h2 h.symm)
      · exact hk e.1 (List.mem_map_of_mem _ he)

theorem mem_erase {m : ObjectMap} {key : Nat} {e : Nat × Addr} :
    e ∈ m.erase key ↔ e ∈ m ∧ e.1 ≠ key := by
  simp [erase, List.mem_filter]

theorem pairwise_erase {m : ObjectMap} (key : Nat)
    (hm : (keys m).Pairwise (fun a b => a < b)) :
    (keys (m.erase key)).Pairwise (fun a b => a < b) :=
  List.Pairwise.sublist (List.Sublist.map _ (List.filter_sublist _)) hm

theorem erase_eq_self {m : ObjectMap} {key : Nat} (h : ∀ e ∈ m, e.1 ≠ key) :
    m.erase key = m := by
  unfold erase
  rw [List.filter_eq_self]
  intro e he
  simpa using h e he

theorem erase_erase (m : ObjectMap) (key : Nat) : (m.erase key).erase key = m.erase key :=
  erase_eq_self (fun _ he => (mem_erase.mp he).2)

theorem find_erase (m : ObjectMap) (key key1 : Nat) :
    (m.erase key).find key1 = if key1 = key then none else m.find key1 := by
  induction m with
  | nil => simp [erase, find, List.lookup]
  | cons a rest ih =>
    obtain ⟨k, v⟩ := a
    simp only [erase, find] at ih ⊢
    by_cases hk : k = key
    · subst hk
      simp only [List.filter_cons, bne_self_eq_false, Bool.false_eq_true, if_false, ih]
      by_cases h1 : key1 = k
      · simp [h1]
      · have : (key1 == k) = false := by simpa using h1
        simp [h1, List.lookup, this]
    · have hb : (k != key) = true := by simpa using hk
      simp only [List.filter_cons, hb, if_true, List.lookup]
      by_cases h1 : key1 = k
      · subst h1
        simp [hk]
      · have : (key1 == k) = false := by simpa using h1
        simp only [this, ih]

/-- In a map with pairwise distinct keys an entry is found under its key. -/
theorem find_of_mem {m : ObjectMap} (hm : (keys m).Pairwise (fun a b => a < b))
    {e : Nat × Addr} (he : e ∈ m) : m.find e.1 = some e.2 := by
  induction m with
  | nil => cases he
  | cons a rest ih =>
    obtain ⟨k, v⟩ := a
    simp only [keys, List.map_cons, List.pairwise_cons] at hm
    rcases List.mem_cons.mp he with he | he
    · subst he
      simp [find, List.lookup]
    · have hlt : k < e.1 := hm.1 e.1 (List.mem_map_of_mem _ he)
      have hk : (e.1 == k) = false := by simpa using (Nat.ne_of_gt hlt)
      simpa [find, List.lookup, hk] using ih hm.2 he

theorem mem_of_find {m : ObjectMap} {key : Nat} {p : Addr} (h : m.find key = some p) :
    (key, p) ∈ m := by
  induction m with
  | nil => simp [find, List.lookup] at h
  | cons a rest ih =>
    obtain ⟨k, v⟩ := a
    by_cases hk : key = k
    · subst hk
      simp [find, List.lookup] at h
      simp [h]
    · have hb : (key == k) = false := by simpa using hk
      simp only [find, List.lookup, hb] at h
      exact List.mem_cons_of_mem _ (ih h)

end ObjectMap

/-! ## Lemmas on the World operations -/

theorem mem_modify_imp {α : Type} {f : α → α} {l : List α} {i : Nat} {a : α}
    (h : a ∈ l.modify f i) : a ∈ l ∨ ∃ b ∈ l, a = f b := by
  rw [List.mem_iff_getElem?] at h
  obtain ⟨n, hn⟩ := h
  rw [List.getElem?_modify] at hn
  cases hl : l[n]? with
  | none => simp [hl] at hn
  | some b =>
    have hb : b ∈ l := List.mem_iff_getElem?.mpr ⟨n, hl⟩
    simp only [hl, Option.map_eq_map, Option.map_some', Option.some.injEq] at hn
    split_ifs at hn with hi
    · exact Or.inr ⟨b, hb, hn.symm⟩
    · exact Or.inl (hn ▸ hb)

namespace World

theorem AddObject_of_ge {F : Type} {w : World} {h : Heap F} {layerIndex : Nat}
    (object : Option Addr) (hli : layerIndex ≥ w.layers.length) :
    w.AddObject h layerIndex object = some (w, h) := by
  simp [AddObject, hli]

theorem AddObject_of_lt {F : Type} {w : World} {h : Heap F} {layerIndex : Nat} {p : Addr}
    {o : Object F} (hli : layerIndex < w.layers.length) (hp : h p = some o) :
    w.AddObject h layerIndex (some p) =
      some ({ layers := w.layers.modify
                (fun l => { l with objects := l.objects.set w.objectCounter p }) layerIndex,
              objectCounter := (w.objectCounter + 1) % uintModulus },
            Function.update h p (some { o with id := w.objectCounter, layerIndex := layerIndex })) := by
  simp [AddObject, Nat.not_le.mpr hli, hp]

theorem AddObject_some_inv {F : Type} {w w1 : World} {h h1 : Heap F} {layerIndex : Nat}
    {object : Option Addr} (hli : layerIndex < w.layers.length)
    (hadd : w.AddObject h layerIndex object = some (w1, h1)) :
    ∃ p o, object = some p ∧ h p = some o ∧
      w1 = { layers := w.layers.modify
               (fun l => { l with objects := l.objects.set w.objectCounter p }) layerIndex,
             objectCounter := (w.objectCounter + 1) % uintModulus } ∧
      h1 = Function.update h p (some { o with id := w.objectCounter, layerIndex := layerIndex }) := by
  cases object with
  | none => simp [AddObject, Nat.not_le.mpr hli] at hadd
  | some p =>
    cases hp : h p with
    | none => simp [AddObject, Nat.not_le.mpr hli, hp] at hadd
    | some o =>
      rw [AddObject_of_lt hli hp] at hadd
      simp only [Option.some.injEq, Prod.mk.injEq] at hadd
      exact ⟨p, o, rfl, hp, hadd.1.symm, hadd.2.symm⟩

theorem RemoveObject_some_inv {F : Type} {w w1 : World} {h : Heap F} {p : Addr}
    (hrem : w.RemoveObject h (some p) = some w1) :
    ∃ o, h p = some o ∧ o.layerIndex < w.layers.length ∧
      w1 = { w with layers := (w.layers.modify
               (fun l => { l with objects := l.objects.erase o.id }) o.layerIndex) } := by
  cases hp : h p with
  | none => simp [RemoveObject, hp] at hrem
  | some o =>
    by_cases hli : o.layerIndex < w.layers.length
    · simp only [RemoveObject, hp, hli, if_true, Option.some.injEq] at hrem
      exact ⟨o, rfl, hli, hrem.symm⟩
    · simp [RemoveObject, hp, hli] at hrem

end World

theorem WorldInv_init {F : Type} (numberOfLayers : Nat) (h : Heap F) :
    WorldInv (World.static.Initialize numberOfLayers).1 h := by
  intro layer hl
  simp only [World.Initialize, World.static, List.nil_append] at hl
  rw [List.eq_of_mem_replicate hl]
  simp [Layer.new, ObjectMap.keys]

theorem WorldInv_clear {F : Type} (w : World) (h : Heap F) : WorldInv w.Clear h := by
  intro layer hl
  simp only [World.Clear, List.mem_map] at hl
  obtain ⟨_, _, rfl⟩ := hl
  simp [ObjectMap.keys]

theorem WorldInv_add {F : Type} {w w1 : World} {h h1 : Heap F} {layerIndex : Nat}
    {object : Option Addr} (hinv : WorldInv w h)
    (hwrap : layerIndex < w.layers.length → w.objectCounter + 1 < uintModulus)
    (hadd : w.AddObject h layerIndex object = some (w1, h1)) : WorldInv w1 h1 := by
  by_cases hli : layerIndex < w.layers.length
  · obtain ⟨p, o, _, hp, rfl, rfl⟩ := World.AddObject_some_inv hli hadd
    have hc : (w.objectCounter + 1) % uintModulus = w.objectCounter + 1 :=
      Nat.mod_eq_of_lt (hwrap hli)
    have hheap : ∀ q : Addr, (∃ o1, h q = some o1 ∧ o1.id < w.objectCounter) →
        ∃ o1, Function.update h p (some { o with id := w.objectCounter, layerIndex := layerIndex }) q
          = some o1 ∧ o1.id < w.objectCounter + 1 := by
      intro q hq
      by_cases hqp : q = p
      · subst hqp
        exact ⟨_, Function.update_same _ _ _, Nat.lt_succ_self _⟩
      · obtain ⟨o1, ho1, hid⟩ := hq
        exact ⟨o1, by simp [Function.update, hqp, ho1], Nat.lt_succ_of_lt hid⟩
    intro layer1 hl1
    simp only [hc]
    rcases mem_modify_imp hl1 with hl | ⟨layer, hl, rfl⟩
    · refine ⟨(hinv layer1 hl).1, ?_⟩
      intro e he
      exact ⟨Nat.lt_succ_of_lt ((hinv layer1 hl).2 e he).1, hheap e.2 ((hinv layer1 hl).2 e he).2⟩
    · refine ⟨ObjectMap.pairwise_set _ _ (hinv layer hl).1, ?_⟩
      intro e he
      rcases ObjectMap.mem_set_imp he with he | he
      · subst he
        exact ⟨Nat.lt_succ_self _, ⟨_, Function.update_same _ _ _, Nat.lt_succ_self _⟩⟩
      · exact ⟨Nat.lt_succ_of_lt ((hinv layer hl).2 e he).1, hheap e.2 ((hinv layer hl).2 e he).2⟩
  · rw [World.AddObject_of_ge object (Nat.le_of_not_lt hli)] at hadd
    simp only [Option.some.injEq, Prod.mk.injEq] at hadd
    rw [← hadd.1, ← hadd.2]
    exact hinv

theorem WorldInv_remove {F : Type} {w w1 : World} {h : Heap F} {object : Option Addr}
    (hinv : WorldInv w h) (hrem : w.RemoveObject h object = some w1) : WorldInv w1 h := by
  cases object with
  | none =>
    simp only [World.RemoveObject, Option.some.injEq] at hrem
    exact hrem ▸ hinv
  | some p =>
    obtain ⟨o, _, _, rfl⟩ := World.RemoveObject_some_inv hrem
    intro layer1 hl1
    rcases mem_modify_imp hl1 with hl | ⟨layer, hl, rfl⟩
    · exact hinv layer1 hl
    · refine ⟨ObjectMap.pairwise_erase _ (hinv layer hl).1, ?_⟩
      intro e he
      exact (hinv layer hl).2 e (ObjectMap.mem_erase.mp he).1

theorem WorldInv_steps {F : Type} {allowClear : Bool} {s t : World × Heap F}
    (hsteps : Steps allowClear s t) (hinv : WorldInv s.1 s.2) : WorldInv t.1 t.2 := by
  induction hsteps with
  | start => exact hinv
  | add layerIndex object _ hwrap hadd ih => exact WorldInv_add ih hwrap hadd
  | remove object _ hrem ih => exact WorldInv_remove ih hrem
  | clear _ _ _ => exact WorldInv_clear _ _

/-! ## CheckCollision -/

/-- C1: `CheckCollision` is symmetric: for every pair of objects, whatever
their positions and sizes, `CheckCollision a b = CheckCollision b a`.  It
holds for any scalar type, since only the order of the conjuncts changes. -/
theorem CheckCollision_symmetric {F : Type} [Add F] [LT F]
    [DecidableRel (fun a b : F => a < b)] (a b : Object F) :
    World.CheckCollision a b = World.CheckCollision b a := by
  unfold World.CheckCollision
  simp only [gt_iff_lt]
  cases decide (b.position.x < a.position.x + a.size.x) <;>
  cases decide (a.position.x < b.position.x + b.size.x) <;>
  cases decide (b.position.y < a.position.y + a.size.y) <;>
  cases decide (a.position.y < b.position.y + b.size.y) <;> rfl

/-- C2: the four comparisons of `CheckCollision` are strict, so two boxes that
only touch at an edge (`a.x + a.w = b.x`, or `b.x + b.w = a.x`, or the same on
y) do not collide.  Only the irreflexivity of `<` on the scalars is used. -/
theorem CheckCollision_touching_false {F : Type} [Add F] [LT F]
    [DecidableRel (fun a b : F => a < b)] [IsIrrefl F (fun a b => a < b)]
    (a b : Object F) (h : touchAtEdge a b) : World.CheckCollision a b = false := by
  have irr : ∀ x : F, ¬ x < x := fun x => IsIrrefl.irrefl (r := fun a b : F => a < b) x
  unfold World.CheckCollision
  simp only [gt_iff_lt]
  rcases h with h | h | h | h
  · have : ¬ b.position.x < a.position.x + a.size.x := by rw [h]; exact irr _
    simp [this]
  · have : ¬ a.position.x < b.position.x + b.size.x := by rw [h]; exact irr _
    simp [this]
  · have : ¬ b.position.y < a.position.y + a.size.y := by rw [h]; exact irr _
    simp [this]
  · have : ¬ a.position.y < b.position.y + b.size.y := by rw [h]; exact irr _
    simp [this]

/-- The example of C2 over the rationals: `a = {0,0,10,10}` and
`b = {10,0,10,10}` touch and do not collide, and `b` moved to `x = 9` collides. -/
theorem CheckCollision_touching_false_witness :
    touchAtEdge (boxObject (0 : ℚ) 0 10 10) (boxObject 10 0 10 10) ∧
    World.CheckCollision (boxObject (0 : ℚ) 0 10 10) (boxObject 10 0 10 10) = false ∧
    World.CheckCollision (boxObject (0 : ℚ) 0 10 10) (boxObject 9 0 10 10) = true :=
  ⟨Or.inl (by simp [boxObject]),
   CheckCollision_touching_false _ _ (Or.inl (by simp [boxObject])),
   by simp [World.CheckCollision, boxObject]; norm_num⟩

/-! ## Object identifiers -/

/-- C3: identifiers are never reused while the original object is registered.
In every state reached from an initialized World by `AddObject`,
`RemoveObject` and `Clear` calls without the counter wrapping around `2 ^ 32`,
the keys of each layer are pairwise distinct, and the identifier that a further
`AddObject` assigns differs from every key of every layer and from the `id` of
every registered object; the call keeps every entry that was there, so it
overwrites none. -/
theorem AddObject_identifier_fresh {F : Type} (numberOfLayers : Nat) (h0 : Heap F)
    (w : World) (h : Heap F)
    (hreach : Steps true ((World.static.Initialize numberOfLayers).1, h0) (w, h)) :
    (∀ layer ∈ w.layers, layer.objects.keys.Nodup) ∧
    ∀ (layerIndex : Nat) (p : Addr) (w1 : World) (h1 : Heap F),
      layerIndex < w.layers.length →
      w.AddObject h layerIndex (some p) = some (w1, h1) →
      ∃ o1, h1 p = some o1 ∧ o1.id = w.objectCounter ∧
        (∀ layer ∈ w.layers, ∀ e ∈ layer.objects,
          e.1 ≠ o1.id ∧ ∀ o, h e.2 = some o → o.id ≠ o1.id) ∧
        (∀ (i : Nat) (layer : Layer), w.layers[i]? = some layer →
          ∃ layer1 : Layer, w1.layers[i]? = some layer1 ∧
            ∀ e ∈ layer.objects, e ∈ layer1.objects) := by
  have hinv : WorldInv w h := WorldInv_steps hreach (WorldInv_init numberOfLayers h0)
  refine ⟨fun layer hl => List.Pairwise.imp (fun hab => Nat.ne_of_lt hab) (hinv layer hl).1, ?_⟩
  intro layerIndex p w1 h1 hli hadd
  obtain ⟨p1, o, hobj, _, rfl, rfl⟩ := World.AddObject_some_inv hli hadd
  obtain rfl : p = p1 := Option.some.inj hobj
  refine ⟨_, Function.update_same _ _ _, rfl, ?_, ?_⟩
  · intro layer hl e he
    obtain ⟨hkey, o2, ho2, hid⟩ := (hinv layer hl).2 e he
    refine ⟨Nat.ne_of_lt hkey, ?_⟩
    intro o3 ho3
    rw [ho2] at ho3
    obtain rfl := Option.some.inj ho3
    exact Nat.ne_of_lt hid
  · intro i layer hi
    have hl : layer ∈ w.layers := List.mem_iff_getElem?.mpr ⟨i, hi⟩
    simp only [List.getElem?_modify, hi, Option.map_eq_map, Option.map_some']
    refine ⟨_, rfl, ?_⟩
    intro e he
    split_ifs
    · exact (ObjectMap.mem_set_of_ne (Nat.ne_of_lt ((hinv layer hl).2 e he).1)).mpr he
    · exact he

/-- After `AddObject(0, 1)` on a fresh two-layer world the keys are distinct. -/
theorem AddObject_identifier_fresh_witness :
    Steps true ((World.static.Initialize 2).1, exampleHeap) (exampleWorld1, exampleHeap1) ∧
    ∀ layer ∈ exampleWorld1.layers, layer.objects.keys.Nodup :=
  have hsteps : Steps true ((World.static.Initialize 2).1, exampleHeap)
      (exampleWorld1, exampleHeap1) :=
    Steps.add 0 (some 1) (Steps.start _) (fun _ => by decide) rfl
  ⟨hsteps, (AddObject_identifier_fresh 2 exampleHeap exampleWorld1 exampleHeap1 hsteps).1⟩

theorem Steps_counter_le {F : Type} {s t : World × Heap F} (hsteps : Steps false s t) :
    s.1.objectCounter ≤ t.1.objectCounter := by
  induction hsteps with
  | start => exact Nat.le_refl _
  | @add w w1 h h1 layerIndex object _ hwrap hadd ih =>
    by_cases hli : layerIndex < w.layers.length
    · obtain ⟨p, o, _, _, rfl, rfl⟩ := World.AddObject_some_inv hli hadd
      have hc : (w.objectCounter + 1) % uintModulus = w.objectCounter + 1 :=
        Nat.mod_eq_of_lt (hwrap hli)
      simp only [hc]
      exact Nat.le_succ_of_le ih
    · rw [World.AddObject_of_ge object (Nat.le_of_not_lt hli)] at hadd
      simp only [Option.some.injEq, Prod.mk.injEq] at hadd
      rw [← hadd.1]
      exact ih
  | @remove w w1 h object _ hrem ih =>
    cases object with
    | none =>
      simp only [World.RemoveObject, Option.some.injEq] at hrem
      exact hrem ▸ ih
    | some p =>
      obtain ⟨o, _, _, rfl⟩ := World.RemoveObject_some_inv hrem
      exact ih
  | clear hc _ _ => cases hc

/-- C4, as the code has it: `Clear` sets `objectCounter` back to 0, and here
`AddObject`, `Clear`, `AddObject` on a fresh two-layer world hands out the
identifier 0 twice, so the second identifier is not greater than the first. -/
theorem AddObject_identifier_repeats_after_Clear :
    exampleWorld.AddObject exampleHeap 0 (some 1) = some (exampleWorld1, exampleHeap1) ∧
    Option.map Object.id (exampleHeap1 1) = some 0 ∧
    exampleWorld1.Clear.objectCounter = 0 ∧
    exampleWorld1.Clear.AddObject exampleHeap1 0 (some 2) = some (exampleWorld2, exampleHeap2) ∧
    Option.map Object.id (exampleHeap2 2) = some 0 :=
  ⟨rfl, rfl, rfl, rfl, rfl⟩

/-- C4, amended: between two `Clear` calls the identifier counter increases.
After an `AddObject` that assigned an identifier, any sequence of `AddObject`
and `RemoveObject` calls without `Clear` (and without the counter wrapping
around `2 ^ 32`) leads to a state in which the next `AddObject` assigns a
strictly greater identifier; `Clear` puts the counter back to 0. -/
theorem AddObject_identifier_increases_without_Clear {F : Type} (w w1 w2 w3 : World)
    (h h1 h2 h3 : Heap F) (layerIndex layerIndex2 : Nat) (p p2 : Addr)
    (hli : layerIndex < w.layers.length) (hwrap : w.objectCounter + 1 < uintModulus)
    (hadd : w.AddObject h layerIndex (some p) = some (w1, h1))
    (hsteps : Steps false (w1, h1) (w2, h2))
    (hli2 : layerIndex2 < w2.layers.length)
    (hadd2 : w2.AddObject h2 layerIndex2 (some p2) = some (w3, h3)) :
    (∃ o1 o3, h1 p = some o1 ∧ h3 p2 = some o3 ∧ o1.id = w.objectCounter ∧
      o3.id = w2.objectCounter ∧ o1.id < o3.id) ∧
    w3.Clear.objectCounter = 0 := by
  have hle : w1.objectCounter ≤ w2.objectCounter := Steps_counter_le hsteps
  obtain ⟨q, o, hobj, _, rfl, rfl⟩ := World.AddObject_some_inv hli hadd
  obtain rfl : p = q := Option.some.inj hobj
  obtain ⟨q2, o2, hobj2, _, rfl, rfl⟩ := World.AddObject_some_inv hli2 hadd2
  obtain rfl : p2 = q2 := Option.some.inj hobj2
  have hc : (w.objectCounter + 1) % uintModulus = w.objectCounter + 1 :=
    Nat.mod_eq_of_lt hwrap
  simp only [hc] at hle
  exact ⟨⟨_, _, Function.update_same _ _ _, Function.update_same _ _ _, rfl, rfl, hle⟩, rfl⟩

/-- On a fresh two-layer world `AddObject(0, 1)` assigns 0 and the following
`AddObject(1, 2)` assigns 1. -/
theorem AddObject_identifier_increases_without_Clear_witness :
    exampleWorld.AddObject exampleHeap 0 (some 1) = some (exampleWorld1, exampleHeap1) ∧
    exampleWorld1.AddObject exampleHeap1 1 (some 2) = some (exampleWorld3, exampleHeap3) ∧
    ((∃ o1 o3, exampleHeap1 1 = some o1 ∧ exampleHeap3 2 = some o3 ∧
      o1.id = exampleWorld.objectCounter ∧ o3.id = exampleWorld1.objectCounter ∧
      o1.id < o3.id) ∧
    exampleWorld3.Clear.objectCounter = 0) :=
  ⟨rfl, rfl,
   AddObject_identifier_increases_without_Clear exampleWorld exampleWorld1 exampleWorld1
     exampleWorld3 exampleHeap exampleHeap1 exampleHeap1 exampleHeap3 0 1 1 2
     (by decide) (by decide) rfl (Steps.start _) (by decide) rfl⟩

/-! ## AddObject and SetLayerBackground -/

/-- C5: for a layer index below the layer count, `AddObject(layerIndex, o)`
sets `o.id` to the counter's value before the call and `o.layerIndex` to
`layerIndex` (no other field of `o`, no other object), increases the counter
by one (as a `uint`: modulo `2 ^ 32`), makes layer `layerIndex` map `o.id` to
`o`, and leaves the layer count, every other layer, every background and every
other entry of that layer unchanged. -/
theorem AddObject_in_range {F : Type} (w : World) (h : Heap F) (layerIndex : Nat) (p : Addr)
    (o : Object F) (hli : layerIndex < w.layers.length) (hp : h p = some o) :
    ∃ (w1 : World) (h1 : Heap F), w.AddObject h layerIndex (some p) = some (w1, h1) ∧
      h1 p = some { o with id := w.objectCounter, layerIndex := layerIndex } ∧
      (∀ q, q ≠ p → h1 q = h q) ∧
      w1.objectCounter = (w.objectCounter + 1) % uintModulus ∧
      (w.objectCounter + 1 < uintModulus → w1.objectCounter = w.objectCounter + 1) ∧
      w1.layers.length = w.layers.length ∧
      (∀ i, i ≠ layerIndex → w1.layers[i]? = w.layers[i]?) ∧
      ∃ layer layer1 : Layer, w.layers[layerIndex]? = some layer ∧
        w1.layers[layerIndex]? = some layer1 ∧
        layer1.background = layer.background ∧
        layer1.objects.find w.objectCounter = some p ∧
        (∀ key, key ≠ w.objectCounter → layer1.objects.find key = layer.objects.find key) ∧
        (∀ e : Nat × Addr, e.1 ≠ w.objectCounter →
          (e ∈ layer1.objects ↔ e ∈ layer.objects)) := by
  refine ⟨_, _, World.AddObject_of_lt hli hp, Function.update_same _ _ _, ?_, rfl, ?_, ?_, ?_, ?_⟩
  · intro q hq
    exact Function.update_noteq hq _ _
  · intro hwrap
    exact Nat.mod_eq_of_lt hwrap
  · simp
  · intro i hi
    exact List.getElem?_modify_ne _ _ (Ne.symm hi)
  · refine ⟨w.layers[layerIndex],
      { background := w.layers[layerIndex].background,
        objects := w.layers[layerIndex].objects.set w.objectCounter p },
      List.getElem?_eq_getElem hli, ?_, rfl, ?_, ?_, ?_⟩
    · simp [List.getElem?_modify_eq, List.getElem?_eq_getElem hli]
    · exact ObjectMap.find_set_self _ _ _
    · intro key hkey
      exact ObjectMap.find_set_of_ne _ hkey
    · intro e he
      exact ObjectMap.mem_set_of_ne he

/-- `AddObject(1, 2)` after `AddObject(0, 1)`: the object at 2 gets identifier 1. -/
theorem AddObject_in_range_witness :
    ∃ (w1 : World) (h1 : Heap ℚ), exampleWorld1.AddObject exampleHeap1 1 (some 2) = some (w1, h1) ∧
      h1 2 = some { boxObject 10 0 10 10 with id := exampleWorld1.objectCounter, layerIndex := 1 } ∧
      (∀ q, q ≠ 2 → h1 q = exampleHeap1 q) ∧
      w1.objectCounter = (exampleWorld1.objectCounter + 1) % uintModulus ∧
      (exampleWorld1.objectCounter + 1 < uintModulus →
        w1.objectCounter = exampleWorld1.objectCounter + 1) ∧
      w1.layers.length = exampleWorld1.layers.length ∧
      (∀ i, i ≠ 1 → w1.layers[i]? = exampleWorld1.layers[i]?) ∧
      ∃ layer layer1 : Layer, exampleWorld1.layers[1]? = some layer ∧
        w1.layers[1]? = some layer1 ∧
        layer1.background = layer.background ∧
        layer1.objects.find exampleWorld1.objectCounter = some 2 ∧
        (∀ key, key ≠ exampleWorld1.objectCounter →
          layer1.objects.find key = layer.objects.find key) ∧
        (∀ e : Nat × Addr, e.1 ≠ exampleWorld1.objectCounter →
          (e ∈ layer1.objects ↔ e ∈ layer.objects)) :=
  AddObject_in_range exampleWorld1 exampleHeap1 1 2 (boxObject 10 0 10 10) (by decide) rfl

/-- C6: out-of-range layer indices are silently ignored.  For a layer index
greater than or equal to the layer count, `AddObject` leaves the World and the
object memory (so the object's `id` and `layerIndex`) unchanged, whatever the
pointer, and `SetLayerBackground` leaves the World unchanged. -/
theorem out_of_range_layer_ignored {F : Type} (w : World) (h : Heap F) (layerIndex : Nat)
    (object : Option Addr) (image : Option ImageRef) (hli : layerIndex ≥ w.layers.length) :
    w.AddObject h layerIndex object = some (w, h) ∧
    w.SetLayerBackground layerIndex image = w := by
  refine ⟨World.AddObject_of_ge object hli, ?_⟩
  simp [World.SetLayerBackground, hli]

/-- Layer 2 does not exist in a two-layer world. -/
theorem out_of_range_layer_ignored_witness :
    2 ≥ exampleWorld1.layers.length ∧
    exampleWorld1.AddObject exampleHeap1 2 (some 2) = some (exampleWorld1, exampleHeap1) ∧
    exampleWorld1.SetLayerBackground 2 (some 7) = exampleWorld1 :=
  ⟨by decide, out_of_range_layer_ignored exampleWorld1 exampleHeap1 2 (some 2) (some 7) (by decide)⟩

/-! ## RemoveObject -/

theorem ObjectMap.value_unique {m : ObjectMap} (hm : m.keys.Nodup) {key : Nat} {a b : Addr}
    (ha : (key, a) ∈ m) (hb : (key, b) ∈ m) : a = b := by
  induction m with
  | nil => cases ha
  | cons x rest ih =>
    simp only [ObjectMap.keys, List.map_cons, List.nodup_cons] at hm
    rcases List.mem_cons.mp ha with ha1 | ha1
    · rcases List.mem_cons.mp hb with hb1 | hb1
      · rw [← ha1] at hb1
        exact (Prod.mk.inj hb1).2.symm
      · rw [← ha1] at hm
        exact absurd (List.mem_map_of_mem Prod.fst hb1) hm.1
    · rcases List.mem_cons.mp hb with hb1 | hb1
      · rw [← hb1] at hm
        exact absurd (List.mem_map_of_mem Prod.fst ha1) hm.1
      · exact ih hm.2 ha1 hb1

/-- What an `AddObject` of an object held by no layer leaves: the object
records the identifier and the layer of its one entry. -/
theorem World.AddObject_registers_once {F : Type} {w w1 : World} {h h1 : Heap F}
    {layerIndex : Nat} {p : Addr} (hinv : WorldInv w h) (hfresh : InNoLayer w p)
    (hli : layerIndex < w.layers.length)
    (hadd : w.AddObject h layerIndex (some p) = some (w1, h1)) :
    ∃ (o : Object F) (layer : Layer), h1 p = some o ∧ w1.layers[o.layerIndex]? = some layer ∧
      layer.objects.keys.Nodup ∧ (o.id, p) ∈ layer.objects ∧
      ∀ (i : Nat) (l : Layer) (e : Nat × Addr), w1.layers[i]? = some l → e ∈ l.objects →
        e.2 = p → i = o.layerIndex ∧ e.1 = o.id := by
  obtain ⟨q, o, hobj, hp, rfl, rfl⟩ := World.AddObject_some_inv hli hadd
  obtain rfl : p = q := Option.some.inj hobj
  obtain ⟨layer, hlayer⟩ : ∃ layer, w.layers[layerIndex]? = some layer :=
    ⟨_, List.getElem?_eq_getElem hli⟩
  have hmem : layer ∈ w.layers := List.mem_iff_getElem?.mpr ⟨_, hlayer⟩
  refine ⟨_, { layer with objects := layer.objects.set w.objectCounter p },
    Function.update_same _ _ _, ?_, ?_, ObjectMap.mem_set_self _ _ _, ?_⟩
  · simp [List.getElem?_modify, hlayer]
  · exact List.Pairwise.imp (fun hab => Nat.ne_of_lt hab)
      (ObjectMap.pairwise_set _ _ (hinv layer hmem).1)
  · intro i l e hl he hep
    simp only [List.getElem?_modify] at hl
    cases hwi : w.layers[i]? with
    | none => simp [hwi] at hl
    | some l0 =>
      have hl0 : l0 ∈ w.layers := List.mem_iff_getElem?.mpr ⟨_, hwi⟩
      simp only [hwi, Option.map_eq_map, Option.map_some', Option.some.injEq] at hl
      split_ifs at hl with heq
      · subst hl
        rcases ObjectMap.mem_set_imp he with he1 | he1
        · exact ⟨heq.symm, by rw [he1]⟩
        · exact absurd hep (hfresh l0 hl0 e he1)
      · subst hl
        exact absurd hep (hfresh l0 hl0 e he)

/-- C7, as the code has it: `RemoveObject` erases one key of one layer, the
key `id` of the layer `layerIndex` that the object records.  After `AddObject(0, 1)`,
`AddObject(1, 1)` on a fresh two-layer world both layers hold the object 1,
which records its second registration; `RemoveObject(1)` erases that one, and
layer 0 still holds the object.  After `AddObject(0, 1)`, `Clear`,
`AddObject(0, 2)` the object 1 still records the identifier 0 of layer 0, now
the key of the object 2; `RemoveObject(1)` erases the entry of the object 2. -/
theorem RemoveObject_erases_recorded_key_only :
    exampleWorld.AddObject exampleHeap 0 (some 1) = some (exampleWorld1, exampleHeap1) ∧
    exampleWorld1.AddObject exampleHeap1 1 (some 1) = some (exampleWorld4, exampleHeap4) ∧
    exampleWorld4.RemoveObject exampleHeap4 (some 1) =
      some { layers := [{ background := none, objects := [(0, 1)] }, Layer.new],
             objectCounter := 2 } ∧
    (∃ w1 : World, exampleWorld4.RemoveObject exampleHeap4 (some 1) = some w1 ∧
      ¬ InNoLayer w1 1) ∧
    exampleWorld1.Clear.AddObject exampleHeap1 0 (some 2) = some (exampleWorld2, exampleHeap2) ∧
    exampleWorld2.layers = [{ background := none, objects := [(0, 2)] }, Layer.new] ∧
    exampleWorld2.RemoveObject exampleHeap2 (some 1) =
      some { layers := [Layer.new, Layer.new], objectCounter := 1 } :=
  ⟨rfl, rfl, rfl,
   ⟨_, rfl, fun hno => hno { background := none, objects := [(0, 1)] }
     (List.mem_cons_self _ _) (0, 1) (List.mem_singleton.mpr rfl) rfl⟩,
   rfl, rfl, rfl⟩

/-- C7, amended: `RemoveObject` removes exactly an object that is registered
once, where it records.  `RemoveObject(NULL)` leaves the World unchanged.  For
an object `o` that the layer `o.layerIndex` holds under the key `o.id` (in a
map with distinct keys) and to which no other entry of any layer points,
`RemoveObject(o)` leaves `o` in no layer and keeps the layer count, the
counter, every background and every entry of every other object; a second
`RemoveObject(o)` changes nothing. -/
theorem RemoveObject_removes_exactly {F : Type} (w : World) (h : Heap F) (p : Addr)
    (o : Object F) (layer : Layer)
    (hp : h p = some o)
    (hlayer : w.layers[o.layerIndex]? = some layer)
    (hkeys : layer.objects.keys.Nodup)
    (hreg : (o.id, p) ∈ layer.objects)
    (honly : ∀ (i : Nat) (l : Layer) (e : Nat × Addr), w.layers[i]? = some l → e ∈ l.objects →
      e.2 = p → i = o.layerIndex ∧ e.1 = o.id) :
    w.RemoveObject h none = some w ∧
    ∃ w1 : World, w.RemoveObject h (some p) = some w1 ∧
      InNoLayer w1 p ∧
      w1.layers.length = w.layers.length ∧
      w1.objectCounter = w.objectCounter ∧
      (∀ (i : Nat) (l : Layer), w.layers[i]? = some l →
        ∃ l1 : Layer, w1.layers[i]? = some l1 ∧ l1.background = l.background ∧
          ∀ e : Nat × Addr, e.2 ≠ p → (e ∈ l1.objects ↔ e ∈ l.objects)) ∧
      w1.RemoveObject h (some p) = some w1 := by
  have hli : o.layerIndex < w.layers.length := (List.getElem?_eq_some.mp hlayer).1
  have hrem : w.RemoveObject h (some p) = some { w with layers := (w.layers.modify
      (fun l => { l with objects := l.objects.erase o.id }) o.layerIndex) } := by
    simp only [World.RemoveObject, hp, hli, if_true]
  refine ⟨rfl, _, hrem, ?_, ?_, rfl, ?_, ?_⟩
  · intro l1 hl1 e he hep
    obtain ⟨i, hi⟩ := List.mem_iff_getElem?.mp hl1
    simp only [List.getElem?_modify] at hi
    cases hwi : w.layers[i]? with
    | none => simp [hwi] at hi
    | some l =>
      simp only [hwi, Option.map_eq_map, Option.map_some', Option.some.injEq] at hi
      split_ifs at hi with heq
      · subst hi
        obtain ⟨hmem, hne⟩ := ObjectMap.mem_erase.mp he
        exact hne (honly i l e hwi hmem hep).2
      · subst hi
        exact heq (honly i l e hwi he hep).1.symm
  · simp
  · intro i l hi
    simp only [List.getElem?_modify, hi, Option.map_eq_map, Option.map_some']
    refine ⟨_, rfl, ?_, ?_⟩
    · split_ifs <;> rfl
    · intro e hep
      split_ifs with heq
      · subst heq
        rw [hlayer] at hi
        obtain rfl := Option.some.inj hi
        simp only [ObjectMap.mem_erase, and_iff_left_iff_imp]
        intro he hkey
        have he1 : (o.id, e.2) ∈ layer.objects := by
          rw [← hkey]
          exact he
        exact hep (ObjectMap.value_unique hkeys he1 hreg)
      · rfl
  · simp only [World.RemoveObject, hp, List.length_modify, hli, if_true, List.modify_modify_eq]
    have hf : ((fun l : Layer => { l with objects := l.objects.erase o.id }) ∘
        (fun l : Layer => { l with objects := l.objects.erase o.id })) =
        (fun l : Layer => { l with objects := l.objects.erase o.id }) := by
      funext l
      simp [Function.comp, ObjectMap.erase_erase]
    rw [hf]

/-- In the world with object 1 in layer 0 and object 2 in layer 1, removing
object 1 leaves it in no layer. -/
theorem RemoveObject_removes_exactly_witness :
    exampleWorld3.RemoveObject exampleHeap3 none = some exampleWorld3 ∧
    ∃ w1 : World, exampleWorld3.RemoveObject exampleHeap3 (some 1) = some w1 ∧
      InNoLayer w1 1 ∧
      w1.layers.length = exampleWorld3.layers.length ∧
      w1.objectCounter = exampleWorld3.objectCounter ∧
      (∀ (i : Nat) (l : Layer), exampleWorld3.layers[i]? = some l →
        ∃ l1 : Layer, w1.layers[i]? = some l1 ∧ l1.background = l.background ∧
          ∀ e : Nat × Addr, e.2 ≠ 1 → (e ∈ l1.objects ↔ e ∈ l.objects)) ∧
      w1.RemoveObject exampleHeap3 (some 1) = some w1 :=
  RemoveObject_removes_exactly exampleWorld3 exampleHeap3 1
    { boxObject 0 0 10 10 with id := 0, layerIndex := 0 }
    { background := none, objects := [(0, 1)] } rfl rfl (by decide) (by decide)
    (by
      intro i l e hl he hep
      match i, hl with
      | 0, hl =>
        obtain rfl : l = { background := none, objects := [(0, 1)] } := (Option.some.inj hl).symm
        simp only [List.mem_singleton] at he
        subst he
        exact ⟨rfl, rfl⟩
      | 1, hl =>
        obtain rfl : l = { background := none, objects := [(1, 2)] } := (Option.some.inj hl).symm
        simp only [List.mem_singleton] at he
        subst he
        cases hep
      | n + 2, hl => cases hl)

/-! ## Clear -/

theorem World.renderLayers_cleared {F : Type} (h : Heap F) (layers : List Layer) :
    World.renderLayers h (layers.map (fun _ => { background := none, objects := [] })) =
      some [] := by
  induction layers with
  | nil => rfl
  | cons layer rest ih =>
    simp only [List.map_cons, World.renderLayers, World.renderLayer, World.renderObjects, ih,
      List.append_nil]

/-- C8: after `Clear` the number of layers is unchanged and every layer has no
background and an empty object mapping, whatever the World was before; a
`Render` directly after `Clear` therefore issues no `Splash` and no `Draw`
call. -/
theorem Clear_empties_every_layer {F : Type} (w : World) (h : Heap F) :
    w.Clear.layers.length = w.layers.length ∧
    (∀ layer ∈ w.Clear.layers, layer.background = none ∧ layer.objects = []) ∧
    w.Clear.Render h = some [] := by
  refine ⟨by simp [World.Clear], ?_, World.renderLayers_cleared h w.layers⟩
  intro layer hl
  simp only [World.Clear, List.mem_map] at hl
  obtain ⟨_, _, rfl⟩ := hl
  exact ⟨rfl, rfl⟩

/-! ## ChangeState -/

/-- C9: `ChangeState(name)` for a registered name follows the two-path rule.
When the engine is running it calls `Deactivate` on the current state, if
there is one, then `Activate` on the target, in that order and both while
`currentState` is still the outgoing state, and then makes the target the
current state.  When the engine is not running it makes no call and only
makes the target the current state. -/
theorem ChangeState_registered (e : Engine) (stateName : String) (state : StateRef)
    (hreg : e.gameStates.lookup stateName = some state) :
    (e.ChangeState stateName).currentState = some state ∧
    (e.isRunning = true → ∀ current, e.currentState = some current →
      (e.ChangeState stateName).calls =
        e.calls ++ [(StateCall.Deactivate current, some current),
                    (StateCall.Activate state e.game, some current)]) ∧
    (e.isRunning = true → e.currentState = none →
      (e.ChangeState stateName).calls = e.calls ++ [(StateCall.Activate state e.game, none)]) ∧
    (e.isRunning = false → (e.ChangeState stateName).calls = e.calls) ∧
    (e.ChangeState stateName).isRunning = e.isRunning ∧
    (e.ChangeState stateName).gameStates = e.gameStates := by
  cases hr : e.isRunning <;> cases hc : e.currentState <;> cases hd : e.BIQ_DEBUG <;>
    simp [Engine.ChangeState, hreg, Engine.Debug, Engine.call, hr, hc, hd]

/-- The engine of `Main.cxx` once `Run("SPLASH")` has set `isRunning` and
changed to the splash state: `ChangeState("INGAME")` deactivates the splash
state (address 1), then activates the in-game state (address 2). -/
theorem ChangeState_registered_witness :
    exampleRunning.gameStates.lookup "INGAME" = some 2 ∧
    exampleRunning.isRunning = true ∧ exampleRunning.currentState = some 1 ∧
    (exampleRunning.ChangeState "INGAME").currentState = some 2 ∧
    (exampleRunning.ChangeState "INGAME").calls =
      exampleRunning.calls ++ [(StateCall.Deactivate 1, some 1),
                               (StateCall.Activate 2 exampleRunning.game, some 1)] :=
  have hthm := ChangeState_registered exampleRunning "INGAME" 2 (by decide)
  ⟨by decide, rfl, rfl, hthm.1, hthm.2.1 rfl 1 rfl⟩

/-- C10: `ChangeState` with a name that is not in the registry logs the error
and leaves the current state unchanged; it calls neither `Activate` nor
`Deactivate`, whether or not the engine is running. -/
theorem ChangeState_unregistered (e : Engine) (stateName : String)
    (hreg : e.gameStates.lookup stateName = none) :
    (e.ChangeState stateName).currentState = e.currentState ∧
    (e.ChangeState stateName).calls = e.calls ∧
    (e.ChangeState stateName).isRunning = e.isRunning ∧
    (e.ChangeState stateName).gameStates = e.gameStates ∧
    (e.ChangeState stateName).log =
      e.log ++ [⟨LogLevel.Error, Engine.Tag, Txt.StateNotFound, stateName⟩] := by
  simp [Engine.ChangeState, hreg, Engine.Error]

/-- No state named "MENU" is registered by `Main.cxx`. -/
theorem ChangeState_unregistered_witness :
    exampleRunning.gameStates.lookup "MENU" = none ∧
    (exampleRunning.ChangeState "MENU").currentState = exampleRunning.currentState ∧
    (exampleRunning.ChangeState "MENU").calls = exampleRunning.calls :=
  have hthm := ChangeState_unregistered exampleRunning "MENU" (by decide)
  ⟨by decide, hthm.1, hthm.2.1⟩

/-! ## Lemmas on the primitives of the program state -/

namespace Program

theorem modifyObject_some {p q : Program} {a : Addr} {f : Object ℚ → Object ℚ}
    (h : p.modifyObject a f = some q) :
    ∃ o, p.heap a = some o ∧ q = { p with heap := Function.update p.heap a (some (f o)) } := by
  unfold modifyObject at h
  cases ho : p.heap a with
  | none => simp [ho] at h
  | some o =>
    simp only [ho, Option.some.injEq] at h
    exact ⟨o, rfl, h.symm⟩

theorem modifyObject_members {p q : Program} {a : Addr} {f : Object ℚ → Object ℚ}
    (h : p.modifyObject a f = some q) : q.members = p.members := by
  obtain ⟨o, _, rfl⟩ := modifyObject_some h
  rfl

theorem delete_some {p q : Program} {a : Addr} (h : p.delete a = some q) :
    q = { p with heap := Function.update p.heap a none } := by
  unfold delete at h
  cases ho : p.heap a with
  | none => simp [ho] at h
  | some o =>
    simp only [ho, Option.some.injEq] at h
    exact h.symm

theorem delete_members {p q : Program} {a : Addr} (h : p.delete a = some q) :
    q.members = p.members := by
  rw [delete_some h]
  rfl

theorem new_members (p : Program) (type : ObjectType) : (p.new type).1.members = p.members :=
  rfl

theorem RandomNumber_some {p q : Program} {lo hi r : Int}
    (h : p.RandomNumber lo hi = some (q, r)) :
    q = { p with randCount := p.randCount + 1 } ∧
    r = Int.tmod (p.env.rand p.randCount) (hi - lo + 1) + lo ∧ hi - lo + 1 ≠ 0 := by
  unfold RandomNumber at h
  split_ifs at h with h0
  simp only [Option.some.injEq, Prod.mk.injEq] at h
  exact ⟨h.1.symm, h.2.symm, h0⟩

theorem RandomNumber_members {p q : Program} {lo hi r : Int}
    (h : p.RandomNumber lo hi = some (q, r)) : q.members = p.members := by
  rw [(RandomNumber_some h).1]
  rfl

theorem RandomNumber_range {p q : Program} {lo hi r : Int} (hle : lo ≤ hi)
    (h : p.RandomNumber lo hi = some (q, r)) : lo ≤ r ∧ r ≤ hi := by
  obtain ⟨_, rfl, _⟩ := RandomNumber_some h
  have hpos : (0 : Int) < hi - lo + 1 := by omega
  have hr : (0 : Int) ≤ (p.env.rand p.randCount : Int) := Int.ofNat_nonneg _
  have h1 : 0 ≤ Int.tmod (p.env.rand p.randCount) (hi - lo + 1) := Int.tmod_nonneg _ hr
  have h2 : Int.tmod (p.env.rand p.randCount) (hi - lo + 1) < hi - lo + 1 :=
    Int.tmod_lt_of_pos _ hpos
  omega

theorem LoadImage_members (p : Program) (path : String) :
    (p.LoadImage path).1.members = p.members := by
  unfold LoadImage
  split <;> rfl

theorem TextImage_members (p : Program) (text : String) :
    (p.TextImage text).1.members = p.members := by
  unfold TextImage
  split <;> rfl

theorem TextImage_heap (p : Program) (text : String) : (p.TextImage text).1.heap = p.heap := by
  unfold TextImage
  split <;> rfl

theorem TextImage_world (p : Program) (text : String) :
    (p.TextImage text).1.world = p.world := by
  unfold TextImage
  split <;> rfl

theorem UnloadImage_some {p q : Program} {image : Option ImageRef}
    (h : p.UnloadImage image = some q) :
    q.members = p.members ∧ q.heap = p.heap ∧ q.world = p.world := by
  unfold UnloadImage at h
  cases image with
  | none =>
    simp only [Option.some.injEq] at h
    subst h
    exact ⟨rfl, rfl, rfl⟩
  | some ref =>
    cases hr : p.images ref with
    | none => simp [hr] at h
    | some i =>
      simp only [hr, Option.some.injEq] at h
      subst h
      exact ⟨rfl, rfl, rfl⟩

theorem LoadSound_members (p : Program) (path : String) :
    (p.LoadSound path).1.members = p.members := rfl

theorem PlaySample_members (p : Program) (sample : Option Nat) :
    (p.PlaySample sample).members = p.members := by
  cases sample <;> rfl

theorem PlaySample_heap (p : Program) (sample : Option Nat) :
    (p.PlaySample sample).heap = p.heap := by
  cases sample <;> rfl

theorem PlaySample_world (p : Program) (sample : Option Nat) :
    (p.PlaySample sample).world = p.world := by
  cases sample <;> rfl

theorem PlayMusic_members (p : Program) (music : Option Nat) :
    (p.PlayMusic music).members = p.members := by
  cases music <;> rfl

theorem StopMusic_members (p : Program) : p.StopMusic.members = p.members := rfl

theorem UnloadSample_members (p : Program) (sample : Option Nat) :
    (p.UnloadSample sample).members = p.members := by
  cases sample <;> rfl

theorem UnloadMusic_members (p : Program) (music : Option Nat) :
    (p.UnloadMusic music).members = p.members := by
  cases music <;> rfl

theorem Clear_members (p : Program) : p.Clear.members = p.members := rfl

theorem SetLayerBackground_members (p : Program) (layerIndex : Nat) (image : Option ImageRef) :
    (p.SetLayerBackground layerIndex image).members = p.members := rfl

theorem AddObject_some {p q : Program} {layerIndex : Nat} {a : Addr}
    (h : p.AddObject layerIndex a = some q) :
    ∃ w hp, p.world.AddObject p.heap layerIndex (some a) = some (w, hp) ∧
      q = { p with world := w, heap := hp } := by
  unfold AddObject at h
  cases hw : p.world.AddObject p.heap layerIndex (some a) with
  | none => simp [hw] at h
  | some r =>
    obtain ⟨w, hp⟩ := r
    simp only [hw, Option.some.injEq] at h
    exact ⟨w, hp, rfl, h.symm⟩

theorem AddObject_members {p q : Program} {layerIndex : Nat} {a : Addr}
    (h : p.AddObject layerIndex a = some q) : q.members = p.members := by
  obtain ⟨w, hp, _, rfl⟩ := AddObject_some h
  rfl

theorem RemoveObject_some {p q : Program} {a : Addr} (h : p.RemoveObject a = some q) :
    ∃ w, p.world.RemoveObject p.heap (some a) = some w ∧ q = { p with world := w } := by
  unfold RemoveObject at h
  cases hw : p.world.RemoveObject p.heap (some a) with
  | none => simp [hw] at h
  | some w =>
    simp only [hw, Option.some.injEq] at h
    exact ⟨w, rfl, h.symm⟩

theorem RemoveObject_members {p q : Program} {a : Addr} (h : p.RemoveObject a = some q) :
    q.members = p.members := by
  obtain ⟨w, _, rfl⟩ := RemoveObject_some h
  rfl

theorem Update_some {p q : Program} {m : ℚ} (h : p.Update m = some q) :
    ∃ hp, p.world.Update p.heap m = some hp ∧ q = { p with heap := hp } := by
  unfold Update at h
  cases hw : p.world.Update p.heap m with
  | none => simp [hw] at h
  | some hp =>
    simp only [hw, Option.some.injEq] at h
    exact ⟨hp, rfl, h.symm⟩

theorem Update_members {p q : Program} {m : ℚ} (h : p.Update m = some q) :
    q.members = p.members := by
  obtain ⟨hp, _, rfl⟩ := Update_some h
  rfl

theorem updateObjects_spec (m : ℚ) :
    ∀ (objs : ObjectMap) (h h1 : Heap ℚ), World.updateObjects m h objs = some h1 →
      ∀ a, (h a = none → h1 a = none) ∧
        ∀ o, h a = some o → ∃ o1, h1 a = some o1 ∧ o1 = { o with position := o1.position } := by
  intro objs
  induction objs with
  | nil =>
    intro h h1 hu a
    simp only [World.updateObjects, Option.some.injEq] at hu
    subst hu
    exact ⟨fun hn => hn, fun o ho => ⟨o, ho, rfl⟩⟩
  | cons e rest ih =>
    intro h h1 hu a
    obtain ⟨k, b⟩ := e
    simp only [World.updateObjects] at hu
    cases hb : h b with
    | none => simp [hb] at hu
    | some ob =>
      simp only [hb] at hu
      have hrec := ih _ _ hu a
      by_cases hab : a = b
      · subst hab
        refine ⟨fun hn => absurd (hb.symm.trans hn) (by simp), ?_⟩
        intro o ho
        rw [hb] at ho
        obtain rfl := Option.some.inj ho
        obtain ⟨o1, ho1, heq⟩ := hrec.2 _ (Function.update_same _ _ _)
        exact ⟨o1, ho1, heq⟩
      · rw [Function.update_noteq hab] at hrec
        exact hrec

theorem updateLayers_spec (m : ℚ) :
    ∀ (layers : List Layer) (h h1 : Heap ℚ), World.updateLayers m h layers = some h1 →
      ∀ a, (h a = none → h1 a = none) ∧
        ∀ o, h a = some o → ∃ o1, h1 a = some o1 ∧ o1 = { o with position := o1.position } := by
  intro layers
  induction layers with
  | nil =>
    intro h h1 hu a
    simp only [World.updateLayers, Option.some.injEq] at hu
    subst hu
    exact ⟨fun hn => hn, fun o ho => ⟨o, ho, rfl⟩⟩
  | cons layer rest ih =>
    intro h h1 hu a
    simp only [World.updateLayers] at hu
    cases h2 : World.updateObjects m h layer.objects with
    | none => simp [h2] at hu
    | some hm =>
      simp only [h2] at hu
      have hfirst := updateObjects_spec m _ _ _ h2 a
      have hrec := ih _ _ hu a
      refine ⟨fun hn => hrec.1 (hfirst.1 hn), ?_⟩
      intro o ho
      obtain ⟨o1, ho1, heq1⟩ := hfirst.2 o ho
      obtain ⟨o2, ho2, heq2⟩ := hrec.2 o1 ho1
      refine ⟨o2, ho2, ?_⟩
      rw [heq2, heq1]

/-- `World::Update` changes nothing but the positions of objects. -/
theorem Update_heap {p q : Program} {m : ℚ} (h : p.Update m = some q) (a : Addr) :
    (p.heap a = none → q.heap a = none) ∧
    ∀ o, p.heap a = some o → ∃ o1, q.heap a = some o1 ∧ o1 = { o with position := o1.position } := by
  obtain ⟨hp, hu, rfl⟩ := Update_some h
  exact updateLayers_spec m _ _ _ hu a

theorem Update_world {p q : Program} {m : ℚ} (h : p.Update m = some q) : q.world = p.world := by
  obtain ⟨hp, _, rfl⟩ := Update_some h
  rfl

end Program

namespace InGame

theorem UpdateScore_spec {p q : Program} (h : UpdateScore p = some q) :
    q.members = p.members ∧ q.world = p.world ∧ ∀ a, a ≠ scoreAddr → q.heap a = p.heap a := by
  simp only [UpdateScore, Option.bind_eq_bind, Option.bind_eq_some] at h
  obtain ⟨score, _, p1, h1, p3, h3, ref, _, image, _, h5⟩ := h
  obtain ⟨hm1, hh1, hw1⟩ := Program.UnloadImage_some h1
  obtain ⟨o3, _, rfl⟩ := Program.modifyObject_some h3
  obtain ⟨o5, _, rfl⟩ := Program.modifyObject_some h5
  refine ⟨?_, ?_, ?_⟩
  · exact (Program.TextImage_members p1 _).trans hm1
  · exact (Program.TextImage_world p1 _).trans hw1
  · intro a ha
    simp only [Function.update_noteq ha]
    exact (congrFun (Program.TextImage_heap p1 _) a).trans (congrFun hh1 a)

end InGame

/-! ## RegisterState -/

theorem lookup_append_single (l : List (String × StateRef)) (n m : String) (s : StateRef) :
    List.lookup m (l ++ [(n, s)]) =
      match List.lookup m l with
      | some v => some v
      | none => if m = n then some s else none := by
  induction l with
  | nil =>
    by_cases hmn : m = n
    · simp [List.lookup, hmn]
    · have hb : (m == n) = false := by simpa using hmn
      simp [List.lookup, hmn, hb]
  | cons x rest ih =>
    obtain ⟨k, v⟩ := x
    by_cases hmk : m = k
    · simp [List.lookup, hmk]
    · have hb : (m == k) = false := by simpa using hmk
      simp only [List.cons_append, List.lookup, hb]
      exact ih

theorem Engine.RegisterState_registered {e : Engine} {n : String} {s0 : StateRef}
    (s : StateRef) (h : e.gameStates.lookup n = some s0) :
    e.RegisterState n s = e.Warning Engine.Tag Txt.StateAlreadyRegistered n := by
  simp [Engine.RegisterState, h]

theorem Engine.RegisterState_lookup_self (e : Engine) (n : String) (s : StateRef) :
    ∃ s0, (e.RegisterState n s).gameStates.lookup n = some s0 ∧
      (e.gameStates.lookup n = none → s0 = s) := by
  cases h : e.gameStates.lookup n with
  | some s0 =>
    refine ⟨s0, ?_, fun hn => by cases hn⟩
    rw [Engine.RegisterState_registered s h]
    exact h
  | none =>
    refine ⟨s, ?_, fun _ => rfl⟩
    simp only [Engine.RegisterState, h, Engine.Debug]
    split_ifs <;> simp [lookup_append_single, h]

/-- C11: `RegisterState` with a name that is already registered is rejected
with a warning and keeps the original registration.  After
`RegisterState(n, s1)` followed by `RegisterState(n, s2)` the registry is the
one the first call left: it maps `n` to `s1` when `n` was new, and every other
name to what it was mapped to before. -/
theorem RegisterState_duplicate_rejected (e : Engine) (n : String) (s1 s2 : StateRef) :
    ((e.RegisterState n s1).RegisterState n s2).gameStates =
      (e.RegisterState n s1).gameStates ∧
    ((e.RegisterState n s1).RegisterState n s2).log =
      (e.RegisterState n s1).log ++
        [⟨LogLevel.Warning, Engine.Tag, Txt.StateAlreadyRegistered, n⟩] ∧
    (e.gameStates.lookup n = none →
      ((e.RegisterState n s1).RegisterState n s2).gameStates.lookup n = some s1) ∧
    (∀ s0, e.gameStates.lookup n = some s0 →
      (e.RegisterState n s2).gameStates = e.gameStates) ∧
    (∀ m, m ≠ n →
      ((e.RegisterState n s1).RegisterState n s2).gameStates.lookup m =
        e.gameStates.lookup m) := by
  obtain ⟨s0, hs0, hnew⟩ := Engine.RegisterState_lookup_self e n s1
  have hsecond := Engine.RegisterState_registered s2 hs0
  refine ⟨by rw [hsecond]; rfl, by rw [hsecond]; rfl, ?_, ?_, ?_⟩
  · intro hn
    rw [hsecond]
    exact hs0.trans (congrArg some (hnew hn))
  · intro s hs
    rw [Engine.RegisterState_registered s2 hs]
    rfl
  · intro m hm
    rw [hsecond]
    show (e.RegisterState n s1).gameStates.lookup m = e.gameStates.lookup m
    cases h : e.gameStates.lookup n with
    | some s =>
      rw [Engine.RegisterState_registered s1 h]
      rfl
    | none =>
      simp only [Engine.RegisterState, h, Engine.Debug]
      split_ifs <;>
      · simp only [lookup_append_single, hm, if_false]
        cases e.gameStates.lookup m <;> rfl

/-- Registering "SPLASH" twice on a fresh engine keeps the first state. -/
theorem RegisterState_duplicate_rejected_witness :
    (Engine.static exampleGame false).gameStates.lookup "SPLASH" = none ∧
    (((Engine.static exampleGame false).RegisterState "SPLASH" 1).RegisterState "SPLASH"
      2).gameStates.lookup "SPLASH" = some 1 :=
  ⟨rfl, (RegisterState_duplicate_rejected (Engine.static exampleGame false) "SPLASH" 1 2).2.2.1
    rfl⟩

/-! ## SpawnEnemy -/

namespace InGame

theorem shrinkInterval_eq {x : Int} (hx : 0 ≤ x) : shrinkInterval x = x * 9 / 10 := by
  have hq : (0 : ℚ) ≤ (x : ℚ) * (9 / 10) := by
    have : (0 : ℚ) ≤ (x : ℚ) := by exact_mod_cast hx
    positivity
  have hcast : (x : ℚ) * (9 / 10) = ((x * 9 : Int) : ℚ) / ((10 : Nat) : ℚ) := by
    push_cast
    ring
  unfold shrinkInterval truncate
  rw [if_pos hq]
  show ⌊(x : ℚ) * (9 / 10)⌋ = x * 9 / 10
  rw [hcast, Rat.floor_intCast_div_natCast]
  rfl

theorem shrinkInterval_bounds {x : Int} (hx : 0 ≤ x) :
    0 ≤ shrinkInterval x ∧ shrinkInterval x ≤ x ∧ (0 < x → shrinkInterval x < x) := by
  rw [shrinkInterval_eq hx]
  omega

theorem shrinkInterval_iterate_nonneg (k : Nat) : 0 ≤ shrinkInterval^[k] EnemySpawnInterval := by
  induction k with
  | zero => simp [EnemySpawnInterval]
  | succ k ih =>
    rw [Function.iterate_succ_apply']
    exact (shrinkInterval_bounds ih).1

theorem toUInt_small {z : Int} (h0 : 0 ≤ z) (h4 : z ≤ 3) : toUInt z < 4 := by
  unfold toUInt
  omega

theorem shotInterval_bounds :
    truncate ((EnemyShootInterval : ℚ) * (9 / 10)) = 1080 ∧
    truncate ((EnemyShootInterval : ℚ) * (3 / 2)) = 1800 := by
  decide!

/-- What `SpawnEnemy` does to the members: it counts the spawn and tracks one
new enemy, of a colour below `MaxColors` and with its first shot scheduled one
shot interval (1080 to 1800 ticks) after the current tick. -/
theorem SpawnEnemy_spec {p q : Program} (h : SpawnEnemy p = some q) :
    ∃ e : EnemyObject,
      q.members =
        { p.members with
            enemySpawnCounter :=
              (spawnCounters p.enemySpawnCounter p.currentEnemySpawnInterval).1,
            currentEnemySpawnInterval :=
              (spawnCounters p.enemySpawnCounter p.currentEnemySpawnInterval).2,
            enemies := p.enemies ++ [e] } ∧
      e.addr = p.nextAddr ∧ e.color < 4 ∧ e.nextShot = p.currentTick + e.shotInterval ∧
      1080 ≤ e.shotInterval ∧ e.shotInterval ≤ 1800 := by
  simp only [SpawnEnemy, Option.bind_eq_bind, Option.bind_eq_some] at h
  obtain ⟨a, h1, a1, h2, a2, h3, a3, h4, a4, h5, image, _, a6, h6, h7⟩ := h
  obtain ⟨c0, c3⟩ := Program.RandomNumber_range
    (by simp [ColoredObject.Red, ColoredObject.Black]) h1
  rw [shotInterval_bounds.1, shotInterval_bounds.2] at h4
  obtain ⟨s0, s1⟩ := Program.RandomNumber_range (by decide) h4
  have hm6 : a6.members = p.members :=
    (Program.modifyObject_members h6).trans
      ((Program.RandomNumber_members h5).trans
        ((Program.RandomNumber_members h4).trans
          ((Program.RandomNumber_members h3).trans
            ((Program.RandomNumber_members h2).trans
              ((Program.RandomNumber_members h1).trans (Program.new_members p _))))))
  refine ⟨⟨p.nextAddr, toUInt a.2, a3.2, p.currentTick + a3.2,
    truncate ((VerticalPadding : ℚ) * ((a4.2 : ℚ) / 10))⟩, ?_, rfl, ?_, rfl, s0, s1⟩
  · exact (Program.AddObject_members h7).trans
      (congrArg (fun m : Members =>
        { m with
            enemySpawnCounter := (spawnCounters m.enemySpawnCounter m.currentEnemySpawnInterval).1,
            currentEnemySpawnInterval :=
              (spawnCounters m.enemySpawnCounter m.currentEnemySpawnInterval).2,
            enemies := m.enemies ++ [EnemyObject.mk p.nextAddr (toUInt a.2) a3.2
              (m.currentTick + a3.2) (truncate ((VerticalPadding : ℚ) * ((a4.2 : ℚ) / 10)))] })
        hm6)
  · exact toUInt_small (by simpa [ColoredObject.Red] using c0)
      (by simpa [ColoredObject.Black] using c3)

theorem RandomNumber_defined (p : Program) (lo hi : Int) (h : hi - lo + 1 ≠ 0) :
    p.RandomNumber lo hi =
      some ({ p with randCount := p.randCount + 1 },
            Int.tmod (p.env.rand p.randCount) (hi - lo + 1) + lo) := by
  simp [Program.RandomNumber, h]

theorem AddObject_defined (p : Program) (layerIndex : Nat) (a : Addr) (o : Object ℚ)
    (ha : p.heap a = some o) : ∃ q, p.AddObject layerIndex a = some q := by
  unfold Program.AddObject
  by_cases hli : layerIndex < p.world.layers.length
  · rw [World.AddObject_of_lt hli ha]
    exact ⟨_, rfl⟩
  · rw [World.AddObject_of_ge _ (Nat.le_of_not_lt hli)]
    exact ⟨_, rfl⟩

theorem bind_defined {α β : Type} {x : Option α} {f : α → Option β} (a : α) (hx : x = some a)
    (hf : ∃ q, f a = some q) : ∃ q, x.bind f = some q := by
  subst hx
  exact hf

theorem index_defined (images : Nat → Option ImageRef) {i : Nat} (hi : i < 4) :
    Program.index images (i : Int) = some (images i) := by
  unfold Program.index
  rw [if_pos ⟨by omega, by omega⟩]
  rfl

theorem modifyObject_defined (p : Program) (a : Addr) (f : Object ℚ → Object ℚ) (o : Object ℚ)
    (ha : p.heap a = some o) :
    p.modifyObject a f = some { p with heap := Function.update p.heap a (some (f o)) } := by
  simp [Program.modifyObject, ha]

theorem SpawnEnemy_defined (p : Program)
    (hw : toInt (toUInt (p.currentGame.targetWidth - ShipWidth - HorizontalPadding)) -
      HorizontalPadding + 1 ≠ 0) : ∃ q, SpawnEnemy p = some q := by
  have hcolor := RandomNumber_defined (p.new ObjectType.Enemy).1 ColoredObject.Red
    ColoredObject.Black (by simp [ColoredObject.Red, ColoredObject.Black])
  have hrange := Program.RandomNumber_range
    (by simp [ColoredObject.Red, ColoredObject.Black]) hcolor
  have h4 := toUInt_small (by simpa [ColoredObject.Red] using hrange.1)
    (by simpa [ColoredObject.Black] using hrange.2)
  unfold SpawnEnemy
  simp only [Option.bind_eq_bind, shotInterval_bounds.1, shotInterval_bounds.2]
  refine bind_defined _ hcolor ?_
  refine bind_defined _ (RandomNumber_defined _ _ _ hw) ?_
  refine bind_defined _ (RandomNumber_defined _ _ _ (by decide)) ?_
  refine bind_defined _ (RandomNumber_defined _ _ _ (by decide)) ?_
  refine bind_defined _ (RandomNumber_defined _ _ _ (by decide)) ?_
  refine bind_defined _ (index_defined _ h4) ?_
  refine bind_defined _ (modifyObject_defined _ _ _ (Object.new ObjectType.Enemy)
    (Function.update_same _ _ _)) ?_
  exact AddObject_defined _ _ _ _ (Function.update_same _ _ _)

end InGame

namespace InGame

theorem spawnEnemies_counters (p : Program) (hc : p.enemySpawnCounter = 0)
    (hi : p.currentEnemySpawnInterval = EnemySpawnInterval) :
    ∀ (n : Nat) (q : Program), spawnEnemies n p = some q →
      q.enemySpawnCounter = ((n % 3 : Nat) : Int) ∧
      q.currentEnemySpawnInterval = shrinkInterval^[n / 3] EnemySpawnInterval ∧
      q.currentGame = p.currentGame := by
  intro n
  induction n with
  | zero =>
    intro q hq
    simp only [spawnEnemies, Option.some.injEq] at hq
    subst hq
    exact ⟨by simpa using hc, by simpa using hi, rfl⟩
  | succ n ih =>
    intro q hq
    simp only [spawnEnemies] at hq
    cases h0 : spawnEnemies n p with
    | none => simp [h0] at hq
    | some q0 =>
      simp only [h0] at hq
      obtain ⟨hc0, hi0, hg0⟩ := ih q0 h0
      obtain ⟨e, hm, _⟩ := SpawnEnemy_spec hq
      have hcq : q.enemySpawnCounter =
          (spawnCounters q0.enemySpawnCounter q0.currentEnemySpawnInterval).1 :=
        congrArg Members.enemySpawnCounter hm
      have hiq : q.currentEnemySpawnInterval =
          (spawnCounters q0.enemySpawnCounter q0.currentEnemySpawnInterval).2 :=
        congrArg Members.currentEnemySpawnInterval hm
      have hgq : q.currentGame = q0.currentGame := congrArg Members.currentGame hm
      refine ⟨?_, ?_, hgq.trans hg0⟩
      · rw [hcq, hc0]
        unfold spawnCounters EnemySpawnThreshold
        split_ifs <;> simp only <;> omega
      · rw [hiq, hc0, hi0]
        unfold spawnCounters EnemySpawnThreshold
        split_ifs with hthree
        · have hdiv : (n + 1) / 3 = n / 3 + 1 := by omega
          simp only [hdiv, Function.iterate_succ_apply']
        · have hdiv : (n + 1) / 3 = n / 3 := by omega
          simp only [hdiv]

theorem spawnEnemies_defined (p : Program)
    (hw : toInt (toUInt (p.currentGame.targetWidth - ShipWidth - HorizontalPadding)) -
      HorizontalPadding + 1 ≠ 0) (hc : p.enemySpawnCounter = 0)
    (hi : p.currentEnemySpawnInterval = EnemySpawnInterval) :
    ∀ n : Nat, ∃ q, spawnEnemies n p = some q := by
  intro n
  induction n with
  | zero => exact ⟨p, rfl⟩
  | succ n ih =>
    obtain ⟨q0, h0⟩ := ih
    have hg := (spawnEnemies_counters p hc hi n q0 h0).2.2
    obtain ⟨q, hq⟩ := SpawnEnemy_defined q0 (by rw [hg]; exact hw)
    exact ⟨q, by simp only [spawnEnemies, h0, hq]⟩

end InGame

namespace InGame

theorem shrinkInterval_rat_bounds {x : Int} (hx : 0 ≤ x) :
    ((shrinkInterval x : Int) : ℚ) ≤ (x : ℚ) * (9 / 10) ∧
    (x : ℚ) * (9 / 10) - 1 < ((shrinkInterval x : Int) : ℚ) := by
  have hq : (0 : ℚ) ≤ (x : ℚ) * (9 / 10) := by
    have : (0 : ℚ) ≤ (x : ℚ) := by exact_mod_cast hx
    positivity
  unfold shrinkInterval truncate
  rw [if_pos hq]
  show ((⌊(x : ℚ) * (9 / 10)⌋ : Int) : ℚ) ≤ _ ∧ _ < ((⌊(x : ℚ) * (9 / 10)⌋ : Int) : ℚ)
  exact ⟨Int.floor_le _, by linarith [Int.lt_floor_add_one ((x : ℚ) * (9 / 10))]⟩

theorem shrinkInterval_iterate_bounds (k : Nat) :
    ((shrinkInterval^[k] 3280 : Int) : ℚ) ≤ 3280 * (9 / 10) ^ k ∧
    3290 * (9 / 10) ^ k - 10 ≤ ((shrinkInterval^[k] 3280 : Int) : ℚ) := by
  induction k with
  | zero => norm_num
  | succ k ih =>
    rw [Function.iterate_succ_apply']
    obtain ⟨hle, hlt⟩ := shrinkInterval_rat_bounds (shrinkInterval_iterate_nonneg k)
    have hx : shrinkInterval^[k] EnemySpawnInterval = shrinkInterval^[k] 3280 := rfl
    rw [hx] at hle hlt
    rw [pow_succ]
    constructor
    · linarith [ih.1]
    · linarith [ih.2]

end InGame

/-- After six spawns on the example scene the interval is 2656 ticks, which is
not 3280 * 0.9 ^ 2 = 2656.8: the second multiplication by 0.9 was truncated
to an `int`. -/
theorem spawn_interval_after_six_spawns :
    exampleScene.enemySpawnCounter = 0 ∧
    exampleScene.currentEnemySpawnInterval = 3280 ∧
    (InGame.spawnEnemies (3 * 2) exampleScene).map Program.currentEnemySpawnInterval =
      some 2656 ∧
    ((2656 : Int) : ℚ) ≠ 3280 * (9 / 10) ^ 2 :=
  ⟨by decide!, by decide!, by decide!, by norm_num⟩

/-- C17 (amended): from scene initialization (interval 3280, counter 0), after
`3 * k` calls of `SpawnEnemy` the interval is the result of `k` multiplications
by 0.9 each followed by the truncation to `int`, that is `k` applications of
`x ↦ ⌊9 * x / 10⌋` to 3280.  It is therefore at most `3280 * 0.9 ^ k`, falls
short of it by less than 10, and equals it for `k ≤ 1`. -/
theorem spawn_interval_after_3k_spawns (p : Program) (hc : p.enemySpawnCounter = 0)
    (hi : p.currentEnemySpawnInterval = InGame.EnemySpawnInterval)
    (hw : toInt (toUInt (p.currentGame.targetWidth - InGame.ShipWidth -
      InGame.HorizontalPadding)) - InGame.HorizontalPadding + 1 ≠ 0) (k : Nat) :
    ∃ q, InGame.spawnEnemies (3 * k) p = some q ∧
      q.currentEnemySpawnInterval = (fun x : Int => x * 9 / 10)^[k] 3280 ∧
      q.currentEnemySpawnInterval = InGame.shrinkInterval^[k] 3280 ∧
      (q.currentEnemySpawnInterval : ℚ) ≤ 3280 * (9 / 10) ^ k ∧
      3280 * (9 / 10) ^ k - 10 < (q.currentEnemySpawnInterval : ℚ) ∧
      (k ≤ 1 → (q.currentEnemySpawnInterval : ℚ) = 3280 * (9 / 10) ^ k) := by
  obtain ⟨q, hq⟩ := InGame.spawnEnemies_defined p hw hc hi (3 * k)
  obtain ⟨_, hiq, _⟩ := InGame.spawnEnemies_counters p hc hi (3 * k) q hq
  have hdiv : 3 * k / 3 = k := by omega
  rw [hdiv] at hiq
  have hiq3 : q.currentEnemySpawnInterval = InGame.shrinkInterval^[k] 3280 := hiq
  have hfloor : ∀ j : Nat, InGame.shrinkInterval^[j] 3280 = (fun x : Int => x * 9 / 10)^[j] 3280 := by
    intro j
    induction j with
    | zero => rfl
    | succ j ih =>
      rw [Function.iterate_succ_apply', Function.iterate_succ_apply', ← ih]
      exact InGame.shrinkInterval_eq (InGame.shrinkInterval_iterate_nonneg j)
  obtain ⟨hle, hlt⟩ := InGame.shrinkInterval_iterate_bounds k
  have hpow : (0 : ℚ) < (9 / 10) ^ k := by positivity
  refine ⟨q, hq, hiq3.trans (hfloor k), hiq3, ?_, ?_, ?_⟩
  · rw [hiq3]
    exact hle
  · rw [hiq3]
    linarith
  · intro hk
    rw [hiq3]
    have hk01 : k = 0 ∨ k = 1 := by omega
    rcases hk01 with rfl | rfl
    · norm_num
    · have h1 : InGame.shrinkInterval^[1] 3280 = 2952 := by decide!
      rw [h1]
      norm_num

/-- Three spawns on the example scene leave the interval at 2952 ticks, which
is 3280 * 0.9. -/
theorem spawn_interval_after_3k_spawns_witness :
    exampleScene.enemySpawnCounter = 0 ∧
    exampleScene.currentEnemySpawnInterval = InGame.EnemySpawnInterval ∧
    ∃ q, InGame.spawnEnemies (3 * 1) exampleScene = some q ∧
      q.currentEnemySpawnInterval = (fun x : Int => x * 9 / 10)^[1] 3280 :=
  ⟨by decide!, by decide!,
    match spawn_interval_after_3k_spawns exampleScene (by decide!) (by decide!) (by decide!) 1 with
    | ⟨q, hq, hi, _⟩ => ⟨q, hq, hi⟩⟩

/-! ## StepProjectiles -/

namespace InGame

theorem scanEnemies_spec (p : Program) (color : Nat) (o : Object ℚ) :
    ∀ (todo before : List EnemyObject)
      (r : Option (List EnemyObject × EnemyObject × List EnemyObject)),
      scanEnemies p color o before todo = some r →
      (r = none → ∀ e ∈ todo, ¬ isTarget p color o e) ∧
      (∀ b e a, r = some (b, e, a) →
        ∃ skipped, b = before ++ skipped ∧ todo = skipped ++ e :: a ∧
          isTarget p color o e ∧ ∀ x ∈ skipped, ¬ isTarget p color o x) := by
  intro todo
  induction todo with
  | nil =>
    intro before r h
    simp only [scanEnemies, Option.some.injEq] at h
    subst h
    exact ⟨fun _ e he => (by cases he), fun b e a hr => (by cases hr)⟩
  | cons enemy rest ih =>
    intro before r h
    simp only [scanEnemies] at h
    cases heo : p.deref enemy.addr with
    | none => simp [heo] at h
    | some eo =>
      simp only [heo] at h
      have hskip : ¬ isTarget p color o enemy →
          scanEnemies p color o (before ++ [enemy]) rest = some r →
          (r = none → ∀ e ∈ enemy :: rest, ¬ isTarget p color o e) ∧
          (∀ b e a, r = some (b, e, a) →
            ∃ skipped, b = before ++ skipped ∧ enemy :: rest = skipped ++ e :: a ∧
              isTarget p color o e ∧ ∀ x ∈ skipped, ¬ isTarget p color o x) := by
        intro hnot hrec
        obtain ⟨hnone, hsome⟩ := ih _ _ hrec
        constructor
        · intro hr e he
          rcases List.mem_cons.mp he with rfl | he
          · exact hnot
          · exact hnone hr e he
        · intro b e a hr
          obtain ⟨skipped, hb, hrest, ht, hall⟩ := hsome b e a hr
          refine ⟨enemy :: skipped, ?_, ?_, ht, ?_⟩
          · rw [hb, List.append_assoc]
            rfl
          · rw [hrest]
            rfl
          · intro x hx
            rcases List.mem_cons.mp hx with rfl | hx
            · exact hnot
            · exact hall x hx
      by_cases hc : enemy.color = color
      · by_cases hcol : World.CheckCollision eo o = true
        · simp only [hc, ne_eq, not_true_eq_false, if_false, hcol, if_true,
            Option.some.injEq] at h
          subst h
          refine ⟨fun hr => (by cases hr), ?_⟩
          intro b e a hr
          simp only [Option.some.injEq, Prod.mk.injEq] at hr
          obtain ⟨rfl, rfl, rfl⟩ := hr
          exact ⟨[], by simp, rfl, ⟨hc, eo, heo, hcol⟩, fun x hx => by cases hx⟩
        · simp only [hc, ne_eq, not_true_eq_false, if_false, hcol] at h
          refine hskip ?_ h
          rintro ⟨_, eo1, heo1, hcol1⟩
          rw [show p.heap enemy.addr = some eo from heo] at heo1
          obtain rfl := Option.some.inj heo1
          exact hcol hcol1
      · simp only [ne_eq, hc, not_false_eq_true, if_true] at h
        exact hskip (fun ht => hc ht.1) h

theorem projectileHitTest_enemy {p q : Program} {projectile : ColoredObject} {o pl : Object ℚ}
    {r : Option Bool} (ho : p.heap projectile.addr = some o) (ht : o.type = ObjectType.Enemy)
    (hpl : p.heap playerAddr = some pl) (h : projectileHitTest p projectile = some (q, r)) :
    (World.CheckCollision pl o = false → q = p ∧ r = some false) ∧
    (World.CheckCollision pl o = true →
      q.members =
        { p.members with
            player := { p.player with health := hitHealth p.player.health projectile.color },
            isGameOver :=
              p.isGameOver || decide (hitHealth p.player.health projectile.color ≤ 0) } ∧
      (hitHealth p.player.health projectile.color ≤ 0 → r = none) ∧
      (0 < hitHealth p.player.health projectile.color → r = some true) ∧
      ∃ l, q.heap lifebarAddr = some l ∧
        l.size.x = lifebarWidth (hitHealth p.player.health projectile.color)
          p.currentGame.targetWidth) := by
  simp only [projectileHitTest, Option.bind_eq_bind, Program.deref, ho, Option.some_bind, ht,
    if_true, hpl] at h
  constructor
  · intro hc
    simp only [hc, Bool.false_eq_true, if_false, Option.some.injEq, Prod.mk.injEq] at h
    exact ⟨h.1.symm, h.2.symm⟩
  · intro hc
    simp only [hc, if_true, Option.bind_eq_some] at h
    obtain ⟨p2, h2, h⟩ := h
    obtain ⟨l, hl, rfl⟩ := Program.modifyObject_some h2
    by_cases hh : hitHealth p.player.health projectile.color ≤ 0
    · simp only [hh, if_true, Option.bind_eq_some, Option.some.injEq, Prod.mk.injEq] at h
      obtain ⟨p4, h4, p5, h5, rfl, rfl⟩ := h
      obtain ⟨hm4, _, hheap4⟩ := UpdateScore_spec h4
      have hm5 := Program.Update_members h5
      refine ⟨?_, fun _ => rfl, fun hpos => absurd hh (not_le.mpr hpos), ?_⟩
      · rw [hm5, hm4, Program.PlaySample_members]
        simp only [Program.members, hh, decide_True, Bool.or_true]
      · have hl4 : p4.heap lifebarAddr = some
            { l with size := { x := lifebarWidth (hitHealth p.player.health projectile.color)
                                 p.currentGame.targetWidth, y := l.size.y } } := by
          rw [hheap4 lifebarAddr (by decide : lifebarAddr ≠ scoreAddr), Program.PlaySample_heap]
          simp
        obtain ⟨l5, hl5, heq⟩ := (Program.Update_heap h5 lifebarAddr).2 _ hl4
        exact ⟨l5, hl5, by rw [heq]⟩
    · simp only [hh, if_false, Option.some.injEq, Prod.mk.injEq] at h
      obtain ⟨rfl, rfl⟩ := h
      refine ⟨?_, fun hle => absurd hle hh, fun _ => rfl, ?_⟩
      · simp only [Program.members, hh, decide_False, Bool.or_false]
      · refine ⟨{ l with size := { x := lifebarWidth (hitHealth p.player.health projectile.color)
                                     p.currentGame.targetWidth, y := l.size.y } }, ?_, rfl⟩
        simp

theorem projectileHitTest_player {p q : Program} {projectile : ColoredObject} {o : Object ℚ}
    {r : Option Bool} (ho : p.heap projectile.addr = some o) (ht : o.type ≠ ObjectType.Enemy)
    (h : projectileHitTest p projectile = some (q, r)) :
    ∃ scan, scanEnemies p projectile.color o [] p.enemies = some scan ∧
      (scan = none → q = p ∧ r = some false) ∧
      (∀ b e a, scan = some (b, e, a) →
        r = some true ∧
        q.members =
          { p.members with
              enemies := b ++ a,
              player := { p.player with score := hitScore p.player.score projectile.color } }) := by
  simp only [projectileHitTest, Option.bind_eq_bind, Program.deref, ho, Option.some_bind, ht,
    if_false, Option.bind_eq_some] at h
  obtain ⟨scan, hscan, h⟩ := h
  refine ⟨scan, hscan, ?_, ?_⟩
  · rintro rfl
    simp only [Option.some.injEq, Prod.mk.injEq] at h
    exact ⟨h.1.symm, h.2.symm⟩
  · rintro b e a rfl
    simp only [Option.bind_eq_bind, Option.bind_eq_some, Option.some.injEq, Prod.mk.injEq] at h
    obtain ⟨p1, h1, p2, h2, p4, h4, rfl, rfl⟩ := h
    have hm1 := Program.RemoveObject_members h1
    have hm2 := Program.delete_members h2
    obtain ⟨hm4, _, _⟩ := UpdateScore_spec h4
    refine ⟨rfl, ?_⟩
    rw [hm4]
    have hp2 : p2.members = { p.members with enemies := b ++ a } :=
      hm2.trans (congrArg (fun m : Members => { m with enemies := b ++ a }) hm1)
    exact congrArg (fun m : Members =>
      { m with player := { m.player with score := hitScore m.player.score projectile.color } })
      hp2

/-- The three things the collision half of the loop body can do to the
members: nothing (no hit); an enemy-origin projectile overlapping the player
lowers the health and sets game over when the health is used up; a
player-origin projectile removes its first target and raises the score. -/
theorem projectileHitTest_members {p q : Program} {x : ColoredObject} {r : Option Bool}
    (h : projectileHitTest p x = some (q, r)) :
    (q.members = p.members ∧ r = some false) ∨
    (∃ o pl, p.heap x.addr = some o ∧ o.type = ObjectType.Enemy ∧
      p.heap playerAddr = some pl ∧ World.CheckCollision pl o = true ∧
      q.members =
        { p.members with
            player := { p.player with health := hitHealth p.player.health x.color },
            isGameOver := p.isGameOver || decide (hitHealth p.player.health x.color ≤ 0) } ∧
      (hitHealth p.player.health x.color ≤ 0 → r = none) ∧
      (0 < hitHealth p.player.health x.color → r = some true)) ∨
    (∃ o b e a, p.heap x.addr = some o ∧ o.type ≠ ObjectType.Enemy ∧
      p.enemies = b ++ e :: a ∧ isTarget p x.color o e ∧
      (∀ y ∈ b, ¬ isTarget p x.color o y) ∧ r = some true ∧
      q.members =
        { p.members with
            enemies := b ++ a,
            player := { p.player with score := hitScore p.player.score x.color } }) := by
  cases ho : p.heap x.addr with
  | none => simp [projectileHitTest, Program.deref, ho] at h
  | some o =>
    by_cases ht : o.type = ObjectType.Enemy
    · cases hpl : p.heap playerAddr with
      | none => simp [projectileHitTest, Program.deref, ho, ht, hpl] at h
      | some pl =>
        obtain ⟨hmiss, hhit⟩ := projectileHitTest_enemy ho ht hpl h
        cases hc : World.CheckCollision pl o with
        | false =>
          obtain ⟨rfl, rfl⟩ := hmiss hc
          exact Or.inl ⟨rfl, rfl⟩
        | true =>
          obtain ⟨hm, hle, hpos, _⟩ := hhit hc
          exact Or.inr (Or.inl ⟨o, pl, rfl, ht, rfl, hc, hm, hle, hpos⟩)
    · obtain ⟨scan, hscan, hnone, hsome⟩ := projectileHitTest_player ho ht h
      obtain ⟨_, hfound⟩ := scanEnemies_spec p x.color o _ _ _ hscan
      cases scan with
      | none =>
        obtain ⟨rfl, rfl⟩ := hnone rfl
        exact Or.inl ⟨rfl, rfl⟩
      | some t =>
        obtain ⟨b, e, a⟩ := t
        obtain ⟨hr, hm⟩ := hsome b e a rfl
        obtain ⟨skipped, hb, htodo, htarget, hall⟩ := hfound b e a rfl
        simp only [List.nil_append] at hb
        subst hb
        exact Or.inr (Or.inr ⟨o, b, e, a, rfl, ht, htodo, htarget, hall, hr, hm⟩)

/-- Induction along the loop of `StepProjectiles`, for properties of the
members. -/
theorem stepProjectilesLoop_induction
    (Inv : Members → List ColoredObject → List ColoredObject → Prop) (Post : Members → Prop)
    (hend : ∀ m kept, Inv m kept [] → Post m)
    (hover : ∀ (p q : Program) kept x rest, Inv p.members kept (x :: rest) →
      projectileHitTest p x = some (q, none) → Post q.members)
    (herase : ∀ (p q : Program) kept x rest hit, Inv p.members kept (x :: rest) →
      projectileHitTest p x = some (q, some hit) →
      Inv { q.members with projectiles := kept ++ rest } kept rest)
    (hkeep : ∀ (p q : Program) kept x rest, Inv p.members kept (x :: rest) →
      projectileHitTest p x = some (q, some false) → Inv q.members (kept ++ [x]) rest) :
    ∀ (todo kept : List ColoredObject) (p q : Program), Inv p.members kept todo →
      stepProjectilesLoop p kept todo = some q → Post q.members := by
  intro todo
  induction todo with
  | nil =>
    intro kept p q hinv h
    simp only [stepProjectilesLoop, Option.some.injEq] at h
    subst h
    exact hend _ _ hinv
  | cons x rest ih =>
    intro kept p q hinv h
    simp only [stepProjectilesLoop] at h
    cases htest : projectileHitTest p x with
    | none => simp [htest] at h
    | some t =>
      obtain ⟨p1, r⟩ := t
      cases r with
      | none =>
        simp only [htest, Option.some.injEq] at h
        subst h
        exact hover p p1 kept x rest hinv htest
      | some hit =>
        simp only [htest] at h
        have herase_step : ∀ p2 : Program, p2.members = p1.members →
            (match p2.RemoveObject x.addr with
              | none => none
              | some p3 =>
                match Program.delete { p3 with projectiles := kept ++ rest } x.addr with
                | none => none
                | some p4 => stepProjectilesLoop p4 kept rest) = some q →
            Post q.members := by
          intro p2 hm2 hrun
          cases h3 : p2.RemoveObject x.addr with
          | none => simp [h3] at hrun
          | some p3 =>
            simp only [h3] at hrun
            cases h4 : Program.delete { p3 with projectiles := kept ++ rest } x.addr with
            | none => simp [h4] at hrun
            | some p4 =>
              simp only [h4] at hrun
              have hm3 := (Program.RemoveObject_members h3).trans hm2
              have hm4 : p4.members = { p1.members with projectiles := kept ++ rest } :=
                (Program.delete_members h4).trans
                  (congrArg (fun m : Members => { m with projectiles := kept ++ rest }) hm3)
              refine ih kept p4 q ?_ hrun
              rw [hm4]
              exact herase p p1 kept x rest hit hinv htest
        cases hit with
        | true =>
          simp only [if_true] at h
          cases ho : (p1.PlaySample p1.hitSound).deref x.addr with
          | none => simp [ho] at h
          | some o =>
            simp only [ho, true_or, if_true] at h
            exact herase_step _ (Program.PlaySample_members _ _) h
        | false =>
          simp only [Bool.false_eq_true, if_false, false_or] at h
          cases ho : p1.deref x.addr with
          | none => simp [ho] at h
          | some o =>
            simp only [ho] at h
            split_ifs at h with hcond
            · exact herase_step _ rfl h
            · exact ih (kept ++ [x]) _ q (hkeep p p1 kept x rest hinv htest) h

/-! ### The other stages of `Step` -/

theorem stepCloud_members {p q : Program} {cloud : CloudObject} (h : stepCloud p cloud = some q) :
    q.members = p.members := by
  simp only [stepCloud, Option.bind_eq_bind, Option.bind_eq_some] at h
  obtain ⟨o, _, h⟩ := h
  split_ifs at h
  · simp only [Option.bind_eq_some] at h
    obtain ⟨a1, h1, a2, h2, h3⟩ := h
    exact (Program.modifyObject_members h3).trans
      ((Program.RandomNumber_members h2).trans (Program.RandomNumber_members h1))
  · simp only [Option.some.injEq] at h
    rw [← h]

theorem stepCloudsLoop_members :
    ∀ (clouds : List CloudObject) (p q : Program), stepCloudsLoop p clouds = some q →
      q.members = p.members := by
  intro clouds
  induction clouds with
  | nil =>
    intro p q h
    simp only [stepCloudsLoop, Option.some.injEq] at h
    rw [← h]
  | cons cloud rest ih =>
    intro p q h
    simp only [stepCloudsLoop] at h
    cases h1 : stepCloud p cloud with
    | none => simp [h1] at h
    | some p1 =>
      simp only [h1] at h
      exact (ih p1 q h).trans (stepCloud_members h1)

theorem StepClouds_members {p q : Program} (h : StepClouds p = some q) :
    q.members = p.members :=
  stepCloudsLoop_members _ _ _ h

theorem StepPlayer_members {p q : Program} (h : StepPlayer p = some q) :
    q.members = p.members :=
  Program.modifyObject_members h

/-- What `Shoot` does to the members: nothing when the game is over, and
otherwise it tracks one new projectile, of the shooter's colour, which is a
colour below `MaxColors`. -/
theorem Shoot_members {p q : Program} {source : Addr} {color : Nat} {direction : Int}
    (h : Shoot p source color direction = some q) :
    (p.isGameOver = true ∧ q = p) ∨
    (p.isGameOver = false ∧ color < 4 ∧
      q.members =
        { p.members with projectiles := p.projectiles ++ [ColoredObject.mk p.nextAddr color] }) := by
  unfold Shoot at h
  cases hg : p.isGameOver with
  | true =>
    simp only [hg, if_true, Option.some.injEq] at h
    exact Or.inl ⟨rfl, h.symm⟩
  | false =>
    simp only [hg, Bool.false_eq_true, if_false, Option.bind_eq_bind, Option.bind_eq_some,
      Option.some.injEq] at h
    obtain ⟨src, _, image, himage, p2, h2, p4, h4, rfl⟩ := h
    refine Or.inr ⟨rfl, ?_, ?_⟩
    · unfold Program.index at himage
      split_ifs at himage with hc
      omega
    · rw [Program.PlaySample_members, Program.AddObject_members h4]
      exact congrArg (fun m : Members =>
        { m with projectiles := m.projectiles ++ [ColoredObject.mk p.nextAddr color] })
        ((Program.modifyObject_members h2).trans (Program.new_members p _))

theorem haltDescent_members {p q : Program} {enemy : EnemyObject} {o o1 : Object ℚ}
    (h : haltDescent p enemy o = some (q, o1)) : q.members = p.members := by
  unfold haltDescent at h
  split_ifs at h
  · cases hr : p.RandomNumber 0 1 with
    | none => simp [hr] at h
    | some r =>
      obtain ⟨p1, v⟩ := r
      simp only [hr, Option.some.injEq, Prod.mk.injEq] at h
      rw [← h.1]
      exact Program.RandomNumber_members hr
  · simp only [Option.some.injEq, Prod.mk.injEq] at h
    rw [← h.1]

/-- What one round of the loop of `StepEnemies` does to the members and to
the enemy: the enemy fires exactly when the tick is past its `nextShot`, and
then one projectile of its colour is tracked and `nextShot` is moved one shot
interval past the tick. -/
theorem stepEnemy_members {p q : Program} {enemy enemy1 : EnemyObject}
    (h : stepEnemy p enemy = some (q, enemy1)) :
    (p.currentTick > enemy.nextShot ∧ p.isGameOver = false ∧ enemy.color < 4 ∧
      enemy1 = { enemy with nextShot := p.currentTick + enemy.shotInterval } ∧
      ∃ a, q.members =
        { p.members with projectiles := p.projectiles ++ [ColoredObject.mk a enemy.color] }) ∨
    (p.currentTick > enemy.nextShot ∧ p.isGameOver = true ∧
      enemy1 = { enemy with nextShot := p.currentTick + enemy.shotInterval } ∧
      q.members = p.members) ∨
    (¬ p.currentTick > enemy.nextShot ∧ enemy1 = enemy ∧ q.members = p.members) := by
  unfold stepEnemy at h
  cases ho : p.deref enemy.addr with
  | none => simp [ho] at h
  | some o =>
    simp only [ho] at h
    cases h1 : haltDescent p enemy o with
    | none => simp [h1] at h
    | some t =>
      obtain ⟨p1, o1⟩ := t
      simp only [h1] at h
      cases h2 : p1.modifyObject enemy.addr
          (fun _ => turnAtLeft (turnAtRight p1.currentGame.targetWidth o1)) with
      | none => simp [h2] at h
      | some p2 =>
        simp only [h2] at h
        have hm1 : p1.members = p.members := haltDescent_members h1
        have hm2 : p2.members = p.members := (Program.modifyObject_members h2).trans hm1
        have htick : p2.currentTick = p.currentTick := congrArg Members.currentTick hm2
        have hover : p2.isGameOver = p.isGameOver := congrArg Members.isGameOver hm2
        rw [htick] at h
        split_ifs at h with hshoot
        · cases h3 : Shoot p2 enemy.addr enemy.color 1 with
          | none => simp [h3] at h
          | some p3 =>
            simp only [h3, Option.some.injEq, Prod.mk.injEq] at h
            obtain ⟨rfl, rfl⟩ := h
            rcases Shoot_members h3 with ⟨hg, rfl⟩ | ⟨hg, hc, hm3⟩
            · exact Or.inr (Or.inl ⟨hshoot, hover ▸ hg, rfl, hm2⟩)
            · refine Or.inl ⟨hshoot, hover ▸ hg, hc, rfl, p2.nextAddr, ?_⟩
              rw [hm3]
              exact congrArg (fun m : Members =>
                { m with projectiles :=
                    m.projectiles ++ [ColoredObject.mk p2.nextAddr enemy.color] }) hm2
        · simp only [Option.some.injEq, Prod.mk.injEq] at h
          obtain ⟨rfl, rfl⟩ := h
          exact Or.inr (Or.inr ⟨hshoot, rfl, hm2⟩)

end InGame

/-! ## OnPress and OnRelease of the directional keys -/

/-- C18: matching-value release policy.  With the player object `o`, `OnRelease`
of a directional key sets the velocity axis of that key to 0 when the axis
equals the value the press of that key assigns (Left -20 and Right +20 on x,
Up -20 and Down +20 on y) and leaves the object as it is otherwise; while the
game is not over `OnPress` of the key assigns that value; and press Left, press
Right, release Left leaves the x velocity at +20. -/
theorem OnRelease_matching_value (p : Program) (o : Object ℚ)
    (hp : p.heap playerAddr = some o) :
    InGame.OnRelease p Input.KeyLeft =
      some { p with heap := (Function.update p.heap playerAddr
        (some (if o.speed.x = -20 then { o with speed := { x := 0, y := o.speed.y } } else o))) } ∧
    InGame.OnRelease p Input.KeyRight =
      some { p with heap := (Function.update p.heap playerAddr
        (some (if o.speed.x = 20 then { o with speed := { x := 0, y := o.speed.y } } else o))) } ∧
    InGame.OnRelease p Input.KeyUp =
      some { p with heap := (Function.update p.heap playerAddr
        (some (if o.speed.y = -20 then { o with speed := { x := o.speed.x, y := 0 } } else o))) } ∧
    InGame.OnRelease p Input.KeyDown =
      some { p with heap := (Function.update p.heap playerAddr
        (some (if o.speed.y = 20 then { o with speed := { x := o.speed.x, y := 0 } } else o))) } ∧
    (p.isGameOver = false →
      InGame.OnPress p Input.KeyLeft =
        some { p with heap := (Function.update p.heap playerAddr
          (some { o with speed := { x := -20, y := o.speed.y } })) } ∧
      InGame.OnPress p Input.KeyRight =
        some { p with heap := (Function.update p.heap playerAddr
          (some { o with speed := { x := 20, y := o.speed.y } })) } ∧
      InGame.OnPress p Input.KeyUp =
        some { p with heap := (Function.update p.heap playerAddr
          (some { o with speed := { x := o.speed.x, y := -20 } })) } ∧
      InGame.OnPress p Input.KeyDown =
        some { p with heap := (Function.update p.heap playerAddr
          (some { o with speed := { x := o.speed.x, y := 20 } })) } ∧
      ∃ p1 p2 p3,
        InGame.OnPress p Input.KeyLeft = some p1 ∧ InGame.OnPress p1 Input.KeyRight = some p2 ∧
        InGame.OnRelease p2 Input.KeyLeft = some p3 ∧
        p3.heap playerAddr = some { o with speed := { x := 20, y := o.speed.y } }) := by
  have hreleaseLeft : ∀ (r : Program) (u : Object ℚ), r.heap playerAddr = some u →
      InGame.OnRelease r Input.KeyLeft =
        some { r with heap := (Function.update r.heap playerAddr
          (some (if u.speed.x = -20 then { u with speed := { x := 0, y := u.speed.y } }
            else u))) } := by
    intro r u hu
    simp [InGame.OnRelease, Input.KeyLeft, Input.KeyEscape, Input.KeyUp, Input.KeyDown,
      Program.modifyObject, hu, InGame.PlayerSpeed]
  have hpressLeft : ∀ (r : Program) (u : Object ℚ), r.heap playerAddr = some u →
      r.isGameOver = false →
      InGame.OnPress r Input.KeyLeft =
        some { r with heap := (Function.update r.heap playerAddr
          (some { u with speed := { x := -20, y := u.speed.y } })) } := by
    intro r u hu hg
    simp [InGame.OnPress, hg, Input.KeyLeft, Program.modifyObject, hu, InGame.PlayerSpeed]
  have hpressRight : ∀ (r : Program) (u : Object ℚ), r.heap playerAddr = some u →
      r.isGameOver = false →
      InGame.OnPress r Input.KeyRight =
        some { r with heap := (Function.update r.heap playerAddr
          (some { u with speed := { x := 20, y := u.speed.y } })) } := by
    intro r u hu hg
    simp [InGame.OnPress, hg, Input.KeyLeft, Input.KeyRight, Program.modifyObject, hu,
      InGame.PlayerSpeed]
  refine ⟨hreleaseLeft p o hp, ?_, ?_, ?_, ?_⟩
  · simp [InGame.OnRelease, Input.KeyLeft, Input.KeyRight, Input.KeyEscape, Input.KeyUp,
      Input.KeyDown, Program.modifyObject, hp, InGame.PlayerSpeed]
  · simp [InGame.OnRelease, Input.KeyEscape, Input.KeyUp, Program.modifyObject, hp,
      InGame.PlayerSpeed]
  · simp [InGame.OnRelease, Input.KeyEscape, Input.KeyUp, Input.KeyDown, Program.modifyObject,
      hp, InGame.PlayerSpeed]
  · intro hg
    refine ⟨hpressLeft p o hp hg, hpressRight p o hp hg, ?_, ?_, ?_⟩
    · simp [InGame.OnPress, hg, Input.KeyLeft, Input.KeyRight, Input.KeyUp,
        Program.modifyObject, hp, InGame.PlayerSpeed]
    · simp [InGame.OnPress, hg, Input.KeyLeft, Input.KeyRight, Input.KeyUp, Input.KeyDown,
        Program.modifyObject, hp, InGame.PlayerSpeed]
    · have hleft : ∀ (r : Program) (u : Object ℚ), r.heap playerAddr = some u →
          r.isGameOver = false → ∃ q, InGame.OnPress r Input.KeyLeft = some q ∧
            q.heap playerAddr = some { u with speed := { x := -20, y := u.speed.y } } ∧
            q.isGameOver = false :=
        fun r u hu hr => ⟨_, hpressLeft r u hu hr, (by simp), hr⟩
      have hright : ∀ (r : Program) (u : Object ℚ), r.heap playerAddr = some u →
          r.isGameOver = false → ∃ q, InGame.OnPress r Input.KeyRight = some q ∧
            q.heap playerAddr = some { u with speed := { x := 20, y := u.speed.y } } :=
        fun r u hu hr => ⟨_, hpressRight r u hu hr, (by simp)⟩
      obtain ⟨p1, h1, ho1, hg1⟩ := hleft p o hp hg
      obtain ⟨p2, h2, ho2⟩ := hright p1 _ ho1 hg1
      refine ⟨p1, p2, _, h1, h2, hreleaseLeft p2 _ ho2, ?_⟩
      simp only [Function.update_same]
      norm_num

/-- The release policy on the program of `Main.cxx` before its first frame. -/
theorem OnRelease_matching_value_witness :
    (Program.start exampleEnv exampleGame).heap playerAddr =
      some (Object.new ObjectType.Player) ∧
    InGame.OnRelease (Program.start exampleEnv exampleGame) Input.KeyLeft =
      some { Program.start exampleEnv exampleGame with
        heap := (Function.update (Program.start exampleEnv exampleGame).heap playerAddr
          (some (if (Object.new ObjectType.Player).speed.x = -20 then
            { Object.new ObjectType.Player with
                speed := { x := 0, y := (Object.new ObjectType.Player).speed.y } }
            else Object.new ObjectType.Player))) } :=
  ⟨rfl, (OnRelease_matching_value (Program.start exampleEnv exampleGame)
    (Object.new ObjectType.Player) rfl).1⟩

/-! ## Activation, deactivation and restart -/

namespace InGame

theorem loadAll_members :
    ∀ (paths : List String) (p : Program), (loadAll p paths).1.members = p.members := by
  intro paths
  induction paths with
  | nil => intro p; rfl
  | cons path rest ih =>
    intro p
    exact (ih _).trans (Program.LoadImage_members p path)

theorem LoadImages_members {p q : Program} (h : LoadImages p = some q) :
    q.members =
      { p.members with
          backgroundImage := q.backgroundImage, overlayImage := q.overlayImage,
          cloudImages := q.cloudImages, playerImages := q.playerImages,
          enemyImages := q.enemyImages, projectileImages := q.projectileImages } := by
  unfold LoadImages at h
  cases h1 : p.modifyObject scoreAddr (fun o => { o with image := none }) with
  | none => simp [h1] at h
  | some p1 =>
    simp only [h1] at h
    cases h2 : (p1.LoadImage "assets/images/lifebar.png").1.modifyObject lifebarAddr
        (fun o => { o with image := (p1.LoadImage "assets/images/lifebar.png").2 }) with
    | none => simp [h2] at h
    | some p2 =>
      simp only [h2, Option.some.injEq] at h
      have hm : (loadAll p2 imagePaths).1.members = p.members :=
        (loadAll_members _ _).trans ((Program.modifyObject_members h2).trans
          ((Program.LoadImage_members _ _).trans (Program.modifyObject_members h1)))
      rw [← h]
      exact congrArg (fun m : Members =>
        { m with
            backgroundImage := (assignImages (loadAll p2 imagePaths).1
              (loadAll p2 imagePaths).2).backgroundImage,
            overlayImage := (assignImages (loadAll p2 imagePaths).1
              (loadAll p2 imagePaths).2).overlayImage,
            cloudImages := (assignImages (loadAll p2 imagePaths).1
              (loadAll p2 imagePaths).2).cloudImages,
            playerImages := (assignImages (loadAll p2 imagePaths).1
              (loadAll p2 imagePaths).2).playerImages,
            enemyImages := (assignImages (loadAll p2 imagePaths).1
              (loadAll p2 imagePaths).2).enemyImages,
            projectileImages := (assignImages (loadAll p2 imagePaths).1
              (loadAll p2 imagePaths).2).projectileImages }) hm

theorem LoadSounds_members (p : Program) :
    ∃ shot hit click music,
      (LoadSounds p).members =
        { p.members with
            shotSound := shot, hitSound := hit, clickSound := click,
            backgroundMusic := music } := by
  refine ⟨(p.LoadSound "assets/sounds/shot.flac").2,
    ((p.LoadSound "assets/sounds/shot.flac").1.LoadSound "assets/sounds/hit.flac").2,
    (((p.LoadSound "assets/sounds/shot.flac").1.LoadSound "assets/sounds/hit.flac").1.LoadSound
      "assets/sounds/click.flac").2,
    ((((p.LoadSound "assets/sounds/shot.flac").1.LoadSound
      "assets/sounds/hit.flac").1.LoadSound "assets/sounds/click.flac").1.LoadSound
      "assets/sounds/background.flac").2, ?_⟩
  unfold LoadSounds
  rw [Program.PlayMusic_members]
  rfl

theorem UnloadSounds_members (p : Program) : (UnloadSounds p).members = p.members := by
  unfold UnloadSounds
  simp only [Program.UnloadMusic_members, Program.UnloadSample_members,
    Program.StopMusic_members]

theorem unloadAll_members :
    ∀ (images : List (Option ImageRef)) (p q : Program), unloadAll p images = some q →
      q.members = p.members := by
  intro images
  induction images with
  | nil =>
    intro p q h
    simp only [unloadAll, Option.some.injEq] at h
    rw [← h]
  | cons image rest ih =>
    intro p q h
    simp only [unloadAll] at h
    cases h1 : p.UnloadImage image with
    | none => simp [h1] at h
    | some p1 =>
      simp only [h1] at h
      exact (ih p1 q h).trans (Program.UnloadImage_some h1).1

theorem UnloadImages_members {p q : Program} (h : UnloadImages p = some q) :
    q.members = p.members := by
  unfold UnloadImages at h
  cases h1 : p.deref scoreAddr with
  | none => simp [h1] at h
  | some score =>
    simp only [h1] at h
    exact unloadAll_members _ _ _ h

theorem deleteAll_members :
    ∀ (objects : List Addr) (p q : Program), deleteAll p objects = some q →
      q.members = p.members := by
  intro objects
  induction objects with
  | nil =>
    intro p q h
    simp only [deleteAll, Option.some.injEq] at h
    rw [← h]
  | cons a rest ih =>
    intro p q h
    simp only [deleteAll] at h
    cases h1 : p.delete a with
    | none => simp [h1] at h
    | some p1 =>
      simp only [h1] at h
      exact (ih p1 q h).trans (Program.delete_members h1)

theorem DeleteObjects_members {p q : Program} (h : DeleteObjects p = some q) :
    q.members = { p.members with clouds := [], enemies := [], projectiles := [] } := by
  simp only [DeleteObjects, Option.bind_eq_bind, Option.bind_eq_some, Option.some.injEq] at h
  obtain ⟨p1, h1, p2, h2, p3, h3, rfl⟩ := h
  have hm1 := deleteAll_members _ _ _ h1
  have hm2 := deleteAll_members _ _ _ h2
  have hm3 := deleteAll_members _ _ _ h3
  have e2 : p2.members = { p.members with clouds := [] } :=
    hm2.trans (congrArg (fun m : Members => { m with clouds := [] }) hm1)
  have e3 : p3.members = { p.members with clouds := [], enemies := [] } :=
    hm3.trans (congrArg (fun m : Members => { m with enemies := [] }) e2)
  exact congrArg (fun m : Members => { m with projectiles := [] }) e3

theorem Deactivate_members {p q : Program} (h : Deactivate p = some q) :
    q.members = { p.members with clouds := [], enemies := [], projectiles := [] } := by
  simp only [Deactivate, Option.bind_eq_bind, Option.bind_eq_some, Option.some.injEq] at h
  obtain ⟨p1, h1, p2, h2, rfl⟩ := h
  rw [UnloadSounds_members, UnloadImages_members h2]
  have hm := DeleteObjects_members h1
  exact hm

end InGame

namespace InGame

theorem spawnCloud_members {p q : Program} (h : spawnCloud p = some q) :
    ∃ cloud, q.members = { p.members with clouds := p.clouds ++ [cloud] } := by
  simp only [spawnCloud, Option.bind_eq_bind, Option.bind_eq_some] at h
  obtain ⟨a1, h1, a2, h2, image, _, a3, h3, a4, h4, p5, h5, h6⟩ := h
  have hm : p5.members = p.members :=
    (Program.modifyObject_members h5).trans
      ((Program.RandomNumber_members h4).trans
        ((Program.RandomNumber_members h3).trans
          ((Program.RandomNumber_members h2).trans
            ((Program.RandomNumber_members h1).trans (Program.new_members p _)))))
  refine ⟨CloudObject.mk p.nextAddr ((a1.2 : ℚ) / 10), ?_⟩
  rw [Program.AddObject_members h6]
  exact congrArg (fun m : Members =>
    { m with clouds := m.clouds ++ [CloudObject.mk p.nextAddr ((a1.2 : ℚ) / 10)] }) hm

theorem spawnClouds_members :
    ∀ (n : Nat) (p q : Program), spawnClouds n p = some q →
      ∃ new : List CloudObject, new.length = n ∧
        q.members = { p.members with clouds := p.clouds ++ new } := by
  intro n
  induction n with
  | zero =>
    intro p q h
    simp only [spawnClouds, Option.some.injEq] at h
    subst h
    exact ⟨[], rfl, (by rw [List.append_nil]; rfl)⟩
  | succ n ih =>
    intro p q h
    simp only [spawnClouds] at h
    cases h1 : spawnCloud p with
    | none => simp [h1] at h
    | some p1 =>
      simp only [h1] at h
      obtain ⟨cloud, hc⟩ := spawnCloud_members h1
      obtain ⟨new, hlen, hm⟩ := ih p1 q h
      have hcl : p1.clouds = p.clouds ++ [cloud] := congrArg Members.clouds hc
      refine ⟨cloud :: new, by simp [hlen], ?_⟩
      rw [hm, hcl, hc]
      simp

theorem initializePlayer_members {p q : Program} (h : initializePlayer p = some q) :
    q.members =
      { p.members with player := { color := ColoredObject.Red, health := 100, score := 0 } } := by
  unfold initializePlayer at h
  cases hi : Program.index p.playerImages ColoredObject.Red with
  | none => simp [hi] at h
  | some image =>
    simp only [hi] at h
    split at h
    · cases h
    · next p1 h1 =>
      exact (Program.AddObject_members h).trans (Program.modifyObject_members h1)

theorem initializeLifebar_members {p q : Program} (h : initializeLifebar p = some q) :
    q.members = p.members := by
  unfold initializeLifebar at h
  cases hl : p.deref lifebarAddr with
  | none => simp [hl] at h
  | some lifebar =>
    simp only [hl] at h
    cases hi : lifebar.image with
    | none =>
      simp only [hi, Option.some.injEq] at h
      rw [← h]
    | some ref =>
      simp only [hi] at h
      cases him : p.images ref with
      | none => simp [him] at h
      | some image =>
        simp only [him] at h
        split at h
        · cases h
        · next p1 h1 =>
          exact (Program.AddObject_members h).trans (Program.modifyObject_members h1)

theorem initializeScore_members {p q : Program} (h : initializeScore p = some q) :
    q.members = p.members := by
  unfold initializeScore at h
  split at h
  · cases h
  · next p1 h1 =>
    exact (Program.AddObject_members h).trans (Program.modifyObject_members h1)

theorem InitializeObjects_members {p q : Program} (h : InitializeObjects p = some q) :
    ∃ new : List CloudObject, new.length = NumberOfClouds ∧
      q.members =
        { p.members with
            player := { color := ColoredObject.Red, health := 100, score := 0 },
            clouds := p.clouds ++ new,
            currentEnemySpawnInterval := EnemySpawnInterval,
            enemySpawnCounter := 0,
            isGameOver := false } := by
  unfold InitializeObjects at h
  split at h
  · cases h
  · next p1 h1 =>
    split at h
    · cases h
    · next p2 h2 =>
      split at h
      · cases h
      · next p3 h3 =>
        split at h
        · cases h
        · next p4 h4 =>
          simp only [Option.some.injEq] at h
          subst h
          obtain ⟨new, hlen, hm4⟩ := spawnClouds_members _ _ _ h4
          have hm1 := initializePlayer_members h1
          have hm3 : p3.members =
              { p.members with
                  player := { color := ColoredObject.Red, health := 100, score := 0 } } :=
            (initializeScore_members h3).trans ((initializeLifebar_members h2).trans hm1)
          have hcl : p3.clouds = p.clouds := congrArg Members.clouds hm3
          refine ⟨new, hlen, ?_⟩
          show (fun m : Members =>
            { m with currentEnemySpawnInterval := EnemySpawnInterval, enemySpawnCounter := 0,
                     isGameOver := false }) p4.members = _
          rw [hm4, hcl, hm3]

end InGame

namespace InGame

/-- What `InGame::Activate` does to the gameplay members: a fresh player, the
counters reset and the clouds of the scene added; the tracked enemies and
projectiles are left as they are. -/
theorem Activate_members {p q : Program} {game : GameInformation}
    (h : Activate p game = some q) :
    ∃ new : List CloudObject, new.length = NumberOfClouds ∧
      q.player = { color := ColoredObject.Red, health := 100, score := 0 } ∧
      q.isGameOver = false ∧ q.enemies = p.enemies ∧ q.projectiles = p.projectiles ∧
      q.clouds = p.clouds ++ new ∧ q.currentEnemySpawnInterval = EnemySpawnInterval ∧
      q.enemySpawnCounter = 0 ∧ q.currentGame = game ∧ q.engine = p.engine := by
  simp only [Activate, Option.bind_eq_bind, Option.bind_eq_some] at h
  obtain ⟨p1, h1, p3, h3, h4⟩ := h
  have hm1 := LoadImages_members h1
  obtain ⟨shot, hit, click, music, hm2⟩ := LoadSounds_members p1
  obtain ⟨new, hlen, hm3⟩ := InitializeObjects_members h3
  obtain ⟨hm4, _, _⟩ := UpdateScore_spec h4
  refine ⟨new, hlen, ?_, ?_, ?_, ?_, ?_, ?_, ?_, ?_, ?_⟩
  · exact (congrArg Members.player hm4).trans (congrArg Members.player hm3)
  · exact (congrArg Members.isGameOver hm4).trans (congrArg Members.isGameOver hm3)
  · exact (congrArg Members.enemies hm4).trans ((congrArg Members.enemies hm3).trans
      ((congrArg Members.enemies hm2).trans (congrArg Members.enemies hm1)))
  · exact (congrArg Members.projectiles hm4).trans ((congrArg Members.projectiles hm3).trans
      ((congrArg Members.projectiles hm2).trans (congrArg Members.projectiles hm1)))
  · have hc : (LoadSounds p1).clouds = p.clouds :=
      (congrArg Members.clouds hm2).trans (congrArg Members.clouds hm1)
    exact (congrArg Members.clouds hm4).trans
      ((congrArg Members.clouds hm3).trans (by rw [hc]))
  · exact (congrArg Members.currentEnemySpawnInterval hm4).trans
      (congrArg Members.currentEnemySpawnInterval hm3)
  · exact (congrArg Members.enemySpawnCounter hm4).trans
      (congrArg Members.enemySpawnCounter hm3)
  · exact (congrArg Members.currentGame hm4).trans ((congrArg Members.currentGame hm3).trans
      ((congrArg Members.currentGame hm2).trans (congrArg Members.currentGame hm1)))
  · exact (congrArg Members.engine hm4).trans ((congrArg Members.engine hm3).trans
      ((congrArg Members.engine hm2).trans (congrArg Members.engine hm1)))

end InGame

namespace Splash

theorem Activate_splashImage {p q : Program} {game : GameInformation}
    (h : Activate p game = some q) :
    q.members = { p.members with splashImage := q.splashImage } := by
  simp only [Activate, Option.some.injEq] at h
  rw [← h]
  exact congrArg (fun m : Members =>
    { m with splashImage := (p.LoadImage "assets/images/splash.jpg").2 })
    (Program.LoadImage_members p "assets/images/splash.jpg")

theorem Deactivate_splashImage {p q : Program} (h : Deactivate p = some q) :
    q.members = p.members :=
  (Program.UnloadImage_some h).1

end Splash

/-! ## StepEnemies -/

namespace InGame

/-- The loop of `StepEnemies` on the members: every enemy whose `nextShot` the
tick has passed is rescheduled and, unless the game is over, fires one
projectile of its colour; the other enemies do nothing. -/
theorem stepEnemiesLoop_spec :
    ∀ (enemies : List EnemyObject) (p q : Program) (out : List EnemyObject),
      stepEnemiesLoop p enemies = some (q, out) →
      out = enemies.map (rescheduled p.currentTick) ∧
      ∃ fired : List ColoredObject,
        q.members = { p.members with projectiles := p.projectiles ++ fired } ∧
        (∀ x ∈ fired, x.color < 4) ∧
        (p.isGameOver = true → fired = []) ∧
        (p.isGameOver = false →
          fired.map ColoredObject.color =
            (enemies.filter (fun e => decide (p.currentTick > e.nextShot))).map
              EnemyObject.color) := by
  intro enemies
  induction enemies with
  | nil =>
    intro p q out h
    simp only [stepEnemiesLoop, Option.some.injEq, Prod.mk.injEq] at h
    obtain ⟨rfl, rfl⟩ := h
    exact ⟨rfl, [], (by rw [List.append_nil]; rfl), fun x hx => (by cases hx), fun _ => rfl,
      fun _ => rfl⟩
  | cons enemy rest ih =>
    intro p q out h
    simp only [stepEnemiesLoop] at h
    cases h1 : stepEnemy p enemy with
    | none => simp [h1] at h
    | some t =>
      obtain ⟨p1, enemy1⟩ := t
      simp only [h1] at h
      cases h2 : stepEnemiesLoop p1 rest with
      | none => simp [h2] at h
      | some t2 =>
        obtain ⟨p2, rest1⟩ := t2
        simp only [h2, Option.some.injEq, Prod.mk.injEq] at h
        obtain ⟨rfl, rfl⟩ := h
        obtain ⟨hout, fired, hm2, hcol, hover, hfire⟩ := ih p1 p2 rest1 h2
        have key : ∃ first : List ColoredObject,
            p1.members = { p.members with projectiles := p.projectiles ++ first } ∧
            enemy1 = rescheduled p.currentTick enemy ∧
            (∀ x ∈ first, x.color < 4) ∧
            (p.isGameOver = true → first = []) ∧
            (p.isGameOver = false →
              first.map ColoredObject.color =
                ([enemy].filter (fun e => decide (p.currentTick > e.nextShot))).map
                  EnemyObject.color) := by
          rcases stepEnemy_members h1 with ⟨ht, hg, hc, he, a, hm⟩ | ⟨ht, hg, he, hm⟩ |
            ⟨ht, he, hm⟩
          · refine ⟨[ColoredObject.mk a enemy.color], hm, ?_, ?_, ?_, ?_⟩
            · rw [he, rescheduled, if_pos ht]
            · intro x hx
              rw [List.mem_singleton.mp hx]
              exact hc
            · intro hg1
              rw [hg] at hg1
              cases hg1
            · intro _
              simp [ht]
          · refine ⟨[], ?_, ?_, fun x hx => (by cases hx), fun _ => rfl, ?_⟩
            · rw [hm, List.append_nil]
              rfl
            · rw [he, rescheduled, if_pos ht]
            · intro hg1
              rw [hg] at hg1
              cases hg1
          · refine ⟨[], ?_, ?_, fun x hx => (by cases hx), fun _ => rfl, ?_⟩
            · rw [hm, List.append_nil]
              rfl
            · rw [he, rescheduled, if_neg ht]
            · intro _
              simp [ht]
        obtain ⟨first, hm1, he1, hcol1, hover1, hfire1⟩ := key
        have htick : p1.currentTick = p.currentTick := congrArg Members.currentTick hm1
        have hg1 : p1.isGameOver = p.isGameOver := congrArg Members.isGameOver hm1
        have hpr : p1.projectiles = p.projectiles ++ first := congrArg Members.projectiles hm1
        refine ⟨?_, first ++ fired, ?_, ?_, ?_, ?_⟩
        · rw [hout, he1, htick]
          rfl
        · rw [hm2, hpr, hm1, List.append_assoc]
        · intro x hx
          rcases List.mem_append.mp hx with hx | hx
          · exact hcol1 x hx
          · exact hcol x hx
        · intro hg
          rw [hover1 hg, hover (hg1.trans hg)]
          rfl
        · intro hg
          rw [List.map_append, hfire1 hg, hfire (hg1.trans hg), htick, ← List.map_append,
            ← List.filter_append]
          rfl

/-- What `StepEnemies` does to the members that the health and the score
depend on. -/
theorem StepEnemies_members {p q : Program} (h : StepEnemies p = some q) :
    ∃ fired : List ColoredObject,
      (∀ x ∈ fired, x.color < 4) ∧ q.projectiles = p.projectiles ++ fired ∧
      q.player = p.player ∧ q.isGameOver = p.isGameOver ∧ q.currentGame = p.currentGame ∧
      q.currentTick = p.currentTick ∧ q.engine = p.engine ∧ q.clouds = p.clouds := by
  unfold StepEnemies at h
  cases h1 : spawnDue p with
  | none => simp [h1] at h
  | some p1 =>
  simp only [h1] at h
  cases h2 : stepEnemiesLoop p1 p1.enemies with
  | none => simp [h2] at h
  | some t =>
  obtain ⟨p2, out⟩ := t
  simp only [h2, Option.some.injEq] at h
  subst h
  obtain ⟨_, fired, hm2, hcol, _, _⟩ := stepEnemiesLoop_spec _ _ _ _ h2
  have hm1 : p1.projectiles = p.projectiles ∧ p1.player = p.player ∧
      p1.isGameOver = p.isGameOver ∧ p1.currentGame = p.currentGame ∧
      p1.currentTick = p.currentTick ∧ p1.engine = p.engine ∧ p1.clouds = p.clouds := by
    unfold spawnDue at h1
    split_ifs at h1
    · obtain ⟨e, hm, _⟩ := SpawnEnemy_spec h1
      exact ⟨congrArg Members.projectiles hm, congrArg Members.player hm,
        congrArg Members.isGameOver hm, congrArg Members.currentGame hm,
        congrArg Members.currentTick hm, congrArg Members.engine hm,
        congrArg Members.clouds hm⟩
    · simp only [Option.some.injEq] at h1
      subst h1
      exact ⟨rfl, rfl, rfl, rfl, rfl, rfl, rfl⟩
  obtain ⟨e1, e2, e3, e4, e5, e6, e7⟩ := hm1
  refine ⟨fired, hcol, ?_, ?_, ?_, ?_, ?_, ?_, ?_⟩
  · exact (congrArg Members.projectiles hm2).trans (by rw [e1])
  · exact (congrArg Members.player hm2).trans e2
  · exact (congrArg Members.isGameOver hm2).trans e3
  · exact (congrArg Members.currentGame hm2).trans e4
  · exact (congrArg Members.currentTick hm2).trans e5
  · exact (congrArg Members.engine hm2).trans e6
  · exact (congrArg Members.clouds hm2).trans e7

end InGame

/-! ## The range of the player's health -/

namespace InGame

theorem hitHealth_eq {health : Int} {color : Nat} (hc : color < 4) (h0 : -100 ≤ health)
    (h1 : health ≤ 100) : hitHealth health color = health - ((color + 1) * 5 : Nat) := by
  unfold hitHealth colorValue toInt uintModulus
  have hmod : (color + 1) * 5 % 2 ^ 32 = (color + 1) * 5 := Nat.mod_eq_of_lt (by omega)
  rw [hmod]
  omega

/-- The collision half of the loop body and the health: while the game is not
over and the health is in 1..100, a projectile of one of the four colours
leaves the health in 1..100 and the game running, or ends the game with a
health in -19..0. -/
theorem projectileHitTest_health {p q : Program} {x : ColoredObject} {r : Option Bool}
    (hg : p.isGameOver = false) (hpos : 0 < p.player.health) (hle : p.player.health ≤ 100)
    (hc : x.color < 4) (h : projectileHitTest p x = some (q, r)) :
    q.projectiles = p.projectiles ∧ -20 < q.player.health ∧ q.player.health ≤ 100 ∧
    (r = none → q.isGameOver = true ∧ q.player.health ≤ 0) ∧
    (r ≠ none → q.isGameOver = false ∧ 0 < q.player.health) := by
  have hh := hitHealth_eq hc (by omega : -100 ≤ p.player.health) hle
  have hcolor : ((((x.color + 1) * 5 : Nat)) : Int) ≤ 20 := by
    have : (x.color + 1) * 5 ≤ 20 := by omega
    exact_mod_cast this
  have hcolor0 : (0 : Int) < (((x.color + 1) * 5 : Nat) : Int) := by
    have : 0 < (x.color + 1) * 5 := by omega
    exact_mod_cast this
  rcases projectileHitTest_members h with ⟨hm, hr⟩ | ⟨o, pl, _, _, _, _, hm, hr0, hr1⟩ |
    ⟨o, b, e, a, _, _, _, _, _, hr, hm⟩
  · have e1 : q.player = p.player := congrArg Members.player hm
    have e2 : q.isGameOver = p.isGameOver := congrArg Members.isGameOver hm
    refine ⟨congrArg Members.projectiles hm, by rw [e1]; omega, by rw [e1]; exact hle, ?_, ?_⟩
    · intro hn
      rw [hn] at hr
      cases hr
    · intro _
      exact ⟨e2.trans hg, by rw [e1]; exact hpos⟩
  · have e1 : q.player.health = hitHealth p.player.health x.color :=
      congrArg (fun m : Members => m.player.health) hm
    have e2 : q.isGameOver =
        (p.isGameOver || decide (hitHealth p.player.health x.color ≤ 0)) :=
      congrArg Members.isGameOver hm
    rw [hg, Bool.false_or] at e2
    refine ⟨congrArg Members.projectiles hm, by rw [e1, hh]; omega, by rw [e1, hh]; omega,
      ?_, ?_⟩
    · intro hn
      have hnot : ¬ 0 < hitHealth p.player.health x.color := by
        intro hp
        rw [hr1 hp] at hn
        cases hn
      have hle0 : hitHealth p.player.health x.color ≤ 0 := not_lt.mp hnot
      exact ⟨by rw [e2]; exact decide_eq_true hle0, by rw [e1]; exact hle0⟩
    · intro hn
      have hnot : ¬ hitHealth p.player.health x.color ≤ 0 := fun hle0 => hn (hr0 hle0)
      exact ⟨by rw [e2]; exact decide_eq_false hnot, by rw [e1]; exact not_le.mp hnot⟩
  · have e1 : q.player.health = p.player.health :=
      congrArg (fun m : Members => m.player.health) hm
    have e2 : q.isGameOver = p.isGameOver := congrArg Members.isGameOver hm
    refine ⟨congrArg Members.projectiles hm, by rw [e1]; omega, by rw [e1]; exact hle, ?_, ?_⟩
    · intro hn
      rw [hn] at hr
      cases hr
    · intro _
      exact ⟨e2.trans hg, by rw [e1]; exact hpos⟩

theorem StepProjectiles_health {p q : Program} (hg : p.isGameOver = false)
    (hinv : HealthInv p.members) (h : StepProjectiles p = some q) : HealthInv q.members := by
  refine stepProjectilesLoop_induction
    (fun m kept todo => HealthInv m ∧ m.isGameOver = false ∧ m.projectiles = kept ++ todo)
    HealthInv ?_ ?_ ?_ ?_ p.projectiles [] p q ⟨hinv, hg, rfl⟩ h
  · intro m kept hm
    exact hm.1
  · intro p1 q1 kept x rest hm htest
    obtain ⟨⟨_, hle, hpos, _, hcol⟩, hg1, hpr⟩ := hm
    have hx : x ∈ p1.projectiles := by
      rw [show p1.projectiles = kept ++ x :: rest from hpr]
      simp
    obtain ⟨e1, h20, h100, hnone, _⟩ :=
      projectileHitTest_health hg1 (hpos hg1) hle (hcol x hx) htest
    obtain ⟨hover, h0⟩ := hnone rfl
    refine ⟨h20, h100, ?_, fun _ => h0, ?_⟩
    · intro hf
      rw [show q1.members.isGameOver = q1.isGameOver from rfl, hover] at hf
      cases hf
    · intro y hy
      rw [show q1.members.projectiles = q1.projectiles from rfl, e1] at hy
      exact hcol y hy
  · intro p1 q1 kept x rest hit hm htest
    obtain ⟨⟨_, hle, hpos, _, hcol⟩, hg1, hpr⟩ := hm
    have hx : x ∈ p1.projectiles := by
      rw [show p1.projectiles = kept ++ x :: rest from hpr]
      simp
    obtain ⟨e1, h20, h100, _, hsome⟩ :=
      projectileHitTest_health hg1 (hpos hg1) hle (hcol x hx) htest
    obtain ⟨hrun, h0⟩ := hsome (by simp)
    refine ⟨⟨h20, h100, fun _ => h0, ?_, ?_⟩, hrun, rfl⟩
    · intro hf
      rw [show q1.members.isGameOver = q1.isGameOver from rfl, hrun] at hf
      cases hf
    · intro y hy
      have hy1 : y ∈ kept ++ rest := hy
      apply hcol y
      rw [show p1.members.projectiles = kept ++ x :: rest from hpr]
      rcases List.mem_append.mp hy1 with hk | hk
      · exact List.mem_append_left _ hk
      · exact List.mem_append_right _ (List.mem_cons_of_mem _ hk)
  · intro p1 q1 kept x rest hm htest
    obtain ⟨⟨_, hle, hpos, _, hcol⟩, hg1, hpr⟩ := hm
    have hx : x ∈ p1.projectiles := by
      rw [show p1.projectiles = kept ++ x :: rest from hpr]
      simp
    obtain ⟨e1, h20, h100, _, hsome⟩ :=
      projectileHitTest_health hg1 (hpos hg1) hle (hcol x hx) htest
    obtain ⟨hrun, h0⟩ := hsome (by simp)
    refine ⟨⟨h20, h100, fun _ => h0, ?_, ?_⟩, hrun, ?_⟩
    · intro hf
      rw [show q1.members.isGameOver = q1.isGameOver from rfl, hrun] at hf
      cases hf
    · intro y hy
      rw [show q1.members.projectiles = q1.projectiles from rfl, e1] at hy
      exact hcol y hy
    · rw [show q1.members.projectiles = q1.projectiles from rfl, e1,
        show p1.projectiles = kept ++ x :: rest from hpr]
      simp

end InGame

namespace InGame

theorem HealthInv_of_fields {m n : Members} (hinv : HealthInv m) (hp : n.player = m.player)
    (hg : n.isGameOver = m.isGameOver) (hpr : ∀ x ∈ n.projectiles, x.color < 4) :
    HealthInv n := by
  obtain ⟨h1, h2, h3, h4, _⟩ := hinv
  refine ⟨by rw [hp]; exact h1, by rw [hp]; exact h2, ?_, ?_, hpr⟩
  · intro hf
    rw [hp]
    exact h3 (hg ▸ hf)
  · intro hf
    rw [hp]
    exact h4 (hg ▸ hf)

theorem HealthInv_of_members {p q : Program} (hinv : HealthInv p.members)
    (hm : q.members = p.members) : HealthInv q.members := by
  rw [hm]
  exact hinv

theorem Step_health {p q : Program} {m : ℚ} {ticks : Nat} (hinv : HealthInv p.members)
    (h : Step p m ticks = some q) : HealthInv q.members := by
  unfold Step at h
  by_cases hover : p.isGameOver = true
  · rw [if_pos hover] at h
    simp only [Option.some.injEq] at h
    rw [← h]
    exact hinv
  · have hg : p.isGameOver = false := by simpa using hover
    rw [if_neg hover] at h
    simp only [Option.bind_eq_bind, Option.bind_eq_some] at h
    obtain ⟨p2, h2, p3, h3, p4, h4, p5, h5, h6⟩ := h
    have hm2 := StepClouds_members h2
    have hinv2 : HealthInv p2.members := by
      rw [hm2]
      exact hinv
    have hg2 : p2.isGameOver = false := (congrArg Members.isGameOver hm2).trans hg
    have hinv3 := StepProjectiles_health hg2 hinv2 h3
    obtain ⟨fired, hcol, hpr, hpl, hgo, _⟩ := StepEnemies_members h4
    have hinv4 : HealthInv p4.members := by
      refine HealthInv_of_fields hinv3 hpl hgo ?_
      intro x hx
      rw [show p4.members.projectiles = p4.projectiles from rfl, hpr] at hx
      rcases List.mem_append.mp hx with hx | hx
      · exact hinv3.2.2.2.2 x hx
      · exact hcol x hx
    exact HealthInv_of_members (HealthInv_of_members hinv4 (StepPlayer_members h5))
      (Program.Update_members h6)

/-- What `OnPress` does to the members: a restart when the game is over and
the key is Enter, a shot on Spacebar, a change of colour on A, S, D and F, and
nothing otherwise. -/
theorem OnPress_members {p q : Program} {key : Nat} (h : OnPress p key = some q) :
    (p.isGameOver = true ∧ key = Input.KeyEnter ∧
      ∃ new : List CloudObject, new.length = NumberOfClouds ∧
        q.members =
          { p.members with
              player := { color := ColoredObject.Red, health := 100, score := 0 },
              clouds := new, enemies := [], projectiles := [],
              currentEnemySpawnInterval := EnemySpawnInterval, enemySpawnCounter := 0,
              isGameOver := false }) ∨
    q.members = p.members ∨
    (p.isGameOver = false ∧ key = Input.KeySpacebar ∧ p.player.color < 4 ∧
      q.members =
        { p.members with
            projectiles := p.projectiles ++ [ColoredObject.mk p.nextAddr p.player.color] }) ∨
    (p.isGameOver = false ∧ key - Input.KeyA < 4 ∧
      q.members = { p.members with player := { p.player with color := key - Input.KeyA } }) := by
  unfold OnPress at h
  by_cases hover : p.isGameOver = true
  · rw [if_pos hover] at h
    split_ifs at h with hkey
    · simp only [Option.bind_eq_bind, Option.bind_eq_some] at h
      obtain ⟨p1, h1, p2, h2, h3⟩ := h
      have hm0 := DeleteObjects_members h1
      have hm1 : p1.members =
          { p.members with clouds := [], enemies := [], projectiles := [] } := hm0
      obtain ⟨new, hlen, hm2⟩ := InitializeObjects_members h2
      obtain ⟨hm3, _, _⟩ := UpdateScore_spec h3
      have hcl : p1.clouds = [] := congrArg Members.clouds hm1
      refine Or.inl ⟨hover, hkey, new, hlen, ?_⟩
      rw [hm3, hm2, hcl, hm1]
      rfl
    · simp only [Option.some.injEq] at h
      rw [← h]
      exact Or.inr (Or.inl rfl)
  · have hg : p.isGameOver = false := by simpa using hover
    rw [if_neg hover] at h
    split_ifs at h with h1 h2 h3 h4 h5 h6
    · exact Or.inr (Or.inl (Program.modifyObject_members h))
    · exact Or.inr (Or.inl (Program.modifyObject_members h))
    · exact Or.inr (Or.inl (Program.modifyObject_members h))
    · exact Or.inr (Or.inl (Program.modifyObject_members h))
    · rcases Shoot_members h with ⟨hover1, _⟩ | ⟨_, hc, hm⟩
      · exact absurd hover1 hover
      · exact Or.inr (Or.inr (Or.inl ⟨hg, h5, hc, hm⟩))
    · simp only [Option.bind_eq_bind, Option.bind_eq_some, Option.some.injEq] at h
      obtain ⟨image, himage, p1, hp1, rfl⟩ := h
      refine Or.inr (Or.inr (Or.inr ⟨hg, ?_, ?_⟩))
      · unfold Program.index at himage
        split_ifs at himage with hc
        omega
      · rw [Program.PlaySample_members, Program.modifyObject_members hp1]
        rfl
    · simp only [Option.some.injEq] at h
      rw [← h]
      exact Or.inr (Or.inl rfl)

end InGame

namespace Program

/-- Induction along the virtual calls of a state change. -/
theorem stateCalls_induction (P : Program → Prop)
    (hactivate : ∀ (p q : Program) (game : GameInformation), P p →
      InGame.Activate p game = some q → P q)
    (hdeactivate : ∀ p q : Program, P p → InGame.Deactivate p = some q → P q)
    (hsplash : ∀ p q : Program, P p → q.members = { p.members with splashImage := q.splashImage } →
      P q) :
    ∀ (calls : List (StateCall × Option StateRef)) (p q : Program), P p →
      stateCalls p calls = some q → P q := by
  intro calls
  induction calls with
  | nil =>
    intro p q hp h
    simp only [stateCalls, Option.some.injEq] at h
    rw [← h]
    exact hp
  | cons c rest ih =>
    intro p q hp h
    simp only [stateCalls] at h
    cases h1 : p.stateCall c.1 with
    | none => simp [h1] at h
    | some p1 =>
      simp only [h1] at h
      refine ih p1 q ?_ h
      unfold stateCall at h1
      cases hc : c.1 with
      | Activate state game =>
        simp only [hc] at h1
        split_ifs at h1
        · exact hactivate p p1 game hp h1
        · exact hsplash p p1 hp (Splash.Activate_splashImage h1)
      | Deactivate state =>
        simp only [hc] at h1
        split_ifs at h1
        · exact hdeactivate p p1 hp h1
        · have hm := Splash.Deactivate_splashImage h1
          have hs : p1.splashImage = p.splashImage := congrArg Members.splashImage hm
          refine hsplash p p1 hp ?_
          rw [hs, hm]
          rfl

end Program

namespace InGame

theorem OnRelease_members {p q : Program} {key : Nat} (h : OnRelease p key = some q) :
    q.members = p.members ∨ (key = Input.KeyEscape ∧ p.ChangeState Splash.Name = some q) := by
  unfold OnRelease at h
  split_ifs at h with h1
  · exact Or.inr ⟨h1, h⟩
  · exact Or.inl (Program.modifyObject_members h)
  · exact Or.inl (Program.modifyObject_members h)
  · exact Or.inl (Program.modifyObject_members h)
  · exact Or.inl (Program.modifyObject_members h)
  · simp only [Option.some.injEq] at h
    rw [← h]
    exact Or.inl rfl

theorem Activate_health {p q : Program} {game : GameInformation}
    (hp : ∀ x ∈ p.projectiles, x.color < 4) (h : Activate p game = some q) :
    HealthInv q.members := by
  obtain ⟨new, _, hpl, hg, _, hpr, _⟩ := Activate_members h
  have hh : q.player.health = 100 := by rw [hpl]
  refine ⟨?_, ?_, ?_, ?_, ?_⟩
  · show -20 < q.player.health
    omega
  · show q.player.health ≤ 100
    omega
  · intro _
    show 0 < q.player.health
    omega
  · intro hf
    rw [show q.members.isGameOver = q.isGameOver from rfl, hg] at hf
    cases hf
  · intro x hx
    rw [show q.members.projectiles = q.projectiles from rfl, hpr] at hx
    exact hp x hx

theorem ChangeState_health {p q : Program} {stateName : String} (hinv : HealthInv p.members)
    (h : p.ChangeState stateName = some q) : HealthInv q.members := by
  unfold Program.ChangeState at h
  refine Program.stateCalls_induction (fun r => HealthInv r.members) ?_ ?_ ?_ _ _ q ?_ h
  · intro r s game hr hs
    exact Activate_health hr.2.2.2.2 hs
  · intro r s hr hs
    have hm := Deactivate_members hs
    have hpl := congrArg Members.player hm
    have hgo := congrArg Members.isGameOver hm
    refine HealthInv_of_fields hr hpl hgo ?_
    intro x hx
    rw [hm] at hx
    cases hx
  · intro r s hr hm
    have hpl := congrArg Members.player hm
    have hgo := congrArg Members.isGameOver hm
    refine HealthInv_of_fields hr hpl hgo ?_
    intro x hx
    rw [hm] at hx
    exact hr.2.2.2.2 x hx
  · exact hinv

theorem call_health {p q : Program} {c : Call} (hinv : HealthInv p.members)
    (h : call p c = some q) : HealthInv q.members := by
  cases c with
  | Step m ticks => exact Step_health hinv h
  | OnPress key =>
    rcases OnPress_members h with ⟨_, _, new, _, hm⟩ | hm | ⟨_, _, hc, hm⟩ | ⟨_, _, hm⟩
    · rw [hm]
      refine ⟨?_, ?_, ?_, ?_, ?_⟩
      · show (-20 : Int) < 100
        decide
      · show (100 : Int) ≤ 100
        decide
      · intro _
        show (0 : Int) < 100
        decide
      · intro hf
        cases hf
      · intro x hx
        cases hx
    · exact HealthInv_of_members hinv hm
    · have hpl := congrArg Members.player hm
      have hgo := congrArg Members.isGameOver hm
      refine HealthInv_of_fields hinv hpl hgo ?_
      intro x hx
      rw [hm] at hx
      rcases List.mem_append.mp hx with hx | hx
      · exact hinv.2.2.2.2 x hx
      · rw [List.mem_singleton.mp hx]
        exact hc
    · rw [hm]
      exact hinv
  | OnRelease key =>
    rcases OnRelease_members h with hm | ⟨_, hs⟩
    · exact HealthInv_of_members hinv hm
    · exact ChangeState_health hinv hs

theorem run_health :
    ∀ (calls : List Call) (p q : Program), HealthInv p.members → run p calls = some q →
      HealthInv q.members := by
  intro calls
  induction calls with
  | nil =>
    intro p q hinv h
    simp only [run, Option.some.injEq] at h
    rw [← h]
    exact hinv
  | cons c rest ih =>
    intro p q hinv h
    simp only [run] at h
    cases h1 : call p c with
    | none => simp [h1] at h
    | some p1 =>
      simp only [h1] at h
      exact ih p1 q (call_health hinv h1) h

end InGame

/-- After `Activate` on the program of `Main.cxx` and ten calls of `Step` the
health of the player is -5, which is below 0, and the game is over. -/
theorem health_negative_after_ten_steps :
    (InGame.activateAndRun (Program.start exampleEnv exampleGame) exampleGame
      exampleTenSteps).map (fun p => (p.player.health, p.isGameOver)) = some (-5, true) := by
  decide!

/-- C13 (amended): in every state reachable from `Activate` through any
sequence of `Step`, `OnPress` and `OnRelease` calls, the health of the player
is an integer above -20 and at most 100; it is positive exactly while the game
is not over.  The start state may track projectiles, of the four colours. -/
theorem health_range_reachable (p : Program) (game : GameInformation)
    (calls : List InGame.Call) (q : Program) (hp : ∀ x ∈ p.projectiles, x.color < 4)
    (h : InGame.activateAndRun p game calls = some q) :
    -20 < q.player.health ∧ q.player.health ≤ 100 ∧
    (q.isGameOver = false → 0 < q.player.health) ∧
    (q.isGameOver = true → q.player.health ≤ 0) := by
  unfold InGame.activateAndRun at h
  cases h1 : InGame.Activate p game with
  | none => simp [h1] at h
  | some p1 =>
    simp only [h1] at h
    obtain ⟨h20, h100, hrun, hover, _⟩ :=
      InGame.run_health calls p1 q (InGame.Activate_health hp h1) h
    exact ⟨h20, h100, hrun, hover⟩

/-- The health after a change of colour, a shot and a frame on the program of
`Main.cxx`. -/
theorem health_range_reachable_witness :
    ∃ q, InGame.activateAndRun (Program.start exampleEnv exampleGame) exampleGame
        [InGame.Call.OnPress Input.KeyD, InGame.Call.OnPress Input.KeySpacebar,
         InGame.Call.Step 1 33] = some q ∧
      -20 < q.player.health ∧ q.player.health ≤ 100 := by
  have hdef : (InGame.activateAndRun (Program.start exampleEnv exampleGame) exampleGame
      [InGame.Call.OnPress Input.KeyD, InGame.Call.OnPress Input.KeySpacebar,
       InGame.Call.Step 1 33]).isSome = true := by decide!
  obtain ⟨q, hq⟩ := Option.isSome_iff_exists.mp hdef
  have hrange := health_range_reachable (Program.start exampleEnv exampleGame) exampleGame
    [InGame.Call.OnPress Input.KeyD, InGame.Call.OnPress Input.KeySpacebar,
     InGame.Call.Step 1 33] q (fun x hx => absurd hx (List.not_mem_nil x)) hq
  exact ⟨q, hq, hrange.1, hrange.2.1⟩

/-! ## The hit of an enemy projectile on the player -/

namespace InGame

theorem lifebarWidth_of_nonneg {health : Int} {targetWidth : Nat} (h0 : 0 ≤ health)
    (h1 : health * targetWidth < 4294967296) :
    lifebarWidth health targetWidth = (health : ℚ) * (targetWidth : ℚ) / 100 := by
  unfold lifebarWidth toUInt
  have hnn : 0 ≤ health * (targetWidth : Int) := Int.mul_nonneg h0 (Int.ofNat_nonneg _)
  rw [Int.emod_eq_of_lt hnn h1]
  have hcast : (((health * (targetWidth : Int)).toNat : Nat) : ℚ) =
      (health : ℚ) * (targetWidth : ℚ) := by
    have h2 : (((health * (targetWidth : Int)).toNat : Nat) : Int) = health * targetWidth :=
      Int.toNat_of_nonneg hnn
    have h3 : ((((health * (targetWidth : Int)).toNat : Nat) : Int) : ℚ) =
        ((health * (targetWidth : Int) : Int) : ℚ) := by rw [h2]
    push_cast at h3
    exact h3
  rw [hcast]

theorem lifebarWidth_of_neg {health : Int} {targetWidth : Nat} (h0 : health * targetWidth < 0)
    (h1 : -4294967296 ≤ health * targetWidth) :
    lifebarWidth health targetWidth =
      (4294967296 + (health : ℚ) * (targetWidth : ℚ)) / 100 := by
  unfold lifebarWidth toUInt
  have hmod : health * (targetWidth : Int) % 4294967296 =
      4294967296 + health * (targetWidth : Int) := by omega
  rw [hmod]
  have hnn : 0 ≤ 4294967296 + health * (targetWidth : Int) := by omega
  have hcast : ((((4294967296 + health * (targetWidth : Int)).toNat : Nat) : Int) : ℚ) =
      ((4294967296 + health * (targetWidth : Int) : Int) : ℚ) := by
    rw [Int.toNat_of_nonneg hnn]
  push_cast at hcast
  rw [hcast]

/-- The hit of an enemy-origin projectile of one of the four colours on the
player while the health is in 1..100: the health goes down by exactly
`(color + 1) * 5`, the game is over exactly when the result is not positive,
and the width of the lifebar is the `uint` product of the health and the target
width, over 100: `health * targetWidth / 100` for a health that is not
negative, and `(2 ^ 32 + health * targetWidth) / 100` for a negative one. -/
theorem enemy_hit_effect {p q : Program} {x : ColoredObject} {o pl : Object ℚ}
    {r : Option Bool} (ho : p.heap x.addr = some o) (ht : o.type = ObjectType.Enemy)
    (hpl : p.heap playerAddr = some pl) (hhit : World.CheckCollision pl o = true)
    (hc : x.color < 4) (hpos : 0 < p.player.health) (hle : p.player.health ≤ 100)
    (hg : p.isGameOver = false) (hw : p.currentGame.targetWidth ≤ 40000000)
    (h : projectileHitTest p x = some (q, r)) :
    q.player.health = p.player.health - ((x.color + 1) * 5 : Nat) ∧
    (q.isGameOver = true ↔ q.player.health ≤ 0) ∧
    ∃ l, q.heap lifebarAddr = some l ∧
      (0 ≤ q.player.health →
        l.size.x = (q.player.health : ℚ) * (p.currentGame.targetWidth : ℚ) / 100) ∧
      (q.player.health < 0 → 0 < p.currentGame.targetWidth →
        l.size.x =
          (4294967296 + (q.player.health : ℚ) * (p.currentGame.targetWidth : ℚ)) / 100) := by
  obtain ⟨hm, _, _, l, hl, hsize⟩ := (projectileHitTest_enemy ho ht hpl h).2 hhit
  have hh := hitHealth_eq hc (by omega : -100 ≤ p.player.health) hle
  have e1 : q.player.health = hitHealth p.player.health x.color :=
    congrArg (fun m : Members => m.player.health) hm
  have e2 : q.isGameOver = (p.isGameOver || decide (hitHealth p.player.health x.color ≤ 0)) :=
    congrArg Members.isGameOver hm
  rw [hg, Bool.false_or] at e2
  have hcolor : (((x.color + 1) * 5 : Nat) : Int) ≤ 20 := by
    have : (x.color + 1) * 5 ≤ 20 := by omega
    exact_mod_cast this
  have hcolor0 : (0 : Int) ≤ (((x.color + 1) * 5 : Nat) : Int) := Int.ofNat_nonneg _
  have hwi : ((p.currentGame.targetWidth : Nat) : Int) ≤ 40000000 := by exact_mod_cast hw
  have hw0 : (0 : Int) ≤ ((p.currentGame.targetWidth : Nat) : Int) := Int.ofNat_nonneg _
  have hq20 : -20 < q.player.health := by rw [e1, hh]; omega
  have hq100 : q.player.health ≤ 100 := by rw [e1, hh]; omega
  refine ⟨e1.trans hh, ?_, l, hl, ?_, ?_⟩
  · rw [e2, e1]
    exact decide_eq_true_iff
  · intro h0
    rw [hsize, ← e1]
    refine lifebarWidth_of_nonneg h0 ?_
    nlinarith
  · intro hneg hwpos
    rw [hsize, ← e1]
    have hwpos1 : (0 : Int) < ((p.currentGame.targetWidth : Nat) : Int) := by
      exact_mod_cast hwpos
    refine lifebarWidth_of_neg ?_ ?_
    · nlinarith
    · nlinarith

end InGame

/-- C12, at the failing input.  In its tenth frame the example program calls
`StepProjectiles` with the health of the player at 10 and a Blue enemy
projectile over the player.  The call lowers the health by 15 to -5 and sets
the game-over flag, and it sets the width of the lifebar to
`(2 ^ 32 - 5 * 1280) / 100 = 42949608.96`: the product of the health and the
target width is computed in `uint`.  The value `health * targetWidth / 100` is
`-64`. -/
theorem lifebar_width_wraps_below_zero :
    exampleLastStand.map (fun p =>
      (p.player.health, p.isGameOver, p.currentGame.targetWidth,
        (p.heap lifebarAddr).map (fun l => l.size.x))) = some (10, false, 1280, some 128) ∧
    (exampleLastStand.bind InGame.StepProjectiles).map (fun q =>
      (q.player.health, q.isGameOver, (q.heap lifebarAddr).map (fun l => l.size.x))) =
      some (-5, true, some (4294960896 / 100)) ∧
    ((-5 : Int) : ℚ) * ((1280 : Nat) : ℚ) / 100 = -64 ∧
    InGame.lifebarWidth (-5) 1280 ≠ ((-5 : Int) : ℚ) * ((1280 : Nat) : ℚ) / 100 := by
  refine ⟨by decide!, by decide!, by norm_num, by decide!⟩

/-- Five Black hits from the health 100 leave exactly 0: the health after the
hits is 80, 60, 40, 20 and 0, and only the last is not positive. -/
theorem five_black_hits :
    InGame.hitHealth 100 ColoredObject.Black = 80 ∧ InGame.hitHealth 80 ColoredObject.Black = 60 ∧
    InGame.hitHealth 60 ColoredObject.Black = 40 ∧ InGame.hitHealth 40 ColoredObject.Black = 20 ∧
    InGame.hitHealth 20 ColoredObject.Black = 0 := by
  decide

/-! ## The enemies a call of `StepProjectiles` removes, and the score -/

namespace InGame

/-- The collision half of the loop body, on the tracked enemies and the
score: either both are left alone, or one enemy of the colour of the
projectile is removed and the score is raised by the value of that colour. -/
theorem projectileHitTest_score {p q : Program} {x : ColoredObject} {r : Option Bool}
    (h : projectileHitTest p x = some (q, r)) :
    (q.enemies = p.enemies ∧ q.player.score = p.player.score) ∨
    ∃ b e a, p.enemies = b ++ e :: a ∧ q.enemies = b ++ a ∧ e.color = x.color ∧
      q.player.score = hitScore p.player.score e.color := by
  rcases projectileHitTest_members h with ⟨hm, _⟩ | ⟨o, pl, _, _, _, _, hm, _, _⟩ |
    ⟨o, b, e, a, _, _, hen, htarget, _, _, hm⟩
  · exact Or.inl ⟨congrArg Members.enemies hm,
      congrArg (fun m : Members => m.player.score) hm⟩
  · exact Or.inl ⟨congrArg Members.enemies hm,
      congrArg (fun m : Members => m.player.score) hm⟩
  · refine Or.inr ⟨b, e, a, hen, congrArg Members.enemies hm, htarget.1, ?_⟩
    rw [htarget.1]
    exact congrArg (fun m : Members => m.player.score) hm

theorem foldl_hitScore_exact :
    ∀ (removed : List EnemyObject) (score : Int), 0 ≤ score →
      score + (removed.map (fun e => (((e.color + 1) * 5 : Nat) : Int))).sum < 2147483648 →
      removed.foldl (fun s e => hitScore s e.color) score =
        score + (removed.map (fun e => (((e.color + 1) * 5 : Nat) : Int))).sum := by
  intro removed
  induction removed with
  | nil =>
    intro score _ _
    simp
  | cons e rest ih =>
    intro score h0 hlt
    simp only [List.map_cons, List.sum_cons] at hlt
    have hrest : (0 : Int) ≤ (rest.map (fun e => (((e.color + 1) * 5 : Nat) : Int))).sum := by
      apply List.sum_nonneg
      intro z hz
      obtain ⟨e1, _, rfl⟩ := List.mem_map.mp hz
      exact Int.ofNat_nonneg _
    have hval : (0 : Int) ≤ (((e.color + 1) * 5 : Nat) : Int) := Int.ofNat_nonneg _
    have hstep : hitScore score e.color = score + (((e.color + 1) * 5 : Nat) : Int) := by
      unfold hitScore colorValue toInt uintModulus
      have hsmall : (e.color + 1) * 5 < 2 ^ 32 := by
        have : (((e.color + 1) * 5 : Nat) : Int) < 2147483648 := by omega
        have h2 : (e.color + 1) * 5 < 2147483648 := by exact_mod_cast this
        omega
      rw [Nat.mod_eq_of_lt hsmall]
      omega
    simp only [List.foldl_cons, List.map_cons, List.sum_cons]
    rw [hstep, ih _ (by omega) (by omega)]
    omega

theorem score_step {p0 p1 q1 : Program} {x : ColoredObject} {r : Option Bool}
    (hm : ∃ removed : List EnemyObject,
      List.Perm p0.enemies (p1.enemies ++ removed) ∧
      p1.player.score = removed.foldl (fun s e => hitScore s e.color) p0.player.score)
    (htest : projectileHitTest p1 x = some (q1, r)) :
    ∃ removed : List EnemyObject,
      List.Perm p0.enemies (q1.enemies ++ removed) ∧
      q1.player.score = removed.foldl (fun s e => hitScore s e.color) p0.player.score := by
  obtain ⟨removed, hperm, hscore⟩ := hm
  rcases projectileHitTest_score htest with ⟨he, hs⟩ | ⟨b, e, a, hen, he, _, hs⟩
  · exact ⟨removed, by rw [he]; exact hperm, by rw [hs]; exact hscore⟩
  · refine ⟨removed ++ [e], ?_, ?_⟩
    · rw [he]
      rw [hen] at hperm
      have h1 : List.Perm ((b ++ e :: a) ++ removed) (e :: (b ++ a ++ removed)) := by
        rw [List.append_assoc, List.cons_append]
        exact List.perm_middle.trans (by rw [List.append_assoc])
      have h2 : List.Perm ((b ++ a) ++ (removed ++ [e])) (e :: (b ++ a ++ removed)) := by
        rw [← List.append_assoc]
        exact List.perm_append_singleton _ _
      exact hperm.trans (h1.trans h2.symm)
    · rw [hs, hscore, List.foldl_append]
      rfl

theorem StepProjectiles_score {p q : Program} (h : StepProjectiles p = some q) :
    ∃ removed : List EnemyObject,
      List.Perm p.enemies (q.enemies ++ removed) ∧
      q.player.score = removed.foldl (fun s e => hitScore s e.color) p.player.score := by
  refine stepProjectilesLoop_induction
    (fun m _ _ => ∃ removed : List EnemyObject,
      List.Perm p.enemies (m.enemies ++ removed) ∧
      m.player.score = removed.foldl (fun s e => hitScore s e.color) p.player.score)
    (fun m => ∃ removed : List EnemyObject,
      List.Perm p.enemies (m.enemies ++ removed) ∧
      m.player.score = removed.foldl (fun s e => hitScore s e.color) p.player.score)
    ?_ ?_ ?_ ?_ p.projectiles [] p q
    ⟨[], (by rw [List.append_nil]; exact List.Perm.refl _), rfl⟩ h
  · intro m kept hm
    exact hm
  all_goals
    intro p1 q1 kept x rest
  · intro hm htest
    exact score_step hm htest
  · intro hit hm htest
    exact score_step hm htest
  · intro hm htest
    exact score_step hm htest

end InGame

namespace InGame

theorem enemies_step {p0 p1 q1 : Program} {x : ColoredObject} {r : Option Bool} {n : Nat}
    (hm : p1.enemies.Sublist p0.enemies ∧ p0.enemies.length + (n + 1) ≤ p1.enemies.length + p0.projectiles.length)
    (htest : projectileHitTest p1 x = some (q1, r)) :
    q1.enemies.Sublist p0.enemies ∧
    p0.enemies.length + n ≤ q1.enemies.length + p0.projectiles.length := by
  obtain ⟨hsub, hlen⟩ := hm
  rcases projectileHitTest_score htest with ⟨he, _⟩ | ⟨b, e, a, hen, he, _, _⟩
  · rw [he]
    exact ⟨hsub, by omega⟩
  · rw [he]
    rw [hen] at hsub hlen
    refine ⟨List.Sublist.trans ?_ hsub, ?_⟩
    · exact List.Sublist.append (List.Sublist.refl b) (List.sublist_cons_self e a)
    · simp only [List.length_append, List.length_cons] at hlen ⊢
      omega

theorem StepProjectiles_enemies {p q : Program} (h : StepProjectiles p = some q) :
    q.enemies.Sublist p.enemies ∧
    p.enemies.length ≤ q.enemies.length + p.projectiles.length := by
  have key := stepProjectilesLoop_induction
    (fun m _ todo => m.enemies.Sublist p.enemies ∧
      p.enemies.length + todo.length ≤ m.enemies.length + p.projectiles.length)
    (fun m => m.enemies.Sublist p.enemies ∧
      p.enemies.length ≤ m.enemies.length + p.projectiles.length)
    ?_ ?_ ?_ ?_ p.projectiles [] p q ⟨List.Sublist.refl _, Nat.le_refl _⟩ h
  · exact key
  · intro m kept hm
    exact ⟨hm.1, by simpa using hm.2⟩
  · intro p1 q1 kept x rest hm htest
    have hstep := enemies_step (n := rest.length) hm htest
    exact ⟨hstep.1, Nat.le_trans (Nat.le_add_right _ _) hstep.2⟩
  · intro p1 q1 kept x rest hit hm htest
    exact enemies_step (n := rest.length) hm htest
  · intro p1 q1 kept x rest hm htest
    exact enemies_step (n := rest.length) hm htest

theorem ChangeState_score {p q : Program} {stateName : String}
    (h : p.ChangeState stateName = some q) :
    q.player.score = p.player.score ∨ q.player.score = 0 := by
  unfold Program.ChangeState at h
  refine Program.stateCalls_induction
    (fun r => r.player.score = p.player.score ∨ r.player.score = 0) ?_ ?_ ?_ _ _ q ?_ h
  · intro r s game _ hs
    obtain ⟨_, _, hpl, _⟩ := Activate_members hs
    exact Or.inr (by rw [hpl])
  · intro r s hr hs
    have hm := congrArg (fun m : Members => m.player.score) (Deactivate_members hs)
    have hm1 : s.player.score = r.player.score := hm
    rw [hm1]
    exact hr
  · intro r s hr hm
    have hm0 := congrArg (fun m : Members => m.player.score) hm
    have hm1 : s.player.score = r.player.score := hm0
    rw [hm1]
    exact hr
  · exact Or.inl rfl

end InGame

/-! ## The hit rule and the score -/

/-- C14: the score.  Over one call of `StepProjectiles` there is a list
`removed` of the enemies it removed (the tracked enemies before the call are
those after it and the removed ones), and the score after the call is the
score before it raised by `(colour + 1) * 5` for each removed enemy in turn,
each addition made in `uint` and converted to `int`; when the score is not
negative and the sum stays below `2 ^ 31` this is the exact sum.  The other
stages of `Step` leave the score alone, and so do `OnRelease` and `OnPress`,
except that a restart, like every scene initialization, sets it to 0. -/
theorem score_accounting :
    (∀ p q : Program, InGame.StepProjectiles p = some q →
      ∃ removed : List EnemyObject,
        List.Perm p.enemies (q.enemies ++ removed) ∧
        q.player.score =
          removed.foldl (fun s e => InGame.hitScore s e.color) p.player.score ∧
        (0 ≤ p.player.score →
          p.player.score + (removed.map (fun e => (((e.color + 1) * 5 : Nat) : Int))).sum <
            2147483648 →
          q.player.score =
            p.player.score +
              (removed.map (fun e => (((e.color + 1) * 5 : Nat) : Int))).sum)) ∧
    (∀ p q : Program, InGame.StepClouds p = some q → q.player.score = p.player.score) ∧
    (∀ p q : Program, InGame.StepEnemies p = some q → q.player.score = p.player.score) ∧
    (∀ p q : Program, InGame.StepPlayer p = some q → q.player.score = p.player.score) ∧
    (∀ (p q : Program) (m : ℚ), p.Update m = some q → q.player.score = p.player.score) ∧
    (∀ (p q : Program) (m : ℚ) (ticks : Nat), InGame.Step p m ticks = some q →
      q = p ∨ ∃ p1 q1, p1.player.score = p.player.score ∧ p1.enemies = p.enemies ∧
        InGame.StepProjectiles p1 = some q1 ∧ q.player.score = q1.player.score) ∧
    (∀ (p q : Program) (key : Nat), InGame.OnPress p key = some q →
      (p.isGameOver = true ∧ key = Input.KeyEnter ∧ q.player.score = 0) ∨
      q.player.score = p.player.score) ∧
    (∀ (p q : Program) (key : Nat), InGame.OnRelease p key = some q →
      q.player.score = p.player.score ∨
      (key = Input.KeyEscape ∧ q.player.score = 0)) ∧
    (∀ p q : Program, InGame.InitializeObjects p = some q → q.player.score = 0) := by
  refine ⟨?_, ?_, ?_, ?_, ?_, ?_, ?_, ?_, ?_⟩
  · intro p q h
    obtain ⟨removed, hperm, hscore⟩ := InGame.StepProjectiles_score h
    refine ⟨removed, hperm, hscore, ?_⟩
    intro h0 hlt
    rw [hscore]
    exact InGame.foldl_hitScore_exact removed _ h0 hlt
  · intro p q h
    exact congrArg (fun m : Members => m.player.score) (InGame.StepClouds_members h)
  · intro p q h
    obtain ⟨_, _, _, hpl, _⟩ := InGame.StepEnemies_members h
    rw [hpl]
  · intro p q h
    exact congrArg (fun m : Members => m.player.score) (InGame.StepPlayer_members h)
  · intro p q m h
    exact congrArg (fun m : Members => m.player.score) (Program.Update_members h)
  · intro p q m ticks h
    unfold InGame.Step at h
    by_cases hover : p.isGameOver = true
    · rw [if_pos hover] at h
      simp only [Option.some.injEq] at h
      exact Or.inl h.symm
    · rw [if_neg hover] at h
      simp only [Option.bind_eq_bind, Option.bind_eq_some] at h
      obtain ⟨p2, h2, p3, h3, p4, h4, p5, h5, h6⟩ := h
      have hm2 := InGame.StepClouds_members h2
      obtain ⟨_, _, _, hpl, _⟩ := InGame.StepEnemies_members h4
      refine Or.inr ⟨p2, p3, congrArg (fun m : Members => m.player.score) hm2,
        congrArg Members.enemies hm2, h3, ?_⟩
      have e5 : p5.player.score = p4.player.score :=
        congrArg (fun m : Members => m.player.score) (InGame.StepPlayer_members h5)
      have e6 : q.player.score = p5.player.score :=
        congrArg (fun m : Members => m.player.score) (Program.Update_members h6)
      rw [e6, e5, hpl]
  · intro p q key h
    rcases InGame.OnPress_members h with ⟨hg, hkey, new, _, hm⟩ | hm | ⟨_, _, _, hm⟩ |
      ⟨_, _, hm⟩
    · exact Or.inl ⟨hg, hkey, congrArg (fun m : Members => m.player.score) hm⟩
    · exact Or.inr (congrArg (fun m : Members => m.player.score) hm)
    · exact Or.inr (congrArg (fun m : Members => m.player.score) hm)
    · exact Or.inr (congrArg (fun m : Members => m.player.score) hm)
  · intro p q key h
    rcases InGame.OnRelease_members h with hm | ⟨hkey, hs⟩
    · exact Or.inl (congrArg (fun m : Members => m.player.score) hm)
    · rcases InGame.ChangeState_score hs with hsame | hzero
      · exact Or.inl hsame
      · exact Or.inr ⟨hkey, hzero⟩
  · intro p q h
    obtain ⟨_, _, hm⟩ := InGame.InitializeObjects_members h
    exact congrArg (fun m : Members => m.player.score) hm

/-- The score on the example duel: `StepProjectiles` removes the one Blue
enemy and raises the score from 0 to 15. -/
theorem score_accounting_witness :
    (exampleDuel.player.score, exampleDuel.enemies.map EnemyObject.color) = (0, [2]) ∧
    (InGame.StepProjectiles exampleDuel).map (fun q => (q.player.score, q.enemies.length)) =
      some (15, 0) ∧
    ∃ q, InGame.StepProjectiles exampleDuel = some q ∧
      ∃ removed : List EnemyObject,
        List.Perm exampleDuel.enemies (q.enemies ++ removed) ∧
        q.player.score =
          removed.foldl (fun s e => InGame.hitScore s e.color) exampleDuel.player.score := by
  have hdef : (InGame.StepProjectiles exampleDuel).isSome = true := by decide!
  obtain ⟨q, hq⟩ := Option.isSome_iff_exists.mp hdef
  obtain ⟨removed, hperm, hscore, _⟩ := (score_accounting).1 exampleDuel q hq
  exact ⟨by decide!, by decide!, q, hq, removed, hperm, hscore⟩

/-! ## Stages that only move objects -/

namespace Program

theorem OnlyMoved.refl (p : Program) : p.OnlyMoved p :=
  ⟨rfl, rfl, rfl, fun _ o ho => ⟨o, ho, rfl⟩⟩

theorem OnlyMoved.trans {p q r : Program} (h1 : p.OnlyMoved q) (h2 : q.OnlyMoved r) :
    p.OnlyMoved r := by
  obtain ⟨m1, w1, n1, o1⟩ := h1
  obtain ⟨m2, w2, n2, o2⟩ := h2
  refine ⟨m2.trans m1, w2.trans w1, n2.trans n1, ?_⟩
  intro a o ho
  obtain ⟨x, hx, ex⟩ := o1 a o ho
  obtain ⟨y, hy, ey⟩ := o2 a x hx
  refine ⟨y, hy, ?_⟩
  rw [ey, ex]

theorem OnlyMoved.of_random {p q : Program} {lo hi r : Int}
    (h : p.RandomNumber lo hi = some (q, r)) : p.OnlyMoved q := by
  obtain ⟨rfl, _, _⟩ := RandomNumber_some h
  exact ⟨rfl, rfl, rfl, fun _ o ho => ⟨o, ho, rfl⟩⟩

theorem OnlyMoved.of_modify {p q : Program} {a : Addr} {f : Object ℚ → Object ℚ}
    (hf : ∀ o, f o = { o with position := (f o).position })
    (h : p.modifyObject a f = some q) : p.OnlyMoved q := by
  obtain ⟨o, ho, rfl⟩ := modifyObject_some h
  refine ⟨rfl, rfl, rfl, ?_⟩
  intro b ob hb
  by_cases hba : b = a
  · subst hba
    rw [ho] at hb
    obtain rfl := Option.some.inj hb
    exact ⟨f o, Function.update_same _ _ _, hf o⟩
  · exact ⟨ob, (Function.update_noteq hba _ _).trans hb, rfl⟩

theorem OnlyMoved.of_update {p q : Program} {m : ℚ} (h : p.Update m = some q) :
    p.OnlyMoved q := by
  refine ⟨Update_members h, Update_world h, ?_, fun a => (Update_heap h a).2⟩
  obtain ⟨hp, _, rfl⟩ := Update_some h
  rfl

end Program

namespace InGame

theorem stepCloud_moves {p q : Program} {cloud : CloudObject} (h : stepCloud p cloud = some q) :
    p.OnlyMoved q := by
  simp only [stepCloud, Option.bind_eq_bind, Option.bind_eq_some] at h
  obtain ⟨o, _, h⟩ := h
  split_ifs at h
  · simp only [Option.bind_eq_some] at h
    obtain ⟨a1, h1, a2, h2, h3⟩ := h
    exact ((Program.OnlyMoved.of_random h1).trans (Program.OnlyMoved.of_random h2)).trans
      (Program.OnlyMoved.of_modify (fun _ => rfl) h3)
  · simp only [Option.some.injEq] at h
    rw [← h]
    exact Program.OnlyMoved.refl p

theorem stepCloudsLoop_moves :
    ∀ (clouds : List CloudObject) (p q : Program), stepCloudsLoop p clouds = some q →
      p.OnlyMoved q := by
  intro clouds
  induction clouds with
  | nil =>
    intro p q h
    simp only [stepCloudsLoop, Option.some.injEq] at h
    rw [← h]
    exact Program.OnlyMoved.refl p
  | cons cloud rest ih =>
    intro p q h
    simp only [stepCloudsLoop] at h
    cases h1 : stepCloud p cloud with
    | none => simp [h1] at h
    | some p1 =>
      simp only [h1] at h
      exact (stepCloud_moves h1).trans (ih p1 q h)

theorem StepPlayer_moves {p q : Program} (h : StepPlayer p = some q) : p.OnlyMoved q :=
  Program.OnlyMoved.of_modify (fun _ => rfl) h

end InGame

/-! ## The shot of an enemy -/

namespace InGame

/-- A shot while the game is not over, with the projectile layer present: the
new projectile is allocated at the frontier, is of the type of the shooter,
moves vertically at 25 times the direction, is tracked, and is registered in
the projectile layer under the next identifier. -/
theorem Shoot_fire {p q : Program} {source : Addr} {color : Nat} {direction : Int}
    {src : Object ℚ} {l : Layer} (hg : p.isGameOver = false) (hsrc : p.heap source = some src)
    (hl : p.world.layers[Game.ProjectileLayer]? = some l)
    (h : Shoot p source color direction = some q) :
    q.nextAddr = p.nextAddr + 1 ∧
    q.members =
      { p.members with projectiles := p.projectiles ++ [ColoredObject.mk p.nextAddr color] } ∧
    (∃ o, q.heap p.nextAddr = some o ∧ o.type = src.type ∧
      o.speed = { x := 0, y := ProjectileSpeed * (direction : ℚ) } ∧
      o.layerIndex = Game.ProjectileLayer ∧ o.id = p.world.objectCounter) ∧
    q.world.layers[Game.ProjectileLayer]? =
      some { l with objects := l.objects.set p.world.objectCounter p.nextAddr } ∧
    (∀ b, b ≠ p.nextAddr → q.heap b = p.heap b) := by
  unfold Shoot at h
  rw [if_neg (by simp [hg])] at h
  simp only [Option.bind_eq_bind, Option.bind_eq_some, Program.deref, hsrc, Option.some.injEq,
    exists_eq_left'] at h
  obtain ⟨image, _, p2, h2, p4, h4, rfl⟩ := h
  obtain ⟨o2, ho2, rfl⟩ := Program.modifyObject_some h2
  obtain ⟨w, hp, hadd, rfl⟩ := Program.AddObject_some h4
  have hli : Game.ProjectileLayer < p.world.layers.length := by
    by_contra hge
    rw [List.getElem?_eq_none (Nat.le_of_not_lt hge)] at hl
    cases hl
  obtain ⟨a, o, ha, ho, rfl, rfl⟩ := World.AddObject_some_inv
    (show Game.ProjectileLayer < (p.new src.type).1.world.layers.length from hli) hadd
  obtain rfl := Option.some.inj ha
  have hnew : (p.new src.type).1.heap p.nextAddr = some (Object.new src.type) :=
    Function.update_same _ _ _
  rw [show (p.new src.type).2 = p.nextAddr from rfl] at ho2 ho
  rw [hnew] at ho2
  obtain rfl := Option.some.inj ho2
  simp only [Function.update_same, Option.some.injEq] at ho
  subst ho
  have hnext : ∀ (r : Program) (sample : Option Nat),
      (r.PlaySample sample).nextAddr = r.nextAddr := by
    intro r sample
    cases sample <;> rfl
  refine ⟨?_, ?_, ?_, ?_, ?_⟩
  · rw [hnext]
    rfl
  · rw [Program.PlaySample_members]
    rfl
  · refine ⟨{ id := p.world.objectCounter, layerIndex := Game.ProjectileLayer,
                type := src.type, image := image,
                position :=
                  { x := src.position.x + ((ShipWidth - ProjectileWidth : Int) : ℚ) / 2,
                    y := src.position.y + ((ShipHeight - ProjectileHeight : Int) : ℚ) / 2 },
                size := { x := (ProjectileWidth : ℚ), y := (ProjectileHeight : ℚ) },
                speed := { x := 0, y := ProjectileSpeed * (direction : ℚ) },
                speedMultiplier := 1 }, ?_, rfl, rfl, rfl, rfl⟩
    rw [Program.PlaySample_heap]
    exact Function.update_same _ _ _
  · rw [Program.PlaySample_world]
    show (List.modify _ Game.ProjectileLayer p.world.layers)[Game.ProjectileLayer]? = _
    rw [List.getElem?_modify_eq, hl]
    rfl
  · intro b hb
    rw [Program.PlaySample_heap]
    show Function.update (Function.update (Function.update p.heap p.nextAddr _) p.nextAddr _)
      p.nextAddr _ b = p.heap b
    rw [Function.update_noteq hb, Function.update_noteq hb, Function.update_noteq hb]

end InGame

namespace Program

theorem typeAt_of_moved {p q : Program} {a : Addr} {t : ObjectType} (h : p.OnlyMoved q)
    (ha : p.typeAt a t) : q.typeAt a t := by
  obtain ⟨o, ho, ht⟩ := ha
  obtain ⟨o1, ho1, e1⟩ := h.2.2.2 a o ho
  refine ⟨o1, ho1, ?_⟩
  rw [e1]
  exact ht

theorem typeAt_modify {p q : Program} {a b : Addr} {t : ObjectType} {f : Object ℚ → Object ℚ}
    (hf : ∀ o, (f o).type = o.type) (h : p.modifyObject a f = some q) (hb : p.typeAt b t) :
    q.typeAt b t := by
  obtain ⟨o, ho, rfl⟩ := modifyObject_some h
  obtain ⟨ob, hob, ht⟩ := hb
  by_cases hba : b = a
  · subst hba
    rw [ho] at hob
    obtain rfl := Option.some.inj hob
    exact ⟨f o, Function.update_same _ _ _, (hf o).trans ht⟩
  · exact ⟨ob, (Function.update_noteq hba _ _).trans hob, ht⟩

/-- `World::AddObject` on the program: the allocation frontier and the other
layers are as before, and every live object is live and differs at most in its
identifier and its layer index. -/
theorem AddObject_frame {p q : Program} {layerIndex : Nat} {a : Addr}
    (h : p.AddObject layerIndex a = some q) :
    q.nextAddr = p.nextAddr ∧
    (∀ i, i ≠ layerIndex → q.world.layers[i]? = p.world.layers[i]?) ∧
    (∀ b, b ≠ a → q.heap b = p.heap b) ∧
    (∀ b o, p.heap b = some o →
      ∃ o1, q.heap b = some o1 ∧ o1 = { o with id := o1.id, layerIndex := o1.layerIndex }) := by
  obtain ⟨w, hp, hadd, rfl⟩ := AddObject_some h
  by_cases hli : layerIndex < p.world.layers.length
  · obtain ⟨a1, o, ha, ho, rfl, rfl⟩ := World.AddObject_some_inv hli hadd
    obtain rfl := Option.some.inj ha
    refine ⟨rfl, ?_, ?_, ?_⟩
    · intro i hi
      exact List.getElem?_modify_ne _ _ (Ne.symm hi)
    · intro b hb
      exact Function.update_noteq hb _ _
    · intro b ob hob
      by_cases hba : b = a
      · subst hba
        rw [ho] at hob
        obtain rfl := Option.some.inj hob
        exact ⟨_, Function.update_same _ _ _, rfl⟩
      · exact ⟨ob, (Function.update_noteq hba _ _).trans hob, rfl⟩
  · rw [World.AddObject_of_ge _ (Nat.le_of_not_lt hli)] at hadd
    simp only [Option.some.injEq, Prod.mk.injEq] at hadd
    obtain ⟨rfl, rfl⟩ := hadd
    exact ⟨rfl, fun _ _ => rfl, fun _ _ => rfl, fun b ob hob => ⟨ob, hob, rfl⟩⟩

theorem typeAt_AddObject {p q : Program} {layerIndex : Nat} {a b : Addr} {t : ObjectType}
    (h : p.AddObject layerIndex a = some q) (hb : p.typeAt b t) : q.typeAt b t := by
  obtain ⟨o, ho, ht⟩ := hb
  obtain ⟨o1, ho1, e1⟩ := (AddObject_frame h).2.2.2 b o ho
  refine ⟨o1, ho1, ?_⟩
  rw [e1]
  exact ht

end Program

namespace InGame

theorem modifyObject_frame {p q : Program} {a : Addr} {f : Object ℚ → Object ℚ}
    (h : p.modifyObject a f = some q) :
    ∃ o, p.heap a = some o ∧ q.heap a = some (f o) ∧ q.world = p.world ∧
      q.nextAddr = p.nextAddr ∧ ∀ b, b ≠ a → q.heap b = p.heap b := by
  obtain ⟨o, ho, rfl⟩ := Program.modifyObject_some h
  exact ⟨o, ho, Function.update_same _ _ _, rfl, rfl, fun b hb => Function.update_noteq hb _ _⟩

theorem turn_type (targetWidth : Nat) (o : Object ℚ) :
    (turnAtLeft (turnAtRight targetWidth o)).type = o.type := by
  unfold turnAtLeft turnAtRight
  split_ifs <;> rfl

theorem haltDescent_frame {p q : Program} {enemy : EnemyObject} {o o1 : Object ℚ}
    (h : haltDescent p enemy o = some (q, o1)) :
    q.heap = p.heap ∧ q.world = p.world ∧ q.nextAddr = p.nextAddr ∧ o1.type = o.type := by
  unfold haltDescent at h
  split_ifs at h
  · cases hr : p.RandomNumber 0 1 with
    | none => simp [hr] at h
    | some r =>
      obtain ⟨p1, v⟩ := r
      simp only [hr, Option.some.injEq, Prod.mk.injEq] at h
      obtain ⟨rfl, rfl⟩ := h
      obtain ⟨rfl, _, _⟩ := Program.RandomNumber_some hr
      exact ⟨rfl, rfl, rfl, rfl⟩
  · simp only [Option.some.injEq, Prod.mk.injEq] at h
    obtain ⟨rfl, rfl⟩ := h
    exact ⟨rfl, rfl, rfl, rfl⟩

/-- The round of an enemy that does not fire: only its own object changes. -/
theorem stepEnemy_quiet {p q : Program} {enemy enemy1 : EnemyObject}
    (ht : ¬ p.currentTick > enemy.nextShot) (h : stepEnemy p enemy = some (q, enemy1)) :
    enemy1 = enemy ∧ q.members = p.members ∧ q.world = p.world ∧ q.nextAddr = p.nextAddr ∧
    ∀ b, b ≠ enemy.addr → q.heap b = p.heap b := by
  unfold stepEnemy at h
  cases ho : p.deref enemy.addr with
  | none => simp [ho] at h
  | some o =>
    simp only [ho] at h
    cases h1 : haltDescent p enemy o with
    | none => simp [h1] at h
    | some t =>
      obtain ⟨p1, o1⟩ := t
      simp only [h1] at h
      cases h2 : p1.modifyObject enemy.addr
          (fun _ => turnAtLeft (turnAtRight p1.currentGame.targetWidth o1)) with
      | none => simp [h2] at h
      | some p2 =>
        simp only [h2] at h
        have hm1 : p1.members = p.members := haltDescent_members h1
        have hm2 : p2.members = p.members := (Program.modifyObject_members h2).trans hm1
        have htick : p2.currentTick = p.currentTick := congrArg Members.currentTick hm2
        rw [htick, if_neg ht] at h
        simp only [Option.some.injEq, Prod.mk.injEq] at h
        obtain ⟨rfl, rfl⟩ := h
        obtain ⟨hh, hw, hn, _⟩ := haltDescent_frame h1
        obtain ⟨o2, _, _, hw2, hn2, hother⟩ := modifyObject_frame h2
        refine ⟨rfl, hm2, hw2.trans hw, hn2.trans hn, ?_⟩
        intro b hb
        rw [hother b hb, hh]

/-- The round of an enemy whose shot is due, while the game is not over and
the projectile layer is present. -/
theorem stepEnemy_fire {p q : Program} {enemy enemy1 : EnemyObject} {l : Layer}
    (hg : p.isGameOver = false) (ht : p.currentTick > enemy.nextShot)
    (hty : p.typeAt enemy.addr ObjectType.Enemy)
    (hl : p.world.layers[Game.ProjectileLayer]? = some l)
    (h : stepEnemy p enemy = some (q, enemy1)) :
    enemy1 = { enemy with nextShot := p.currentTick + enemy.shotInterval } ∧
    q.nextAddr = p.nextAddr + 1 ∧
    q.members =
      { p.members with
          projectiles := p.projectiles ++ [ColoredObject.mk p.nextAddr enemy.color] } ∧
    (∃ o, q.heap p.nextAddr = some o ∧ o.type = ObjectType.Enemy ∧
      o.speed = { x := 0, y := 25 } ∧ o.layerIndex = Game.ProjectileLayer ∧
      o.id = p.world.objectCounter) ∧
    q.world.layers[Game.ProjectileLayer]? =
      some { l with objects := l.objects.set p.world.objectCounter p.nextAddr } := by
  unfold stepEnemy at h
  cases ho : p.deref enemy.addr with
  | none => simp [ho] at h
  | some o =>
    simp only [ho] at h
    cases h1 : haltDescent p enemy o with
    | none => simp [h1] at h
    | some t =>
      obtain ⟨p1, o1⟩ := t
      simp only [h1] at h
      cases h2 : p1.modifyObject enemy.addr
          (fun _ => turnAtLeft (turnAtRight p1.currentGame.targetWidth o1)) with
      | none => simp [h2] at h
      | some p2 =>
        simp only [h2] at h
        have hm1 : p1.members = p.members := haltDescent_members h1
        have hm2 : p2.members = p.members := (Program.modifyObject_members h2).trans hm1
        have htick : p2.currentTick = p.currentTick := congrArg Members.currentTick hm2
        have hg2 : p2.isGameOver = false := (congrArg Members.isGameOver hm2).trans hg
        have hpr2 : p2.projectiles = p.projectiles := congrArg Members.projectiles hm2
        rw [htick, if_pos ht] at h
        cases h3 : Shoot p2 enemy.addr enemy.color 1 with
        | none => simp [h3] at h
        | some p3 =>
          simp only [h3, Option.some.injEq, Prod.mk.injEq] at h
          obtain ⟨rfl, rfl⟩ := h
          obtain ⟨hh, hw, hn, hty1⟩ := haltDescent_frame h1
          obtain ⟨o2, _, hsrc, hw2, hn2, _⟩ := modifyObject_frame h2
          obtain ⟨eo, heo, hteo⟩ := hty
          have hoeq : o = eo := Option.some.inj (ho.symm.trans heo)
          have hl2 : p2.world.layers[Game.ProjectileLayer]? = some l := by
            rw [hw2, hw]
            exact hl
          obtain ⟨hn3, hm3, ⟨po, hpo, hpt, hps, hpl, hpi⟩, hl3, _⟩ := Shoot_fire hg2 hsrc hl2 h3
          have hnn : p2.nextAddr = p.nextAddr := hn2.trans hn
          have hww : p2.world = p.world := hw2.trans hw
          refine ⟨rfl, ?_, ?_, ⟨po, ?_, ?_, ?_, hpl, ?_⟩, ?_⟩
          · rw [hn3, hnn]
          · rw [hm3, hpr2, hnn, hm2]
          · rw [← hnn]
            exact hpo
          · rw [hpt, turn_type, hty1, hoeq]
            exact hteo
          · rw [hps]
            norm_num [ProjectileSpeed]
          · rw [hpi, hww]
          · rw [hl3, hww, hnn]

end InGame

namespace InGame

/-- What `SpawnEnemy` does outside the members: one allocation, a registration
in the ship layer, and no change of type of a live enemy object. -/
theorem SpawnEnemy_frame {p q : Program} (h : SpawnEnemy p = some q) :
    q.nextAddr = p.nextAddr + 1 ∧
    q.world.layers[Game.ProjectileLayer]? = p.world.layers[Game.ProjectileLayer]? ∧
    ∀ a, p.typeAt a ObjectType.Enemy → q.typeAt a ObjectType.Enemy := by
  simp only [SpawnEnemy, Option.bind_eq_bind, Option.bind_eq_some] at h
  obtain ⟨a, h1, a1, h2, a2, h3, a3, h4, a4, h5, image, _, a6, h6, h7⟩ := h
  have hmoved : (p.new ObjectType.Enemy).1.OnlyMoved a4.1 :=
    (((((Program.OnlyMoved.of_random h1).trans (Program.OnlyMoved.of_random h2)).trans
      (Program.OnlyMoved.of_random h3)).trans (Program.OnlyMoved.of_random h4)).trans
      (Program.OnlyMoved.of_random h5))
  obtain ⟨o6, _, _, hw6, hn6, _⟩ := modifyObject_frame h6
  obtain ⟨hn7, hl7, _, _⟩ := Program.AddObject_frame h7
  refine ⟨?_, ?_, ?_⟩
  · rw [hn7]
    show a6.nextAddr = p.nextAddr + 1
    rw [hn6, hmoved.2.2.1]
    rfl
  · rw [hl7 Game.ProjectileLayer (by decide)]
    show a6.world.layers[Game.ProjectileLayer]? = _
    rw [hw6, hmoved.2.1]
    rfl
  · intro b hb
    have h0 : (p.new ObjectType.Enemy).1.typeAt b ObjectType.Enemy := by
      obtain ⟨o, ho, ht⟩ := hb
      by_cases hbn : b = p.nextAddr
      · exact ⟨Object.new ObjectType.Enemy, by rw [hbn]; exact Function.update_same _ _ _, rfl⟩
      · exact ⟨o, (Function.update_noteq hbn _ _).trans ho, ht⟩
    have h4t := Program.typeAt_of_moved hmoved h0
    have h6t : a6.typeAt b ObjectType.Enemy := by
      refine Program.typeAt_modify ?_ h6 h4t
      intro o
      rfl
    have h6t1 : Program.typeAt
        { a6 with
            enemySpawnCounter :=
              (spawnCounters a6.enemySpawnCounter a6.currentEnemySpawnInterval).1,
            currentEnemySpawnInterval :=
              (spawnCounters a6.enemySpawnCounter a6.currentEnemySpawnInterval).2,
            enemies := a6.enemies ++
              [EnemyObject.mk (p.new ObjectType.Enemy).2 (toUInt a.2) a3.2
                (a6.currentTick + a3.2)
                (truncate ((VerticalPadding : ℚ) * ((a4.2 : ℚ) / 10)))] }
        b ObjectType.Enemy := h6t
    exact Program.typeAt_AddObject h7 h6t1

/-- The head of `StepEnemies`: at most one enemy is added to the tracking
list, at the former allocation frontier and with its first shot in the
future. -/
theorem spawnDue_spec {p q : Program} (h : spawnDue p = some q) :
    ∃ rest : List EnemyObject, q.enemies = p.enemies ++ rest ∧ rest.length ≤ 1 ∧
      (∀ x ∈ rest, x.addr < q.nextAddr ∧ ¬ q.currentTick > x.nextShot) ∧
      p.nextAddr ≤ q.nextAddr ∧
      q.isGameOver = p.isGameOver ∧ q.projectiles = p.projectiles ∧
      q.currentTick = p.currentTick ∧
      q.world.layers[Game.ProjectileLayer]? = p.world.layers[Game.ProjectileLayer]? ∧
      ∀ a, p.typeAt a ObjectType.Enemy → q.typeAt a ObjectType.Enemy := by
  unfold spawnDue at h
  split_ifs at h
  · obtain ⟨e, hm, haddr, _, hshot, h1080, _⟩ := SpawnEnemy_spec h
    obtain ⟨hn, hl, hty⟩ := SpawnEnemy_frame h
    have htick : q.currentTick = p.currentTick := congrArg Members.currentTick hm
    refine ⟨[e], congrArg Members.enemies hm, Nat.le_refl _, ?_, ?_,
      congrArg Members.isGameOver hm, congrArg Members.projectiles hm, htick, hl, hty⟩
    · intro x hx
      rw [List.mem_singleton.mp hx]
      constructor
      · rw [hn, haddr]
        exact Nat.lt_succ_self _
      · rw [htick, hshot]
        show ¬ p.currentTick > p.currentTick + e.shotInterval
        omega
    · rw [hn]
      exact Nat.le_succ _
  · simp only [Option.some.injEq] at h
    subst h
    exact ⟨[], (List.append_nil _).symm, Nat.zero_le _, fun x hx => (by cases hx),
      Nat.le_refl _, rfl, rfl, rfl, rfl, fun a ha => ha⟩

theorem stepEnemiesLoop_quiet :
    ∀ (rest : List EnemyObject) (p q : Program) (out : List EnemyObject),
      (∀ x ∈ rest, ¬ p.currentTick > x.nextShot) →
      stepEnemiesLoop p rest = some (q, out) →
      out = rest ∧ q.members = p.members ∧ q.world = p.world ∧ q.nextAddr = p.nextAddr ∧
      ∀ b, (∀ x ∈ rest, x.addr ≠ b) → q.heap b = p.heap b := by
  intro rest
  induction rest with
  | nil =>
    intro p q out _ h
    simp only [stepEnemiesLoop, Option.some.injEq, Prod.mk.injEq] at h
    obtain ⟨rfl, rfl⟩ := h
    exact ⟨rfl, rfl, rfl, rfl, fun _ _ => rfl⟩
  | cons enemy rest ih =>
    intro p q out hquiet h
    simp only [stepEnemiesLoop] at h
    cases h1 : stepEnemy p enemy with
    | none => simp [h1] at h
    | some t =>
      obtain ⟨p1, enemy1⟩ := t
      simp only [h1] at h
      cases h2 : stepEnemiesLoop p1 rest with
      | none => simp [h2] at h
      | some t2 =>
        obtain ⟨p2, rest1⟩ := t2
        simp only [h2, Option.some.injEq, Prod.mk.injEq] at h
        obtain ⟨rfl, rfl⟩ := h
        obtain ⟨he, hm1, hw1, hn1, hh1⟩ :=
          stepEnemy_quiet (hquiet enemy (List.mem_cons_self _ _)) h1
        have htick : p1.currentTick = p.currentTick := congrArg Members.currentTick hm1
        obtain ⟨hout, hm2, hw2, hn2, hh2⟩ := ih p1 p2 rest1
          (fun x hx => by rw [htick]; exact hquiet x (List.mem_cons_of_mem _ hx)) h2
        refine ⟨by rw [he, hout], hm2.trans hm1, hw2.trans hw1, hn2.trans hn1, ?_⟩
        intro b hb
        rw [hh2 b (fun x hx => hb x (List.mem_cons_of_mem _ hx)),
          hh1 b (Ne.symm (hb enemy (List.mem_cons_self _ _)))]

end InGame

namespace InGame

/-- `StepEnemies` in a state with one tracked enemy whose shot is due and no
tracked projectile. -/
theorem StepEnemies_one_shot {p q : Program} {e : EnemyObject} {l : Layer}
    (hg : p.isGameOver = false) (hen : p.enemies = [e]) (hpr : p.projectiles = [])
    (hty : p.typeAt e.addr ObjectType.Enemy)
    (hl : p.world.layers[Game.ProjectileLayer]? = some l) (hobj : l.objects = [])
    (ht : p.currentTick > e.nextShot) (h : StepEnemies p = some q) :
    ∃ a o spawned,
      q.projectiles = [ColoredObject.mk a e.color] ∧
      q.heap a = some o ∧ o.type = ObjectType.Enemy ∧ o.speed = { x := 0, y := 25 } ∧
      o.layerIndex = Game.ProjectileLayer ∧
      q.world.layers[Game.ProjectileLayer]? = some { l with objects := [(o.id, a)] } ∧
      q.enemies = { e with nextShot := p.currentTick + e.shotInterval } :: spawned ∧
      spawned.length ≤ 1 := by
  unfold StepEnemies at h
  cases h1 : spawnDue p with
  | none => simp [h1] at h
  | some p1 =>
  simp only [h1] at h
  obtain ⟨rest, hen1, hlen, hrest, _, hg1, hpr1, htick1, hl1, hty1⟩ := spawnDue_spec h1
  rw [hen, List.singleton_append] at hen1
  rw [hen1] at h
  simp only [stepEnemiesLoop] at h
  cases h2 : stepEnemy p1 e with
  | none => simp [h2] at h
  | some t =>
  obtain ⟨pa, e1⟩ := t
  simp only [h2] at h
  cases h3 : stepEnemiesLoop pa rest with
  | none => simp [h3] at h
  | some t3 =>
  obtain ⟨pb, rest1⟩ := t3
  simp only [h3, Option.some.injEq] at h
  subst h
  obtain ⟨he1, hna, hma, ⟨o, ho, hot, hos, hol, hoi⟩, hla⟩ :=
    stepEnemy_fire (hg1.trans hg) (by rw [htick1]; exact ht) (hty1 _ hty) (hl1.trans hl) h2
  have hticka : pa.currentTick = p1.currentTick := congrArg Members.currentTick hma
  obtain ⟨hout, hmb, hwb, _, hhb⟩ := stepEnemiesLoop_quiet rest pa pb rest1
    (fun x hx => by rw [hticka]; exact (hrest x hx).2) h3
  refine ⟨p1.nextAddr, o, rest, ?_, ?_, hot, hos, hol, ?_, ?_, hlen⟩
  · have eb : pb.projectiles = pa.projectiles := congrArg Members.projectiles hmb
    have ea : pa.projectiles = p1.projectiles ++ [ColoredObject.mk p1.nextAddr e.color] :=
      congrArg Members.projectiles hma
    show pb.projectiles = _
    rw [eb, ea, hpr1, hpr]
    rfl
  · show pb.heap p1.nextAddr = some o
    rw [hhb p1.nextAddr (fun x hx => Nat.ne_of_lt (hrest x hx).1)]
    exact ho
  · show pb.world.layers[Game.ProjectileLayer]? = _
    rw [hwb, hla, hobj, hoi]
    rfl
  · show e1 :: rest1 = _
    rw [he1, hout, htick1]

end InGame

/-! ## Enemy shot scheduling -/

/-- C20: enemy shot scheduling.  In a state with exactly one tracked enemy
(its object live and enemy-typed), no tracked projectile and an empty
projectile layer, while the game is not over, a `Step` whose tick is strictly
greater than the enemy's `nextShot` leaves exactly one projectile tracked; its
object is enemy-typed, has the vertical speed +25 and is the one object
registered in the projectile layer; it has the enemy's colour, and the enemy's
`nextShot` is the tick plus its `shotInterval` (an enemy spawned in the same
frame may follow it in the tracking list).  In every state a round of the loop
of `StepEnemies` fires at most one projectile and none when the tick is not
past `nextShot`, and over the loop no more projectiles are fired than there are
enemies whose `nextShot` the tick has passed. -/
theorem enemy_shot_scheduling :
    (∀ (p q : Program) (m : ℚ) (ticks : Nat) (e : EnemyObject) (l : Layer),
      p.isGameOver = false → p.enemies = [e] → p.projectiles = [] →
      p.typeAt e.addr ObjectType.Enemy →
      p.world.layers[Game.ProjectileLayer]? = some l → l.objects = [] →
      toInt ticks > e.nextShot → InGame.Step p m ticks = some q →
      ∃ a o spawned,
        q.projectiles = [ColoredObject.mk a e.color] ∧
        q.heap a = some o ∧ o.type = ObjectType.Enemy ∧ o.speed = { x := 0, y := 25 } ∧
        o.layerIndex = Game.ProjectileLayer ∧
        q.world.layers[Game.ProjectileLayer]? = some { l with objects := [(o.id, a)] } ∧
        q.enemies = { e with nextShot := toInt ticks + e.shotInterval } :: spawned ∧
        spawned.length ≤ 1) ∧
    (∀ (p q : Program) (e e1 : EnemyObject), InGame.stepEnemy p e = some (q, e1) →
      (∃ fired, q.projectiles = p.projectiles ++ fired ∧ fired.length ≤ 1) ∧
      (¬ p.currentTick > e.nextShot → q.projectiles = p.projectiles ∧ e1 = e)) ∧
    (∀ (p q : Program) (enemies out : List EnemyObject),
      InGame.stepEnemiesLoop p enemies = some (q, out) →
      out = enemies.map (InGame.rescheduled p.currentTick) ∧
      ∃ fired, q.projectiles = p.projectiles ++ fired ∧
        fired.length ≤
          (enemies.filter (fun e => decide (p.currentTick > e.nextShot))).length) := by
  refine ⟨?_, ?_, ?_⟩
  · intro p q m ticks e l hg hen hpr hty hl hobj ht h
    unfold InGame.Step at h
    rw [if_neg (by simp [hg])] at h
    simp only [Option.bind_eq_bind, Option.bind_eq_some] at h
    obtain ⟨p2, h2, p3, h3, p4, h4, p5, h5, h6⟩ := h
    have hmv2 := InGame.stepCloudsLoop_moves _ _ _ h2
    obtain ⟨hm2, hw2, _, _⟩ := hmv2
    have hpr2 : p2.projectiles = [] := (congrArg Members.projectiles hm2).trans hpr
    have h32 : p3 = p2 := by
      unfold InGame.StepProjectiles at h3
      rw [hpr2] at h3
      simp only [InGame.stepProjectilesLoop, Option.some.injEq] at h3
      exact h3.symm
    subst h32
    have hty2 : p3.typeAt e.addr ObjectType.Enemy :=
      Program.typeAt_of_moved (InGame.stepCloudsLoop_moves _ _ _ h2) hty
    have etick : p3.currentTick = toInt ticks := congrArg Members.currentTick hm2
    have ew : p3.world = p.world := hw2
    obtain ⟨a, o, spawned, hq1, hq2, hq3, hq4, hq5, hq6, hq7, hq8⟩ :=
      InGame.StepEnemies_one_shot ((congrArg Members.isGameOver hm2).trans hg)
        ((congrArg Members.enemies hm2).trans hen) hpr2 hty2
        (by rw [ew]; exact hl) hobj
        (by rw [etick]; exact ht) h4
    have hmv : p4.OnlyMoved q :=
      (InGame.StepPlayer_moves h5).trans (Program.OnlyMoved.of_update h6)
    obtain ⟨hmq, hwq, _, hhq⟩ := hmv
    obtain ⟨o1, ho1, e1⟩ := hhq a o hq2
    refine ⟨a, o1, spawned, ?_, ho1, ?_, ?_, ?_, ?_, ?_, hq8⟩
    · exact (congrArg Members.projectiles hmq).trans hq1
    · rw [e1]
      exact hq3
    · rw [e1]
      exact hq4
    · rw [e1]
      exact hq5
    · rw [hwq, hq6, e1]
    · have een : q.enemies = p4.enemies := congrArg Members.enemies hmq
      rw [een, hq7, etick]
  · intro p q e e1 h
    rcases InGame.stepEnemy_members h with ⟨ht, _, _, _, a, hm⟩ | ⟨ht, _, _, hm⟩ | ⟨ht, he, hm⟩
    · exact ⟨⟨[ColoredObject.mk a e.color], congrArg Members.projectiles hm, Nat.le_refl _⟩,
        fun hn => absurd ht hn⟩
    · exact ⟨⟨[], by rw [List.append_nil]; exact congrArg Members.projectiles hm,
        Nat.zero_le _⟩, fun hn => absurd ht hn⟩
    · exact ⟨⟨[], by rw [List.append_nil]; exact congrArg Members.projectiles hm,
        Nat.zero_le _⟩, fun _ => ⟨congrArg Members.projectiles hm, he⟩⟩
  · intro p q enemies out h
    obtain ⟨hout, fired, hm, _, hover, hfire⟩ := InGame.stepEnemiesLoop_spec _ _ _ _ h
    refine ⟨hout, fired, congrArg Members.projectiles hm, ?_⟩
    cases hg : p.isGameOver with
    | true =>
      rw [hover hg]
      exact Nat.zero_le _
    | false =>
      have hlen := congrArg List.length (hfire hg)
      simp only [List.length_map] at hlen
      rw [hlen]

/-- The shot of the lone enemy of the example: at the tick 10000, past its
`nextShot` of 9659, a frame leaves one Blue projectile tracked. -/
theorem enemy_shot_scheduling_witness :
    exampleLoneEnemy.enemies = [EnemyObject.mk 36 2 1659 9659 72] ∧
    exampleLoneEnemy.projectiles = [] ∧
    ∃ q a o spawned, InGame.Step exampleLoneEnemy 1 10000 = some q ∧
      q.projectiles = [ColoredObject.mk a 2] ∧ q.heap a = some o ∧
      o.type = ObjectType.Enemy ∧ o.speed = { x := 0, y := 25 } ∧
      q.enemies = EnemyObject.mk 36 2 1659 (toInt 10000 + 1659) 72 :: spawned := by
  have hen : exampleLoneEnemy.enemies = [EnemyObject.mk 36 2 1659 9659 72] := by decide!
  have hpr : exampleLoneEnemy.projectiles = [] := by decide!
  have hg : exampleLoneEnemy.isGameOver = false := by decide!
  have hheap : (exampleLoneEnemy.heap 36).map (fun o => o.type) = some ObjectType.Enemy := by
    decide!
  have hlayer : (exampleLoneEnemy.world.layers[Game.ProjectileLayer]?).map
      (fun l => l.objects) = some [] := by decide!
  have hdef : (InGame.Step exampleLoneEnemy 1 10000).isSome = true := by decide!
  obtain ⟨q, hq⟩ := Option.isSome_iff_exists.mp hdef
  obtain ⟨eo, heo, hte⟩ := Option.map_eq_some'.mp hheap
  obtain ⟨l, hl, hobj⟩ := Option.map_eq_some'.mp hlayer
  obtain ⟨a, o, spawned, h1, h2, h3, h4, _, _, h7, _⟩ :=
    (enemy_shot_scheduling).1 exampleLoneEnemy q 1 10000 (EnemyObject.mk 36 2 1659 9659 72) l
      hg hen hpr ⟨eo, heo, hte⟩ hl hobj (by decide) hq
  exact ⟨hen, hpr, q, a, o, spawned, hq, h1, h2, h3, h4, h7⟩

/-! ## Restart on game over -/

namespace InGame

theorem deleteAll_defined :
    ∀ (objects : List Addr) (p : Program), objects.Nodup →
      (∀ a ∈ objects, (p.heap a).isSome = true) →
      ∃ q, deleteAll p objects = some q ∧ q = { p with heap := q.heap } ∧
        ∀ b, b ∉ objects → q.heap b = p.heap b := by
  intro objects
  induction objects with
  | nil =>
    intro p _ _
    exact ⟨p, rfl, rfl, fun _ _ => rfl⟩
  | cons a rest ih =>
    intro p hnd hlive
    obtain ⟨o, ho⟩ := Option.isSome_iff_exists.mp (hlive a (List.mem_cons_self _ _))
    have hdel : p.delete a = some { p with heap := Function.update p.heap a none } := by
      simp [Program.delete, ho]
    obtain ⟨hnot, hnd1⟩ := List.nodup_cons.mp hnd
    obtain ⟨q, hq, heq, hframe⟩ := ih { p with heap := Function.update p.heap a none } hnd1
      (by
        intro b hb
        have hba : b ≠ a := fun hba => hnot (hba ▸ hb)
        show (Function.update p.heap a none b).isSome = true
        rw [Function.update_noteq hba]
        exact hlive b (List.mem_cons_of_mem _ hb))
    refine ⟨q, by simp only [deleteAll, hdel, hq], ?_, ?_⟩
    · rw [heq]
    · intro b hb
      have hba : b ≠ a := fun hba => hb (hba ▸ List.mem_cons_self _ _)
      rw [hframe b (fun hbr => hb (List.mem_cons_of_mem _ hbr))]
      exact Function.update_noteq hba _ _

end InGame

namespace InGame

theorem DeleteObjects_defined (p : Program) (hnd : (tracked p).Nodup)
    (hlive : ∀ a ∈ tracked p, (p.heap a).isSome = true) :
    ∃ q, DeleteObjects p = some q ∧
      q = { p with heap := q.heap, clouds := [], enemies := [], projectiles := [] } ∧
      ∀ b, b ∉ tracked p → q.heap b = p.heap b := by
  unfold tracked at hnd hlive
  have hnd12 := (List.nodup_append.mp hnd).1
  have hnd3 := (List.nodup_append.mp hnd).2.1
  have hdis3 := (List.nodup_append.mp hnd).2.2
  have hnd1 := (List.nodup_append.mp hnd12).1
  have hnd2 := (List.nodup_append.mp hnd12).2.1
  have hdis2 := (List.nodup_append.mp hnd12).2.2
  obtain ⟨q1, h1, e1, f1⟩ := deleteAll_defined (p.clouds.map CloudObject.addr) p hnd1
    (fun a ha => hlive a (List.mem_append_left _ (List.mem_append_left _ ha)))
  have hen1 : q1.enemies = p.enemies := by rw [e1]
  obtain ⟨q2, h2, e2, f2⟩ := deleteAll_defined (q1.enemies.map EnemyObject.addr)
    { q1 with clouds := [] } (by rw [hen1]; exact hnd2)
    (by
      intro a ha
      rw [hen1] at ha
      show (q1.heap a).isSome = true
      rw [f1 a (fun hc => hdis2 hc ha)]
      exact hlive a (List.mem_append_left _ (List.mem_append_right _ ha)))
  have hpr2 : q2.projectiles = p.projectiles := by rw [e2, e1]
  obtain ⟨q3, h3, e3, f3⟩ := deleteAll_defined (q2.projectiles.map ColoredObject.addr)
    { q2 with enemies := [] } (by rw [hpr2]; exact hnd3)
    (by
      intro a ha
      rw [hpr2] at ha
      show (q2.heap a).isSome = true
      have hn12 : a ∉ p.clouds.map CloudObject.addr ++ p.enemies.map EnemyObject.addr :=
        fun hc => hdis3 hc ha
      have hn2 : a ∉ q1.enemies.map EnemyObject.addr := by
        rw [hen1]
        exact fun hc => hn12 (List.mem_append_right _ hc)
      rw [f2 a hn2]
      show (q1.heap a).isSome = true
      rw [f1 a (fun hc => hn12 (List.mem_append_left _ hc))]
      exact hlive a (List.mem_append_right _ ha))
  refine ⟨{ q3 with projectiles := [] }, ?_, ?_, ?_⟩
  · unfold DeleteObjects
    simp only [Option.bind_eq_bind, Option.bind_eq_some, Option.some.injEq]
    exact ⟨q1, h1, q2, h2, q3, h3, rfl⟩
  · rw [e3, e2, e1]
  · intro b hb
    unfold tracked at hb
    have hb1 : b ∉ p.clouds.map CloudObject.addr :=
      fun hc => hb (List.mem_append_left _ (List.mem_append_left _ hc))
    have hb2 : b ∉ q1.enemies.map EnemyObject.addr := by
      rw [hen1]
      exact fun hc => hb (List.mem_append_left _ (List.mem_append_right _ hc))
    have hb3 : b ∉ q2.projectiles.map ColoredObject.addr := by
      rw [hpr2]
      exact fun hc => hb (List.mem_append_right _ hc)
    show q3.heap b = p.heap b
    rw [f3 b hb3]
    show q2.heap b = p.heap b
    rw [f2 b hb2]
    show q1.heap b = p.heap b
    exact f1 b hb1

end InGame

namespace InGame

end InGame

namespace Program

theorem SameAssets.chain {p q r : Program} (h1 : p.SameAssets q) (h2 : q.SameAssets r) :
    p.SameAssets r :=
  ⟨h2.1.trans h1.1, h2.2.1.trans h1.2.1, h2.2.2.trans h1.2.2⟩

theorem SameAssets.of_assignment {p q : Program} {a : Addr} {f : Object ℚ → Object ℚ}
    (h : p.modifyObject a f = some q) : p.SameAssets q := by
  obtain ⟨o, _, rfl⟩ := Program.modifyObject_some h
  exact ⟨rfl, rfl, rfl⟩

theorem SameAssets.of_add {p q : Program} {layerIndex : Nat} {a : Addr}
    (h : p.AddObject layerIndex a = some q) : p.SameAssets q := by
  obtain ⟨w, hp, _, rfl⟩ := Program.AddObject_some h
  exact ⟨rfl, rfl, rfl⟩

theorem SameAssets.of_rand {p q : Program} {lo hi r : Int}
    (h : p.RandomNumber lo hi = some (q, r)) : p.SameAssets q := by
  obtain ⟨rfl, _, _⟩ := Program.RandomNumber_some h
  exact ⟨rfl, rfl, rfl⟩

theorem RandomNumber_heap {p q : Program} {lo hi r : Int}
    (h : p.RandomNumber lo hi = some (q, r)) : q.heap = p.heap := by
  obtain ⟨rfl, _, _⟩ := Program.RandomNumber_some h
  rfl

end Program

namespace InGame

/-- One round of the cloud loop outside the members: one allocation, no change
below the allocation frontier, and the same assets. -/
theorem spawnCloud_frame {p q : Program} (h : spawnCloud p = some q) :
    p.SameAssets q ∧ q.nextAddr = p.nextAddr + 1 ∧
    ∀ b, b < p.nextAddr → q.heap b = p.heap b := by
  simp only [spawnCloud, Option.bind_eq_bind, Option.bind_eq_some] at h
  obtain ⟨a1, h1, a2, h2, image, _, a3, h3, a4, h4, p5, h5, h6⟩ := h
  have hmoved : (p.new ObjectType.World).1.OnlyMoved a4.1 :=
    (((Program.OnlyMoved.of_random h1).trans (Program.OnlyMoved.of_random h2)).trans
      (Program.OnlyMoved.of_random h3)).trans (Program.OnlyMoved.of_random h4)
  have hassets : (p.new ObjectType.World).1.SameAssets a4.1 :=
    (((Program.SameAssets.of_rand h1).chain (Program.SameAssets.of_rand h2)).chain
      (Program.SameAssets.of_rand h3)).chain (Program.SameAssets.of_rand h4)
  have hheap : a4.1.heap = (p.new ObjectType.World).1.heap :=
    (Program.RandomNumber_heap h4).trans ((Program.RandomNumber_heap h3).trans
      ((Program.RandomNumber_heap h2).trans (Program.RandomNumber_heap h1)))
  obtain ⟨_, _, _, _, hn5, f5⟩ := modifyObject_frame h5
  obtain ⟨hn6, _, f6, _⟩ := Program.AddObject_frame h6
  refine ⟨?_, ?_, ?_⟩
  · have h56 := Program.SameAssets.of_add h6
    have h05 : (p.new ObjectType.World).1.SameAssets p5 :=
      hassets.chain (Program.SameAssets.of_assignment h5)
    exact Program.SameAssets.chain h05 h56
  · rw [hn6]
    show p5.nextAddr = p.nextAddr + 1
    rw [hn5, hmoved.2.2.1]
    rfl
  · intro b hb
    have hne : b ≠ p.nextAddr := Nat.ne_of_lt hb
    rw [f6 b hne]
    show p5.heap b = p.heap b
    rw [f5 b hne, hheap]
    exact Function.update_noteq hne _ _

theorem spawnClouds_frame :
    ∀ (n : Nat) (p q : Program), spawnClouds n p = some q →
      p.SameAssets q ∧ p.nextAddr ≤ q.nextAddr ∧ ∀ b, b < p.nextAddr → q.heap b = p.heap b := by
  intro n
  induction n with
  | zero =>
    intro p q h
    simp only [spawnClouds, Option.some.injEq] at h
    subst h
    exact ⟨⟨rfl, rfl, rfl⟩, Nat.le_refl _, fun _ _ => rfl⟩
  | succ n ih =>
    intro p q h
    simp only [spawnClouds] at h
    cases h1 : spawnCloud p with
    | none => simp [h1] at h
    | some p1 =>
      simp only [h1] at h
      obtain ⟨a1, hn1, f1⟩ := spawnCloud_frame h1
      obtain ⟨a2, hle, f2⟩ := ih p1 q h
      have hle1 : p.nextAddr ≤ p1.nextAddr := by
        rw [hn1]
        exact Nat.le_succ _
      refine ⟨a1.chain a2, Nat.le_trans hle1 hle, ?_⟩
      intro b hb
      rw [f2 b (Nat.lt_of_lt_of_le hb hle1), f1 b hb]

theorem spawnCloud_defined (p : Program)
    (hw : toInt (toUInt (p.currentGame.targetWidth - CloudWidth + HorizontalPadding)) -
      -HorizontalPadding + 1 ≠ 0) : ∃ q, spawnCloud p = some q := by
  have hidx := RandomNumber_defined
    { (p.new ObjectType.World).1 with randCount := (p.new ObjectType.World).1.randCount + 1 }
    0 3 (by decide)
  have hrange := Program.RandomNumber_range (by decide) hidx
  unfold spawnCloud
  simp only [Option.bind_eq_bind]
  refine bind_defined _ (RandomNumber_defined _ _ _ (by decide)) ?_
  refine bind_defined _ hidx ?_
  have hi : Program.index p.cloudImages
      (Int.tmod ((p.new ObjectType.World).1.env.rand
        ((p.new ObjectType.World).1.randCount + 1)) (3 - 0 + 1) + 0) =
      some (p.cloudImages (Int.tmod ((p.new ObjectType.World).1.env.rand
        ((p.new ObjectType.World).1.randCount + 1)) (3 - 0 + 1) + 0).toNat) := by
    unfold Program.index
    rw [if_pos ⟨hrange.1, Int.lt_of_le_of_lt hrange.2 (by decide)⟩]
  refine bind_defined _ hi ?_
  refine bind_defined _ (RandomNumber_defined _ _ _ hw) ?_
  refine bind_defined _ (RandomNumber_defined _ _ _ (by decide)) ?_
  refine bind_defined _ (modifyObject_defined _ _ _ (Object.new ObjectType.World)
    (Function.update_same _ _ _)) ?_
  exact AddObject_defined _ _ _ _ (Function.update_same _ _ _)

theorem spawnClouds_defined :
    ∀ (n : Nat) (p : Program),
      toInt (toUInt (p.currentGame.targetWidth - CloudWidth + HorizontalPadding)) -
        -HorizontalPadding + 1 ≠ 0 → ∃ q, spawnClouds n p = some q := by
  intro n
  induction n with
  | zero => exact fun p _ => ⟨p, rfl⟩
  | succ n ih =>
    intro p hw
    obtain ⟨p1, h1⟩ := spawnCloud_defined p hw
    obtain ⟨cloud, hm⟩ := spawnCloud_members h1
    have hg : p1.currentGame = p.currentGame := congrArg Members.currentGame hm
    obtain ⟨q, hq⟩ := ih p1 (by rw [hg]; exact hw)
    exact ⟨q, by simp only [spawnClouds, h1, hq]⟩

end InGame

namespace InGame

/-- A block that assigns to the object at `a` and then registers it. -/
theorem block_frame {p p1 q : Program} {a : Addr} {layerIndex : Nat} {f : Object ℚ → Object ℚ}
    (h1 : p.modifyObject a f = some p1) (h2 : p1.AddObject layerIndex a = some q)
    (hf : ∀ o, (f o).image = o.image) :
    p.SameAssets q ∧ q.nextAddr = p.nextAddr ∧ (∀ b, b ≠ a → q.heap b = p.heap b) ∧
    ∀ o, p.heap a = some o → ∃ o1, q.heap a = some o1 ∧ o1.image = o.image := by
  obtain ⟨o, ho, ho1, _, hn1, f1⟩ := modifyObject_frame h1
  obtain ⟨hn2, _, f2, g2⟩ := Program.AddObject_frame h2
  refine ⟨(Program.SameAssets.of_assignment h1).chain (Program.SameAssets.of_add h2),
    hn2.trans hn1, fun b hb => (f2 b hb).trans (f1 b hb), ?_⟩
  intro o0 ho0
  obtain rfl : o = o0 := Option.some.inj (ho.symm.trans ho0)
  obtain ⟨o2, ho2, e2⟩ := g2 a (f o) ho1
  refine ⟨o2, ho2, ?_⟩
  rw [e2]
  exact hf o

theorem block_defined (p : Program) (a : Addr) (layerIndex : Nat) (f : Object ℚ → Object ℚ)
    (ha : (p.heap a).isSome = true) :
    ∃ p1 q, p.modifyObject a f = some p1 ∧ p1.AddObject layerIndex a = some q := by
  obtain ⟨o, ho⟩ := Option.isSome_iff_exists.mp ha
  obtain ⟨q, hq⟩ := AddObject_defined
    { p with heap := Function.update p.heap a (some (f o)) } layerIndex a (f o)
    (Function.update_same _ _ _)
  exact ⟨_, q, modifyObject_defined p a f o ho, hq⟩

theorem initializeScore_defined (p : Program) (ha : (p.heap scoreAddr).isSome = true) :
    ∃ q, initializeScore p = some q := by
  obtain ⟨p1, q, h1, h2⟩ := block_defined p scoreAddr Game.HUDLayer
    (fun o => { o with speed := { x := 0, y := 0 } }) ha
  exact ⟨q, by simp only [initializeScore, h1, h2]⟩

theorem initializeScore_frame {p q : Program} (h : initializeScore p = some q) :
    p.SameAssets q ∧ q.nextAddr = p.nextAddr ∧ (∀ b, b ≠ scoreAddr → q.heap b = p.heap b) ∧
    ∀ o, p.heap scoreAddr = some o → ∃ o1, q.heap scoreAddr = some o1 ∧ o1.image = o.image := by
  unfold initializeScore at h
  split at h
  · cases h
  · next p1 h1 => exact block_frame h1 h (fun _ => rfl)

theorem initializePlayer_defined (p : Program) (ha : (p.heap playerAddr).isSome = true) :
    ∃ q, initializePlayer p = some q := by
  have hidx : Program.index p.playerImages ((ColoredObject.Red : Nat) : Int) =
      some (p.playerImages ColoredObject.Red) := index_defined _ (by decide)
  obtain ⟨p1, q, h1, h2⟩ := block_defined
    { p with player := { color := ColoredObject.Red, health := 100, score := 0 } }
    playerAddr Game.ShipLayer
    (fun o =>
      { o with image := p.playerImages ColoredObject.Red, speed := { x := 0, y := 0 },
               size := { x := (ShipWidth : ℚ), y := (ShipHeight : ℚ) },
               position :=
                 { x := ((toUInt (p.currentGame.targetWidth - ShipWidth) / 2 : Nat) : ℚ),
                   y := ((toUInt (p.currentGame.targetHeight -
                          (ShipHeight + VerticalPadding)) : Nat) : ℚ) } }) ha
  refine ⟨q, ?_⟩
  unfold initializePlayer
  rw [hidx]
  simp only [h1, h2]

theorem initializePlayer_frame {p q : Program} (h : initializePlayer p = some q) :
    p.SameAssets q ∧ q.nextAddr = p.nextAddr ∧ ∀ b, b ≠ playerAddr → q.heap b = p.heap b := by
  unfold initializePlayer at h
  cases hi : Program.index p.playerImages ColoredObject.Red with
  | none => simp [hi] at h
  | some image =>
    simp only [hi] at h
    split at h
    · cases h
    · next p1 h1 =>
      obtain ⟨o, _, _, _, hn1, f1⟩ := modifyObject_frame h1
      obtain ⟨hn2, _, f2, _⟩ := Program.AddObject_frame h
      have a1 := Program.SameAssets.of_assignment h1
      have a2 := Program.SameAssets.of_add h
      exact ⟨Program.SameAssets.chain a1 a2, hn2.trans hn1,
        fun b hb => (f2 b hb).trans (f1 b hb)⟩

theorem initializeLifebar_defined (p : Program) (ha : p.imageLoaded lifebarAddr) :
    ∃ q, initializeLifebar p = some q := by
  obtain ⟨o, ho, himage⟩ := ha
  unfold initializeLifebar
  simp only [Program.deref, ho]
  cases hi : o.image with
  | none => exact ⟨p, rfl⟩
  | some ref =>
    obtain ⟨image, him⟩ := Option.isSome_iff_exists.mp (himage ref hi)
    simp only [him]
    obtain ⟨p1, q, h1, h2⟩ := block_defined p lifebarAddr Game.HUDLayer
      (fun o =>
        { o with position :=
                   { x := 0,
                     y := ((toUInt (p.currentGame.targetHeight - image.height) : Nat) : ℚ) },
                 size := { x := (p.currentGame.targetWidth : ℚ), y := (LifebarHeight : ℚ) },
                 speed := { x := 0, y := 0 } }) (by rw [ho]; rfl)
    exact ⟨q, by simp only [h1, h2]⟩

theorem initializeLifebar_frame {p q : Program} (h : initializeLifebar p = some q) :
    p.SameAssets q ∧ q.nextAddr = p.nextAddr ∧
    ∀ b, b ≠ lifebarAddr → q.heap b = p.heap b := by
  unfold initializeLifebar at h
  cases hl : p.deref lifebarAddr with
  | none => simp [hl] at h
  | some lifebar =>
    simp only [hl] at h
    cases hi : lifebar.image with
    | none =>
      simp only [hi, Option.some.injEq] at h
      subst h
      exact ⟨⟨rfl, rfl, rfl⟩, rfl, fun _ _ => rfl⟩
    | some ref =>
      simp only [hi] at h
      cases him : p.images ref with
      | none => simp [him] at h
      | some image =>
        simp only [him] at h
        split at h
        · cases h
        · next p1 h1 =>
          obtain ⟨ha, hn, hf, _⟩ := block_frame h1 h (fun _ => rfl)
          exact ⟨ha, hn, hf⟩

end InGame

namespace InGame

theorem InitializeObjects_frame {p q : Program} (h : InitializeObjects p = some q) :
    p.SameAssets q ∧
    ∀ o, p.heap scoreAddr = some o → scoreAddr < p.nextAddr →
      ∃ o1, q.heap scoreAddr = some o1 ∧ o1.image = o.image := by
  unfold InitializeObjects at h
  split at h
  · cases h
  · next p1 h1 =>
    split at h
    · cases h
    · next p2 h2 =>
      split at h
      · cases h
      · next p3 h3 =>
        split at h
        · cases h
        · next p4 h4 =>
          simp only [Option.some.injEq] at h
          subst h
          obtain ⟨a1, n1, f1⟩ := initializePlayer_frame h1
          obtain ⟨a2, n2, f2⟩ := initializeLifebar_frame h2
          obtain ⟨a3, n3, _, g3⟩ := initializeScore_frame h3
          obtain ⟨a4, _, f4⟩ := spawnClouds_frame _ _ _ h4
          constructor
          · exact Program.SameAssets.chain (Program.SameAssets.chain
              (Program.SameAssets.chain a1 a2) a3) a4
          · intro o ho hlt
            have h2o : p2.heap scoreAddr = some o := by
              rw [f2 scoreAddr (by decide), f1 scoreAddr (by decide)]
              exact ho
            obtain ⟨o1, ho1, e1⟩ := g3 o h2o
            have hn : p3.nextAddr = p.nextAddr := n3.trans (n2.trans n1)
            refine ⟨o1, ?_, e1⟩
            show p4.heap scoreAddr = some o1
            rw [f4 scoreAddr (by rw [hn]; exact hlt)]
            exact ho1

theorem InitializeObjects_defined (p : Program) (h1 : (p.heap playerAddr).isSome = true)
    (h2 : p.imageLoaded lifebarAddr) (h3 : (p.heap scoreAddr).isSome = true)
    (hw : toInt (toUInt (p.currentGame.targetWidth - CloudWidth + HorizontalPadding)) -
      -HorizontalPadding + 1 ≠ 0) : ∃ q, InitializeObjects p = some q := by
  obtain ⟨p1, e1⟩ := initializePlayer_defined
    ((p.SetLayerBackground Game.BackgroundLayer p.backgroundImage).SetLayerBackground
      Game.OverlayLayer p.overlayImage) h1
  obtain ⟨a1, _, f1⟩ := initializePlayer_frame e1
  have hm1 := initializePlayer_members e1
  obtain ⟨p2, e2⟩ := initializeLifebar_defined p1 (by
    obtain ⟨o, ho, himage⟩ := h2
    refine ⟨o, ?_, ?_⟩
    · rw [f1 lifebarAddr (by decide)]
      exact ho
    · intro ref hr
      rw [a1.1]
      exact himage ref hr)
  obtain ⟨_, _, f2⟩ := initializeLifebar_frame e2
  have hm2 := initializeLifebar_members e2
  obtain ⟨p3, e3⟩ := initializeScore_defined p2 (by
    rw [f2 scoreAddr (by decide), f1 scoreAddr (by decide)]
    exact h3)
  have hm3 := initializeScore_members e3
  have hg : p3.currentGame = p.currentGame :=
    (congrArg Members.currentGame hm3).trans ((congrArg Members.currentGame hm2).trans
      (congrArg Members.currentGame hm1))
  obtain ⟨p4, e4⟩ := spawnClouds_defined NumberOfClouds p3 (by rw [hg]; exact hw)
  exact ⟨resetCounters p4, by simp only [InitializeObjects, e1, e2, e3, e4]⟩

theorem modifyObject_exists (p : Program) (a : Addr) (f : Object ℚ → Object ℚ)
    (ha : (p.heap a).isSome = true) : ∃ q, p.modifyObject a f = some q := by
  obtain ⟨o, ho⟩ := Option.isSome_iff_exists.mp ha
  exact ⟨_, modifyObject_defined p a f o ho⟩

theorem UpdateScore_defined (p : Program) (hs : p.imageLoaded scoreAddr)
    (ht : (p.env.textImage p.imageCount (scoreText p)).isSome = true) :
    ∃ q, UpdateScore p = some q := by
  obtain ⟨score, hscore, himage⟩ := hs
  obtain ⟨image, htext⟩ := Option.isSome_iff_exists.mp ht
  have hunload : ∃ p1, p.UnloadImage score.image = some p1 ∧ p1.heap = p.heap ∧
      p1.env = p.env ∧ p1.imageCount = p.imageCount ∧ scoreText p1 = scoreText p := by
    cases hi : score.image with
    | none => exact ⟨p, rfl, rfl, rfl, rfl, rfl⟩
    | some ref =>
      obtain ⟨old, hold⟩ := Option.isSome_iff_exists.mp (himage ref hi)
      exact ⟨{ p with images := Function.update p.images ref none },
        by simp [Program.UnloadImage, hold], rfl, rfl, rfl, rfl⟩
  obtain ⟨p1, h1, hh1, he1, hc1, ht1⟩ := hunload
  have htext1 : p1.env.textImage p1.imageCount (scoreText p1) = some image := by
    rw [he1, hc1, ht1]
    exact htext
  have h2 : ∃ p2, p1.TextImage (scoreText p1) = (p2, some p1.imageCount) ∧
      p2.heap = p1.heap ∧ p2.images p1.imageCount = some image := by
    refine ⟨{ p1 with imageCount := p1.imageCount + 1,
                      images := Function.update p1.images p1.imageCount (some image) },
      ?_, rfl, Function.update_same _ _ _⟩
    simp only [Program.TextImage, htext1]
  obtain ⟨p2, h2, hh2, hi2⟩ := h2
  have hs2 : p2.heap scoreAddr = some score := by
    rw [hh2, hh1]
    exact hscore
  unfold UpdateScore
  simp only [Option.bind_eq_bind, Program.deref, hscore, Option.some_bind, h1, h2]
  refine bind_defined _ (modifyObject_defined p2 scoreAddr _ score hs2) ?_
  refine bind_defined image hi2 ?_
  refine modifyObject_exists _ scoreAddr _ ?_
  show (Function.update p2.heap scoreAddr _ scoreAddr).isSome = true
  rw [Function.update_same]
  rfl

end InGame

/-- C19: restart on game over.  From every state in which the game-over flag
is set and a restart is free of undefined behaviour (`Restartable`),
`OnPress(Enter)` yields a state with score 0, health 100, the game-over flag
cleared, no tracked enemy, no tracked projectile, exactly 32 (`NumberOfClouds`)
tracked clouds, the spawn interval 3280 and the spawn counter 0. -/
theorem restart_on_game_over (p : Program) (hwf : InGame.Restartable p)
    (hg : p.isGameOver = true) :
    ∃ q, InGame.OnPress p Input.KeyEnter = some q ∧
      q.player.score = 0 ∧ q.player.health = 100 ∧ q.isGameOver = false ∧
      q.enemies = [] ∧ q.projectiles = [] ∧ q.clouds.length = 32 ∧
      InGame.NumberOfClouds = 32 ∧ q.currentEnemySpawnInterval = 3280 ∧
      q.enemySpawnCounter = 0 := by
  obtain ⟨hnd, hlive, hplayer, hlifebar, hscore, hnext, htext, hw⟩ := hwf
  obtain ⟨p1, h1, e1, f1⟩ := InGame.DeleteObjects_defined p.Clear hnd
    (fun a ha => (hlive a ha).1)
  have hm1 := InGame.DeleteObjects_members h1
  have hkeep : ∀ a, a = playerAddr ∨ a = lifebarAddr ∨ a = scoreAddr →
      p1.heap a = p.heap a := by
    intro a ha
    refine f1 a (fun hmem => ?_)
    obtain ⟨_, n1, n2, n3⟩ := hlive a hmem
    rcases ha with h | h | h
    · exact n1 h
    · exact n2 h
    · exact n3 h
  have c1 := congrArg Program.images e1
  have c2 := congrArg Program.env e1
  have c3 := congrArg Program.imageCount e1
  have c4 := congrArg Program.nextAddr e1
  have c5 := congrArg Program.currentGame e1
  have himages1 : p1.images = p.images := c1
  have henv1 : p1.env = p.env := c2
  have hcount1 : p1.imageCount = p.imageCount := c3
  have hnext1 : p1.nextAddr = p.nextAddr := c4
  have hgame1 : p1.currentGame = p.currentGame := c5
  obtain ⟨lifebar, hl, hlimage⟩ := hlifebar
  obtain ⟨score, hs, hsimage⟩ := hscore
  obtain ⟨p2, h2⟩ := InGame.InitializeObjects_defined p1
    (by rw [hkeep playerAddr (Or.inl rfl)]; exact hplayer)
    ⟨lifebar, (hkeep lifebarAddr (Or.inr (Or.inl rfl))).trans hl,
      fun ref hr => by rw [himages1]; exact hlimage ref hr⟩
    (by rw [hkeep scoreAddr (Or.inr (Or.inr rfl)), hs]; rfl)
    (by rw [hgame1]; exact hw)
  obtain ⟨new, hlen, hm2⟩ := InGame.InitializeObjects_members h2
  obtain ⟨a2, g2⟩ := InGame.InitializeObjects_frame h2
  obtain ⟨score2, hs2, hsi2⟩ := g2 score ((hkeep scoreAddr (Or.inr (Or.inr rfl))).trans hs)
    (by rw [hnext1]; exact hnext)
  have hover2 : p2.isGameOver = false := congrArg Members.isGameOver hm2
  have hscore2 : p2.player.score = 0 := congrArg (fun m : Members => m.player.score) hm2
  have htext2 : InGame.scoreText p2 = "SCORE: " ++ toString (0 : Int) := by
    unfold InGame.scoreText
    rw [hover2, hscore2]
    rfl
  obtain ⟨q, h3⟩ := InGame.UpdateScore_defined p2
    ⟨score2, hs2, fun ref hr => by
      rw [a2.1, himages1]
      exact hsimage ref (hsi2 ▸ hr)⟩
    (by rw [htext2, a2.2.1, a2.2.2, henv1, hcount1]; exact htext)
  obtain ⟨hm3, _, _⟩ := InGame.UpdateScore_spec h3
  have hcl1 : p1.clouds = [] := congrArg Members.clouds hm1
  refine ⟨q, ?_, ?_, ?_, ?_, ?_, ?_, ?_, rfl, ?_, ?_⟩
  · unfold InGame.OnPress
    rw [if_pos hg, if_pos rfl]
    simp only [Option.bind_eq_bind, h1, Option.some_bind, h2]
    exact h3
  · exact (congrArg (fun m : Members => m.player.score) hm3).trans hscore2
  · exact (congrArg (fun m : Members => m.player.health) hm3).trans
      (congrArg (fun m : Members => m.player.health) hm2)
  · exact (congrArg Members.isGameOver hm3).trans hover2
  · exact (congrArg Members.enemies hm3).trans ((congrArg Members.enemies hm2).trans
      (congrArg Members.enemies hm1))
  · exact (congrArg Members.projectiles hm3).trans ((congrArg Members.projectiles hm2).trans
      (congrArg Members.projectiles hm1))
  · have hc : q.clouds = p1.clouds ++ new :=
      (congrArg Members.clouds hm3).trans (congrArg Members.clouds hm2)
    rw [hc, hcl1, List.nil_append, hlen]
    rfl
  · exact (congrArg Members.currentEnemySpawnInterval hm3).trans
      (congrArg Members.currentEnemySpawnInterval hm2)
  · exact (congrArg Members.enemySpawnCounter hm3).trans
      (congrArg Members.enemySpawnCounter hm2)

/-- The example program after its ten frames can be restarted, and its game
is over. -/
theorem exampleGameOver_facts :
    InGame.Restartable exampleGameOver ∧ exampleGameOver.isGameOver = true := by
  decide!

/-- The restart of the example game after its tenth frame, in which the game
ended. -/
theorem restart_on_game_over_witness :
    exampleGameOver.isGameOver = true ∧ InGame.Restartable exampleGameOver ∧
    ∃ q, InGame.OnPress exampleGameOver Input.KeyEnter = some q ∧
      q.player.score = 0 ∧ q.player.health = 100 ∧ q.isGameOver = false ∧
      q.enemies = [] ∧ q.projectiles = [] ∧ q.clouds.length = 32 :=
  match restart_on_game_over exampleGameOver exampleGameOver_facts.1 exampleGameOver_facts.2 with
  | ⟨q, h, h1, h2, h3, h4, h5, h6, _⟩ =>
    ⟨exampleGameOver_facts.2, exampleGameOver_facts.1, q, h, h1, h2, h3, h4, h5, h6⟩

/-! ## Step while the game is over -/

/-- C21: `Step` is a no-op while the game is over.  In every state whose
game-over flag is set, for every speed multiplier and tick, `Step` returns and
the whole program state after it (the members of the gameplay state, the World
and every object with its position) is the state before it. -/
theorem Step_noop_when_game_over (p : Program) (speedMultiplier : ℚ) (ticks : Nat)
    (hover : p.isGameOver = true) : InGame.Step p speedMultiplier ticks = some p := by
  unfold InGame.Step
  rw [if_pos hover]

theorem Step_noop_when_game_over_witness :
    exampleGameOver.isGameOver = true ∧
    InGame.Step exampleGameOver 20 44000 = some exampleGameOver :=
  ⟨exampleGameOver_facts.2,
    Step_noop_when_game_over exampleGameOver 20 44000 exampleGameOver_facts.2⟩

/-! ## StepPlayer -/

namespace InGame

theorem toUInt_sub_padding {n : Nat} (h : 184 ≤ n) (hu : n < uintModulus) :
    ((toUInt ((n : Int) - (72 + 56)) : Nat) : ℚ) = (n : ℚ) - 128 := by
  have hz : toUInt ((n : Int) - (72 + 56)) = n - 128 := by
    unfold uintModulus at hu
    unfold toUInt
    omega
  rw [hz, Nat.cast_sub (by omega)]
  norm_num

end InGame

/-- C22: `StepPlayer` clamps the player into the padded play area.  For a
target width and height of at least 184 (and in the range of `uint`), with the
player object `o`, `StepPlayer` returns; it assigns only the position of the
player object; the new position satisfies `56 ≤ x ≤ targetWidth - 128` and
`56 ≤ y ≤ targetHeight - 128`; the velocity is the one before; and a
coordinate that was within its bounds is unchanged. -/
theorem StepPlayer_clamps (p : Program) (o : Object ℚ)
    (hw : 184 ≤ p.currentGame.targetWidth) (hwu : p.currentGame.targetWidth < uintModulus)
    (hh : 184 ≤ p.currentGame.targetHeight) (hhu : p.currentGame.targetHeight < uintModulus)
    (ho : p.heap playerAddr = some o) :
    ∃ x y : ℚ,
      InGame.StepPlayer p =
        some { p with heap := Function.update p.heap playerAddr
                        (some { o with position := { x := x, y := y } }) } ∧
      ({ o with position := { x := x, y := y } } : Object ℚ).speed = o.speed ∧
      56 ≤ x ∧ x ≤ (p.currentGame.targetWidth : ℚ) - 128 ∧
      56 ≤ y ∧ y ≤ (p.currentGame.targetHeight : ℚ) - 128 ∧
      (56 ≤ o.position.x → o.position.x ≤ (p.currentGame.targetWidth : ℚ) - 128 →
        x = o.position.x) ∧
      (56 ≤ o.position.y → o.position.y ≤ (p.currentGame.targetHeight : ℚ) - 128 →
        y = o.position.y) := by
  have hW : (184 : ℚ) ≤ (p.currentGame.targetWidth : ℚ) := by exact_mod_cast hw
  have hH : (184 : ℚ) ≤ (p.currentGame.targetHeight : ℚ) := by exact_mod_cast hh
  have hR := InGame.toUInt_sub_padding hw hwu
  have hB := InGame.toUInt_sub_padding hh hhu
  refine ⟨
    (if (if o.position.x ≥
          ((toUInt ((p.currentGame.targetWidth : Int) - (72 + 56)) : Nat) : ℚ) then
          ((toUInt ((p.currentGame.targetWidth : Int) - (72 + 56)) : Nat) : ℚ)
        else o.position.x) ≤ (56 : ℚ) then (56 : ℚ)
      else (if o.position.x ≥
          ((toUInt ((p.currentGame.targetWidth : Int) - (72 + 56)) : Nat) : ℚ) then
          ((toUInt ((p.currentGame.targetWidth : Int) - (72 + 56)) : Nat) : ℚ)
        else o.position.x)),
    (if (if o.position.y ≥
          ((toUInt ((p.currentGame.targetHeight : Int) - (72 + 56)) : Nat) : ℚ) then
          ((toUInt ((p.currentGame.targetHeight : Int) - (72 + 56)) : Nat) : ℚ)
        else o.position.y) ≤ (56 : ℚ) then (56 : ℚ)
      else (if o.position.y ≥
          ((toUInt ((p.currentGame.targetHeight : Int) - (72 + 56)) : Nat) : ℚ) then
          ((toUInt ((p.currentGame.targetHeight : Int) - (72 + 56)) : Nat) : ℚ)
        else o.position.y)), ?_, rfl, ?_, ?_, ?_, ?_, ?_, ?_⟩
  · unfold InGame.StepPlayer Program.modifyObject
    rw [ho]
    simp only [InGame.ShipWidth, InGame.ShipHeight, InGame.HorizontalPadding,
      InGame.VerticalPadding, Int.cast_ofNat]
  · rw [hR]
    split_ifs <;> linarith
  · rw [hR]
    split_ifs <;> linarith
  · rw [hB]
    split_ifs <;> linarith
  · rw [hB]
    split_ifs <;> linarith
  · intro h1 h2
    rw [hR]
    split_ifs <;> linarith
  · intro h1 h2
    rw [hB]
    split_ifs <;> linarith

theorem StepPlayer_clamps_witness :
    184 ≤ exampleScene.currentGame.targetWidth ∧ 184 ≤ exampleScene.currentGame.targetHeight ∧
    ∃ o, exampleScene.heap playerAddr = some o ∧
      ∃ x y : ℚ,
        InGame.StepPlayer exampleScene =
          some { exampleScene with heap := Function.update exampleScene.heap playerAddr
                                    (some { o with position := { x := x, y := y } }) } ∧
        56 ≤ x ∧ x ≤ 1152 ∧ 56 ≤ y ∧ y ≤ 592 := by
  have hfacts : exampleScene.currentGame = exampleGame ∧
      (exampleScene.heap playerAddr).isSome = true := by
    decide!
  obtain ⟨hgame, hlive⟩ := hfacts
  obtain ⟨o, ho⟩ := Option.isSome_iff_exists.mp hlive
  have hw : 184 ≤ exampleScene.currentGame.targetWidth := by rw [hgame]; decide
  have hh : 184 ≤ exampleScene.currentGame.targetHeight := by rw [hgame]; decide
  have hwu : exampleScene.currentGame.targetWidth < uintModulus := by rw [hgame]; decide
  have hhu : exampleScene.currentGame.targetHeight < uintModulus := by rw [hgame]; decide
  obtain ⟨x, y, h, _, hx1, hx2, hy1, hy2, _, _⟩ := StepPlayer_clamps exampleScene o hw hwu hh hhu ho
  refine ⟨hw, hh, o, ho, x, y, h, hx1, ?_, hy1, ?_⟩
  · rw [hgame] at hx2
    norm_num [exampleGame] at hx2
    exact hx2
  · rw [hgame] at hy2
    norm_num [exampleGame] at hy2
    exact hy2

/-! ## UpdateScore without a text image -/

/-- C26: a failed text rasterization is fatal for `UpdateScore`.  In the
example program with a renderer that rasterizes no text, at the first call of
`UpdateScore` (in `Activate`, after `InitializeObjects`) the score object is
live and has no image to unload, and the call has no defined result: it reads
`score.image->width` of the `NULL` image.  The same holds in the game-over
variant, which reads `score.image->height` first. -/
theorem UpdateScore_faults_without_text_image :
    ∃ p, exampleNoText = some p ∧ (p.heap scoreAddr).isSome = true ∧
      (p.TextImage (InGame.scoreText p)).2 = none ∧
      InGame.UpdateScore p = none ∧
      InGame.UpdateScore { p with isGameOver := true } = none ∧
      InGame.Activate (Program.start exampleNoTextEnv exampleGame) exampleGame = none := by
  have hdef : exampleNoText.isSome = true := by decide!
  obtain ⟨p, hp⟩ := Option.isSome_iff_exists.mp hdef
  have hfacts : (exampleNoText.bind (fun p => p.heap scoreAddr)).isSome = true ∧
      (exampleNoText.map (fun p => (p.TextImage (InGame.scoreText p)).2)) = some none ∧
      (exampleNoText.bind InGame.UpdateScore).isNone = true ∧
      (exampleNoText.bind
        (fun p => InGame.UpdateScore { p with isGameOver := true })).isNone = true ∧
      (InGame.Activate (Program.start exampleNoTextEnv exampleGame) exampleGame).isNone = true := by
    decide!
  rw [hp] at hfacts
  obtain ⟨h1, h2, h3, h4, h5⟩ := hfacts
  refine ⟨p, hp, h1, ?_, Option.isNone_iff_eq_none.mp h3, Option.isNone_iff_eq_none.mp h4,
    Option.isNone_iff_eq_none.mp h5⟩
  simpa using h2

/-! ## The descent and the patrol of an enemy -/

namespace InGame

/-- `Shoot` leaves every object other than the one at the allocation frontier
as it is. -/
theorem Shoot_heap_other {p q : Program} {source : Addr} {color : Nat} {direction : Int}
    (h : Shoot p source color direction = some q) (b : Addr) (hb : b ≠ p.nextAddr) :
    q.heap b = p.heap b := by
  unfold Shoot at h
  by_cases hover : p.isGameOver = true
  · rw [if_pos hover] at h
    rw [← Option.some.inj h]
  · rw [if_neg hover] at h
    simp only [Option.bind_eq_bind, Option.bind_eq_some, Option.some.injEq] at h
    obtain ⟨src, _, image, _, p2, h2, p4, h4, rfl⟩ := h
    obtain ⟨_, _, _, _, _, hother2⟩ := modifyObject_frame h2
    have hother4 := (Program.AddObject_frame h4).2.2.1
    rw [Program.PlaySample_heap, hother4 b hb]
    show p2.heap b = p.heap b
    rw [hother2 b hb]
    exact Function.update_noteq hb _ _

/-- The object of the enemy a call of `SpawnEnemy` adds. -/
theorem SpawnEnemy_object {p q : Program} (h : SpawnEnemy p = some q) :
    ∃ o, q.heap p.nextAddr = some o ∧ o.speed = { x := 0, y := EnemySpeed } ∧
      o.position.y = -(ShipHeight : ℚ) := by
  simp only [SpawnEnemy, Option.bind_eq_bind, Option.bind_eq_some] at h
  obtain ⟨a, h1, a1, h2, a2, h3, a3, h4, a4, h5, image, _, a6, h6, h7⟩ := h
  obtain ⟨o6, _, ho6, _, _, _⟩ := modifyObject_frame h6
  obtain ⟨o7, ho7, e7⟩ := (Program.AddObject_frame h7).2.2.2 _ _ ho6
  refine ⟨o7, ho7, ?_, ?_⟩
  · rw [e7]
  · rw [e7]

end InGame

/-- C27, at the failing input: an enemy that patrols while it descends.  In
the example program with `std::rand` returning 0, after `Activate` and two
frames the one tracked enemy (stop altitude 56) is at `y = -62`, above its stop
altitude, its vertical speed is still the descent speed 10, and its horizontal
speed is 10, not 0.  `SpawnEnemy` put it at `x = 56`, the lower end of its
inclusive range, with the horizontal speed 0, and the test `x <= 56` of
`StepEnemies` in the same frame set the horizontal speed to 10; `Update` then
moved it to `(66, -62)`. -/
theorem edge_spawn_patrols_while_descending :
    exampleEdgeSpawn.enemies = [EnemyObject.mk 36 0 1080 6080 56] ∧
    (exampleEdgeSpawn.heap 36).map (fun o => (o.position, o.speed)) =
      some (({ x := 66, y := -62 } : Vector2D ℚ), ({ x := 10, y := 10 } : Vector2D ℚ)) := by
  decide!

/-- One round of the enemy loop.  `SpawnEnemy` gives the new enemy
the velocity `(0, 10)` at `y = -72`.  In one round of the loop of
`StepEnemies` on a tracked enemy with the object `o` (not at the allocation
frontier): when `o` has not passed the stop altitude (`y ≤ yStop`), its
position and its vertical speed are unchanged, and its horizontal speed is
unchanged when `56 < x < targetWidth - 128`, becomes 10 when `x ≤ 56` and
becomes -10 when `x ≥ targetWidth - 128` and `x > 56`; when `o` has passed
the stop altitude (`y > yStop`), it is put at `y = yStop`, its vertical speed
becomes 0 and its horizontal speed becomes 10 or -10. -/
theorem patrol_begins_at_halt_or_side :
    (∀ p q : Program, InGame.SpawnEnemy p = some q →
      ∃ e o, q.enemies = p.enemies ++ [e] ∧ q.heap e.addr = some o ∧
        o.speed = { x := 0, y := 10 } ∧ o.position.y = -72) ∧
    (∀ (p q : Program) (enemy enemy1 : EnemyObject) (o : Object ℚ),
      p.heap enemy.addr = some o → enemy.addr ≠ p.nextAddr →
      InGame.stepEnemy p enemy = some (q, enemy1) →
      ∃ o1, q.heap enemy.addr = some o1 ∧
        (o.position.y ≤ (enemy.yStop : ℚ) →
          o1.position = o.position ∧ o1.speed.y = o.speed.y ∧
          (o.position.x ≤ 56 → o1.speed.x = 10) ∧
          (56 < o.position.x →
            ((toUInt ((p.currentGame.targetWidth : Int) - 128) : Nat) : ℚ) ≤ o.position.x →
            o1.speed.x = -10) ∧
          (56 < o.position.x →
            o.position.x < ((toUInt ((p.currentGame.targetWidth : Int) - 128) : Nat) : ℚ) →
            o1.speed.x = o.speed.x)) ∧
        ((enemy.yStop : ℚ) < o.position.y →
          o1.position = { x := o.position.x, y := (enemy.yStop : ℚ) } ∧ o1.speed.y = 0 ∧
          (o1.speed.x = 10 ∨ o1.speed.x = -10))) := by
  constructor
  · intro p q h
    obtain ⟨e, hm, haddr, _⟩ := InGame.SpawnEnemy_spec h
    obtain ⟨o, ho, hs, hy⟩ := InGame.SpawnEnemy_object h
    refine ⟨e, o, congrArg Members.enemies hm, by rw [haddr]; exact ho, ?_, ?_⟩
    · rw [hs]
      norm_num [InGame.EnemySpeed]
    · rw [hy]
      norm_num [InGame.ShipHeight]
  · intro p q enemy enemy1 o ho hne h
    unfold InGame.stepEnemy at h
    rw [show p.deref enemy.addr = some o from ho] at h
    simp only at h
    cases h1 : InGame.haltDescent p enemy o with
    | none => simp [h1] at h
    | some t =>
      obtain ⟨p1, o1⟩ := t
      simp only [h1] at h
      cases h2 : p1.modifyObject enemy.addr
          (fun _ => InGame.turnAtLeft (InGame.turnAtRight p1.currentGame.targetWidth o1)) with
      | none => simp [h2] at h
      | some p2 =>
        simp only [h2] at h
        obtain ⟨_, _, hn1, _⟩ := InGame.haltDescent_frame h1
        have hgame : p1.currentGame = p.currentGame :=
          congrArg Members.currentGame (InGame.haltDescent_members h1)
        obtain ⟨_, _, ho2, _, hn2, _⟩ := InGame.modifyObject_frame h2
        have hq : q.heap enemy.addr =
            some (InGame.turnAtLeft (InGame.turnAtRight p.currentGame.targetWidth o1)) := by
          rw [← hgame, ← ho2]
          split_ifs at h
          · cases h3 : InGame.Shoot p2 enemy.addr enemy.color 1 with
            | none => simp [h3] at h
            | some p3 =>
              simp only [h3, Option.some.injEq, Prod.mk.injEq] at h
              rw [← h.1]
              exact InGame.Shoot_heap_other h3 _ (by rw [hn2, hn1]; exact hne)
          · simp only [Option.some.injEq, Prod.mk.injEq] at h
            rw [← h.1]
        refine ⟨_, hq, ?_, ?_⟩
        · intro hy
          unfold InGame.haltDescent at h1
          rw [if_neg (not_lt.mpr hy)] at h1
          simp only [Option.some.injEq, Prod.mk.injEq] at h1
          obtain ⟨_, rfl⟩ := h1
          simp only [InGame.turnAtLeft, InGame.turnAtRight, InGame.ShipWidth,
            InGame.HorizontalPadding, InGame.EnemySpeed, Int.cast_ofNat]
          norm_num
          refine ⟨?_, ?_, ?_, ?_, ?_⟩
          · split_ifs <;> rfl
          · split_ifs <;> rfl
          · intro hx
            split_ifs <;> rfl
          · intro hx hr
            split_ifs <;> first | rfl | (exfalso; linarith)
          · intro hx hr
            split_ifs <;> first | rfl | (exfalso; linarith)
        · intro hy
          unfold InGame.haltDescent at h1
          rw [if_pos hy] at h1
          cases hr : p.RandomNumber 0 1 with
          | none => simp [hr] at h1
          | some r =>
            obtain ⟨pr, v⟩ := r
            simp only [hr, Option.some.injEq, Prod.mk.injEq] at h1
            obtain ⟨_, rfl⟩ := h1
            simp only [InGame.turnAtLeft, InGame.turnAtRight, InGame.ShipWidth,
              InGame.HorizontalPadding, InGame.EnemySpeed, Int.cast_ofNat]
            refine ⟨?_, ?_, ?_⟩
            · split_ifs <;> rfl
            · split_ifs <;> rfl
            · split_ifs <;> simp

theorem patrol_begins_at_halt_or_side_witness :
    ∃ (o o1 : Object ℚ) (q : Program) (enemy1 : EnemyObject),
      exampleLoneEnemy.heap 36 = some o ∧ (36 : Addr) ≠ exampleLoneEnemy.nextAddr ∧
      InGame.stepEnemy exampleLoneEnemy (EnemyObject.mk 36 2 1659 9659 72) = some (q, enemy1) ∧
      q.heap 36 = some o1 ∧
      (o.position.y ≤ 72 → o1.position = o.position ∧ o1.speed.y = o.speed.y) ∧
      (72 < o.position.y →
        o1.position = { x := o.position.x, y := 72 } ∧ o1.speed.y = 0 ∧
        (o1.speed.x = 10 ∨ o1.speed.x = -10)) := by
  have hdef : (exampleLoneEnemy.heap 36).isSome = true ∧
      (36 : Addr) ≠ exampleLoneEnemy.nextAddr ∧
      (InGame.stepEnemy exampleLoneEnemy (EnemyObject.mk 36 2 1659 9659 72)).isSome = true := by
    decide!
  obtain ⟨hlive, hne, hstep⟩ := hdef
  obtain ⟨o, ho⟩ := Option.isSome_iff_exists.mp hlive
  obtain ⟨⟨q, enemy1⟩, hq⟩ := Option.isSome_iff_exists.mp hstep
  obtain ⟨o1, ho1, hdescent, hhalt⟩ :=
    patrol_begins_at_halt_or_side.2 exampleLoneEnemy q (EnemyObject.mk 36 2 1659 9659 72)
      enemy1 o ho hne hq
  refine ⟨o, o1, q, enemy1, ho, hne, hq, ho1, ?_, ?_⟩
  · intro hy
    obtain ⟨h1, h2, _⟩ := hdescent (by exact_mod_cast hy)
    exact ⟨h1, h2⟩
  · intro hy
    have h := hhalt (by exact_mod_cast hy)
    simpa using h

/-! ## Run: activation and deactivation -/

namespace Engine

theorem active_append_activate (calls : List StateCall) (s : StateRef) (g : GameInformation) :
    active (calls ++ [StateCall.Activate s g]) s = true := by
  simp [active, List.filter_append, StateCall.state]

theorem active_append_other (calls : List StateCall) (c : StateCall) (s : StateRef)
    (h : c.state ≠ s) : active (calls ++ [c]) s = active calls s := by
  simp [active, List.filter_append, h]

theorem WellBracketed.empty : WellBracketed [] := by
  intro pre s post h
  cases pre <;> cases h

theorem WellBracketed.snoc {calls : List StateCall} {c : StateCall}
    (h : WellBracketed calls) (hc : ∀ s, c = StateCall.Deactivate s → active calls s = true) :
    WellBracketed (calls ++ [c]) := by
  intro pre s post heq
  rcases List.eq_nil_or_concat post with rfl | ⟨post1, last, rfl⟩
  · have h2 : calls ++ [c] = pre ++ [StateCall.Deactivate s] := heq
    obtain ⟨h3, h4⟩ := List.append_inj' h2 rfl
    subst h3
    exact hc s (List.singleton_inj.mp h4)
  · have h2 : calls ++ [c] = (pre ++ StateCall.Deactivate s :: post1) ++ [last] := by
      rw [heq]
      simp
    obtain ⟨h3, _⟩ := List.append_inj' h2 rfl
    exact h pre s post1 h3

theorem lifecycle_call (e : Engine) (c : StateCall) :
    (e.call c).lifecycle = e.lifecycle ++ [c] := by
  simp [lifecycle, call]

theorem Bracketed.changeState {e : Engine} (h : Bracketed e) (hr : e.isRunning = true)
    (stateName : String) :
    Bracketed (e.ChangeState stateName) ∧ (e.ChangeState stateName).isRunning = true := by
  obtain ⟨hw, c, hc, ha⟩ := h
  cases hl : e.gameStates.lookup stateName with
  | none =>
    have hsame : e.ChangeState stateName = e.Error Tag Txt.StateNotFound stateName := by
      simp [ChangeState, hl]
    rw [hsame]
    exact ⟨⟨hw, c, hc, ha⟩, hr⟩
  | some state =>
    have hcalls : (e.ChangeState stateName).lifecycle =
        (e.lifecycle ++ [StateCall.Deactivate c]) ++ [StateCall.Activate state e.game] := by
      cases hd : e.BIQ_DEBUG <;>
        simp [ChangeState, hl, hr, hc, Debug, call, lifecycle, hd]
    have hcur : (e.ChangeState stateName).currentState = some state := by
      cases hd : e.BIQ_DEBUG <;> simp [ChangeState, hl, hr, hc, Debug, call, hd]
    have hrun : (e.ChangeState stateName).isRunning = true := by
      cases hd : e.BIQ_DEBUG <;> simp [ChangeState, hl, hr, hc, Debug, call, hd]
    refine ⟨⟨?_, state, hcur, ?_⟩, hrun⟩
    · rw [hcalls]
      refine WellBracketed.snoc (WellBracketed.snoc hw ?_) ?_
      · intro s hs
        cases hs
        exact ha
      · intro s hs
        cases hs
    · rw [hcalls]
      exact active_append_activate _ _ _

theorem Bracketed.stops {e : Engine} (h : Bracketed e) :
    ∀ rest : List Request, rest.all (fun r => r = Request.Stop) = true →
      Bracketed (rest.foldl request e.Stop) := by
  intro rest
  induction rest generalizing e with
  | nil => intro _; exact h
  | cons r rest ih =>
    intro hall
    simp only [List.all_cons, Bool.and_eq_true, decide_eq_true_eq] at hall
    obtain ⟨rfl, hrest⟩ := hall
    exact ih (e := e.Stop) h hrest

theorem Bracketed.callback {e : Engine} (h : Bracketed e) (hr : e.isRunning = true) :
    ∀ callback : List Request, stopsLast callback = true →
      Bracketed (callback.foldl request e) := by
  intro callback
  induction callback generalizing e with
  | nil => intro _; exact h
  | cons r rest ih =>
    intro hs
    cases r with
    | ChangeState stateName =>
      obtain ⟨h1, hr1⟩ := h.changeState hr stateName
      exact ih h1 hr1 hs
    | Stop => exact h.stops rest hs

theorem runLoop_bracketed :
    ∀ (callbacks : List (List Request)) (e : Engine), Bracketed e →
      (∀ callback ∈ callbacks, stopsLast callback = true) →
      ∃ e1, runLoop e callbacks = some e1 ∧ Bracketed e1 := by
  intro callbacks
  induction callbacks with
  | nil => intro e h _; exact ⟨e, rfl, h⟩
  | cons callback rest ih =>
    intro e h hs
    unfold runLoop
    by_cases hr : e.isRunning = true
    · rw [if_pos hr]
      obtain ⟨c, hc, _⟩ := h.2
      rw [hc]
      exact ih _ (h.callback hr callback (hs callback (List.mem_cons_self _ _)))
        (fun cb hcb => hs cb (List.mem_cons_of_mem _ hcb))
    · rw [if_neg hr]
      exact ⟨e, rfl, h⟩

end Engine

/-- C25, counterexample: a `ChangeState` before `Run`.  On the engine of
`Main.cxx`, `ChangeState("INGAME")` before the engine runs makes the in-game
state (address 2) the current state without a call; `Run("SPLASH")` then
calls `Deactivate` on the in-game state, which was never activated, before it
activates the splash state. -/
theorem deactivate_without_activate :
    ∃ e, Engine.Run (exampleEngine.ChangeState "INGAME") "SPLASH" [] = some e ∧
      e.lifecycle = [StateCall.Deactivate 2, StateCall.Activate 1 exampleGame] ∧
      ¬ Engine.WellBracketed e.lifecycle := by
  refine ⟨_, rfl, by decide, ?_⟩
  intro h
  have h1 := h [] 2 [StateCall.Activate 1 exampleGame] (by decide)
  exact absurd h1 (by decide)

/-- C25, amended: activation and deactivation are well bracketed when `Run`
starts without a current state.  For an engine that is not running, has no
current state and has made no lifecycle call (so every earlier `ChangeState`
named an unregistered state), `Run` with a registered initial state and any
callbacks in which no `ChangeState` follows a `Stop` is defined, and in the
sequence of lifecycle calls it makes every `Deactivate` on a state is preceded
by a most recent call on that state that is an `Activate`. -/
theorem Run_well_bracketed (e : Engine) (initialState : String) (state : StateRef)
    (callbacks : List (List Engine.Request))
    (hrun : e.isRunning = false) (hcur : e.currentState = none) (hcalls : e.calls = [])
    (hreg : e.gameStates.lookup initialState = some state)
    (hstop : ∀ callback ∈ callbacks, Engine.stopsLast callback = true) :
    ∃ e1, Engine.Run e initialState callbacks = some e1 ∧ Engine.WellBracketed e1.lifecycle := by
  have hstart : Engine.Bracketed
      (Engine.ChangeState { e.Info Engine.Tag Txt.Running "" with isRunning := true }
        initialState) := by
    have hl : (Engine.ChangeState { e.Info Engine.Tag Txt.Running "" with isRunning := true }
        initialState).lifecycle = [StateCall.Activate state e.game] := by
      cases hd : e.BIQ_DEBUG <;>
        simp [Engine.ChangeState, Engine.Info, hreg, hcur, hcalls, Engine.Debug, Engine.call,
          Engine.lifecycle, hd]
    have hc : (Engine.ChangeState { e.Info Engine.Tag Txt.Running "" with isRunning := true }
        initialState).currentState = some state := by
      cases hd : e.BIQ_DEBUG <;>
        simp [Engine.ChangeState, Engine.Info, hreg, hcur, Engine.Debug, Engine.call, hd]
    refine ⟨?_, state, hc, ?_⟩
    · rw [hl]
      exact @Engine.WellBracketed.snoc [] _ Engine.WellBracketed.empty
        (fun s hs => by cases hs)
    · rw [hl]
      exact Engine.active_append_activate [] state e.game
  obtain ⟨e1, h1, hw, c, hc, ha⟩ := Engine.runLoop_bracketed callbacks _ hstart hstop
  unfold Engine.Run
  rw [if_neg (by simp [hrun]), h1]
  by_cases hr1 : e1.isRunning = true
  · exact ⟨e1, by simp [hr1], hw⟩
  · refine ⟨((e1.Info Engine.Tag Txt.Stopping "").call (StateCall.Deactivate c)).Info
        Engine.Tag Txt.Stopped "", by simp [hr1, hc], ?_⟩
    have hl : (((e1.Info Engine.Tag Txt.Stopping "").call (StateCall.Deactivate c)).Info
        Engine.Tag Txt.Stopped "").lifecycle = e1.lifecycle ++ [StateCall.Deactivate c] := by
      simp [Engine.lifecycle, Engine.call, Engine.Info]
    rw [hl]
    refine Engine.WellBracketed.snoc hw ?_
    intro s hs
    cases hs
    exact ha

theorem Run_well_bracketed_witness :
    ∃ e1, Engine.Run exampleEngine "SPLASH"
        [[], [Engine.Request.ChangeState "INGAME"], [],
         [Engine.Request.ChangeState "SPLASH"], [Engine.Request.Stop]] = some e1 ∧
      Engine.WellBracketed e1.lifecycle :=
  Run_well_bracketed exampleEngine "SPLASH" 1 _ (by decide) (by decide) (by decide) (by decide)
    (by decide)

/-! ## The layers and the tracking lists -/

namespace ObjectMap

theorem set_of_gt {m : ObjectMap} {key : Nat} (value : Addr) (h : ∀ e ∈ m, e.1 < key) :
    m.set key value = m ++ [(key, value)] := by
  induction m with
  | nil => rfl
  | cons a rest ih =>
    obtain ⟨k, v⟩ := a
    have hk : k < key := h (k, v) (List.mem_cons_self _ _)
    simp only [set, if_neg (Nat.lt_asymm hk), if_neg (Nat.ne_of_gt hk), List.cons_append,
      ih (fun e he => h e (List.mem_cons_of_mem _ he))]

end ObjectMap

theorem LayerHolds.mono {w : World} {h h1 : Heap ℚ} {layerIndex : Nat} {addrs : List Addr}
    (hl : LayerHolds w h layerIndex addrs)
    (hh : ∀ a ∈ addrs, ∀ o, h a = some o →
      ∃ o1, h1 a = some o1 ∧ o1.id = o.id ∧ o1.layerIndex = o.layerIndex) :
    LayerHolds w h1 layerIndex addrs := by
  obtain ⟨layer, hlayer, hmap, hkeys, hall⟩ := hl
  refine ⟨layer, hlayer, hmap, hkeys, ?_⟩
  intro e he
  obtain ⟨hlt, o, ho, hid, hli⟩ := hall e he
  have hmem : e.2 ∈ addrs := by
    rw [← hmap]
    exact List.mem_map_of_mem _ he
  obtain ⟨o1, ho1, hid1, hli1⟩ := hh e.2 hmem o ho
  exact ⟨hlt, o1, ho1, hid1.trans hid, hli1.trans hli⟩

theorem LayerHolds.mem_live {w : World} {h : Heap ℚ} {layerIndex : Nat} {addrs : List Addr}
    (hl : LayerHolds w h layerIndex addrs) {a : Addr} (ha : a ∈ addrs) :
    ∃ layer o, w.layers[layerIndex]? = some layer ∧ (o.id, a) ∈ layer.objects ∧
      h a = some o ∧ o.layerIndex = layerIndex := by
  obtain ⟨layer, hlayer, hmap, _, hall⟩ := hl
  rw [← hmap] at ha
  obtain ⟨e, he, rfl⟩ := List.mem_map.mp ha
  obtain ⟨_, o, ho, hid, hli⟩ := hall e he
  refine ⟨layer, o, hlayer, ?_, ho, hli⟩
  rw [hid]
  exact he

theorem LayerHolds.lt_length {w : World} {h : Heap ℚ} {layerIndex : Nat} {addrs : List Addr}
    (hl : LayerHolds w h layerIndex addrs) : layerIndex < w.layers.length := by
  obtain ⟨layer, hlayer, _⟩ := hl
  by_contra hge
  rw [List.getElem?_eq_none (Nat.le_of_not_lt hge)] at hlayer
  cases hlayer

/-- `AddObject` of an object the layer `index` does not register: the layer
`layerIndex` gets the object at its end, every other layer is as before. -/
theorem LayerHolds.register {w w1 : World} {h h1 : Heap ℚ} {layerIndex index : Nat} {a : Addr}
    {addrs : List Addr} (hl : LayerHolds w h index addrs)
    (hadd : w.AddObject h layerIndex (some a) = some (w1, h1))
    (hwrap : w.objectCounter + 1 < uintModulus) (ha : a ∉ addrs) :
    LayerHolds w1 h1 index (if index = layerIndex then addrs ++ [a] else addrs) := by
  by_cases hli : layerIndex < w.layers.length
  · obtain ⟨a1, o, hobj, ho, rfl, rfl⟩ := World.AddObject_some_inv hli hadd
    obtain rfl := Option.some.inj hobj
    obtain ⟨layer, hlayer, hmap, hkeys, hall⟩ := hl
    have hcounter : (w.objectCounter + 1) % uintModulus = w.objectCounter + 1 :=
      Nat.mod_eq_of_lt hwrap
    have hold : ∀ e ∈ layer.objects, e.1 < w.objectCounter + 1 ∧
        ∃ o1, Function.update h a
          (some { o with id := w.objectCounter, layerIndex := layerIndex }) e.2 = some o1 ∧
          o1.id = e.1 ∧ o1.layerIndex = index := by
      intro e he
      obtain ⟨hlt, o1, ho1, hid, hlx⟩ := hall e he
      have hne : e.2 ≠ a := by
        intro heq
        apply ha
        rw [← hmap, ← heq]
        exact List.mem_map_of_mem _ he
      exact ⟨Nat.lt_succ_of_lt hlt, o1, (Function.update_noteq hne _ _).trans ho1, hid, hlx⟩
    by_cases hix : index = layerIndex
    · subst hix
      rw [if_pos rfl]
      have hset : layer.objects.set w.objectCounter a =
          layer.objects ++ [(w.objectCounter, a)] :=
        ObjectMap.set_of_gt a (fun e he => (hall e he).1)
      refine ⟨{ layer with objects := layer.objects.set w.objectCounter a }, ?_, ?_, ?_, ?_⟩
      · show (List.modify _ index w.layers)[index]? = _
        rw [List.getElem?_modify_eq, hlayer]
        rfl
      · show (layer.objects.set w.objectCounter a).map Prod.snd = _
        rw [hset, List.map_append, hmap]
        rfl
      · exact ObjectMap.pairwise_set _ _ hkeys
      · intro e he
        rw [hcounter]
        have he1 : e ∈ layer.objects ++ [(w.objectCounter, a)] := hset ▸ he
        rcases List.mem_append.mp he1 with hin | hlast
        · exact hold e hin
        · rw [List.mem_singleton.mp hlast]
          exact ⟨Nat.lt_succ_self _, _, Function.update_same _ _ _, rfl, rfl⟩
    · rw [if_neg hix]
      refine ⟨layer, ?_, hmap, hkeys, ?_⟩
      · show (List.modify _ layerIndex w.layers)[index]? = _
        rw [List.getElem?_modify_ne _ _ (Ne.symm hix)]
        exact hlayer
      · intro e he
        rw [hcounter]
        exact hold e he
  · rw [World.AddObject_of_ge _ (Nat.le_of_not_lt hli)] at hadd
    simp only [Option.some.injEq, Prod.mk.injEq] at hadd
    obtain ⟨rfl, rfl⟩ := hadd
    have hix : index ≠ layerIndex := by
      intro heq
      exact hli (heq ▸ hl.lt_length)
    rw [if_neg hix]
    exact hl

/-- `RemoveObject` of an object the layer `layerIndex` registers: the layer
loses it. -/
theorem LayerHolds.unregister {w w1 : World} {h : Heap ℚ} {layerIndex : Nat} {a : Addr}
    {addrs : List Addr} (hl : LayerHolds w h layerIndex addrs) (ha : a ∈ addrs)
    (hrem : w.RemoveObject h (some a) = some w1) :
    LayerHolds w1 h layerIndex (addrs.filter (fun b => b != a)) ∧
    ∀ index others, index ≠ layerIndex → LayerHolds w h index others →
      LayerHolds w1 h index others := by
  obtain ⟨o, ho, hlt, rfl⟩ := World.RemoveObject_some_inv hrem
  obtain ⟨layer0, o0, hlayer0, hmem0, ho0, hli0⟩ := hl.mem_live ha
  obtain rfl : o0 = o := Option.some.inj (ho0.symm.trans ho)
  obtain ⟨layer, hlayer, hmap, hkeys, hall⟩ := hl
  obtain rfl : layer0 = layer := Option.some.inj (hlayer0.symm.trans hlayer)
  constructor
  · refine ⟨{ layer0 with objects := layer0.objects.erase o0.id }, ?_, ?_, ?_, ?_⟩
    · show (List.modify _ o0.layerIndex w.layers)[layerIndex]? = _
      rw [hli0, List.getElem?_modify_eq, hlayer]
      rfl
    · show (layer0.objects.erase o0.id).map Prod.snd = _
      rw [← hmap, ObjectMap.erase, List.filter_map]
      congr 1
      apply List.filter_congr
      intro e he
      show (e.1 != o0.id) = (e.2 != a)
      obtain ⟨_, oe, hoe, hid, _⟩ := hall e he
      by_cases hea : e.2 = a
      · have hoe0 : oe = o0 := Option.some.inj (hoe.symm.trans (hea ▸ ho))
        have hk : e.1 = o0.id := by rw [← hid, hoe0]
        rw [hk, hea, bne_self_eq_false, bne_self_eq_false]
      · have hne : e.1 ≠ o0.id := by
          intro hk
          have h1 := ObjectMap.find_of_mem hkeys he
          have h2 := ObjectMap.find_of_mem hkeys hmem0
          rw [hk] at h1
          exact hea (Option.some.inj (h1.symm.trans h2))
        rw [bne_iff_ne.mpr hne, bne_iff_ne.mpr hea]
    · exact ObjectMap.pairwise_erase _ hkeys
    · intro e he
      exact hall e (ObjectMap.mem_erase.mp he).1
  · intro index others hix hother
    obtain ⟨layer1, hlayer1, hrest⟩ := hother
    refine ⟨layer1, ?_, hrest⟩
    show (List.modify _ o0.layerIndex w.layers)[index]? = _
    rw [hli0, List.getElem?_modify_ne _ _ (Ne.symm hix)]
    exact hlayer1

theorem LayerHolds.delete {w : World} {h : Heap ℚ} {layerIndex : Nat} {a : Addr}
    {addrs : List Addr} (hl : LayerHolds w h layerIndex addrs) (ha : a ∉ addrs) :
    LayerHolds w (Function.update h a none) layerIndex addrs := by
  refine hl.mono ?_
  intro b hb o ho
  have hne : b ≠ a := fun heq => ha (heq ▸ hb)
  exact ⟨o, (Function.update_noteq hne _ _).trans ho, rfl, rfl⟩

theorem LayerHolds.cleared (w : World) (h : Heap ℚ) {layerIndex : Nat}
    (hli : layerIndex < w.layers.length) : LayerHolds w.Clear h layerIndex [] := by
  refine ⟨{ background := none, objects := [] }, ?_, rfl, List.Pairwise.nil, ?_⟩
  · show (w.layers.map _)[layerIndex]? = _
    rw [List.getElem?_map, List.getElem?_eq_getElem hli]
    rfl
  · intro e he
    cases he

theorem LayerHolds.repaint {w : World} {h : Heap ℚ} {layerIndex : Nat} {addrs : List Addr}
    (hl : LayerHolds w h layerIndex addrs) (index : Nat) (image : Option ImageRef) :
    LayerHolds (w.SetLayerBackground index image) h layerIndex addrs := by
  unfold World.SetLayerBackground
  split_ifs with hge
  · exact hl
  · obtain ⟨layer, hlayer, hmap, hkeys, hall⟩ := hl
    by_cases hix : index = layerIndex
    · subst hix
      refine ⟨{ layer with background := image }, ?_, hmap, hkeys, hall⟩
      show (List.modify _ index w.layers)[index]? = _
      rw [List.getElem?_modify_eq, hlayer]
      rfl
    · refine ⟨layer, ?_, hmap, hkeys, hall⟩
      show (List.modify _ index w.layers)[layerIndex]? = _
      rw [List.getElem?_modify_ne _ _ hix]
      exact hlayer

namespace Program

theorem Neutral.same (p : Program) : p.Neutral p :=
  ⟨rfl, Nat.le_refl _, fun _ o _ ho => ⟨o, ho, rfl, rfl⟩, rfl, rfl, rfl⟩

theorem Neutral.andThen {p q r : Program} (h1 : p.Neutral q) (h2 : q.Neutral r) :
    p.Neutral r := by
  obtain ⟨w1, n1, o1, c1, e1, x1⟩ := h1
  obtain ⟨w2, n2, o2, c2, e2, x2⟩ := h2
  refine ⟨w2.trans w1, Nat.le_trans n1 n2, ?_, c2.trans c1, e2.trans e1, x2.trans x1⟩
  intro a o ha ho
  obtain ⟨oa, hoa, ia, la⟩ := o1 a o ha ho
  obtain ⟨ob, hob, ib, lb⟩ := o2 a oa (Nat.lt_of_lt_of_le ha n1) hoa
  exact ⟨ob, hob, ib.trans ia, lb.trans la⟩

/-- A stage that leaves the members, the World and the frontier as they are
and keeps the identifier and the layer index of every live object. -/
theorem Neutral.of_members {p q : Program} (hm : q.members = p.members)
    (hw : q.world = p.world) (hn : q.nextAddr = p.nextAddr)
    (hh : ∀ a o, p.heap a = some o →
      ∃ o1, q.heap a = some o1 ∧ o1.id = o.id ∧ o1.layerIndex = o.layerIndex) :
    p.Neutral q := by
  have hc := congrArg Members.clouds hm
  have he := congrArg Members.enemies hm
  have hx := congrArg Members.projectiles hm
  exact ⟨hw, Nat.le_of_eq hn.symm, fun a o _ ho => hh a o ho, hc,
    congrArg (List.map EnemyObject.addr) he, congrArg (List.map ColoredObject.addr) hx⟩

theorem Neutral.of_moved {p q : Program} (h : p.OnlyMoved q) : p.Neutral q := by
  obtain ⟨hm, hw, hn, hh⟩ := h
  refine Neutral.of_members hm hw hn ?_
  intro a o ho
  obtain ⟨o1, ho1, e1⟩ := hh a o ho
  refine ⟨o1, ho1, ?_, ?_⟩
  · rw [e1]
  · rw [e1]

theorem Neutral.of_modifyObject {p q : Program} {a : Addr} {f : Object ℚ → Object ℚ}
    (h : p.modifyObject a f = some q)
    (hf : ∀ o, p.heap a = some o → (f o).id = o.id ∧ (f o).layerIndex = o.layerIndex) :
    p.Neutral q := by
  obtain ⟨o, ho, rfl⟩ := modifyObject_some h
  refine Neutral.of_members rfl rfl rfl ?_
  intro b ob hb
  by_cases hba : b = a
  · subst hba
    rw [ho] at hb
    obtain rfl := Option.some.inj hb
    exact ⟨f o, Function.update_same _ _ _, (hf o ho).1, (hf o ho).2⟩
  · exact ⟨ob, (Function.update_noteq hba _ _).trans hb, rfl, rfl⟩

theorem Neutral.of_new (p : Program) (type : ObjectType) : p.Neutral (p.new type).1 := by
  refine ⟨rfl, Nat.le_succ _, ?_, rfl, rfl, rfl⟩
  intro a o ha ho
  exact ⟨o, (Function.update_noteq (Nat.ne_of_lt ha) _ _).trans ho, rfl, rfl⟩

end Program

namespace InGame

theorem expected_subset {ship : List Addr} {p : Program} {layerIndex : Nat} {a : Addr}
    (h : a ∈ expected ship p layerIndex) : a ∈ ship ∨ a ∈ tracked p := by
  unfold expected at h
  unfold tracked
  split_ifs at h
  · obtain ⟨c, hc, rfl⟩ := List.mem_map.mp h
    exact Or.inr (List.mem_append_left _ (List.mem_append_left _
      (List.mem_map_of_mem _ (List.mem_of_mem_filter hc))))
  · exact Or.inr (List.mem_append_right _ h)
  · rcases List.mem_append.mp h with hs | he
    · exact Or.inl hs
    · exact Or.inr (List.mem_append_left _ (List.mem_append_right _ he))
  · obtain ⟨c, hc, rfl⟩ := List.mem_map.mp h
    exact Or.inr (List.mem_append_left _ (List.mem_append_left _
      (List.mem_map_of_mem _ (List.mem_of_mem_filter hc))))

theorem expected_congr {ship : List Addr} {p q : Program} (hc : q.clouds = p.clouds)
    (he : q.enemies.map EnemyObject.addr = p.enemies.map EnemyObject.addr)
    (hx : q.projectiles.map ColoredObject.addr = p.projectiles.map ColoredObject.addr)
    (layerIndex : Nat) : expected ship q layerIndex = expected ship p layerIndex := by
  unfold expected lowClouds highClouds
  rw [hc, he, hx]

theorem tracked_congr {p q : Program} (hc : q.clouds = p.clouds)
    (he : q.enemies.map EnemyObject.addr = p.enemies.map EnemyObject.addr)
    (hx : q.projectiles.map ColoredObject.addr = p.projectiles.map ColoredObject.addr) :
    tracked q = tracked p := by
  unfold tracked
  rw [hc, he, hx]

theorem BookWith.lt_frontier {ship : List Addr} {p : Program} (h : BookWith ship p)
    {layerIndex : Nat} {a : Addr} (ha : a ∈ expected ship p layerIndex) : a < p.nextAddr := by
  obtain ⟨_, _, hrange, hship, hscore⟩ := h
  rcases expected_subset ha with hs | ht
  · exact Nat.lt_of_le_of_lt (hship a hs) hscore
  · exact (hrange a ht).2

theorem BookWith.neutral {ship : List Addr} {p q : Program} (h : BookWith ship p)
    (hn : p.Neutral q) : BookWith ship q := by
  obtain ⟨hw, hle, hh, hc, he, hx⟩ := hn
  have htr := tracked_congr hc he hx
  refine ⟨?_, ?_, ?_, h.2.2.2.1, Nat.lt_of_lt_of_le h.2.2.2.2 hle⟩
  · intro layerIndex h1 h4
    rw [expected_congr hc he hx, hw]
    refine (h.1 layerIndex h1 h4).mono ?_
    intro a ha o ho
    exact hh a o (h.lt_frontier ha) ho
  · rw [htr]
    exact h.2.1
  · intro a ha
    rw [htr] at ha
    exact ⟨(h.2.2.1 a ha).1, Nat.lt_of_lt_of_le (h.2.2.1 a ha).2 hle⟩

/-- The bookkeeping after `AddObject(layerIndex, a)` on a state `s1` that
differs from a booked state `s` only in its members. -/
theorem BookWith.add {ship ship1 : List Addr} {s s1 q : Program} {layerIndex : Nat} {a : Addr}
    (h : BookWith ship s) (hwrap : s.world.objectCounter + 1 < uintModulus)
    (hw : s1.world = s.world) (hh : s1.heap = s.heap) (hn : s1.nextAddr = s.nextAddr)
    (hadd : s1.AddObject layerIndex a = some q)
    (hfresh : a ∉ ship ∧ a ∉ tracked s)
    (hexp : ∀ index, 1 ≤ index → index ≤ 4 →
      expected ship1 s1 index =
        if index = layerIndex then expected ship s index ++ [a] else expected ship s index)
    (hnd : (tracked s1).Nodup) (hrange : ∀ b ∈ tracked s1, scoreAddr < b ∧ b < s1.nextAddr)
    (hship : ∀ b ∈ ship1, b ≤ scoreAddr) :
    BookWith ship1 q := by
  obtain ⟨w, hp, hadd1, rfl⟩ := Program.AddObject_some hadd
  rw [hw, hh] at hadd1
  refine ⟨?_, hnd, hrange, hship, ?_⟩
  · intro index h1 h4
    have hexp1 : expected ship1 { s1 with world := w, heap := hp } index =
        expected ship1 s1 index := rfl
    rw [hexp1, hexp index h1 h4]
    refine (h.1 index h1 h4).register hadd1 hwrap ?_
    intro hmem
    rcases expected_subset hmem with hs | ht
    · exact hfresh.1 hs
    · exact hfresh.2 ht
  · show scoreAddr < s1.nextAddr
    rw [hn]
    exact h.2.2.2.2

/-- The bookkeeping after `RemoveObject(x)`, the removal of `x` from its
tracking list (the state `s1`) and `delete x`. -/
theorem BookWith.remove {ship : List Addr} {s s3 s1 q : Program} {layerIndex : Nat} {x : Addr}
    (h : BookWith ship s) (h1 : 1 ≤ layerIndex) (h4 : layerIndex ≤ 4)
    (hx : x ∈ expected ship s layerIndex)
    (hrem : s.RemoveObject x = some s3)
    (hw : s1.world = s3.world) (hh : s1.heap = s3.heap) (hn : s1.nextAddr = s3.nextAddr)
    (hdel : s1.delete x = some q)
    (hexp : ∀ index, 1 ≤ index → index ≤ 4 →
      expected ship s1 index =
        if index = layerIndex then (expected ship s index).filter (fun b => b != x)
        else expected ship s index)
    (hnd : (tracked s1).Nodup) (hsub : ∀ b ∈ tracked s1, b ∈ tracked s)
    (hgone : x ∉ ship ∧ x ∉ tracked s1) :
    BookWith ship q := by
  obtain ⟨w, hrem1, rfl⟩ := Program.RemoveObject_some hrem
  obtain ⟨hfilter, hothers⟩ := (h.1 layerIndex h1 h4).unregister hx hrem1
  rw [Program.delete_some hdel]
  refine ⟨?_, hnd, ?_, h.2.2.2.1, ?_⟩
  · intro index i1 i4
    have hexp1 : expected ship { s1 with heap := Function.update s1.heap x none } index =
        expected ship s1 index := rfl
    have hnot : x ∉ expected ship s1 index := by
      intro hmem
      rcases expected_subset hmem with hs | ht
      · exact hgone.1 hs
      · exact hgone.2 ht
    show LayerHolds s1.world (Function.update s1.heap x none) index _
    rw [hexp1, hw, hh]
    rw [hexp index i1 i4] at hnot ⊢
    by_cases hix : index = layerIndex
    · subst hix
      rw [if_pos rfl] at hnot ⊢
      exact hfilter.delete hnot
    · rw [if_neg hix] at hnot ⊢
      exact (hothers index _ hix (h.1 index i1 i4)).delete hnot
  · intro b hb
    have hb1 : b ∈ tracked s1 := hb
    obtain ⟨hlo, hhi⟩ := h.2.2.1 b (hsub b hb1)
    exact ⟨hlo, by show b < s1.nextAddr; rw [hn]; exact hhi⟩
  · show scoreAddr < s1.nextAddr
    rw [hn]
    exact h.2.2.2.2

end InGame

namespace Program

theorem PlaySample_nextAddr (p : Program) (sample : Option Nat) :
    (p.PlaySample sample).nextAddr = p.nextAddr := by
  cases sample <;> rfl

theorem Neutral.of_sample (p : Program) (sample : Option Nat) :
    p.Neutral (p.PlaySample sample) :=
  Neutral.of_members (PlaySample_members p sample) (PlaySample_world p sample)
    (PlaySample_nextAddr p sample)
    (fun a o ho => ⟨o, (congrFun (PlaySample_heap p sample) a).trans ho, rfl, rfl⟩)

theorem Neutral.of_randomNumber {p q : Program} {lo hi r : Int}
    (h : p.RandomNumber lo hi = some (q, r)) : p.Neutral q :=
  Neutral.of_moved (OnlyMoved.of_random h)

theorem AddObject_counter {p q : Program} {layerIndex : Nat} {a : Addr}
    (h : p.AddObject layerIndex a = some q) :
    q.world.objectCounter ≤ p.world.objectCounter + 1 := by
  obtain ⟨w, hp, hadd, rfl⟩ := AddObject_some h
  by_cases hli : layerIndex < p.world.layers.length
  · obtain ⟨a1, o, _, _, rfl, _⟩ := World.AddObject_some_inv hli hadd
    exact Nat.mod_le _ _
  · rw [World.AddObject_of_ge _ (Nat.le_of_not_lt hli)] at hadd
    simp only [Option.some.injEq, Prod.mk.injEq] at hadd
    rw [← hadd.1]
    exact Nat.le_succ _

end Program

namespace InGame

/-- The tracked objects after one more object, at `a`, is tracked. -/
theorem BookWith.fresh {ship : List Addr} {s s1 : Program} {a : Addr} (h : BookWith ship s)
    (hperm : (tracked s1).Perm (a :: tracked s)) (ha : a ∉ tracked s)
    (hlo : scoreAddr < a) (hhi : a < s1.nextAddr) (hn : s.nextAddr ≤ s1.nextAddr) :
    (tracked s1).Nodup ∧ ∀ b ∈ tracked s1, scoreAddr < b ∧ b < s1.nextAddr := by
  constructor
  · rw [hperm.nodup_iff]
    exact List.nodup_cons.mpr ⟨ha, h.2.1⟩
  · intro b hb
    rcases List.mem_cons.mp (hperm.mem_iff.mp hb) with rfl | hb1
    · exact ⟨hlo, hhi⟩
    · exact ⟨(h.2.2.1 b hb1).1, Nat.lt_of_lt_of_le (h.2.2.1 b hb1).2 hn⟩

theorem BookWith.frontier_fresh {ship : List Addr} {s : Program} (h : BookWith ship s) :
    s.nextAddr ∉ ship ∧ s.nextAddr ∉ tracked s := by
  constructor
  · intro hs
    exact absurd (h.2.2.2.1 _ hs) (Nat.not_le.mpr h.2.2.2.2)
  · intro ht
    exact absurd (h.2.2.1 _ ht).2 (Nat.lt_irrefl _)

theorem expected_projectile (ship : List Addr) (s : Program) (x : ColoredObject) (index : Nat) :
    expected ship { s with projectiles := s.projectiles ++ [x] } index =
      if index = Game.ProjectileLayer then expected ship s index ++ [x.addr]
      else expected ship s index := by
  unfold expected lowClouds highClouds
  by_cases h1 : index = Game.LowCloudsLayer
  · subst h1
    rfl
  · by_cases h2 : index = Game.ProjectileLayer
    · subst h2
      simp [Game.ProjectileLayer, Game.LowCloudsLayer]
    · simp only [if_neg h1, if_neg h2]

theorem expected_enemy (ship : List Addr) (s : Program) (counter interval : Int)
    (x : EnemyObject) (index : Nat) :
    expected ship { s with enemySpawnCounter := counter, currentEnemySpawnInterval := interval,
                           enemies := s.enemies ++ [x] } index =
      if index = Game.ShipLayer then expected ship s index ++ [x.addr]
      else expected ship s index := by
  unfold expected lowClouds highClouds
  by_cases h1 : index = Game.LowCloudsLayer
  · subst h1
    rfl
  · by_cases h2 : index = Game.ProjectileLayer
    · subst h2
      rfl
    · by_cases h3 : index = Game.ShipLayer
      · subst h3
        simp [Game.ProjectileLayer, Game.LowCloudsLayer, Game.ShipLayer]
      · simp only [if_neg h1, if_neg h2, if_neg h3]

theorem expected_cloud (ship : List Addr) (s : Program) (x : CloudObject) (index : Nat)
    (h1 : 1 ≤ index) (h4 : index ≤ 4) :
    expected ship { s with clouds := s.clouds ++ [x] } index =
      if index = (if x.distance > 1 then Game.LowCloudsLayer else Game.HighCloudsLayer) then
        expected ship s index ++ [x.addr]
      else expected ship s index := by
  unfold expected lowClouds highClouds
  have hcases : index = 1 ∨ index = 2 ∨ index = 3 ∨ index = 4 := by omega
  by_cases hd : x.distance > 1
  · rcases hcases with rfl | rfl | rfl | rfl <;>
      simp [Game.ProjectileLayer, Game.LowCloudsLayer, Game.ShipLayer, Game.HighCloudsLayer, hd,
        List.filter_append]
  · rcases hcases with rfl | rfl | rfl | rfl <;>
      simp [Game.ProjectileLayer, Game.LowCloudsLayer, Game.ShipLayer, Game.HighCloudsLayer, hd,
        List.filter_append]

/-- `Shoot` keeps the bookkeeping, and registers at most one object. -/
theorem Shoot_book {ship : List Addr} {p q : Program} {source : Addr} {color : Nat}
    {direction : Int} (h : BookWith ship p) (hwrap : p.world.objectCounter + 1 < uintModulus)
    (hs : Shoot p source color direction = some q) :
    BookWith ship q ∧ q.world.objectCounter ≤ p.world.objectCounter + 1 := by
  unfold Shoot at hs
  by_cases hover : p.isGameOver = true
  · rw [if_pos hover] at hs
    obtain rfl := Option.some.inj hs
    exact ⟨h, Nat.le_succ _⟩
  · rw [if_neg hover] at hs
    simp only [Option.bind_eq_bind, Option.bind_eq_some, Option.some.injEq] at hs
    obtain ⟨src, _, image, _, p2, h2, p4, h4, rfl⟩ := hs
    have hn2 : p.Neutral p2 :=
      (Program.Neutral.of_new p src.type).andThen
        (Program.Neutral.of_modifyObject h2 (fun o _ => ⟨rfl, rfl⟩))
    have hb2 : BookWith ship p2 := h.neutral hn2
    obtain ⟨_, _, _, hw2, hnext2, _⟩ := modifyObject_frame h2
    have hnext : p2.nextAddr = p.nextAddr + 1 := hnext2
    have hworld : p2.world = p.world := hw2
    have hfresh : p.nextAddr ∉ ship ∧ p.nextAddr ∉ tracked p2 := by
      have hf := h.frontier_fresh
      rw [tracked_congr hn2.2.2.2.1 hn2.2.2.2.2.1 hn2.2.2.2.2.2]
      exact hf
    have htr : tracked { p2 with projectiles :=
        p2.projectiles ++ [ColoredObject.mk p.nextAddr color] } = tracked p2 ++ [p.nextAddr] := by
      simp [tracked, List.append_assoc]
    obtain ⟨hnd, hrange⟩ := @BookWith.fresh ship p2
      { p2 with projectiles := p2.projectiles ++ [ColoredObject.mk p.nextAddr color] }
      p.nextAddr hb2 (by rw [htr]; exact List.perm_append_singleton _ _) hfresh.2
      h.2.2.2.2 (by show p.nextAddr < p2.nextAddr; rw [hnext]; exact Nat.lt_succ_self _)
      (Nat.le_refl _)
    have hb4 : BookWith ship p4 := by
      refine @BookWith.add ship ship p2
        { p2 with projectiles := p2.projectiles ++ [ColoredObject.mk p.nextAddr color] } p4
        Game.ProjectileLayer p.nextAddr hb2
        (by rw [hworld]; exact hwrap) rfl rfl rfl h4 hfresh ?_ hnd hrange h.2.2.2.1
      intro index _ _
      exact expected_projectile ship p2 _ index
    refine ⟨hb4.neutral (Program.Neutral.of_sample _ _), ?_⟩
    rw [Program.PlaySample_world]
    have hc := Program.AddObject_counter h4
    rw [show ({ p2 with projectiles :=
      p2.projectiles ++ [ColoredObject.mk p.nextAddr color] } : Program).world = p.world
      from hworld] at hc
    exact hc

end InGame

namespace InGame

theorem tracked_enemy_perm (s : Program) (counter interval : Int) (x : EnemyObject) :
    (tracked { s with enemySpawnCounter := counter, currentEnemySpawnInterval := interval,
                      enemies := s.enemies ++ [x] }).Perm (x.addr :: tracked s) := by
  have h : tracked { s with enemySpawnCounter := counter, currentEnemySpawnInterval := interval,
                            enemies := s.enemies ++ [x] } =
      (s.clouds.map CloudObject.addr ++ s.enemies.map EnemyObject.addr) ++
        x.addr :: s.projectiles.map ColoredObject.addr := by
    simp [tracked, List.append_assoc]
  rw [h]
  exact List.perm_middle

theorem tracked_cloud_perm (s : Program) (x : CloudObject) :
    (tracked { s with clouds := s.clouds ++ [x] }).Perm (x.addr :: tracked s) := by
  have h : tracked { s with clouds := s.clouds ++ [x] } =
      s.clouds.map CloudObject.addr ++
        x.addr :: (s.enemies.map EnemyObject.addr ++ s.projectiles.map ColoredObject.addr) := by
    simp [tracked, List.append_assoc]
  have h2 : tracked s = s.clouds.map CloudObject.addr ++
      (s.enemies.map EnemyObject.addr ++ s.projectiles.map ColoredObject.addr) := by
    simp [tracked, List.append_assoc]
  rw [h, h2]
  exact List.perm_middle

/-- `SpawnEnemy` keeps the bookkeeping, and registers at most one object. -/
theorem SpawnEnemy_book {ship : List Addr} {p q : Program} (h : BookWith ship p)
    (hwrap : p.world.objectCounter + 1 < uintModulus) (hs : SpawnEnemy p = some q) :
    BookWith ship q ∧ q.world.objectCounter ≤ p.world.objectCounter + 1 := by
  simp only [SpawnEnemy, Option.bind_eq_bind, Option.bind_eq_some] at hs
  obtain ⟨a, h1, a1, h2, a2, h3, a3, h4, a4, h5, image, _, a6, h6, h7⟩ := hs
  have hn6 : p.Neutral a6 :=
    ((((((Program.Neutral.of_new p ObjectType.Enemy).andThen (Program.Neutral.of_randomNumber h1)).andThen
      (Program.Neutral.of_randomNumber h2)).andThen (Program.Neutral.of_randomNumber h3)).andThen
      (Program.Neutral.of_randomNumber h4)).andThen (Program.Neutral.of_randomNumber h5)).andThen
      (Program.Neutral.of_modifyObject h6 (fun o _ => ⟨rfl, rfl⟩))
  have hnew6 : (p.new ObjectType.Enemy).1.Neutral a6 :=
    (((((Program.Neutral.of_randomNumber h1).andThen
      (Program.Neutral.of_randomNumber h2)).andThen (Program.Neutral.of_randomNumber h3)).andThen
      (Program.Neutral.of_randomNumber h4)).andThen (Program.Neutral.of_randomNumber h5)).andThen
      (Program.Neutral.of_modifyObject h6 (fun o _ => ⟨rfl, rfl⟩))
  have hb6 : BookWith ship a6 := h.neutral hn6
  have hworld : a6.world = p.world := hn6.1
  have hnext : p.nextAddr < a6.nextAddr := hnew6.2.1
  have hfresh : p.nextAddr ∉ ship ∧ p.nextAddr ∉ tracked a6 := by
    have hf := h.frontier_fresh
    rw [tracked_congr hn6.2.2.2.1 hn6.2.2.2.2.1 hn6.2.2.2.2.2]
    exact hf
  have hperm := tracked_enemy_perm a6
    (spawnCounters a6.enemySpawnCounter a6.currentEnemySpawnInterval).1
    (spawnCounters a6.enemySpawnCounter a6.currentEnemySpawnInterval).2
    (EnemyObject.mk p.nextAddr (toUInt a.2) a3.2 (a6.currentTick + a3.2)
      (truncate ((VerticalPadding : ℚ) * ((a4.2 : ℚ) / 10))))
  obtain ⟨hnd, hrange⟩ := hb6.fresh hperm hfresh.2 h.2.2.2.2 hnext (Nat.le_refl _)
  have hb7 : BookWith ship q := by
    refine @BookWith.add ship ship a6
      { a6 with
        enemySpawnCounter := (spawnCounters a6.enemySpawnCounter a6.currentEnemySpawnInterval).1,
        currentEnemySpawnInterval :=
          (spawnCounters a6.enemySpawnCounter a6.currentEnemySpawnInterval).2,
        enemies := a6.enemies ++
          [EnemyObject.mk p.nextAddr (toUInt a.2) a3.2 (a6.currentTick + a3.2)
            (truncate ((VerticalPadding : ℚ) * ((a4.2 : ℚ) / 10)))] }
      q Game.ShipLayer p.nextAddr hb6
      (by rw [hworld]; exact hwrap) rfl rfl rfl h7 hfresh ?_ hnd hrange h.2.2.2.1
    intro index _ _
    exact expected_enemy ship a6 _ _ _ index
  refine ⟨hb7, ?_⟩
  have hc := Program.AddObject_counter h7
  rw [show ({ a6 with
      enemySpawnCounter := (spawnCounters a6.enemySpawnCounter a6.currentEnemySpawnInterval).1,
      currentEnemySpawnInterval :=
        (spawnCounters a6.enemySpawnCounter a6.currentEnemySpawnInterval).2,
      enemies := a6.enemies ++
        [EnemyObject.mk (p.new ObjectType.Enemy).2 (toUInt a.2) a3.2 (a6.currentTick + a3.2)
          (truncate ((VerticalPadding : ℚ) * ((a4.2 : ℚ) / 10)))] } : Program).world = p.world
    from hworld] at hc
  exact hc

/-- One round of the cloud loop of `InitializeObjects` keeps the bookkeeping,
and registers at most one object. -/
theorem spawnCloud_book {ship : List Addr} {p q : Program} (h : BookWith ship p)
    (hwrap : p.world.objectCounter + 1 < uintModulus) (hs : spawnCloud p = some q) :
    BookWith ship q ∧ q.world.objectCounter ≤ p.world.objectCounter + 1 := by
  simp only [spawnCloud, Option.bind_eq_bind, Option.bind_eq_some] at hs
  obtain ⟨a1, h1, a2, h2, image, _, a3, h3, a4, h4, a5, h5, h6⟩ := hs
  have hnew5 : (p.new ObjectType.World).1.Neutral a5 :=
    ((((Program.Neutral.of_randomNumber h1).andThen (Program.Neutral.of_randomNumber h2)).andThen
      (Program.Neutral.of_randomNumber h3)).andThen (Program.Neutral.of_randomNumber h4)).andThen
      (Program.Neutral.of_modifyObject h5 (fun o _ => ⟨rfl, rfl⟩))
  have hn5 : p.Neutral a5 := (Program.Neutral.of_new p ObjectType.World).andThen hnew5
  have hb5 : BookWith ship a5 := h.neutral hn5
  have hworld : a5.world = p.world := hn5.1
  have hnext : p.nextAddr < a5.nextAddr := hnew5.2.1
  have hfresh : p.nextAddr ∉ ship ∧ p.nextAddr ∉ tracked a5 := by
    have hf := h.frontier_fresh
    rw [tracked_congr hn5.2.2.2.1 hn5.2.2.2.2.1 hn5.2.2.2.2.2]
    exact hf
  have hperm := tracked_cloud_perm a5 (CloudObject.mk p.nextAddr ((a1.2 : ℚ) / 10))
  obtain ⟨hnd, hrange⟩ := hb5.fresh hperm hfresh.2 h.2.2.2.2 hnext (Nat.le_refl _)
  have hb6 : BookWith ship q := by
    refine @BookWith.add ship ship a5
      { a5 with clouds := a5.clouds ++ [CloudObject.mk p.nextAddr ((a1.2 : ℚ) / 10)] } q
      (if (a1.2 : ℚ) / 10 > 1 then Game.LowCloudsLayer else Game.HighCloudsLayer) p.nextAddr
      hb5 (by rw [hworld]; exact hwrap) rfl rfl rfl h6 hfresh ?_ hnd hrange h.2.2.2.1
    intro index i1 i4
    exact expected_cloud ship a5 (CloudObject.mk p.nextAddr ((a1.2 : ℚ) / 10)) index i1 i4
  refine ⟨hb6, ?_⟩
  have hc := Program.AddObject_counter h6
  rw [show ({ a5 with clouds := a5.clouds ++
      [CloudObject.mk (p.new ObjectType.World).2 ((a1.2 : ℚ) / 10)] } : Program).world = p.world
    from hworld] at hc
  exact hc

theorem spawnClouds_book {ship : List Addr} :
    ∀ (n : Nat) (p q : Program), BookWith ship p →
      p.world.objectCounter + n < uintModulus → spawnClouds n p = some q →
      BookWith ship q ∧ q.world.objectCounter ≤ p.world.objectCounter + n := by
  intro n
  induction n with
  | zero =>
    intro p q h _ hs
    simp only [spawnClouds, Option.some.injEq] at hs
    subst hs
    exact ⟨h, Nat.le_refl _⟩
  | succ n ih =>
    intro p q h hwrap hs
    simp only [spawnClouds] at hs
    cases h1 : spawnCloud p with
    | none => simp [h1] at hs
    | some p1 =>
      simp only [h1] at hs
      obtain ⟨hb1, hc1⟩ := spawnCloud_book h (by omega) h1
      obtain ⟨hb2, hc2⟩ := ih p1 q hb1 (by omega) hs
      exact ⟨hb2, by omega⟩

end InGame

namespace Program

/-- A stage that leaves the World, the object memory, the frontier and the
tracking lists as they are. -/
theorem Neutral.of_frame {p q : Program} (hw : q.world = p.world) (hh : q.heap = p.heap)
    (hn : q.nextAddr = p.nextAddr) (hc : q.clouds = p.clouds) (he : q.enemies = p.enemies)
    (hx : q.projectiles = p.projectiles) : p.Neutral q :=
  ⟨hw, Nat.le_of_eq hn.symm, fun a o _ ho => ⟨o, (congrFun hh a).trans ho, rfl, rfl⟩, hc,
    congrArg _ he, congrArg _ hx⟩

theorem Neutral.of_loadImage (p : Program) (filePath : String) :
    p.Neutral (p.LoadImage filePath).1 := by
  unfold LoadImage
  cases p.env.loadImage p.imageCount filePath <;> exact Neutral.of_frame rfl rfl rfl rfl rfl rfl

theorem Neutral.of_textImage (p : Program) (text : String) :
    p.Neutral (p.TextImage text).1 := by
  unfold TextImage
  cases p.env.textImage p.imageCount text <;> exact Neutral.of_frame rfl rfl rfl rfl rfl rfl

theorem Neutral.of_unloadImage {p q : Program} {image : Option ImageRef}
    (h : p.UnloadImage image = some q) : p.Neutral q := by
  unfold UnloadImage at h
  cases image with
  | none =>
    obtain rfl := Option.some.inj h
    exact Neutral.same p
  | some ref =>
    simp only at h
    cases hi : p.images ref with
    | none => simp [hi] at h
    | some i =>
      simp only [hi, Option.some.injEq] at h
      subst h
      exact Neutral.of_frame rfl rfl rfl rfl rfl rfl

theorem Neutral.of_music (p : Program) (music : Option Nat) : p.Neutral (p.PlayMusic music) := by
  cases music <;> exact Neutral.of_frame rfl rfl rfl rfl rfl rfl

theorem Neutral.of_worldUpdate {p q : Program} {m : ℚ} (h : p.Update m = some q) : p.Neutral q :=
  Neutral.of_moved (OnlyMoved.of_update h)

end Program

namespace InGame

theorem UpdateScore_neutral {p q : Program} (h : UpdateScore p = some q) : p.Neutral q := by
  simp only [UpdateScore, Option.bind_eq_bind, Option.bind_eq_some] at h
  obtain ⟨score, _, p1, h1, p3, h3, ref, _, image, _, h5⟩ := h
  exact (((Program.Neutral.of_unloadImage h1).andThen (Program.Neutral.of_textImage p1 _)).andThen
    (Program.Neutral.of_modifyObject h3 (fun o _ => ⟨rfl, rfl⟩))).andThen
    (Program.Neutral.of_modifyObject h5 (fun o _ => ⟨rfl, rfl⟩))

theorem loadAll_neutral :
    ∀ (paths : List String) (p : Program), p.Neutral (loadAll p paths).1 := by
  intro paths
  induction paths with
  | nil => intro p; exact Program.Neutral.same p
  | cons path rest ih =>
    intro p
    exact (Program.Neutral.of_loadImage p path).andThen (ih _)

theorem LoadImages_neutral {p q : Program} (h : LoadImages p = some q) : p.Neutral q := by
  unfold LoadImages at h
  cases h1 : p.modifyObject scoreAddr (fun o => { o with image := none }) with
  | none => simp [h1] at h
  | some p1 =>
    simp only [h1] at h
    cases h2 : (p1.LoadImage "assets/images/lifebar.png").1.modifyObject lifebarAddr
        (fun o => { o with image := (p1.LoadImage "assets/images/lifebar.png").2 }) with
    | none => simp [h2] at h
    | some p2 =>
      simp only [h2, Option.some.injEq] at h
      subst h
      refine ((((Program.Neutral.of_modifyObject h1 (fun o _ => ⟨rfl, rfl⟩)).andThen
        (Program.Neutral.of_loadImage p1 _)).andThen
        (Program.Neutral.of_modifyObject h2 (fun o _ => ⟨rfl, rfl⟩))).andThen
        (loadAll_neutral imagePaths p2)).andThen ?_
      exact Program.Neutral.of_frame rfl rfl rfl rfl rfl rfl

theorem LoadSounds_neutral (p : Program) : p.Neutral (LoadSounds p) := by
  unfold LoadSounds
  refine Program.Neutral.andThen ?_ (Program.Neutral.of_music _ _)
  exact Program.Neutral.of_frame rfl rfl rfl rfl rfl rfl

theorem deleteAll_frame :
    ∀ (objects : List Addr) (p q : Program), deleteAll p objects = some q →
      q.world = p.world ∧ q.nextAddr = p.nextAddr := by
  intro objects
  induction objects with
  | nil =>
    intro p q h
    simp only [deleteAll, Option.some.injEq] at h
    rw [← h]
    exact ⟨rfl, rfl⟩
  | cons a rest ih =>
    intro p q h
    simp only [deleteAll] at h
    cases h1 : p.delete a with
    | none => simp [h1] at h
    | some p1 =>
      simp only [h1] at h
      obtain ⟨hw, hn⟩ := ih p1 q h
      rw [Program.delete_some h1] at hw hn
      exact ⟨hw, hn⟩

theorem DeleteObjects_frame {p q : Program} (h : DeleteObjects p = some q) :
    q.world = p.world ∧ q.nextAddr = p.nextAddr ∧
    q.clouds = [] ∧ q.enemies = [] ∧ q.projectiles = [] := by
  have hm := DeleteObjects_members h
  simp only [DeleteObjects, Option.bind_eq_bind, Option.bind_eq_some, Option.some.injEq] at h
  obtain ⟨p1, h1, p2, h2, p3, h3, rfl⟩ := h
  obtain ⟨w1, n1⟩ := deleteAll_frame _ _ _ h1
  obtain ⟨w2, n2⟩ := deleteAll_frame _ _ _ h2
  obtain ⟨w3, n3⟩ := deleteAll_frame _ _ _ h3
  exact ⟨w3.trans (w2.trans w1), n3.trans (n2.trans n1), congrArg Members.clouds hm,
    congrArg Members.enemies hm, rfl⟩

/-- A state with a cleared World and empty tracking lists is booked, with no
member object in the ship layer. -/
theorem BookWith.of_cleared {p : Program} (w : World) (hlen : 4 < w.layers.length)
    (hw : p.world = w.Clear) (hscore : scoreAddr < p.nextAddr) (hc : p.clouds = [])
    (he : p.enemies = []) (hx : p.projectiles = []) : BookWith [] p := by
  have htr : tracked p = [] := by
    unfold tracked
    rw [hc, he, hx]
    rfl
  refine ⟨?_, ?_, ?_, ?_, hscore⟩
  · intro index _ i4
    have hexp : expected [] p index = [] := by
      unfold expected lowClouds highClouds
      rw [hc, he, hx]
      split_ifs <;> rfl
    rw [hexp, hw]
    exact LayerHolds.cleared w p.heap (Nat.lt_of_le_of_lt i4 hlen)
  · rw [htr]
    exact List.nodup_nil
  · intro a ha
    rw [htr] at ha
    cases ha
  · intro a ha
    cases ha

theorem BookWith.layers {ship : List Addr} {p : Program} (h : BookWith ship p) :
    4 < p.world.layers.length :=
  (h.1 4 (by decide) (Nat.le_refl _)).lt_length

/-- `AddObject` of a member object in a layer outside the layers 1 to 4. -/
theorem BookWith.add_member {ship : List Addr} {s q : Program} {layerIndex : Nat} {a : Addr}
    (h : BookWith ship s) (hwrap : s.world.objectCounter + 1 < uintModulus)
    (hadd : s.AddObject layerIndex a = some q) (hli : 4 < layerIndex) (ha : a ≤ scoreAddr)
    (hs : a ∉ ship) : BookWith ship q := by
  refine BookWith.add h hwrap rfl rfl rfl hadd ⟨hs, ?_⟩ ?_ h.2.1 h.2.2.1 h.2.2.2.1
  · intro ht
    exact absurd (h.2.2.1 a ht).1 (Nat.not_lt.mpr ha)
  · intro index _ i4
    rw [if_neg (Nat.ne_of_lt (Nat.lt_of_le_of_lt i4 hli))]

theorem initializePlayer_book {p q : Program} (h : BookWith [] p) (he : p.enemies = [])
    (hwrap : p.world.objectCounter + 1 < uintModulus) (hs : initializePlayer p = some q) :
    Book q ∧ q.world.objectCounter ≤ p.world.objectCounter + 1 := by
  unfold initializePlayer at hs
  cases hi : Program.index p.playerImages ColoredObject.Red with
  | none => simp [hi] at hs
  | some image =>
    simp only [hi] at hs
    cases h1 : Program.modifyObject
        { p with player := { color := ColoredObject.Red, health := 100, score := 0 } }
        playerAddr (fun o =>
          { o with image := image, speed := { x := 0, y := 0 },
                   size := { x := (ShipWidth : ℚ), y := (ShipHeight : ℚ) },
                   position :=
                     { x := ((toUInt (p.currentGame.targetWidth - ShipWidth) / 2 : Nat) : ℚ),
                       y := ((toUInt (p.currentGame.targetHeight -
                              (ShipHeight + VerticalPadding)) : Nat) : ℚ) } }) with
    | none => simp [h1] at hs
    | some p1 =>
      simp only [h1] at hs
      have hn1 : p.Neutral p1 :=
        Program.Neutral.andThen
          (q := { p with player := { color := ColoredObject.Red, health := 100, score := 0 } })
          (Program.Neutral.of_frame rfl rfl rfl rfl rfl rfl)
          (Program.Neutral.of_modifyObject h1 (fun o _ => ⟨rfl, rfl⟩))
      have hb1 : BookWith [] p1 := h.neutral hn1
      have he1 : p1.enemies.map EnemyObject.addr = [] := by
        rw [hn1.2.2.2.2.1, he]
        rfl
      constructor
      · refine @BookWith.add [] [playerAddr] p1 p1 q Game.ShipLayer playerAddr hb1
          (by rw [hn1.1]; exact hwrap) rfl rfl rfl
          hs ⟨fun hmem => (by cases hmem), ?_⟩ ?_ hb1.2.1 hb1.2.2.1 ?_
        · intro ht
          exact absurd (hb1.2.2.1 _ ht).1 (by decide)
        · intro index _ _
          unfold expected
          rw [he1]
          by_cases h3 : index = Game.ShipLayer
          · subst h3
            rfl
          · by_cases h1 : index = Game.LowCloudsLayer
            · subst h1
              rfl
            · by_cases h2 : index = Game.ProjectileLayer
              · subst h2
                rfl
              · simp only [if_neg h1, if_neg h2, if_neg h3]
        · intro b hb
          rw [List.mem_singleton.mp hb]
          decide
      · have hc := Program.AddObject_counter hs
        rw [hn1.1] at hc
        exact hc

theorem initializeLifebar_book {ship : List Addr} {p q : Program} (h : BookWith ship p)
    (hship : lifebarAddr ∉ ship)
    (hwrap : p.world.objectCounter + 1 < uintModulus) (hs : initializeLifebar p = some q) :
    BookWith ship q ∧ q.world.objectCounter ≤ p.world.objectCounter + 1 := by
  unfold initializeLifebar at hs
  cases hl : p.deref lifebarAddr with
  | none => simp [hl] at hs
  | some lifebar =>
    simp only [hl] at hs
    cases him : lifebar.image with
    | none =>
      simp only [him, Option.some.injEq] at hs
      subst hs
      exact ⟨h, Nat.le_succ _⟩
    | some ref =>
      simp only [him] at hs
      cases hi : p.images ref with
      | none => simp [hi] at hs
      | some image =>
        simp only [hi] at hs
        cases h1 : p.modifyObject lifebarAddr (fun o =>
          { o with position :=
                     { x := 0,
                       y := ((toUInt (p.currentGame.targetHeight - image.height) : Nat) : ℚ) },
                   size := { x := (p.currentGame.targetWidth : ℚ), y := (LifebarHeight : ℚ) },
                   speed := { x := 0, y := 0 } }) with
        | none => simp [h1] at hs
        | some p1 =>
          simp only [h1] at hs
          have hn1 : p.Neutral p1 := Program.Neutral.of_modifyObject h1 (fun o _ => ⟨rfl, rfl⟩)
          refine ⟨(h.neutral hn1).add_member (by rw [hn1.1]; exact hwrap) hs (by decide)
            (by decide) hship, ?_⟩
          have hc := Program.AddObject_counter hs
          rw [hn1.1] at hc
          exact hc

theorem initializeScore_book {ship : List Addr} {p q : Program} (h : BookWith ship p)
    (hship : scoreAddr ∉ ship)
    (hwrap : p.world.objectCounter + 1 < uintModulus) (hs : initializeScore p = some q) :
    BookWith ship q ∧ q.world.objectCounter ≤ p.world.objectCounter + 1 := by
  unfold initializeScore at hs
  cases h1 : p.modifyObject scoreAddr (fun o => { o with speed := { x := 0, y := 0 } }) with
  | none => simp [h1] at hs
  | some p1 =>
    simp only [h1] at hs
    have hn1 : p.Neutral p1 := Program.Neutral.of_modifyObject h1 (fun o _ => ⟨rfl, rfl⟩)
    refine ⟨(h.neutral hn1).add_member (by rw [hn1.1]; exact hwrap) hs (by decide)
      (Nat.le_refl _) hship, ?_⟩
    have hc := Program.AddObject_counter hs
    rw [hn1.1] at hc
    exact hc

theorem BookWith.background {ship : List Addr} {p : Program} (h : BookWith ship p)
    (index : Nat) (image : Option ImageRef) :
    BookWith ship (p.SetLayerBackground index image) :=
  ⟨fun layerIndex h1 h4 => (h.1 layerIndex h1 h4).repaint index image, h.2.1, h.2.2.1,
    h.2.2.2.1, h.2.2.2.2⟩

theorem SetLayerBackground_counter (p : Program) (index : Nat) (image : Option ImageRef) :
    (p.SetLayerBackground index image).world.objectCounter = p.world.objectCounter := by
  unfold Program.SetLayerBackground World.SetLayerBackground
  split_ifs <;> rfl

/-- `InitializeObjects` on a booked state without tracked enemies and without
a member object in the ship layer: the bookkeeping holds with the player in
the ship layer, and at most 35 objects are registered. -/
theorem InitializeObjects_book {p q : Program} (h : BookWith [] p) (he : p.enemies = [])
    (hwrap : p.world.objectCounter + 35 < uintModulus) (hs : InitializeObjects p = some q) :
    Book q ∧ q.world.objectCounter ≤ p.world.objectCounter + 35 := by
  unfold InitializeObjects at hs
  have hb0 := (h.background Game.BackgroundLayer p.backgroundImage).background
    Game.OverlayLayer p.overlayImage
  have hc0 : ((p.SetLayerBackground Game.BackgroundLayer p.backgroundImage).SetLayerBackground
      Game.OverlayLayer p.overlayImage).world.objectCounter = p.world.objectCounter := by
    rw [SetLayerBackground_counter, SetLayerBackground_counter]
  cases h1 : initializePlayer
      ((p.SetLayerBackground Game.BackgroundLayer p.backgroundImage).SetLayerBackground
        Game.OverlayLayer p.overlayImage) with
  | none => simp [h1] at hs
  | some p1 =>
    simp only [h1] at hs
    cases h2 : initializeLifebar p1 with
    | none => simp [h2] at hs
    | some p2 =>
      simp only [h2] at hs
      cases h3 : initializeScore p2 with
      | none => simp [h3] at hs
      | some p3 =>
        simp only [h3] at hs
        cases h4 : spawnClouds NumberOfClouds p3 with
        | none => simp [h4] at hs
        | some p4 =>
          simp only [h4, Option.some.injEq] at hs
          subst hs
          obtain ⟨hb1, hc1⟩ := initializePlayer_book hb0 he (by rw [hc0]; omega) h1
          rw [hc0] at hc1
          obtain ⟨hb2, hc2⟩ := initializeLifebar_book hb1 (by decide) (by omega) h2
          obtain ⟨hb3, hc3⟩ := initializeScore_book hb2 (by decide) (by omega) h3
          obtain ⟨hb4, hc4⟩ := spawnClouds_book NumberOfClouds p3 p4 hb3
            (by unfold NumberOfClouds; omega) h4
          refine ⟨BookWith.neutral hb4 (Program.Neutral.of_frame rfl rfl rfl rfl rfl rfl), ?_⟩
          show p4.world.objectCounter ≤ p.world.objectCounter + 35
          unfold NumberOfClouds at hc4
          omega

end InGame

namespace InGame

theorem map_addr_nil {enemies : List EnemyObject}
    (h : enemies.map EnemyObject.addr = []) : enemies = [] := by
  cases enemies with
  | nil => rfl
  | cons e rest => cases h

/-- `Activate` on a state whose tracking lists are empty, with the layers 1 to
4 present and the member objects below the allocation frontier, leaves a
booked state. -/
theorem Activate_book {p q : Program} {game : GameInformation}
    (hlen : 4 < p.world.layers.length) (hscore : scoreAddr < p.nextAddr)
    (hc : p.clouds = []) (he : p.enemies = []) (hx : p.projectiles = [])
    (h : Activate p game = some q) : Book q := by
  simp only [Activate, Option.bind_eq_bind, Option.bind_eq_some] at h
  obtain ⟨p1, h1, p3, h3, h4⟩ := h
  have hb0 : BookWith [] { p.Clear with currentGame := game } :=
    BookWith.of_cleared p.world hlen rfl hscore hc he hx
  have hn2 : Program.Neutral { p.Clear with currentGame := game } (LoadSounds p1) :=
    (LoadImages_neutral h1).andThen (LoadSounds_neutral p1)
  have hb2 := hb0.neutral hn2
  have he2 : (LoadSounds p1).enemies = [] := by
    apply map_addr_nil
    rw [hn2.2.2.2.2.1]
    show p.enemies.map EnemyObject.addr = []
    rw [he]
    rfl
  have hc2 : (LoadSounds p1).world.objectCounter = 0 := by
    rw [hn2.1]
    rfl
  obtain ⟨hb3, _⟩ := InitializeObjects_book hb2 he2 (by rw [hc2]; decide) h3
  exact BookWith.neutral hb3 (UpdateScore_neutral h4)

/-- The restart sequence of `OnPress` (`Clear`, `DeleteObjects`,
`InitializeObjects`, `UpdateScore`) leaves a booked state. -/
theorem restart_book {ship : List Addr} {p p1 p2 q : Program} (h : BookWith ship p)
    (h1 : DeleteObjects p.Clear = some p1) (h2 : InitializeObjects p1 = some p2)
    (h3 : UpdateScore p2 = some q) : Book q := by
  obtain ⟨hw, hn, hc, he, hx⟩ := DeleteObjects_frame h1
  have hb1 : BookWith [] p1 :=
    BookWith.of_cleared p.world h.layers hw (by rw [hn]; exact h.2.2.2.2) hc he hx
  have hc1 : p1.world.objectCounter = 0 := by
    rw [hw]
    rfl
  obtain ⟨hb2, _⟩ := InitializeObjects_book hb1 he (by rw [hc1]; decide) h2
  exact BookWith.neutral hb2 (UpdateScore_neutral h3)

theorem filter_ne_middle {l1 l2 : List Addr} {a : Addr} (h : a ∉ l1 ++ l2) :
    (l1 ++ a :: l2).filter (fun b => b != a) = l1 ++ l2 := by
  have h1 : ∀ b ∈ l1, (b != a) = true := by
    intro b hb
    exact bne_iff_ne.mpr (fun heq => h (heq ▸ List.mem_append_left _ hb))
  have h2 : ∀ b ∈ l2, (b != a) = true := by
    intro b hb
    exact bne_iff_ne.mpr (fun heq => h (heq ▸ List.mem_append_right _ hb))
  rw [List.filter_append, List.filter_cons_of_neg (by simp), List.filter_eq_self.mpr h1,
    List.filter_eq_self.mpr h2]

/-- The tracked objects after the object at `a` is dropped from the middle of
a tracking list. -/
theorem BookWith.dropped {ship : List Addr} {s s1 : Program} {l1 l2 : List Addr} {a : Addr}
    (h : BookWith ship s) (htr : tracked s = l1 ++ a :: l2) (htr1 : tracked s1 = l1 ++ l2) :
    (tracked s1).Nodup ∧ (∀ b ∈ tracked s1, b ∈ tracked s) ∧ a ∉ ship ∧ a ∉ tracked s1 := by
  have hnd := h.2.1
  rw [htr] at hnd
  obtain ⟨hnot, hnd1⟩ := List.nodup_cons.mp (List.nodup_middle.mp hnd)
  refine ⟨by rw [htr1]; exact hnd1, ?_, ?_, by rw [htr1]; exact hnot⟩
  · intro b hb
    rw [htr1] at hb
    rw [htr]
    rcases List.mem_append.mp hb with hb1 | hb2
    · exact List.mem_append_left _ hb1
    · exact List.mem_append_right _ (List.mem_cons_of_mem _ hb2)
  · intro hs
    have hmem : a ∈ tracked s := by
      rw [htr]
      exact List.mem_append_right _ (List.mem_cons_self _ _)
    exact absurd (h.2.2.2.1 a hs) (Nat.not_le.mpr (h.2.2.1 a hmem).1)

/-- The removal of a tracked projectile: `RemoveObject`, the erasure from the
tracking list and `delete` keep the bookkeeping. -/
theorem BookWith.remove_projectile {ship : List Addr} {s s3 q : Program}
    {kept rest : List ColoredObject} {x : ColoredObject} (h : BookWith ship s)
    (hlist : s.projectiles = kept ++ x :: rest) (hrem : s.RemoveObject x.addr = some s3)
    (hdel : Program.delete { s3 with projectiles := kept ++ rest } x.addr = some q) :
    BookWith ship q ∧ x.addr ∉ tracked q := by
  obtain ⟨w, _, rfl⟩ := Program.RemoveObject_some hrem
  have htr : tracked s =
      (s.clouds.map CloudObject.addr ++ s.enemies.map EnemyObject.addr ++
        kept.map ColoredObject.addr) ++ x.addr :: rest.map ColoredObject.addr := by
    unfold tracked
    rw [hlist]
    simp [List.append_assoc]
  have htr1 : tracked { { s with world := w } with projectiles := kept ++ rest } =
      (s.clouds.map CloudObject.addr ++ s.enemies.map EnemyObject.addr ++
        kept.map ColoredObject.addr) ++ rest.map ColoredObject.addr := by
    simp [tracked, List.append_assoc]
  obtain ⟨hnd, hsub, hs, hgone⟩ := h.dropped htr htr1
  have hnot : x.addr ∉ kept.map ColoredObject.addr ++ rest.map ColoredObject.addr := by
    intro hmem
    apply hgone
    rw [htr1]
    rcases List.mem_append.mp hmem with hk | hr
    · exact List.mem_append_left _ (List.mem_append_right _ hk)
    · exact List.mem_append_right _ hr
  have hq : tracked q = tracked { { s with world := w } with projectiles := kept ++ rest } := by
    rw [Program.delete_some hdel]
    rfl
  refine ⟨?_, by rw [hq]; exact hgone⟩
  refine @BookWith.remove ship s _
    { { s with world := w } with projectiles := kept ++ rest } q Game.ProjectileLayer x.addr
    h (by decide) (by decide)
    ?_ hrem rfl rfl rfl hdel ?_ hnd hsub ⟨hs, hgone⟩
  · show x.addr ∈ s.projectiles.map ColoredObject.addr
    rw [hlist]
    simp
  · intro index _ _
    by_cases hix : index = Game.ProjectileLayer
    · subst hix
      rw [if_pos rfl]
      show (kept ++ rest).map ColoredObject.addr =
        (s.projectiles.map ColoredObject.addr).filter (fun b => b != x.addr)
      rw [hlist]
      simp only [List.map_append, List.map_cons]
      exact (filter_ne_middle hnot).symm
    · rw [if_neg hix]
      unfold expected lowClouds highClouds
      by_cases h1 : index = Game.LowCloudsLayer
      · subst h1
        rfl
      · simp only [if_neg h1, if_neg hix]

/-- The removal of a tracked enemy: `RemoveObject`, the erasure from the
tracking list and `delete` keep the bookkeeping. -/
theorem BookWith.remove_enemy {ship : List Addr} {s s3 q : Program}
    {before after : List EnemyObject} {e : EnemyObject} (h : BookWith ship s)
    (hlist : s.enemies = before ++ e :: after) (hrem : s.RemoveObject e.addr = some s3)
    (hdel : Program.delete { s3 with enemies := before ++ after } e.addr = some q) :
    BookWith ship q ∧ e.addr ∉ tracked q := by
  obtain ⟨w, _, rfl⟩ := Program.RemoveObject_some hrem
  have htr : tracked s =
      (s.clouds.map CloudObject.addr ++ before.map EnemyObject.addr) ++
        e.addr :: (after.map EnemyObject.addr ++ s.projectiles.map ColoredObject.addr) := by
    unfold tracked
    rw [hlist]
    simp [List.append_assoc]
  have htr1 : tracked { { s with world := w } with enemies := before ++ after } =
      (s.clouds.map CloudObject.addr ++ before.map EnemyObject.addr) ++
        (after.map EnemyObject.addr ++ s.projectiles.map ColoredObject.addr) := by
    simp [tracked, List.append_assoc]
  obtain ⟨hnd, hsub, hs, hgone⟩ := h.dropped htr htr1
  have hnot : e.addr ∉ (ship ++ before.map EnemyObject.addr) ++ after.map EnemyObject.addr := by
    intro hmem
    rcases List.mem_append.mp hmem with hsb | ha
    · rcases List.mem_append.mp hsb with hsh | hb
      · exact hs hsh
      · apply hgone
        rw [htr1]
        exact List.mem_append_left _ (List.mem_append_right _ hb)
    · apply hgone
      rw [htr1]
      exact List.mem_append_right _ (List.mem_append_left _ ha)
  have hq : tracked q = tracked { { s with world := w } with enemies := before ++ after } := by
    rw [Program.delete_some hdel]
    rfl
  refine ⟨?_, by rw [hq]; exact hgone⟩
  refine @BookWith.remove ship s _
    { { s with world := w } with enemies := before ++ after } q Game.ShipLayer e.addr
    h (by decide) (by decide)
    ?_ hrem rfl rfl rfl hdel ?_ hnd hsub ⟨hs, hgone⟩
  · show e.addr ∈ ship ++ s.enemies.map EnemyObject.addr
    rw [hlist]
    simp
  · intro index _ _
    by_cases hix : index = Game.ShipLayer
    · subst hix
      rw [if_pos rfl]
      show ship ++ (before ++ after).map EnemyObject.addr =
        (ship ++ s.enemies.map EnemyObject.addr).filter (fun b => b != e.addr)
      rw [hlist]
      simp only [List.map_append, List.map_cons]
      rw [← List.append_assoc, ← List.append_assoc, filter_ne_middle hnot]
    · rw [if_neg hix]
      unfold expected lowClouds highClouds
      by_cases h1 : index = Game.LowCloudsLayer
      · subst h1
        rfl
      · by_cases h2 : index = Game.ProjectileLayer
        · subst h2
          rfl
        · simp only [if_neg h1, if_neg h2, if_neg hix]

end InGame

namespace InGame

theorem RemoveObject_counter {p q : Program} {a : Addr} (h : p.RemoveObject a = some q) :
    q.world.objectCounter = p.world.objectCounter := by
  obtain ⟨w, hrem, rfl⟩ := Program.RemoveObject_some h
  obtain ⟨_, _, _, rfl⟩ := World.RemoveObject_some_inv hrem
  rfl

theorem BookWith.not_member {ship : List Addr} {p : Program} (h : BookWith ship p) {a : Addr}
    (ha : a = playerAddr ∨ a ∈ tracked p) : a ≠ lifebarAddr ∧ a ≠ scoreAddr := by
  rcases ha with rfl | ht
  · exact ⟨by decide, by decide⟩
  · have hlt := (h.2.2.1 a ht).1
    constructor
    · intro heq
      rw [heq] at hlt
      exact absurd hlt (by decide)
    · intro heq
      rw [heq] at hlt
      exact absurd hlt (by decide)

/-- The collision half of the loop body of `StepProjectiles` on a booked
state: the bookkeeping holds after it, the identifier counter and the tracked
projectiles are as before, and unless the game ends the player object and the
objects still tracked are untouched. -/
theorem projectileHitTest_book {ship : List Addr} {p q : Program} {x : ColoredObject}
    {r : Option Bool} (hb : BookWith ship p) (h : projectileHitTest p x = some (q, r)) :
    BookWith ship q ∧ q.world.objectCounter = p.world.objectCounter ∧
    (∀ hit, r = some hit → ∀ a, (a = playerAddr ∨ a ∈ tracked q) → q.heap a = p.heap a) := by
  cases ho : p.heap x.addr with
  | none => simp [projectileHitTest, Program.deref, ho] at h
  | some o =>
    by_cases ht : o.type = ObjectType.Enemy
    · simp only [projectileHitTest, Option.bind_eq_bind, Program.deref, ho, Option.some_bind, ht,
        if_true, Option.bind_eq_some] at h
      obtain ⟨pl, hpl, h⟩ := h
      by_cases hc : World.CheckCollision pl o = true
      · simp only [hc, if_true, Option.bind_eq_some] at h
        obtain ⟨p2, h2, h⟩ := h
        have hn2 : p.Neutral p2 :=
          Program.Neutral.andThen
            (q := { p with player :=
              { p.player with health := hitHealth p.player.health x.color } })
            (Program.Neutral.of_frame rfl rfl rfl rfl rfl rfl)
            (Program.Neutral.of_modifyObject h2 (fun o _ => ⟨rfl, rfl⟩))
        obtain ⟨_, _, _, _, _, hother2⟩ := modifyObject_frame h2
        by_cases hh : hitHealth p.player.health x.color ≤ 0
        · simp only [hh, if_true, Option.bind_eq_some, Option.some.injEq, Prod.mk.injEq] at h
          obtain ⟨p4, h4, p5, h5, rfl, rfl⟩ := h
          have hn5 : p.Neutral p5 :=
            ((hn2.andThen (Program.Neutral.andThen (q := { p2 with isGameOver := true })
              (Program.Neutral.of_frame rfl rfl rfl rfl rfl rfl)
              (Program.Neutral.of_sample _ _))).andThen (UpdateScore_neutral h4)).andThen
              (Program.Neutral.of_worldUpdate h5)
          exact ⟨hb.neutral hn5, congrArg World.objectCounter hn5.1, fun hit hr => by cases hr⟩
        · simp only [hh, if_false, Option.some.injEq, Prod.mk.injEq] at h
          obtain ⟨rfl, rfl⟩ := h
          have hb2 := hb.neutral hn2
          refine ⟨hb2, congrArg World.objectCounter hn2.1, ?_⟩
          intro hit _ a ha
          exact hother2 a (hb2.not_member ha).1
      · simp only [hc, Bool.false_eq_true, if_false, Option.some.injEq, Prod.mk.injEq] at h
        obtain ⟨rfl, rfl⟩ := h
        exact ⟨hb, rfl, fun _ _ _ _ => rfl⟩
    · simp only [projectileHitTest, Option.bind_eq_bind, Program.deref, ho, Option.some_bind, ht,
        if_false, Option.bind_eq_some] at h
      obtain ⟨scan, hscan, h⟩ := h
      cases scan with
      | none =>
        simp only [Option.some.injEq, Prod.mk.injEq] at h
        obtain ⟨rfl, rfl⟩ := h
        exact ⟨hb, rfl, fun _ _ _ _ => rfl⟩
      | some t =>
        obtain ⟨b, e, a⟩ := t
        simp only [Option.bind_eq_bind, Option.bind_eq_some, Option.some.injEq,
          Prod.mk.injEq] at h
        obtain ⟨p1, h1, p2, h2, p4, h4, rfl, rfl⟩ := h
        obtain ⟨skipped, hbefore, hlist, _, _⟩ :=
          (scanEnemies_spec p x.color o _ _ _ hscan).2 b e a rfl
        simp only [List.nil_append] at hbefore
        subst hbefore
        obtain ⟨hb2, hgone⟩ := hb.remove_enemy hlist h1 h2
        have hn4 : p2.Neutral p4 :=
          Program.Neutral.andThen
            (q := { p2 with player :=
              { p2.player with score := hitScore p2.player.score x.color } })
            (Program.Neutral.of_frame rfl rfl rfl rfl rfl rfl) (UpdateScore_neutral h4)
        have hb4 := hb2.neutral hn4
        obtain ⟨_, _, hheap4⟩ := UpdateScore_spec h4
        have hcount : p1.world.objectCounter = p.world.objectCounter := RemoveObject_counter h1
        refine ⟨hb4, ?_, ?_⟩
        · rw [congrArg World.objectCounter hn4.1, Program.delete_some h2]
          exact hcount
        · intro hit _ c hc
          have hne : c ≠ e.addr := by
            intro heq
            rcases hc with hp | htr
            · have hmem : e.addr ∈ tracked p := by
                unfold tracked
                rw [hlist]
                simp
              rw [← heq, hp] at hmem
              exact absurd (hb.2.2.1 _ hmem).1 (by decide)
            · rw [tracked_congr hn4.2.2.2.1 hn4.2.2.2.2.1 hn4.2.2.2.2.2, heq] at htr
              exact hgone htr
          rw [hheap4 c (hb4.not_member hc).2, Program.delete_some h2]
          show Function.update p1.heap e.addr none c = p.heap c
          rw [Function.update_noteq hne]
          obtain ⟨w, _, rfl⟩ := Program.RemoveObject_some h1
          rfl

end InGame

namespace InGame

/-- Induction along the loop of `StepProjectiles`, for properties of the whole
program state.  A round either ends the game, or removes the projectile (it
hit, or it left the screen), or keeps it. -/
theorem stepProjectilesLoop_rounds
    (Inv : Program → List ColoredObject → List ColoredObject → Prop) (Post : Program → Prop)
    (hend : ∀ p kept, Inv p kept [] → Post p)
    (hover : ∀ (p q : Program) kept x rest, Inv p kept (x :: rest) →
      projectileHitTest p x = some (q, none) → Post q)
    (herase : ∀ (p p1 p2 p3 p4 : Program) kept x rest hit o, Inv p kept (x :: rest) →
      projectileHitTest p x = some (p1, some hit) →
      p2 = (if hit = true then p1.PlaySample p1.hitSound else p1) →
      p2.heap x.addr = some o →
      (hit = true ∨ o.position.y ≤ -(ProjectileHeight : ℚ) ∨
        o.position.y ≥ (p2.currentGame.targetHeight : ℚ)) →
      p2.RemoveObject x.addr = some p3 →
      Program.delete { p3 with projectiles := kept ++ rest } x.addr = some p4 →
      Inv p4 kept rest)
    (hkeep : ∀ (p p1 : Program) kept x rest o, Inv p kept (x :: rest) →
      projectileHitTest p x = some (p1, some false) → p1.heap x.addr = some o →
      ¬ (o.position.y ≤ -(ProjectileHeight : ℚ) ∨
        o.position.y ≥ (p1.currentGame.targetHeight : ℚ)) →
      Inv p1 (kept ++ [x]) rest) :
    ∀ (todo kept : List ColoredObject) (p q : Program), Inv p kept todo →
      stepProjectilesLoop p kept todo = some q → Post q := by
  intro todo
  induction todo with
  | nil =>
    intro kept p q hinv h
    simp only [stepProjectilesLoop, Option.some.injEq] at h
    subst h
    exact hend _ _ hinv
  | cons x rest ih =>
    intro kept p q hinv h
    simp only [stepProjectilesLoop] at h
    cases htest : projectileHitTest p x with
    | none => simp [htest] at h
    | some t =>
      obtain ⟨p1, r⟩ := t
      cases r with
      | none =>
        simp only [htest, Option.some.injEq] at h
        subst h
        exact hover p p1 kept x rest hinv htest
      | some hit =>
        simp only [htest] at h
        have herase_step : ∀ (p2 : Program) (o : Object ℚ),
            p2 = (if hit = true then p1.PlaySample p1.hitSound else p1) →
            p2.heap x.addr = some o →
            (hit = true ∨ o.position.y ≤ -(ProjectileHeight : ℚ) ∨
              o.position.y ≥ (p2.currentGame.targetHeight : ℚ)) →
            (match p2.RemoveObject x.addr with
              | none => none
              | some p3 =>
                match Program.delete { p3 with projectiles := kept ++ rest } x.addr with
                | none => none
                | some p4 => stepProjectilesLoop p4 kept rest) = some q →
            Post q := by
          intro p2 o hp2 ho hcond hrun
          cases h3 : p2.RemoveObject x.addr with
          | none => simp [h3] at hrun
          | some p3 =>
            simp only [h3] at hrun
            cases h4 : Program.delete { p3 with projectiles := kept ++ rest } x.addr with
            | none => simp [h4] at hrun
            | some p4 =>
              simp only [h4] at hrun
              exact ih kept p4 q (herase p p1 p2 p3 p4 kept x rest hit o hinv htest hp2 ho hcond
                h3 h4) hrun
        cases hit with
        | true =>
          simp only [if_true] at h
          cases ho : (p1.PlaySample p1.hitSound).deref x.addr with
          | none => simp [ho] at h
          | some o =>
            simp only [ho, true_or, if_true] at h
            exact herase_step _ o (by simp) ho (Or.inl rfl) h
        | false =>
          simp only [Bool.false_eq_true, if_false, false_or] at h
          cases ho : p1.deref x.addr with
          | none => simp [ho] at h
          | some o =>
            simp only [ho] at h
            split_ifs at h with hcond
            · exact herase_step _ o (by simp) ho (Or.inr hcond) h
            · exact ih (kept ++ [x]) _ q (hkeep p p1 kept x rest o hinv htest ho hcond) h

theorem projectileHitTest_projectiles {p q : Program} {x : ColoredObject} {r : Option Bool}
    (h : projectileHitTest p x = some (q, r)) : q.projectiles = p.projectiles := by
  rcases projectileHitTest_members h with ⟨hm, _⟩ | ⟨_, _, _, _, _, _, hm, _⟩ |
    ⟨_, _, _, _, _, _, _, _, _, _, hm⟩
  · exact congrArg Members.projectiles hm
  · exact congrArg Members.projectiles hm
  · exact congrArg Members.projectiles hm

end InGame

namespace InGame

/-- The loop of `StepProjectiles` keeps the bookkeeping and the identifier
counter. -/
theorem stepProjectilesLoop_book {ship : List Addr} (c : Nat) :
    ∀ (todo kept : List ColoredObject) (p q : Program),
      (BookWith ship p ∧ p.projectiles = kept ++ todo ∧ p.world.objectCounter = c) →
      stepProjectilesLoop p kept todo = some q →
      BookWith ship q ∧ q.world.objectCounter = c := by
  refine stepProjectilesLoop_rounds
    (fun p kept todo =>
      BookWith ship p ∧ p.projectiles = kept ++ todo ∧ p.world.objectCounter = c)
    (fun q => BookWith ship q ∧ q.world.objectCounter = c) ?_ ?_ ?_ ?_
  · intro p kept h
    exact ⟨h.1, h.2.2⟩
  · intro p q kept x rest h htest
    obtain ⟨hb1, hc1, _⟩ := projectileHitTest_book h.1 htest
    exact ⟨hb1, hc1.trans h.2.2⟩
  · intro p p1 p2 p3 p4 kept x rest hit o h htest hp2 _ _ h3 h4
    obtain ⟨hb1, hc1, _⟩ := projectileHitTest_book h.1 htest
    have hx1 : p1.projectiles = p.projectiles := projectileHitTest_projectiles htest
    have hn2 : p1.Neutral p2 := by
      rw [hp2]
      split_ifs
      · exact Program.Neutral.of_sample _ _
      · exact Program.Neutral.same _
    have hx2 : p2.projectiles = kept ++ x :: rest := by
      rw [hp2]
      split_ifs
      · exact (congrArg Members.projectiles (Program.PlaySample_members _ _)).trans
          (hx1.trans h.2.1)
      · exact hx1.trans h.2.1
    have hb4 := ((hb1.neutral hn2).remove_projectile hx2 h3 h4).1
    have hc3 : p3.world.objectCounter = p2.world.objectCounter := RemoveObject_counter h3
    refine ⟨hb4, ?_, ?_⟩
    · rw [Program.delete_some h4]
    · rw [Program.delete_some h4]
      show p3.world.objectCounter = c
      rw [hc3, congrArg World.objectCounter hn2.1, hc1]
      exact h.2.2
  · intro p p1 kept x rest o h htest _ _
    obtain ⟨hb1, hc1, _⟩ := projectileHitTest_book h.1 htest
    refine ⟨hb1, ?_, hc1.trans h.2.2⟩
    rw [projectileHitTest_projectiles htest, h.2.1, List.append_assoc]
    rfl

theorem StepProjectiles_book {ship : List Addr} {p q : Program} (h : BookWith ship p)
    (hs : StepProjectiles p = some q) :
    BookWith ship q ∧ q.world.objectCounter = p.world.objectCounter :=
  stepProjectilesLoop_book p.world.objectCounter p.projectiles [] p q ⟨h, rfl, rfl⟩ hs

theorem haltDescent_ident {p q : Program} {enemy : EnemyObject} {o o1 : Object ℚ}
    (h : haltDescent p enemy o = some (q, o1)) :
    p.Neutral q ∧ q.heap = p.heap ∧ o1.id = o.id ∧ o1.layerIndex = o.layerIndex := by
  unfold haltDescent at h
  split_ifs at h
  · cases hr : p.RandomNumber 0 1 with
    | none => simp [hr] at h
    | some r =>
      obtain ⟨p1, v⟩ := r
      simp only [hr, Option.some.injEq, Prod.mk.injEq] at h
      obtain ⟨rfl, rfl⟩ := h
      exact ⟨Program.Neutral.of_randomNumber hr, Program.RandomNumber_heap hr, rfl, rfl⟩
  · simp only [Option.some.injEq, Prod.mk.injEq] at h
    obtain ⟨rfl, rfl⟩ := h
    exact ⟨Program.Neutral.same _, rfl, rfl, rfl⟩

theorem turn_ident (targetWidth : Nat) (o : Object ℚ) :
    (turnAtLeft (turnAtRight targetWidth o)).id = o.id ∧
    (turnAtLeft (turnAtRight targetWidth o)).layerIndex = o.layerIndex := by
  unfold turnAtLeft turnAtRight
  split_ifs <;> exact ⟨rfl, rfl⟩

/-- One round of the loop of `StepEnemies` keeps the bookkeeping and the
tracked enemies, and registers at most one object. -/
theorem stepEnemy_book {ship : List Addr} {p q : Program} {enemy enemy1 : EnemyObject}
    (h : BookWith ship p) (hwrap : p.world.objectCounter + 1 < uintModulus)
    (hs : stepEnemy p enemy = some (q, enemy1)) :
    BookWith ship q ∧ q.world.objectCounter ≤ p.world.objectCounter + 1 ∧
    q.enemies = p.enemies ∧ enemy1.addr = enemy.addr := by
  have henemies : q.enemies = p.enemies ∧ enemy1.addr = enemy.addr := by
    rcases stepEnemy_members hs with ⟨_, _, _, he, _, hm⟩ | ⟨_, _, he, hm⟩ | ⟨_, he, hm⟩
    · exact ⟨congrArg Members.enemies hm, by rw [he]⟩
    · exact ⟨congrArg Members.enemies hm, by rw [he]⟩
    · exact ⟨congrArg Members.enemies hm, by rw [he]⟩
  refine ⟨?_, ?_, henemies.1, henemies.2⟩ <;>
  · unfold stepEnemy at hs
    cases ho : p.deref enemy.addr with
    | none => simp [ho] at hs
    | some o =>
      simp only [ho] at hs
      cases h1 : haltDescent p enemy o with
      | none => simp [h1] at hs
      | some t =>
        obtain ⟨p1, o1⟩ := t
        simp only [h1] at hs
        cases h2 : p1.modifyObject enemy.addr
            (fun _ => turnAtLeft (turnAtRight p1.currentGame.targetWidth o1)) with
        | none => simp [h2] at hs
        | some p2 =>
          simp only [h2] at hs
          obtain ⟨hn1, hh1, hid1, hli1⟩ := haltDescent_ident h1
          have hn2 : p1.Neutral p2 := by
            refine Program.Neutral.of_modifyObject h2 ?_
            intro o2 ho2
            have ho' : some o2 = some o := by
              rw [← ho2, hh1]
              exact ho
            obtain rfl := Option.some.inj ho'
            exact ⟨(turn_ident _ _).1.trans hid1, (turn_ident _ _).2.trans hli1⟩
          have hb2 : BookWith ship p2 := (h.neutral hn1).neutral hn2
          have hc2 : p2.world.objectCounter = p.world.objectCounter :=
            congrArg World.objectCounter (hn2.1.trans hn1.1)
          split_ifs at hs
          · cases h3 : Shoot p2 enemy.addr enemy.color 1 with
            | none => simp [h3] at hs
            | some p3 =>
              simp only [h3, Option.some.injEq, Prod.mk.injEq] at hs
              obtain ⟨rfl, _⟩ := hs
              obtain ⟨hb3, hc3⟩ := Shoot_book hb2 (by rw [hc2]; exact hwrap) h3
              first
                | exact hb3
                | (rw [hc2] at hc3; exact hc3)
          · simp only [Option.some.injEq, Prod.mk.injEq] at hs
            obtain ⟨rfl, _⟩ := hs
            first
              | exact hb2
              | (rw [hc2]; exact Nat.le_succ _)

theorem stepEnemiesLoop_book {ship : List Addr} :
    ∀ (rest : List EnemyObject) (p q : Program) (out : List EnemyObject),
      BookWith ship p → p.world.objectCounter + rest.length < uintModulus →
      stepEnemiesLoop p rest = some (q, out) →
      BookWith ship q ∧ q.world.objectCounter ≤ p.world.objectCounter + rest.length ∧
      q.enemies = p.enemies ∧ out.map EnemyObject.addr = rest.map EnemyObject.addr := by
  intro rest
  induction rest with
  | nil =>
    intro p q out h _ hs
    simp only [stepEnemiesLoop, Option.some.injEq, Prod.mk.injEq] at hs
    obtain ⟨rfl, rfl⟩ := hs
    exact ⟨h, Nat.le_refl _, rfl, rfl⟩
  | cons enemy rest ih =>
    intro p q out h hwrap hs
    simp only [stepEnemiesLoop] at hs
    simp only [List.length_cons] at hwrap
    cases h1 : stepEnemy p enemy with
    | none => simp [h1] at hs
    | some t =>
      obtain ⟨p1, enemy1⟩ := t
      simp only [h1] at hs
      cases h2 : stepEnemiesLoop p1 rest with
      | none => simp [h2] at hs
      | some t2 =>
        obtain ⟨p2, rest1⟩ := t2
        simp only [h2, Option.some.injEq, Prod.mk.injEq] at hs
        obtain ⟨rfl, rfl⟩ := hs
        obtain ⟨hb1, hc1, he1, ha1⟩ := stepEnemy_book h (by omega) h1
        obtain ⟨hb2, hc2, he2, ha2⟩ := ih p1 p2 rest1 hb1 (by omega) h2
        refine ⟨hb2, ?_, he2.trans he1, ?_⟩
        · simp only [List.length_cons]
          omega
        · simp only [List.map_cons, ha1, ha2]

/-- `StepEnemies` keeps the bookkeeping when the identifier counter has room
for one enemy and one projectile per enemy. -/
theorem StepEnemies_book {ship : List Addr} {p q : Program} (h : BookWith ship p)
    (hwrap : p.world.objectCounter + p.enemies.length + 2 < uintModulus)
    (hs : StepEnemies p = some q) : BookWith ship q := by
  unfold StepEnemies at hs
  cases h1 : spawnDue p with
  | none => simp [h1] at hs
  | some p1 =>
    simp only [h1] at hs
    have hspawn : BookWith ship p1 ∧ p1.world.objectCounter ≤ p.world.objectCounter + 1 ∧
        p1.enemies.length ≤ p.enemies.length + 1 := by
      unfold spawnDue at h1
      split_ifs at h1
      · obtain ⟨hb, hc⟩ := SpawnEnemy_book
          (p := { p with nextEnemySpawn := some (p.currentTick + p.currentEnemySpawnInterval) })
          (h.neutral (Program.Neutral.of_frame rfl rfl rfl rfl rfl rfl)) (by
            show p.world.objectCounter + 1 < uintModulus
            omega) h1
        obtain ⟨e, hm, _⟩ := SpawnEnemy_spec h1
        have hen : p1.enemies = p.enemies ++ [e] := congrArg Members.enemies hm
        refine ⟨hb, hc, ?_⟩
        rw [hen, List.length_append]
        exact Nat.le_refl _
      · obtain rfl := Option.some.inj h1
        exact ⟨h.neutral (Program.Neutral.of_frame rfl rfl rfl rfl rfl rfl), Nat.le_succ _,
          Nat.le_succ _⟩
    obtain ⟨hb1, hc1, hl1⟩ := hspawn
    cases h2 : stepEnemiesLoop p1 p1.enemies with
    | none => simp [h2] at hs
    | some t =>
      obtain ⟨p2, out⟩ := t
      simp only [h2, Option.some.injEq] at hs
      subst hs
      obtain ⟨hb2, _, he2, ha2⟩ := stepEnemiesLoop_book p1.enemies p1 p2 out hb1 (by omega) h2
      refine hb2.neutral ⟨rfl, Nat.le_refl _, fun a o _ ho => ⟨o, ho, rfl, rfl⟩, rfl, ?_, rfl⟩
      show out.map EnemyObject.addr = p2.enemies.map EnemyObject.addr
      rw [ha2, he2]

end InGame

namespace InGame

/-- `Step` keeps the bookkeeping when the identifier counter has room. -/
theorem Step_book {ship : List Addr} {p q : Program} {speedMultiplier : ℚ} {ticks : Nat}
    (h : BookWith ship p) (hwrap : NoWrap p) (hs : Step p speedMultiplier ticks = some q) :
    BookWith ship q := by
  unfold Step at hs
  by_cases hover : p.isGameOver = true
  · rw [if_pos hover] at hs
    obtain rfl := Option.some.inj hs
    exact h
  · rw [if_neg hover] at hs
    simp only [Option.bind_eq_bind, Option.bind_eq_some] at hs
    obtain ⟨p2, h2, p3, h3, p4, h4, p5, h5, h6⟩ := hs
    have hn2 : p.Neutral p2 :=
      Program.Neutral.andThen
        (q := { p with currentSpeedMultiplier := speedMultiplier, currentTick := toInt ticks })
        (Program.Neutral.of_frame rfl rfl rfl rfl rfl rfl)
        (Program.Neutral.of_moved (stepCloudsLoop_moves _ _ _ h2))
    have hb2 := h.neutral hn2
    obtain ⟨hb3, hc3⟩ := StepProjectiles_book hb2 h3
    have hlen3 : p3.enemies.length ≤ p2.enemies.length :=
      (StepProjectiles_enemies h3).1.length_le
    have hlen2 : p2.enemies.length = p.enemies.length := by
      have hmap := congrArg List.length hn2.2.2.2.2.1
      simpa using hmap
    have hc2 : p2.world.objectCounter = p.world.objectCounter :=
      congrArg World.objectCounter hn2.1
    have hb4 := StepEnemies_book hb3 (by unfold NoWrap at hwrap; omega) h4
    exact (hb4.neutral (Program.Neutral.of_moved (StepPlayer_moves h5))).neutral
      (Program.Neutral.of_worldUpdate h6)

/-- `OnPress` keeps the bookkeeping when the identifier counter has room. -/
theorem OnPress_book {p q : Program} {key : Nat} (h : Book p) (hwrap : NoWrap p)
    (hs : OnPress p key = some q) : Book q := by
  unfold OnPress at hs
  by_cases hover : p.isGameOver = true
  · rw [if_pos hover] at hs
    split_ifs at hs with hkey
    · simp only [Option.bind_eq_bind, Option.bind_eq_some] at hs
      obtain ⟨p1, h1, p2, h2, h3⟩ := hs
      exact restart_book h h1 h2 h3
    · obtain rfl := Option.some.inj hs
      exact h
  · rw [if_neg hover] at hs
    split_ifs at hs with k1 k2 k3 k4 k5 k6
    · exact BookWith.neutral h (Program.Neutral.of_modifyObject hs (fun o _ => ⟨rfl, rfl⟩))
    · exact BookWith.neutral h (Program.Neutral.of_modifyObject hs (fun o _ => ⟨rfl, rfl⟩))
    · exact BookWith.neutral h (Program.Neutral.of_modifyObject hs (fun o _ => ⟨rfl, rfl⟩))
    · exact BookWith.neutral h (Program.Neutral.of_modifyObject hs (fun o _ => ⟨rfl, rfl⟩))
    · exact (Shoot_book h (by unfold NoWrap at hwrap; omega) hs).1
    · simp only [Option.bind_eq_bind, Option.bind_eq_some, Option.some.injEq] at hs
      obtain ⟨image, _, p1, h1, rfl⟩ := hs
      refine BookWith.neutral h ?_
      exact (Program.Neutral.andThen
        (q := { p with player := { p.player with color := key - Input.KeyA } })
        (Program.Neutral.of_frame rfl rfl rfl rfl rfl rfl)
        (Program.Neutral.of_modifyObject h1 (fun o _ => ⟨rfl, rfl⟩))).andThen
        (Program.Neutral.of_sample _ _)
    · obtain rfl := Option.some.inj hs
      exact h

/-- `ChangeState` to a name that is not registered changes the engine only. -/
theorem ChangeState_unregistered_neutral {p q : Program} {stateName : String}
    (hreg : p.engine.gameStates.lookup stateName = none)
    (hs : p.ChangeState stateName = some q) : p.Neutral q := by
  unfold Program.ChangeState at hs
  have he : p.engine.ChangeState stateName =
      p.engine.Error Engine.Tag Txt.StateNotFound stateName := by
    simp [Engine.ChangeState, hreg]
  rw [he] at hs
  have hdrop : ((p.engine.Error Engine.Tag Txt.StateNotFound stateName).calls.drop
      p.engine.calls.length) = [] := by
    show p.engine.calls.drop p.engine.calls.length = []
    exact List.drop_length _
  simp only [hdrop, Program.stateCalls, Option.some.injEq] at hs
  subst hs
  exact Program.Neutral.of_frame rfl rfl rfl rfl rfl rfl

/-- `OnRelease` keeps the bookkeeping while the gameplay state stays active. -/
theorem OnRelease_book {ship : List Addr} {p q : Program} {key : Nat} (h : BookWith ship p)
    (hstay : staysActive p (Call.OnRelease key)) (hs : OnRelease p key = some q) :
    BookWith ship q := by
  unfold OnRelease at hs
  split_ifs at hs with k0 k1 k2 k3 k4
  · exact h.neutral (ChangeState_unregistered_neutral (hstay k0) hs)
  · refine h.neutral (Program.Neutral.of_modifyObject hs ?_)
    intro o _
    split_ifs <;> exact ⟨rfl, rfl⟩
  · refine h.neutral (Program.Neutral.of_modifyObject hs ?_)
    intro o _
    split_ifs <;> exact ⟨rfl, rfl⟩
  · refine h.neutral (Program.Neutral.of_modifyObject hs ?_)
    intro o _
    split_ifs <;> exact ⟨rfl, rfl⟩
  · refine h.neutral (Program.Neutral.of_modifyObject hs ?_)
    intro o _
    split_ifs <;> exact ⟨rfl, rfl⟩
  · obtain rfl := Option.some.inj hs
    exact h

theorem call_book {p q : Program} {c : Call} (h : Book p) (hwrap : NoWrap p)
    (hstay : staysActive p c) (hs : call p c = some q) : Book q := by
  cases c with
  | Step speedMultiplier ticks => exact Step_book h hwrap hs
  | OnPress key => exact OnPress_book h hwrap hs
  | OnRelease key => exact OnRelease_book h hstay hs

theorem Reachable.book {start q : Program} {game : GameInformation}
    (hlen : 4 < start.world.layers.length) (hscore : scoreAddr < start.nextAddr)
    (hc : start.clouds = []) (he : start.enemies = []) (hx : start.projectiles = [])
    (hr : Reachable start game q) : Book q := by
  induction hr with
  | activate hact => exact Activate_book hlen hscore hc he hx hact
  | call c _ hwrap hstay hcall ih => exact call_book ih hwrap hstay hcall

end InGame

/-! ## The dual bookkeeping of the gameplay state -/

/-- C24: the dual-bookkeeping invariant.  Let the program start `Activate`
with empty tracking lists, the layers 1 to 4 present and the member objects
below the allocation frontier (as in `Main.cxx`).  In every state reached by
`Activate` and any sequence of `Step`, `OnPress` and `OnRelease` calls that
keep the gameplay state active, each made with room in the identifier counter
(so that `objectCounter++` does not wrap around `2 ^ 32`), the bookkeeping
`Book` holds: the projectile layer registers exactly the tracked projectiles,
the ship layer exactly the player followed by the tracked enemies, the low and
the high cloud layer together exactly the tracked clouds (those with a
distance above 1 in the low layer, the others in the high layer), each in the
order of its tracking list and each object under its own identifier; and no
object is tracked twice. -/
theorem dual_bookkeeping (start q : Program) (game : GameInformation)
    (hlen : 4 < start.world.layers.length) (hscore : scoreAddr < start.nextAddr)
    (hc : start.clouds = []) (he : start.enemies = []) (hx : start.projectiles = [])
    (hr : InGame.Reachable start game q) :
    InGame.Book q ∧
    ∃ low projectile ship high : Layer,
      q.world.layers[Game.LowCloudsLayer]? = some low ∧
      q.world.layers[Game.ProjectileLayer]? = some projectile ∧
      q.world.layers[Game.ShipLayer]? = some ship ∧
      q.world.layers[Game.HighCloudsLayer]? = some high ∧
      projectile.objects.map Prod.snd = q.projectiles.map ColoredObject.addr ∧
      ship.objects.map Prod.snd = playerAddr :: q.enemies.map EnemyObject.addr ∧
      low.objects.map Prod.snd =
        (q.clouds.filter (fun c => decide (c.distance > 1))).map CloudObject.addr ∧
      high.objects.map Prod.snd =
        (q.clouds.filter (fun c => !decide (c.distance > 1))).map CloudObject.addr ∧
      (InGame.tracked q).Nodup := by
  have hb := InGame.Reachable.book hlen hscore hc he hx hr
  refine ⟨hb, ?_⟩
  obtain ⟨low, hlow, mlow, _⟩ := hb.1 Game.LowCloudsLayer (by decide) (by decide)
  obtain ⟨projectile, hprojectile, mprojectile, _⟩ :=
    hb.1 Game.ProjectileLayer (by decide) (by decide)
  obtain ⟨ship, hship, mship, _⟩ := hb.1 Game.ShipLayer (by decide) (by decide)
  obtain ⟨high, hhigh, mhigh, _⟩ := hb.1 Game.HighCloudsLayer (by decide) (by decide)
  exact ⟨low, projectile, ship, high, hlow, hprojectile, hship, hhigh, mprojectile, mship, mlow,
    mhigh, hb.2.1⟩

theorem dual_bookkeeping_witness :
    4 < (Program.start exampleEnv exampleGame).world.layers.length ∧
    scoreAddr < (Program.start exampleEnv exampleGame).nextAddr ∧
    ∃ q, InGame.Reachable (Program.start exampleEnv exampleGame) exampleGame q ∧
      InGame.call exampleScene (InGame.Call.OnPress Input.KeySpacebar) = some q ∧
      InGame.Book q ∧
      ∃ low projectile ship high : Layer,
        q.world.layers[Game.LowCloudsLayer]? = some low ∧
        q.world.layers[Game.ProjectileLayer]? = some projectile ∧
        q.world.layers[Game.ShipLayer]? = some ship ∧
        q.world.layers[Game.HighCloudsLayer]? = some high ∧
        projectile.objects.map Prod.snd = q.projectiles.map ColoredObject.addr ∧
        ship.objects.map Prod.snd = playerAddr :: q.enemies.map EnemyObject.addr ∧
        low.objects.map Prod.snd =
          (q.clouds.filter (fun c => decide (c.distance > 1))).map CloudObject.addr ∧
        high.objects.map Prod.snd =
          (q.clouds.filter (fun c => !decide (c.distance > 1))).map CloudObject.addr ∧
        (InGame.tracked q).Nodup := by
  have hlen : 4 < (Program.start exampleEnv exampleGame).world.layers.length := by decide
  have hscore : scoreAddr < (Program.start exampleEnv exampleGame).nextAddr := by decide
  have hfacts : exampleActive.isSome = true ∧ InGame.NoWrap exampleScene ∧
      (InGame.call exampleScene (InGame.Call.OnPress Input.KeySpacebar)).isSome = true := by
    decide!
  obtain ⟨hactive, hwrap, hcall⟩ := hfacts
  obtain ⟨q0, hq0⟩ := Option.isSome_iff_exists.mp hactive
  have hscene : exampleScene = q0 := by
    unfold exampleScene
    rw [hq0]
    rfl
  obtain ⟨q, hq⟩ := Option.isSome_iff_exists.mp hcall
  have hreach : InGame.Reachable (Program.start exampleEnv exampleGame) exampleGame q := by
    refine InGame.Reachable.call (s := exampleScene) (InGame.Call.OnPress Input.KeySpacebar)
      ?_ hwrap trivial hq
    rw [hscene]
    exact InGame.Reachable.activate hq0
  obtain ⟨hbook, hlayers⟩ :=
    dual_bookkeeping (Program.start exampleEnv exampleGame) q exampleGame hlen hscore rfl rfl rfl
      hreach
  exact ⟨hlen, hscore, q, hreach, hq, hbook, hlayers⟩

/-! ## The expiry of projectiles -/

namespace InGame

theorem survivors_sublist (p : Program) :
    ∀ (todo : List ColoredObject) (alive : List EnemyObject),
      (survivors p alive todo).Sublist todo := by
  intro todo
  induction todo with
  | nil => intro alive; exact List.Sublist.refl _
  | cons x rest ih =>
    intro alive
    unfold survivors
    cases p.heap x.addr with
    | none => exact (ih alive).cons x
    | some o =>
      simp only
      split_ifs
      · exact (ih alive).cons x
      · exact (ih alive).cons₂ x
      · exact (ih alive).cons x
      · cases alive.find? (hits p x o) with
        | some e => exact (ih _).cons x
        | none => exact (ih alive).cons₂ x
      · cases alive.find? (hits p x o) with
        | some e => exact (ih _).cons x
        | none => exact (ih alive).cons x

theorem survivors_inFlight (p : Program) :
    ∀ (todo : List ColoredObject) (alive : List EnemyObject),
      ∀ x ∈ survivors p alive todo, ∃ o, p.heap x.addr = some o ∧ inFlight p o = true := by
  intro todo
  induction todo with
  | nil => intro alive x hx; cases hx
  | cons y rest ih =>
    intro alive x hx
    unfold survivors at hx
    cases ho : p.heap y.addr with
    | none =>
      simp only [ho] at hx
      exact ih alive x hx
    | some o =>
      simp only [ho] at hx
      by_cases ht : o.type = ObjectType.Enemy
      · rw [if_pos ht] at hx
        split_ifs at hx with h2 h3
        · exact ih alive x hx
        · rcases List.mem_cons.mp hx with rfl | hx1
          · exact ⟨o, ho, h3⟩
          · exact ih alive x hx1
        · exact ih alive x hx
      · rw [if_neg ht] at hx
        cases hf : alive.find? (hits p y o) with
        | some e =>
          simp only [hf] at hx
          exact ih _ x hx
        | none =>
          simp only [hf] at hx
          split_ifs at hx with h3
          · rcases List.mem_cons.mp hx with rfl | hx1
            · exact ⟨o, ho, h3⟩
            · exact ih alive x hx1
          · exact ih alive x hx

end InGame

namespace InGame

theorem find_first {α : Type} (f : α → Bool) {b a : List α} {e : α}
    (hb : ∀ y ∈ b, f y = false) (he : f e = true) : (b ++ e :: a).find? f = some e := by
  induction b with
  | nil => simp [List.find?, he]
  | cons y rest ih =>
    have hy : f y = false := hb y (List.mem_cons_self _ _)
    simp only [List.cons_append, List.find?, hy]
    exact ih (fun z hz => hb z (List.mem_cons_of_mem _ hz))

theorem erase_first {b a : List EnemyObject} {e : EnemyObject} (hb : e ∉ b) :
    (b ++ e :: a).erase e = b ++ a := by
  rw [List.erase_append_right _ hb, List.erase_cons_head]

theorem hits_iff_isTarget {p s : Program} {x : ColoredObject} {o : Object ℚ} {e : EnemyObject}
    (hh : s.heap e.addr = p.heap e.addr) :
    hits p x o e = true ↔ isTarget s x.color o e := by
  unfold hits isTarget
  rw [hh]
  cases p.heap e.addr with
  | none => simp
  | some eo => simp

theorem projectileHitTest_tracked {p q : Program} {x : ColoredObject} {r : Option Bool}
    (h : projectileHitTest p x = some (q, r)) :
    q.currentGame = p.currentGame ∧ ∀ a ∈ tracked q, a ∈ tracked p := by
  rcases projectileHitTest_members h with ⟨hm, _⟩ | ⟨_, _, _, _, _, _, hm, _⟩ |
    ⟨_, b, e, a, _, _, hlist, _, _, _, hm⟩
  · have hc := congrArg Members.clouds hm
    have he := congrArg Members.enemies hm
    have hx := congrArg Members.projectiles hm
    refine ⟨congrArg Members.currentGame hm, ?_⟩
    intro c hc1
    have ht : tracked q = tracked p := by
      unfold tracked
      rw [show q.clouds = p.clouds from hc, show q.enemies = p.enemies from he,
        show q.projectiles = p.projectiles from hx]
    rw [ht] at hc1
    exact hc1
  · have hc := congrArg Members.clouds hm
    have he := congrArg Members.enemies hm
    have hx := congrArg Members.projectiles hm
    refine ⟨congrArg Members.currentGame hm, ?_⟩
    intro c hc1
    have ht : tracked q = tracked p := by
      unfold tracked
      rw [show q.clouds = p.clouds from hc, show q.enemies = p.enemies from he,
        show q.projectiles = p.projectiles from hx]
    rw [ht] at hc1
    exact hc1
  · have hc := congrArg Members.clouds hm
    have he := congrArg Members.enemies hm
    have hx := congrArg Members.projectiles hm
    refine ⟨congrArg Members.currentGame hm, ?_⟩
    intro c hc1
    unfold tracked at hc1 ⊢
    rw [show q.clouds = p.clouds from hc, show q.enemies = b ++ a from he,
      show q.projectiles = p.projectiles from hx] at hc1
    rw [hlist]
    simp only [List.mem_append, List.map_append, List.map_cons, List.mem_cons] at hc1 ⊢
    tauto

/-- One round of the loop of `StepProjectiles` against the specification of
the pass: the projectile is judged on the objects as they were at the start of
the call. -/
theorem projectile_round {ship : List Addr} {p s s1 : Program} {x : ColoredObject}
    {rest : List ColoredObject} {hit : Bool}
    (hb : BookWith ship s) (hx : x ∈ s.projectiles) (hgame : s.currentGame = p.currentGame)
    (hagree : ∀ a, (a = playerAddr ∨ a ∈ tracked s) → s.heap a = p.heap a)
    (htest : projectileHitTest s x = some (s1, some hit)) :
    ∃ o, p.heap x.addr = some o ∧ s1.heap x.addr = some o ∧
      BookWith ship s1 ∧ s1.projectiles = s.projectiles ∧ s1.currentGame = p.currentGame ∧
      (∀ a, (a = playerAddr ∨ a ∈ tracked s1) → s1.heap a = p.heap a) ∧
      (hit = true → survivors p s.enemies (x :: rest) = survivors p s1.enemies rest) ∧
      (hit = false →
        survivors p s.enemies (x :: rest) =
          if inFlight p o = true then x :: survivors p s1.enemies rest
          else survivors p s1.enemies rest) := by
  obtain ⟨hb1, _, hsame⟩ := projectileHitTest_book hb htest
  obtain ⟨hgame1, hsub⟩ := projectileHitTest_tracked htest
  have hx1 := projectileHitTest_projectiles htest
  have hxt : x.addr ∈ tracked s := by
    unfold tracked
    exact List.mem_append_right _ (List.mem_map_of_mem _ hx)
  have hxt1 : x.addr ∈ tracked s1 := by
    unfold tracked
    rw [hx1]
    exact List.mem_append_right _ (List.mem_map_of_mem _ hx)
  have hagree1 : ∀ a, (a = playerAddr ∨ a ∈ tracked s1) → s1.heap a = p.heap a := by
    intro a ha
    rw [hsame hit rfl a ha]
    rcases ha with hp | ht
    · exact hagree a (Or.inl hp)
    · exact hagree a (Or.inr (hsub a ht))
  cases ho : s.heap x.addr with
  | none => simp [projectileHitTest, Program.deref, ho] at htest
  | some o =>
    have hpo : p.heap x.addr = some o := (hagree _ (Or.inr hxt)).symm.trans ho
    have hs1o : s1.heap x.addr = some o := (hagree1 _ (Or.inr hxt1)).trans hpo
    refine ⟨o, hpo, hs1o, hb1, hx1, hgame1.trans hgame, hagree1, ?_, ?_⟩
    · intro hhit
      subst hhit
      by_cases ht : o.type = ObjectType.Enemy
      · cases hpl : s.heap playerAddr with
        | none => simp [projectileHitTest, Program.deref, ho, ht, hpl] at htest
        | some pl =>
          have hppl : p.heap playerAddr = some pl := (hagree _ (Or.inl rfl)).symm.trans hpl
          obtain ⟨hmiss, hcoll⟩ := projectileHitTest_enemy ho ht hpl htest
          cases hc : World.CheckCollision pl o with
          | false =>
            have := (hmiss hc).2
            cases this
          | true =>
            obtain ⟨hm, _⟩ := hcoll hc
            have he1 : s1.enemies = s.enemies := congrArg Members.enemies hm
            have hhp : hitsPlayer p o = true := by
              unfold hitsPlayer
              rw [hppl]
              exact hc
            rw [he1]
            simp only [survivors, hpo, ht, if_true, hhp]
      · obtain ⟨scan, hscan, hnone, hsome⟩ := projectileHitTest_player ho ht htest
        cases scan with
        | none =>
          have := (hnone rfl).2
          cases this
        | some t =>
          obtain ⟨b, e, a⟩ := t
          obtain ⟨_, hm⟩ := hsome b e a rfl
          obtain ⟨skipped, hbefore, hlist, htarget, hskip⟩ :=
            (scanEnemies_spec s x.color o _ _ _ hscan).2 b e a rfl
          simp only [List.nil_append] at hbefore
          subst hbefore
          have he1 : s1.enemies = b ++ a := congrArg Members.enemies hm
          have hheap : ∀ y ∈ s.enemies, s.heap y.addr = p.heap y.addr := by
            intro y hy
            refine hagree _ (Or.inr ?_)
            unfold tracked
            exact List.mem_append_left _ (List.mem_append_right _ (List.mem_map_of_mem _ hy))
          have hfe : hits p x o e = true :=
            (hits_iff_isTarget (hheap e (by rw [hlist]; simp))).mpr htarget
          have hfb : ∀ y ∈ b, hits p x o y = false := by
            intro y hy
            have hny := hskip y hy
            cases hv : hits p x o y with
            | false => rfl
            | true =>
              exact absurd
                ((hits_iff_isTarget (hheap y (by rw [hlist]; simp [hy]))).mp hv) hny
          have hnot : e ∉ b := by
            intro hmem
            rw [hfb e hmem] at hfe
            cases hfe
          rw [he1]
          simp only [survivors, hpo, ht, if_false, hlist, find_first _ hfb hfe,
            erase_first hnot]
    · intro hhit
      subst hhit
      by_cases ht : o.type = ObjectType.Enemy
      · cases hpl : s.heap playerAddr with
        | none => simp [projectileHitTest, Program.deref, ho, ht, hpl] at htest
        | some pl =>
          have hppl : p.heap playerAddr = some pl := (hagree _ (Or.inl rfl)).symm.trans hpl
          obtain ⟨hmiss, hcoll⟩ := projectileHitTest_enemy ho ht hpl htest
          cases hc : World.CheckCollision pl o with
          | false =>
            obtain ⟨rfl, _⟩ := hmiss hc
            have hhp : hitsPlayer p o = false := by
              unfold hitsPlayer
              rw [hppl]
              exact hc
            simp only [survivors, hpo, ht, if_true, hhp, Bool.false_eq_true, if_false]
          | true =>
            obtain ⟨_, hle, hpos, _⟩ := hcoll hc
            by_cases hh : hitHealth s.player.health x.color ≤ 0
            · have := hle hh
              cases this
            · have := hpos (not_le.mp hh)
              cases this
      · obtain ⟨scan, hscan, hnone, hsome⟩ := projectileHitTest_player ho ht htest
        cases scan with
        | none =>
          obtain ⟨rfl, _⟩ := hnone rfl
          have hall := (scanEnemies_spec s1 x.color o _ _ _ hscan).1 rfl
          have hfind : s1.enemies.find? (hits p x o) = none := by
            rw [List.find?_eq_none]
            intro y hy hv
            have hyh : s1.heap y.addr = p.heap y.addr := by
              refine hagree _ (Or.inr ?_)
              unfold tracked
              exact List.mem_append_left _
                (List.mem_append_right _ (List.mem_map_of_mem _ hy))
            exact hall y hy ((hits_iff_isTarget hyh).mp hv)
          simp only [survivors, hpo, ht, if_false, hfind]
        | some t =>
          obtain ⟨b, e, a⟩ := t
          have := (hsome b e a rfl).1
          cases this

end InGame

namespace InGame

theorem projectileHitTest_over {p q : Program} {x : ColoredObject}
    (h : projectileHitTest p x = some (q, none)) : q.isGameOver = true := by
  rcases projectileHitTest_members h with ⟨_, hr⟩ | ⟨_, _, _, _, _, _, hm, _, hpos⟩ |
    ⟨_, _, _, _, _, _, _, _, _, hr, _⟩
  · cases hr
  · have hle : hitHealth p.player.health x.color ≤ 0 := by
      by_contra hgt
      have := hpos (not_le.mp hgt)
      cases this
    have hflag := congrArg Members.isGameOver hm
    have hflag1 : q.isGameOver =
        (p.isGameOver || decide (hitHealth p.player.health x.color ≤ 0)) := hflag
    rw [hflag1, decide_eq_true hle, Bool.or_true]
  · cases hr

theorem inFlight_iff {p s : Program} {o : Object ℚ} (hgame : s.currentGame = p.currentGame) :
    inFlight p o = true ↔
      ¬ (o.position.y ≤ -(ProjectileHeight : ℚ) ∨
        o.position.y ≥ (s.currentGame.targetHeight : ℚ)) := by
  unfold inFlight
  rw [hgame, decide_eq_true_iff, not_or, not_le, ge_iff_le, not_le]

/-- The loop of `StepProjectiles` against the specification of the pass. -/
theorem stepProjectilesLoop_survivors {ship : List Addr} (p : Program)
    (result : List ColoredObject) :
    ∀ (todo kept : List ColoredObject) (s q : Program),
      (BookWith ship s ∧ s.projectiles = kept ++ todo ∧ s.currentGame = p.currentGame ∧
        (∀ a, (a = playerAddr ∨ a ∈ tracked s) → s.heap a = p.heap a) ∧
        kept ++ survivors p s.enemies todo = result) →
      stepProjectilesLoop s kept todo = some q →
      (q.isGameOver = false → q.projectiles = result) := by
  refine stepProjectilesLoop_rounds
    (fun s kept todo =>
      BookWith ship s ∧ s.projectiles = kept ++ todo ∧ s.currentGame = p.currentGame ∧
        (∀ a, (a = playerAddr ∨ a ∈ tracked s) → s.heap a = p.heap a) ∧
        kept ++ survivors p s.enemies todo = result)
    (fun q => q.isGameOver = false → q.projectiles = result) ?_ ?_ ?_ ?_
  · intro s kept h _
    obtain ⟨_, hlist, _, _, hres⟩ := h
    rw [hlist, ← hres]
    rfl
  · intro s q kept x rest _ htest hlive
    rw [projectileHitTest_over htest] at hlive
    cases hlive
  · intro s s1 p2 p3 p4 kept x rest hit o2 h htest hp2 ho2 hcond h3 h4
    obtain ⟨hb, hlist, hgame, hagree, hres⟩ := h
    have hx : x ∈ s.projectiles := by
      rw [hlist]
      simp
    obtain ⟨o, hpo, hs1o, hb1, hx1, hgame1, hagree1, hhit, hmiss⟩ :=
      @projectile_round _ _ _ _ _ rest _ hb hx hgame hagree htest
    have hn2 : s1.Neutral p2 := by
      rw [hp2]
      split_ifs
      · exact Program.Neutral.of_sample _ _
      · exact Program.Neutral.same _
    have hheap2 : p2.heap = s1.heap := by
      rw [hp2]
      split_ifs
      · exact Program.PlaySample_heap _ _
      · rfl
    have hm2 : p2.members = s1.members := by
      rw [hp2]
      split_ifs
      · exact Program.PlaySample_members _ _
      · rfl
    have hgame2 : p2.currentGame = p.currentGame :=
      (congrArg Members.currentGame hm2).trans hgame1
    have hen2 : p2.enemies = s1.enemies := congrArg Members.enemies hm2
    have hx2 : p2.projectiles = kept ++ x :: rest :=
      (congrArg Members.projectiles hm2).trans (hx1.trans hlist)
    have ho : o2 = o := by
      rw [hheap2, hs1o] at ho2
      exact (Option.some.inj ho2).symm
    subst ho
    obtain ⟨hb4, hgone⟩ := (hb1.neutral hn2).remove_projectile hx2 h3 h4
    obtain ⟨w, _, rfl⟩ := Program.RemoveObject_some h3
    rw [Program.delete_some h4] at hb4 hgone ⊢
    have htr2 : tracked p2 = tracked s1 :=
      tracked_congr hn2.2.2.2.1 hn2.2.2.2.2.1 hn2.2.2.2.2.2
    refine ⟨hb4, rfl, hgame2, ?_, ?_⟩
    · intro a ha
      have hne : a ≠ x.addr := by
        intro heq
        rcases ha with hp | ht
        · have hmem : x.addr ∈ tracked s := by
            unfold tracked
            exact List.mem_append_right _ (List.mem_map_of_mem _ hx)
          rw [← heq, hp] at hmem
          exact absurd (hb.2.2.1 _ hmem).1 (by decide)
        · exact hgone (heq ▸ ht)
      show Function.update p2.heap x.addr none a = p.heap a
      rw [Function.update_noteq hne, hheap2]
      refine hagree1 a ?_
      rcases ha with hp | ht
      · exact Or.inl hp
      · refine Or.inr ?_
        rw [← htr2]
        have ht1 : a ∈ p2.clouds.map CloudObject.addr ++ p2.enemies.map EnemyObject.addr ++
            (kept ++ rest).map ColoredObject.addr := ht
        unfold tracked
        rw [hx2]
        simp only [List.mem_append, List.map_append, List.map_cons, List.mem_cons] at ht1 ⊢
        tauto
    · show kept ++ survivors p p2.enemies rest = result
      rw [hen2, ← hres]
      congr 1
      cases hit with
      | true => exact (hhit rfl).symm
      | false =>
        have hout : ¬ inFlight p o2 = true := by
          rw [inFlight_iff hgame2]
          rcases hcond with hc | hc
          · cases hc
          · exact not_not.mpr hc
        rw [hmiss rfl, if_neg hout]
  · intro s s1 kept x rest o1 h htest ho1 hcond
    obtain ⟨hb, hlist, hgame, hagree, hres⟩ := h
    have hx : x ∈ s.projectiles := by
      rw [hlist]
      simp
    obtain ⟨o, hpo, hs1o, hb1, hx1, hgame1, hagree1, _, hmiss⟩ :=
      @projectile_round _ _ _ _ _ rest _ hb hx hgame hagree htest
    have ho : o1 = o := by
      rw [hs1o] at ho1
      exact (Option.some.inj ho1).symm
    subst ho
    have hin : inFlight p o1 = true := (inFlight_iff hgame1).mpr hcond
    refine ⟨hb1, ?_, hgame1, hagree1, ?_⟩
    · rw [hx1, hlist, List.append_assoc]
      rfl
    · rw [← hres, hmiss rfl, if_pos hin, List.append_assoc]
      rfl

theorem call_of_isSome {p : Program} {c : Call} (h : (call p c).isSome = true) :
    call p c = some ((call p c).getD p) := by
  cases hc : call p c with
  | none => simp [hc] at h
  | some q => rfl

end InGame

/-- C23: projectile expiry.  In a booked state (the projectile layer registers
exactly the tracked projectiles, see `InGame.Book`), when `StepProjectiles`
returns without having set the game-over flag, the tracked projectiles are the
result of the pass the specification describes (`InGame.survivors`: each
projectile is examined exactly once, in order, on the objects as they were
before the call, and is dropped when it caused a hit or is not on the screen);
they are a sublist of the projectiles tracked before, each with
`-16 < y < targetHeight`; the projectile layer registers exactly them; and
every projectile that was dropped from the tracking list is no longer
registered in the projectile layer.  (The iterator of the source, used after
`erase`, designates the element that followed the erased one, as it does on
the contiguous storage of `std::vector`.) -/
theorem projectile_expiry (p q : Program) (hbook : InGame.Book p)
    (hs : InGame.StepProjectiles p = some q) (hlive : q.isGameOver = false) :
    q.projectiles = InGame.survivors p p.enemies p.projectiles ∧
    q.projectiles.Sublist p.projectiles ∧
    (∀ x ∈ q.projectiles, ∃ o, p.heap x.addr = some o ∧
      -16 < o.position.y ∧ o.position.y < (p.currentGame.targetHeight : ℚ)) ∧
    ∃ layer, q.world.layers[Game.ProjectileLayer]? = some layer ∧
      layer.objects.map Prod.snd = q.projectiles.map ColoredObject.addr ∧
      ∀ x ∈ p.projectiles, x ∉ q.projectiles → x.addr ∉ layer.objects.map Prod.snd := by
  have hres : q.projectiles = InGame.survivors p p.enemies p.projectiles :=
    @InGame.stepProjectilesLoop_survivors [playerAddr] p _ p.projectiles [] p q
      ⟨hbook, rfl, rfl, fun _ _ => rfl, rfl⟩ hs hlive
  have hsub : q.projectiles.Sublist p.projectiles := by
    rw [hres]
    exact InGame.survivors_sublist p _ _
  obtain ⟨hbq, _⟩ := InGame.StepProjectiles_book hbook hs
  obtain ⟨layer, hlayer, hmap0, _⟩ := hbq.1 Game.ProjectileLayer (by decide) (by decide)
  have hmap : layer.objects.map Prod.snd = q.projectiles.map ColoredObject.addr := hmap0
  refine ⟨hres, hsub, ?_, layer, hlayer, hmap, ?_⟩
  · intro x hx
    rw [hres] at hx
    obtain ⟨o, ho, hin⟩ := InGame.survivors_inFlight p _ _ x hx
    unfold InGame.inFlight at hin
    have hb := of_decide_eq_true hin
    refine ⟨o, ho, ?_, hb.2⟩
    have h16 := hb.1
    norm_num [InGame.ProjectileHeight] at h16
    exact h16
  · intro x hx hnot hmem
    have hmem1 : x.addr ∈ q.projectiles.map ColoredObject.addr := by
      rw [← hmap]
      exact hmem
    obtain ⟨y, hy, hyx⟩ := List.mem_map.mp hmem1
    have hnd : (p.projectiles.map ColoredObject.addr).Nodup := by
      have htr := hbook.2.1
      unfold InGame.tracked at htr
      exact (List.nodup_append.mp htr).2.1
    have hyx1 : y = x :=
      List.inj_on_of_nodup_map hnd (hsub.subset hy) hx hyx
    exact hnot (hyx1 ▸ hy)

theorem projectile_expiry_witness :
    InGame.Book exampleShot ∧ exampleShot.projectiles = [ColoredObject.mk 36 0] ∧
    ∃ q, InGame.StepProjectiles exampleShot = some q ∧ q.isGameOver = false ∧
      q.projectiles = [] ∧
      q.projectiles = InGame.survivors exampleShot exampleShot.enemies exampleShot.projectiles ∧
      ∃ layer, q.world.layers[Game.ProjectileLayer]? = some layer ∧
        layer.objects.map Prod.snd = q.projectiles.map ColoredObject.addr := by
  have hfacts : exampleActive.isSome = true ∧ InGame.NoWrap exampleScene ∧
      (InGame.call exampleScene (InGame.Call.OnPress Input.KeySpacebar)).isSome = true ∧
      InGame.NoWrap exampleArmed ∧
      (InGame.call exampleArmed (InGame.Call.Step 30 100)).isSome = true ∧
      exampleShot.projectiles = [ColoredObject.mk 36 0] ∧
      (InGame.StepProjectiles exampleShot).map (fun q => (q.isGameOver, q.projectiles)) =
        some (false, []) := by
    decide!
  obtain ⟨hactive, hwrap0, hcall0, hwrap1, hcall1, hlist, hstep⟩ := hfacts
  obtain ⟨q0, hq0⟩ := Option.isSome_iff_exists.mp hactive
  have hscene : exampleScene = q0 := by
    unfold exampleScene
    rw [hq0]
    rfl
  have hreach : InGame.Reachable (Program.start exampleEnv exampleGame) exampleGame
      exampleShot := by
    refine InGame.Reachable.call (s := exampleArmed) (InGame.Call.Step 30 100) ?_ hwrap1
      trivial (InGame.call_of_isSome hcall1)
    refine InGame.Reachable.call (s := exampleScene) (InGame.Call.OnPress Input.KeySpacebar) ?_
      hwrap0 trivial (InGame.call_of_isSome hcall0)
    rw [hscene]
    exact InGame.Reachable.activate hq0
  have hbook : InGame.Book exampleShot :=
    InGame.Reachable.book (by decide) (by decide) rfl rfl rfl hreach
  obtain ⟨q, hq, hpair⟩ := Option.map_eq_some'.mp hstep
  simp only [Prod.mk.injEq] at hpair
  obtain ⟨hover, hempty⟩ := hpair
  obtain ⟨hres, _, _, layer, hlayer, hmap, _⟩ := projectile_expiry exampleShot q hbook hq hover
  exact ⟨hbook, hlist, q, hq, hover, hempty, hres, layer, hlayer, hmap⟩

end Biq
